import Mathlib

/-!
# Ports navigation system: routing engine

A shallow embedding of the routing core of the repository (`Route.h`, `Port.h`,
`Graph.h`, `PortMapper.h`, `PreferenceFilter.h`, `PathFinder.h`,
`ShortestPathFinder.h`) together with theorems about it.

Conventions of the embedding.

* A C++ `int` is a Lean `Int` in the range from `INT_MIN` to `INT_MAX`
  (`numeric_limits<int>::max()`).  The sums and the product that the searches
  compute on fares, distances and port charges are taken modulo 2^32
  (`intAdd`, `intMul`), which is what the compiled program does on overflow.
* C++ integer division truncates toward zero: `Int.tdiv`.
* An index that the source encodes as an `int` with `-1` for "none" is an
  `Option Nat`.
* The heap arrays of a search (`distances`, `parent`, `visited`, ...) are
  functions on indices, updated pointwise by `setAt`.
* A `LinkedList<T>` is a `List T`.
* Console output is dropped.
-/

namespace PortsNav

/-! ## Route.h -/

/-- The largest C++ `int`. -/
def INT_MAX : Int := 2147483647

/-- The least C++ `int`. -/
def INT_MIN : Int := -2147483648

/-- The integer is a value of the 32-bit type `int`. -/
def isInt (x : Int) : Bool :=
  decide (INT_MIN ≤ x) && decide (x ≤ INT_MAX)

/-- The value of type `int` that is congruent to `x` modulo 2^32. -/
def wrapInt (x : Int) : Int :=
  (x + 2147483648) % 4294967296 - 2147483648

/-- The sum `a + b` of two values of type `int`, which wraps around modulo
2^32.  The type `Int` also has integers that no `int` holds; no variable of
the program has such a value, and on them the function is the exact sum. -/
def intAdd (a b : Int) : Int :=
  if isInt a && isInt b then wrapInt (a + b) else a + b

/-- The product `a * b` of two values of type `int`, which wraps around modulo
2^32. -/
def intMul (a b : Int) : Int :=
  wrapInt (a * b)

/-- The class `Route`: one scheduled leg. -/
structure Route where
  origin : String
  destination : String
  date : String
  departureTime : String
  arrivalTime : String
  cost : Int
  shippingCompany : String
deriving DecidableEq

/-- The expression `s[i] - '0'` of the source, on the characters of `s`
(`s[s.size()]` is the null character). -/
def digitAt (s : String) (i : Nat) : Int :=
  ((s.data.getD i (Char.ofNat 0)).toNat : Int) - 48

/-- The two-digit number `(s[i] - '0') * 10 + (s[i+1] - '0')`. -/
def twoDigits (s : String) (i : Nat) : Int :=
  digitAt s i * 10 + digitAt s (i + 1)

/-- The function `Route::isTimeBefore`: true when `time1 < time2`. -/
def isTimeBefore (time1 time2 : String) : Bool :=
  let h1 := twoDigits time1 0
  let m1 := twoDigits time1 3
  let h2 := twoDigits time2 0
  let m2 := twoDigits time2 3
  if h1 < h2 then true
  else if h1 > h2 then false
  else decide (m1 < m2)

/-- The function `Route::parseDate`: day, month and year of `DD/MM/YYYY`. -/
def parseDate (dateStr : String) : Int × Int × Int :=
  (twoDigits dateStr 0, twoDigits dateStr 3,
    digitAt dateStr 6 * 1000 + digitAt dateStr 7 * 100 +
      digitAt dateStr 8 * 10 + digitAt dateStr 9)

/-- The function `Route::dateToString`. -/
def dateToString (day month year : Int) : String :=
  (if day < 10 then "0" else "") ++ Int.repr day ++ "/" ++
    (if month < 10 then "0" else "") ++ Int.repr month ++ "/" ++ Int.repr year

/-- The table `daysInMonth` of `Route::getNextDay` (no leap years). -/
def daysInMonth : List Int := [31, 28, 31, 30, 31, 30, 31, 31, 30, 31, 30, 31]

/-- The function `Route::getNextDay`. -/
def getNextDay (dateStr : String) : String :=
  let (day, month, year) := parseDate dateStr
  let day := day + 1
  if day > daysInMonth.getD (month - 1).toNat 0 then
    let month := month + 1
    if month > 12 then dateToString 1 1 (year + 1)
    else dateToString 1 month year
  else dateToString day month year

/-- The loop of `Route::calculateDaysDifference`; `fuel` bounds the number of
iterations, which the safety check `days > 365` limits to 366. -/
def calculateDaysDifferenceLoop : Nat → String → String → Int → Int
  | 0, _, _, days => days
  | fuel + 1, current, toDate, days =>
    if current = toDate then days
    else
      let current := getNextDay current
      let days := days + 1
      if days > 365 then days
      else calculateDaysDifferenceLoop fuel current toDate days

/-- The function `Route::calculateDaysDifference`. -/
def calculateDaysDifference (fromDate toDate : String) : Int :=
  calculateDaysDifferenceLoop 366 fromDate toDate 0

/-- The function `Route::calculateLayoverHours`. -/
def calculateLayoverHours (arrivingRoute departingRoute : Route) : Int :=
  let arrHour := twoDigits arrivingRoute.arrivalTime 0
  let arrMin := twoDigits arrivingRoute.arrivalTime 3
  let depHour := twoDigits departingRoute.departureTime 0
  let depMin := twoDigits departingRoute.departureTime 3
  let arrMinutes := arrHour * 60 + arrMin
  let depMinutes := depHour * 60 + depMin
  if arrivingRoute.date = departingRoute.date then
    if depMinutes ≥ arrMinutes then Int.tdiv (depMinutes - arrMinutes) 60
    else 24
  else
    let daysDifference := calculateDaysDifference arrivingRoute.date departingRoute.date
    let hoursToMidnight := Int.tdiv (24 * 60 - arrMinutes) 60
    let fullDaysWaiting := (daysDifference - 1) * 24
    let hoursFromMidnight := Int.tdiv depMinutes 60
    hoursToMidnight + fullDaysWaiting + hoursFromMidnight

/-- The function `Route::compareDates`; `std::stoi` of a substring of digits is
its decimal value. -/
def compareDates (date1 date2 : String) : Int :=
  let day1 := twoDigits date1 0
  let month1 := twoDigits date1 3
  let year1 := digitAt date1 6 * 1000 + digitAt date1 7 * 100 +
    digitAt date1 8 * 10 + digitAt date1 9
  let day2 := twoDigits date2 0
  let month2 := twoDigits date2 3
  let year2 := digitAt date2 6 * 1000 + digitAt date2 7 * 100 +
    digitAt date2 8 * 10 + digitAt date2 9
  if year1 ≠ year2 then year1 - year2
  else if month1 ≠ month2 then month1 - month2
  else day1 - day2

/-- The method `Route::canConnectTo`. -/
def Route.canConnectTo (self nextRoute : Route) : Bool :=
  decide (compareDates nextRoute.date self.date ≥ 0)

/-! ## Port.h and Graph.h -/

/-- The class `Port` (the drawing coordinates are left out). -/
structure Port where
  name : String
  dailyCharge : Int
deriving DecidableEq

/-- A `Graph::VertexNode`: a port and its edge list, head first (the docking
queue is left out). -/
structure VertexNode where
  port : Port
  edges : List Route
deriving DecidableEq

/-- The class `Graph`: its list of vertices. -/
structure Graph where
  vertices : List VertexNode
deriving DecidableEq

/-- The linear search shared by `Graph::findPortIndex` and
`PortMapper::findIndex`: the first position of `name`. -/
def indexOfName : List String → String → Option Nat
  | [], _ => none
  | x :: xs, name =>
    if x = name then some 0
    else match indexOfName xs name with
      | some i => some (i + 1)
      | none => none

/-- The method `Graph::findPortIndex`. -/
def Graph.findPortIndex (g : Graph) (portName : String) : Option Nat :=
  indexOfName (g.vertices.map (fun v => v.port.name)) portName

/-- The method `Graph::hasPort`. -/
def Graph.hasPort (g : Graph) (portName : String) : Bool :=
  (g.findPortIndex portName).isSome

/-- The method `Graph::addPort`. -/
def Graph.addPort (g : Graph) (port : Port) : Graph :=
  if g.hasPort port.name then g
  else ⟨g.vertices ++ [⟨port, []⟩]⟩

/-- Put `route` at the head of the edge list of the vertex at `idx`. -/
def pushEdgeAt : List VertexNode → Nat → Route → List VertexNode
  | [], _, _ => []
  | v :: vs, 0, route => ⟨v.port, route :: v.edges⟩ :: vs
  | v :: vs, idx + 1, route => v :: pushEdgeAt vs idx route

/-- The method `Graph::addRoute`. -/
def Graph.addRoute (g : Graph) (route : Route) : Graph :=
  match g.findPortIndex route.origin with
  | none => g
  | some originIndex => ⟨pushEdgeAt g.vertices originIndex route⟩

/-- The method `Graph::getRoutesFrom`. -/
def Graph.getRoutesFrom (g : Graph) (portName : String) : List Route :=
  match g.findPortIndex portName with
  | none => []
  | some index =>
    match g.vertices[index]? with
    | some vertex => vertex.edges
    | none => []

/-- The method `Graph::getRoutesFromOnDate`. -/
def Graph.getRoutesFromOnDate (g : Graph) (portName date : String) : List Route :=
  (g.getRoutesFrom portName).filter (fun r => decide (r.date = date))

/-- The test in the loop of `Graph::getConnectingRoutes`. -/
def connectsAfter (arrivalDate arrivalTime : String) (route : Route) : Bool :=
  if compareDates route.date arrivalDate > 0 then true
  else if route.date = arrivalDate then
    isTimeBefore arrivalTime route.departureTime || decide (arrivalTime = route.departureTime)
  else false

/-- The method `Graph::getConnectingRoutes`. -/
def Graph.getConnectingRoutes (g : Graph) (portName arrivalDate arrivalTime : String) :
    List Route :=
  (g.getRoutesFrom portName).filter (connectsAfter arrivalDate arrivalTime)

/-- The method `Graph::getAllPorts`. -/
def Graph.getAllPorts (g : Graph) : List Port :=
  g.vertices.map (fun v => v.port)

/-- The method `Graph::getPort`: the port, when the name is known. -/
def Graph.getPort (g : Graph) (portName : String) : Option Port :=
  match g.findPortIndex portName with
  | none => none
  | some index => g.vertices[index]?.map (fun v => v.port)

/-! ## PortMapper.h -/

/-- The class `PortMapper`: its list of names. -/
structure PortMapper where
  portNames : List String
deriving DecidableEq

/-- The method `PortMapper::findIndex`. -/
def PortMapper.findIndex (pm : PortMapper) (portName : String) : Option Nat :=
  indexOfName pm.portNames portName

/-- The method `PortMapper::addPort` (the returned index is not used by the
callers). -/
def PortMapper.addPort (pm : PortMapper) (portName : String) : PortMapper :=
  match pm.findIndex portName with
  | some _ => pm
  | none => ⟨pm.portNames ++ [portName]⟩

/-- The method `PortMapper::getName`. -/
def PortMapper.getName (pm : PortMapper) (index : Nat) : String :=
  pm.portNames.getD index ""

/-- The method `PortMapper::getSize`. -/
def PortMapper.getSize (pm : PortMapper) : Nat :=
  pm.portNames.length

/-- The block "Build port mapper" at the head of every search. -/
def buildPortMapper (g : Graph) : PortMapper :=
  g.getAllPorts.foldl (fun pm p => pm.addPort p.name) ⟨[]⟩

/-! ## PreferenceFilter.h -/

/-- The struct `PreferenceFilter`. -/
structure PreferenceFilter where
  preferredCompanies : List String
  requiredPorts : List String
  excludedPorts : List String
  maxVoyageTime : Int
  hasCompanyPreference : Bool
  hasPortPreference : Bool
  hasTimeLimit : Bool
deriving DecidableEq

/-- The method `PreferenceFilter::matchesRoute`. -/
def PreferenceFilter.matchesRoute (self : PreferenceFilter) (route : Route) : Bool :=
  if self.hasCompanyPreference && decide (self.preferredCompanies.length > 0) &&
      !(self.preferredCompanies.any (fun c => decide (c = route.shippingCompany))) then
    false
  else if self.hasPortPreference && decide (self.excludedPorts.length > 0) &&
      self.excludedPorts.any
        (fun e => decide (e = route.origin) || decide (e = route.destination)) then
    false
  else true

/-! ## PathFinder.h: results and the pieces shared by the searches -/

/-- The struct `LayoverInfo`. -/
structure LayoverInfo where
  portName : String
  layoverHours : Int
  portCharge : Int
  arrivalDate : String
  arrivalTime : String
  departureDate : String
  departureTime : String
deriving DecidableEq

/-- The struct `PathResult`. -/
structure PathResult where
  found : Bool
  totalCost : Int
  totalTravelTime : Int
  path : List String
  routes : List Route
  layovers : List LayoverInfo
deriving DecidableEq

/-- The default-constructed `PathResult`. -/
def PathResult.empty : PathResult := ⟨false, 0, 0, [], [], []⟩

/-- The assignment `a[i] = v` on an array seen as a function. -/
def setAt {α : Type} (a : Nat → α) (i : Nat) (v : α) : Nat → α :=
  fun j => if j = i then v else a j

/-- The arrays of `findCheapestPath` and `findCheapestPathWithPreferences`. -/
structure DijkstraState where
  distances : Nat → Int
  parent : Nat → Option Nat
  visited : Nat → Bool
  arrivalDates : Nat → String
  arrivalTimes : Nat → String

/-- The scan "find minimum distance unvisited vertex": the first index with
the least key below `INT_MAX` among the unvisited ones. -/
def selectMin (visited : Nat → Bool) (key : Nat → Int) (numPorts : Nat) : Option Nat :=
  ((List.range numPorts).foldl
    (fun (acc : Int × Option Nat) i =>
      if !visited i && decide (key i < acc.1) then (key i, some i) else acc)
    (INT_MAX, none)).2

/-- The block "apply port charge only for layovers > 12 hours". -/
def portChargeFor (g : Graph) (portName : String) (layoverHours : Int) : Int :=
  if layoverHours > 12 then
    match g.getPort portName with
    | some portInfo =>
      let days := Int.tdiv (layoverHours + 11) 24
      let days := if days = 0 then 1 else days
      intMul portInfo.dailyCharge days
    | none => 0
  else 0

/-- The inner loop "find the route used": the first route of the list with
the given destination and date. -/
def findRouteTo (routes : List Route) (toPort date : String) : Option Route :=
  routes.find? (fun r => decide (r.destination = toPort) && decide (r.date = date))

/-- The lookup of the route that was used to reach the port at `minIdx`
(none when the port has no parent or no route matches). -/
def previousRouteOf (g : Graph) (pm : PortMapper) (parent : Nat → Option Nat)
    (arrivalDates arrivalTimes : Nat → String) (minIdx : Nat) : Option Route :=
  match parent minIdx with
  | none => none
  | some p =>
    findRouteTo (g.getConnectingRoutes (pm.getName p) (arrivalDates p) (arrivalTimes p))
      (pm.getName minIdx) (arrivalDates minIdx)

/-- The tail of the neighbour loop of the cost searches, from "calculate
layover hours and validate connection" to the update of the arrays. -/
def updateCheapest (g : Graph) (pm : PortMapper) (minIdx : Nat) (s : DijkstraState)
    (route : Route) (neighborIdx : Nat) : DijkstraState :=
  let currentPort := pm.getName minIdx
  let check : Bool × Int :=
    match previousRouteOf g pm s.parent s.arrivalDates s.arrivalTimes minIdx with
    | none => (true, 0)
    | some previousRoute =>
      if !previousRoute.canConnectTo route then (false, 0)
      else (true, calculateLayoverHours previousRoute route)
  if !check.1 then s
  else
    let portCharge := portChargeFor g currentPort check.2
    let newDist := intAdd (intAdd (s.distances minIdx) route.cost) portCharge
    if newDist < s.distances neighborIdx then
      { s with
        distances := setAt s.distances neighborIdx newDist
        parent := setAt s.parent neighborIdx (some minIdx)
        arrivalDates := setAt s.arrivalDates neighborIdx route.date
        arrivalTimes := setAt s.arrivalTimes neighborIdx route.arrivalTime }
    else s

/-- The body of the neighbour loop of `findCheapestPath` for one route. -/
def relaxCheapest (g : Graph) (pm : PortMapper) (minIdx : Nat) (s : DijkstraState)
    (route : Route) : DijkstraState :=
  match pm.findIndex route.destination with
  | none => s
  | some neighborIdx =>
    if s.visited neighborIdx then s
    else updateCheapest g pm minIdx s route neighborIdx

/-- The main loop of `findCheapestPath`; the first argument is the number of
iterations of `for (count ...)` still to run.  Returns `found`, `totalCost`
and the arrays. -/
def cheapestLoop (g : Graph) (pm : PortMapper) (numPorts destIdx : Nat) :
    Nat → DijkstraState → Bool × Int × DijkstraState
  | 0, s => (false, 0, s)
  | count + 1, s =>
    match selectMin s.visited s.distances numPorts with
    | none => (false, 0, s)
    | some minIdx =>
      let s := { s with visited := setAt s.visited minIdx true }
      if minIdx = destIdx then (true, s.distances destIdx, s)
      else
        let connectingRoutes := g.getConnectingRoutes (pm.getName minIdx)
          (s.arrivalDates minIdx) (s.arrivalTimes minIdx)
        cheapestLoop g pm numPorts destIdx count
          (connectingRoutes.foldl (relaxCheapest g pm minIdx) s)

/-- The loop `while (current != -1)` that walks the parents; `none` when the
fuel runs out before a port without parent is reached. -/
def pathIndicesFrom (parent : Nat → Option Nat) : Nat → Option Nat → Option (List Nat)
  | _, none => some []
  | 0, some _ => none
  | fuel + 1, some current =>
    match pathIndicesFrom parent fuel (parent current) with
    | some rest => some (current :: rest)
    | none => none

/-- The loop "reconstruct routes by querying the graph" over the port indices
in travel order. -/
def reconstructRoutes (g : Graph) (pm : PortMapper)
    (arrivalDates arrivalTimes : Nat → String) : List Nat → List Route
  | fromIdx :: toIdx :: rest =>
    (match findRouteTo
        (g.getConnectingRoutes (pm.getName fromIdx) (arrivalDates fromIdx)
          (arrivalTimes fromIdx))
        (pm.getName toIdx) (arrivalDates toIdx) with
      | some r => [r]
      | none => []) ++
      reconstructRoutes g pm arrivalDates arrivalTimes (toIdx :: rest)
  | _ => []

/-- One entry of the loop "calculate and store layover information". -/
def mkLayover (g : Graph) (arrivingRoute departingRoute : Route) : LayoverInfo :=
  let layoverPort := arrivingRoute.destination
  let layoverHours := calculateLayoverHours arrivingRoute departingRoute
  { portName := layoverPort
    layoverHours := layoverHours
    portCharge := portChargeFor g layoverPort layoverHours
    arrivalDate := arrivingRoute.date
    arrivalTime := arrivingRoute.arrivalTime
    departureDate := departingRoute.date
    departureTime := departingRoute.departureTime }

/-- The loop "calculate and store layover information": one entry per pair
of consecutive routes. -/
def buildLayovers (g : Graph) : List Route → List LayoverInfo
  | a :: d :: rest => mkLayover g a d :: buildLayovers g (d :: rest)
  | _ => []

/-- The block "calculate total travel time": a loop that adds 24 hours for
each route, then a loop that adds the hours of each layover. -/
def totalTravelHours (routes : List Route) (layovers : List LayoverInfo) : Int :=
  layovers.foldl (fun total l => total + l.layoverHours)
    (routes.foldl (fun total _ => total + 24) 0)

/-- The initial arrays of a cost search. -/
def DijkstraState.init (originIdx : Nat) (date : String) : DijkstraState :=
  { distances := setAt (fun _ => INT_MAX) originIdx 0
    parent := fun _ => none
    visited := fun _ => false
    arrivalDates := setAt (fun _ => "") originIdx date
    arrivalTimes := setAt (fun _ => "") originIdx "00:00" }

/-- The block "reconstruct path" shared by the unidirectional searches. -/
def reconstructResult (g : Graph) (pm : PortMapper) (parent : Nat → Option Nat)
    (arrivalDates arrivalTimes : Nat → String) (destIdx : Nat) (totalCost : Int) :
    Option PathResult :=
  match pathIndicesFrom parent pm.getSize (some destIdx) with
  | none => none
  | some pathIndices =>
    let order := pathIndices.reverse
    let routes := reconstructRoutes g pm arrivalDates arrivalTimes order
    let layovers := buildLayovers g routes
    some
      { found := true
        totalCost := totalCost
        totalTravelTime := totalTravelHours routes layovers
        path := order.map pm.getName
        routes := routes
        layovers := layovers }

/-- The method `PathFinder::findCheapestPath`.  The result is `none` only if
the walk over the parents does not end within `numPorts` steps. -/
def findCheapestPath (g : Graph) (origin destination date : String) : Option PathResult :=
  if !g.hasPort origin then some PathResult.empty
  else if !g.hasPort destination then some PathResult.empty
  else
    let pm := buildPortMapper g
    let numPorts := pm.getSize
    match pm.findIndex origin, pm.findIndex destination with
    | some originIdx, some destIdx =>
      let out := cheapestLoop g pm numPorts destIdx numPorts (DijkstraState.init originIdx date)
      if out.1 then
        reconstructResult g pm out.2.2.parent out.2.2.arrivalDates out.2.2.arrivalTimes
          destIdx out.2.1
      else some PathResult.empty
    | _, _ => some PathResult.empty

/-! ## PathFinder.h: the search with preferences -/

/-- The body of the neighbour loop of `findCheapestPathWithPreferences` for
one route. -/
def relaxCheapestPref (g : Graph) (pm : PortMapper) (preferences : PreferenceFilter)
    (minIdx : Nat) (s : DijkstraState) (route : Route) : DijkstraState :=
  if !preferences.matchesRoute route then s
  else
    match pm.findIndex route.destination with
    | none => s
    | some neighborIdx =>
      if s.visited neighborIdx then s
      else if preferences.hasPortPreference &&
          preferences.excludedPorts.any (fun e => decide (pm.getName neighborIdx = e)) then s
      else updateCheapest g pm minIdx s route neighborIdx

/-- The main loop of `findCheapestPathWithPreferences`. -/
def cheapestPrefLoop (g : Graph) (pm : PortMapper) (preferences : PreferenceFilter)
    (numPorts destIdx : Nat) : Nat → DijkstraState → Bool × Int × DijkstraState
  | 0, s => (false, 0, s)
  | count + 1, s =>
    match selectMin s.visited s.distances numPorts with
    | none => (false, 0, s)
    | some minIdx =>
      let s := { s with visited := setAt s.visited minIdx true }
      if minIdx = destIdx then (true, s.distances destIdx, s)
      else
        let connectingRoutes := g.getConnectingRoutes (pm.getName minIdx)
          (s.arrivalDates minIdx) (s.arrivalTimes minIdx)
        cheapestPrefLoop g pm preferences numPorts destIdx count
          (connectingRoutes.foldl (relaxCheapestPref g pm preferences minIdx) s)

/-- The method `PathFinder::findCheapestPathWithPreferences` (its two warnings
are console output only). -/
def findCheapestPathWithPreferences (g : Graph) (origin destination date : String)
    (preferences : PreferenceFilter) : Option PathResult :=
  if !g.hasPort origin then some PathResult.empty
  else if !g.hasPort destination then some PathResult.empty
  else
    let pm := buildPortMapper g
    let numPorts := pm.getSize
    match pm.findIndex origin, pm.findIndex destination with
    | some originIdx, some destIdx =>
      let out := cheapestPrefLoop g pm preferences numPorts destIdx numPorts
        (DijkstraState.init originIdx date)
      if out.1 then
        reconstructResult g pm out.2.2.parent out.2.2.arrivalDates out.2.2.arrivalTimes
          destIdx out.2.1
      else some PathResult.empty
    | _, _ => some PathResult.empty

/-! ## PathFinder.h: enumeration of all paths -/

/-- The method `PathFinder::isPortInPath`. -/
def isPortInPath (path : List String) (port : String) : Bool :=
  path.any (fun p => decide (p = port))

/-- The method `PathFinder::findAllPathsDFS`, returning the new `allPaths`;
`currentPath` is the path before `current` is pushed.  The first argument
bounds the recursion depth: a call made with `maxDepth + 1 - currentPath.length`
never reaches zero before the depth limit returns. -/
def findAllPathsDFS (g : Graph) (destination date : String) (maxDepth : Nat) :
    Nat → String → List String → List (List String) → List (List String)
  | 0, _, _, allPaths => allPaths
  | fuel + 1, current, currentPath, allPaths =>
    let currentPath := currentPath ++ [current]
    if currentPath.length > maxDepth then allPaths
    else if current = destination then allPaths ++ [currentPath]
    else
      (g.getRoutesFromOnDate current date).foldl
        (fun acc route =>
          if isPortInPath currentPath route.destination then acc
          else findAllPathsDFS g destination date maxDepth fuel route.destination
            currentPath acc)
        allPaths

/-- The method `PathFinder::findAllPaths` (depth limit 10). -/
def findAllPaths (g : Graph) (origin destination date : String) : List (List String) :=
  findAllPathsDFS g destination date 10 11 origin [] []

/-- The method `PathFinder::calculatePathCost`: the fares of the first route
of each hop on the date, `INT_MAX` for a hop without route. -/
def calculatePathCost (g : Graph) (date : String) : List String → Int → Int
  | fromPort :: toPort :: rest, totalCost =>
    match (g.getRoutesFromOnDate fromPort date).find?
        (fun r => decide (r.destination = toPort)) with
    | some r => calculatePathCost g date (toPort :: rest) (intAdd totalCost r.cost)
    | none => INT_MAX
  | _, totalCost => totalCost

/-! ## PathFinder.h: the bidirectional search -/

/-- The arrays and the two scalars of `findCheapestPathBidirectional`. -/
structure BidirState where
  forwardDist : Nat → Int
  forwardParent : Nat → Option Nat
  forwardVisited : Nat → Bool
  forwardArrivalDates : Nat → String
  forwardArrivalTimes : Nat → String
  backwardDist : Nat → Int
  backwardParent : Nat → Option Nat
  backwardVisited : Nat → Bool
  meetingPoint : Option Nat
  bestDistance : Int

/-- The initial state of the bidirectional search. -/
def BidirState.init (originIdx destIdx : Nat) (date : String) : BidirState :=
  { forwardDist := setAt (fun _ => INT_MAX) originIdx 0
    forwardParent := fun _ => none
    forwardVisited := fun _ => false
    forwardArrivalDates := setAt (fun _ => "") originIdx date
    forwardArrivalTimes := setAt (fun _ => "") originIdx "00:00"
    backwardDist := setAt (fun _ => INT_MAX) destIdx 0
    backwardParent := fun _ => none
    backwardVisited := fun _ => false
    meetingPoint := none
    bestDistance := INT_MAX }

/-- The test "check if this node was visited by the other search" with the
update of `bestDistance` and `meetingPoint`. -/
def BidirState.meetAt (s : BidirState) (otherVisited : Nat → Bool) (idx : Nat) : BidirState :=
  if otherVisited idx then
    let totalDist := intAdd (s.forwardDist idx) (s.backwardDist idx)
    if totalDist < s.bestDistance then
      { s with bestDistance := totalDist, meetingPoint := some idx }
    else s
  else s

/-- The body of the route loop of the forward step for one route. -/
def bidirForwardRelax (g : Graph) (pm : PortMapper) (forwardMinIdx : Nat) (s : BidirState)
    (route : Route) : BidirState :=
  match pm.findIndex route.destination with
  | none => s
  | some neighborIdx =>
    if s.forwardVisited neighborIdx then s
    else
      let currentPort := pm.getName forwardMinIdx
      let portCharge : Int :=
        match previousRouteOf g pm s.forwardParent s.forwardArrivalDates
            s.forwardArrivalTimes forwardMinIdx with
        | none => 0
        | some previousRoute =>
          portChargeFor g currentPort (calculateLayoverHours previousRoute route)
      let newDist := intAdd (intAdd (s.forwardDist forwardMinIdx) route.cost) portCharge
      let s :=
        if newDist < s.forwardDist neighborIdx then
          { s with
            forwardDist := setAt s.forwardDist neighborIdx newDist
            forwardParent := setAt s.forwardParent neighborIdx (some forwardMinIdx)
            forwardArrivalDates := setAt s.forwardArrivalDates neighborIdx route.date
            forwardArrivalTimes := setAt s.forwardArrivalTimes neighborIdx route.arrivalTime }
        else s
      s.meetAt s.backwardVisited neighborIdx

/-- The forward search step; also returns `forwardMinIdx`. -/
def bidirForwardStep (g : Graph) (pm : PortMapper) (numPorts : Nat) (s : BidirState) :
    BidirState × Option Nat :=
  match selectMin s.forwardVisited s.forwardDist numPorts with
  | none => (s, none)
  | some forwardMinIdx =>
    let s := { s with forwardVisited := setAt s.forwardVisited forwardMinIdx true }
    let routes := g.getConnectingRoutes (pm.getName forwardMinIdx)
      (s.forwardArrivalDates forwardMinIdx) (s.forwardArrivalTimes forwardMinIdx)
    (routes.foldl (bidirForwardRelax g pm forwardMinIdx) s, some forwardMinIdx)

/-- The body of the inner loop of the backward step for one route of
`potentialPort`. -/
def bidirBackwardRelax (pm : PortMapper) (backwardMinIdx : Nat) (potentialPort : String)
    (s : BidirState) (route : Route) : BidirState :=
  if route.destination = pm.getName backwardMinIdx then
    match pm.findIndex potentialPort with
    | none => s
    | some fromIdx =>
      if s.backwardVisited fromIdx then s
      else
        let newDist := intAdd (s.backwardDist backwardMinIdx) route.cost
        let s :=
          if newDist < s.backwardDist fromIdx then
            { s with
              backwardDist := setAt s.backwardDist fromIdx newDist
              backwardParent := setAt s.backwardParent fromIdx (some backwardMinIdx) }
          else s
        s.meetAt s.forwardVisited fromIdx
  else s

/-- The backward search step; also returns `backwardMinIdx`. -/
def bidirBackwardStep (g : Graph) (pm : PortMapper) (allPorts : List Port) (numPorts : Nat)
    (s : BidirState) : BidirState × Option Nat :=
  match selectMin s.backwardVisited s.backwardDist numPorts with
  | none => (s, none)
  | some backwardMinIdx =>
    let s := { s with backwardVisited := setAt s.backwardVisited backwardMinIdx true }
    (allPorts.foldl
      (fun s port =>
        (g.getRoutesFrom port.name).foldl (bidirBackwardRelax pm backwardMinIdx port.name) s)
      s, some backwardMinIdx)

/-- The loop "alternate between forward and backward search"; the first
argument is the number of iterations still to run. -/
def bidirLoop (g : Graph) (pm : PortMapper) (allPorts : List Port) (numPorts : Nat) :
    Nat → BidirState → BidirState
  | 0, s => s
  | iteration + 1, s =>
    let fwd := bidirForwardStep g pm numPorts s
    let bwd := bidirBackwardStep g pm allPorts numPorts fwd.1
    let s := bwd.1
    if s.meetingPoint.isSome && decide (s.bestDistance < INT_MAX) then s
    else if fwd.2.isNone && bwd.2.isNone then s
    else bidirLoop g pm allPorts numPorts iteration s

/-- The loop "calculate layover-based port charges" of the bidirectional
search, which adds to `totalPortCharges` the charge of each pair of consecutive
routes (nothing is added when the layover is not charged). -/
def sumPortCharges (g : Graph) : List Route → Int → Int
  | a :: d :: rest, totalPortCharges =>
    sumPortCharges g (d :: rest)
      (intAdd totalPortCharges (portChargeFor g a.destination (calculateLayoverHours a d)))
  | _, totalPortCharges => totalPortCharges

/-- The default-constructed `Route`, which `LinkedList::get` returns for an
index out of range. -/
def Route.dummy : Route := ⟨"", "", "", "", "", 0, ""⟩

/-- The loop "get routes for the path" of the bidirectional search, from hop
`i` on; `routes` is `result.routes` so far.  For `i > 0` the departure date and
time are read from `result.routes.get(i - 1)`, which is the default route when
an earlier hop found no route; `compareDates` then calls `std::stoi` on an
empty string for the first route leaving the port, and the exception ends the
call: `none`. -/
def bidirRoutes (g : Graph) (date : String) : List String → Nat → List Route →
    Option (List Route)
  | fromPort :: toPort :: rest, i, routes =>
    let previous := routes.getD (i - 1) Route.dummy
    let departureDate := if i = 0 then date else previous.date
    let departureTime := if i = 0 then "00:00" else previous.arrivalTime
    if i ≠ 0 ∧ routes.length ≤ i - 1 ∧ g.getRoutesFrom fromPort ≠ [] then none
    else
      let connectingRoutes := g.getConnectingRoutes fromPort departureDate departureTime
      let routes :=
        match connectingRoutes.find? (fun r => decide (r.destination = toPort)) with
        | some r => routes ++ [r]
        | none => routes
      bidirRoutes g date (toPort :: rest) (i + 1) routes
  | _, _, routes => some routes

/-- The method `PathFinder::findCheapestPathBidirectional`.  The result is
`none` when a walk over the parents does not end within `numPorts` steps or
when the route lookup raises (see `bidirRoutes`). -/
def findCheapestPathBidirectional (g : Graph) (origin destination date : String) :
    Option PathResult :=
  if !g.hasPort origin then some PathResult.empty
  else if !g.hasPort destination then some PathResult.empty
  else
    let pm := buildPortMapper g
    let allPorts := g.getAllPorts
    let numPorts := pm.getSize
    match pm.findIndex origin, pm.findIndex destination with
    | some originIdx, some destIdx =>
      let s := bidirLoop g pm allPorts numPorts (numPorts * 2)
        (BidirState.init originIdx destIdx date)
      match s.meetingPoint with
      | none => some PathResult.empty
      | some meetingPoint =>
        match pathIndicesFrom s.forwardParent numPorts (some meetingPoint),
            pathIndicesFrom s.backwardParent numPorts (s.backwardParent meetingPoint) with
        | some forwardPath, some backwardPath =>
          let path := forwardPath.reverse.map pm.getName ++ backwardPath.map pm.getName
          match bidirRoutes g date path 0 [] with
          | none => none
          | some routes =>
            let routeCostTotal := routes.foldl (fun total r => intAdd total r.cost) 0
            let totalPortCharges := sumPortCharges g routes 0
            let layovers := buildLayovers g routes
            some
              { found := true
                totalCost := intAdd routeCostTotal totalPortCharges
                totalTravelTime := totalTravelHours routes layovers
                path := path
                routes := routes
                layovers := layovers }
        | _, _ => none
    | _, _ => some PathResult.empty

/-! ## PathFinder.h: routes through intermediate ports -/

/-- The loop "find route for each leg" of `findMultiLegRoute`, from segment
`i` on; the list holds the ports of `fullPath` from position `i`.  The result
is `none` only if a call of `findCheapestPath` has none. -/
def multiLegLoop (g : Graph) (date : String) : List String → Nat → PathResult →
    Option PathResult
  | fromPort :: toPort :: rest, i, result =>
    match findCheapestPath g fromPort toPort date with
    | none => none
    | some legResult =>
      if !legResult.found then
        some { result with found := false, totalCost := 0, path := [], routes := [] }
      else
        let path :=
          if i = 0 then result.path ++ legResult.path
          else result.path ++ legResult.path.drop 1
        multiLegLoop g date (toPort :: rest) (i + 1)
          { result with
            path := path
            routes := result.routes ++ legResult.routes
            totalCost := intAdd result.totalCost legResult.totalCost }
  | _, _, result => some result

/-- The method `PathFinder::findMultiLegRoute`. -/
def findMultiLegRoute (g : Graph) (origin : String) (intermediatePorts : List String)
    (destination date : String) : Option PathResult :=
  if !g.hasPort origin then some PathResult.empty
  else if !g.hasPort destination then some PathResult.empty
  else if intermediatePorts.any (fun p => !g.hasPort p) then some PathResult.empty
  else
    let fullPath := origin :: (intermediatePorts ++ [destination])
    multiLegLoop g date fullPath 0 { PathResult.empty with found := true, totalCost := 0 }

/-! ## ShortestPathFinder.h -/

/-- The arrays of `findShortestPath` and `findShortestPathWithPreferences`. -/
structure HopState where
  hops : Nat → Int
  totalCost : Nat → Int
  parent : Nat → Option Nat
  visited : Nat → Bool
  arrivalDates : Nat → String
  arrivalTimes : Nat → String

/-- The initial arrays of a hop search. -/
def HopState.init (originIdx : Nat) (date : String) : HopState :=
  { hops := setAt (fun _ => INT_MAX) originIdx 0
    totalCost := setAt (fun _ => INT_MAX) originIdx 0
    parent := fun _ => none
    visited := fun _ => false
    arrivalDates := setAt (fun _ => "") originIdx date
    arrivalTimes := setAt (fun _ => "") originIdx "00:00" }

/-- The tail of the neighbour loop of the hop searches, from "calculate
layover hours" to the update of the arrays.  The sum `hops[minIdx] + 1` does
not overflow: the selection loop only returns a port whose hop count is below
`INT_MAX`. -/
def updateShortest (g : Graph) (pm : PortMapper) (minIdx : Nat) (s : HopState)
    (route : Route) (neighborIdx : Nat) : HopState :=
  let currentPort := pm.getName minIdx
  let check : Bool × Int :=
    match previousRouteOf g pm s.parent s.arrivalDates s.arrivalTimes minIdx with
    | none => (true, 0)
    | some previousRoute =>
      if !previousRoute.canConnectTo route then (false, 0)
      else (true, calculateLayoverHours previousRoute route)
  if !check.1 then s
  else
    let portCharge := portChargeFor g currentPort check.2
    let newHops := s.hops minIdx + 1
    let newCost := intAdd (intAdd (s.totalCost minIdx) route.cost) portCharge
    if newHops < s.hops neighborIdx then
      { s with
        hops := setAt s.hops neighborIdx newHops
        totalCost := setAt s.totalCost neighborIdx newCost
        parent := setAt s.parent neighborIdx (some minIdx)
        arrivalDates := setAt s.arrivalDates neighborIdx route.date
        arrivalTimes := setAt s.arrivalTimes neighborIdx route.arrivalTime }
    else if newHops = s.hops neighborIdx ∧ newCost < s.totalCost neighborIdx then
      { s with
        totalCost := setAt s.totalCost neighborIdx newCost
        parent := setAt s.parent neighborIdx (some minIdx)
        arrivalDates := setAt s.arrivalDates neighborIdx route.date
        arrivalTimes := setAt s.arrivalTimes neighborIdx route.arrivalTime }
    else s

/-- The body of the neighbour loop of `findShortestPath` for one route. -/
def relaxShortest (g : Graph) (pm : PortMapper) (minIdx : Nat) (s : HopState)
    (route : Route) : HopState :=
  match pm.findIndex route.destination with
  | none => s
  | some neighborIdx =>
    if s.visited neighborIdx then s
    else updateShortest g pm minIdx s route neighborIdx

/-- The loop `while (true)` of `findShortestPath`; `none` when the fuel runs
out before the loop breaks. -/
def shortestLoop (g : Graph) (pm : PortMapper) (numPorts destIdx : Nat) :
    Nat → HopState → Option (Bool × Int × HopState)
  | 0, _ => none
  | fuel + 1, s =>
    match selectMin s.visited s.hops numPorts with
    | none => some (false, 0, s)
    | some minIdx =>
      let s := { s with visited := setAt s.visited minIdx true }
      if minIdx = destIdx then some (true, s.totalCost destIdx, s)
      else
        let connectingRoutes := g.getConnectingRoutes (pm.getName minIdx)
          (s.arrivalDates minIdx) (s.arrivalTimes minIdx)
        shortestLoop g pm numPorts destIdx fuel
          (connectingRoutes.foldl (relaxShortest g pm minIdx) s)

/-- The method `ShortestPathFinder::findShortestPath`.  The result is `none`
only if the main loop does not break within `numPorts + 1` iterations or the
walk over the parents does not end within `numPorts` steps. -/
def findShortestPath (g : Graph) (origin destination date : String) : Option PathResult :=
  if !g.hasPort origin then some PathResult.empty
  else if !g.hasPort destination then some PathResult.empty
  else
    let pm := buildPortMapper g
    let numPorts := pm.getSize
    match pm.findIndex origin, pm.findIndex destination with
    | some originIdx, some destIdx =>
      match shortestLoop g pm numPorts destIdx (numPorts + 1) (HopState.init originIdx date) with
      | none => none
      | some out =>
        if out.1 then
          reconstructResult g pm out.2.2.parent out.2.2.arrivalDates out.2.2.arrivalTimes
            destIdx out.2.1
        else some PathResult.empty
    | _, _ => some PathResult.empty

/-- The body of the neighbour loop of `findShortestPathWithPreferences` for
one route. -/
def relaxShortestPref (g : Graph) (pm : PortMapper) (preferences : PreferenceFilter)
    (minIdx : Nat) (s : HopState) (route : Route) : HopState :=
  if !preferences.matchesRoute route then s
  else
    match pm.findIndex route.destination with
    | none => s
    | some neighborIdx =>
      if s.visited neighborIdx then s
      else if preferences.hasPortPreference &&
          (decide (preferences.excludedPorts.length > 0) &&
            preferences.excludedPorts.any (fun e => decide (e = route.destination))) then s
      else updateShortest g pm minIdx s route neighborIdx

/-- The loop `while (true)` of `findShortestPathWithPreferences`. -/
def shortestPrefLoop (g : Graph) (pm : PortMapper) (preferences : PreferenceFilter)
    (numPorts destIdx : Nat) : Nat → HopState → Option (Bool × Int × HopState)
  | 0, _ => none
  | fuel + 1, s =>
    match selectMin s.visited s.hops numPorts with
    | none => some (false, 0, s)
    | some minIdx =>
      let s := { s with visited := setAt s.visited minIdx true }
      if minIdx = destIdx then some (true, s.totalCost destIdx, s)
      else
        let connectingRoutes := g.getConnectingRoutes (pm.getName minIdx)
          (s.arrivalDates minIdx) (s.arrivalTimes minIdx)
        shortestPrefLoop g pm preferences numPorts destIdx fuel
          (connectingRoutes.foldl (relaxShortestPref g pm preferences minIdx) s)

/-- The method `ShortestPathFinder::findShortestPathWithPreferences`. -/
def findShortestPathWithPreferences (g : Graph) (origin destination date : String)
    (preferences : PreferenceFilter) : Option PathResult :=
  if !g.hasPort origin then some PathResult.empty
  else if !g.hasPort destination then some PathResult.empty
  else
    let pm := buildPortMapper g
    let numPorts := pm.getSize
    match pm.findIndex origin, pm.findIndex destination with
    | some originIdx, some destIdx =>
      match shortestPrefLoop g pm preferences numPorts destIdx (numPorts + 1)
          (HopState.init originIdx date) with
      | none => none
      | some out =>
        if out.1 then
          reconstructResult g pm out.2.2.parent out.2.2.arrivalDates out.2.2.arrivalTimes
            destIdx out.2.1
        else some PathResult.empty
    | _, _ => some PathResult.empty

/-! ## Notions used to state the results -/

/-- The edge lists are filed under their origin: what `Graph::addRoute`
guarantees for every graph built through `addPort` and `addRoute`. -/
def Graph.WF (g : Graph) : Prop :=
  ∀ v ∈ g.vertices, ∀ r ∈ v.edges, r.origin = v.port.name

/-- A graph built from the empty one by `addPort` for each port, then
`addRoute` for each route (what `RouteParser::buildGraphFromFile` does). -/
def mkGraph (ports : List Port) (routes : List Route) : Graph :=
  routes.foldl Graph.addRoute (ports.foldl Graph.addPort ⟨[]⟩)

/-- The number of indices below `n` that are marked. -/
def visitedCount (n : Nat) (visited : Nat → Bool) : Nat :=
  (List.range n).countP visited

/-- The parents lead from `v` down to the origin: `l` lists the ports met,
`v` first and the origin last. -/
inductive ParentChain (parent : Nat → Option Nat) (originIdx : Nat) : Nat → List Nat → Prop
  | root : parent originIdx = none → ParentChain parent originIdx originIdx [originIdx]
  | link {v p : Nat} {l : List Nat} : parent v = some p → ParentChain parent originIdx p l →
      ParentChain parent originIdx v (v :: l)

/-- The routes follow the ports of the path: the i-th route runs from the
i-th port to the next one. -/
inductive LegsAlong : List String → List Route → Prop
  | one (p : String) : LegsAlong [p] []
  | cons {p q : String} {ps : List String} {r : Route} {rs : List Route} :
      r.origin = p → r.destination = q → LegsAlong (q :: ps) rs →
      LegsAlong (p :: q :: ps) (r :: rs)

/-- A view of the arrays of a hop search as those of a cost search, with the
hop count as key. -/
def HopState.view (s : HopState) : DijkstraState :=
  ⟨s.hops, s.parent, s.visited, s.arrivalDates, s.arrivalTimes⟩

/-- Some admissible route that connects at port `p` reaches port `v` on the
date stored for `v`. -/
def Linked (g : Graph) (pm : PortMapper) (adm : Route → Bool) (s : DijkstraState)
    (p v : Nat) : Prop :=
  ∃ r ∈ g.getConnectingRoutes (pm.getName p) (s.arrivalDates p) (s.arrivalTimes p),
    pm.findIndex r.destination = some v ∧ r.date = s.arrivalDates v ∧ adm r = true

/-- The invariant of the main loop of the four unidirectional searches. -/
structure SearchInv (g : Graph) (pm : PortMapper) (adm : Route → Bool) (originIdx : Nat)
    (date : String) (s : DijkstraState) : Prop where
  originKey : s.distances originIdx = 0
  originDate : s.arrivalDates originIdx = date
  originTime : s.arrivalTimes originIdx = "00:00"
  rootless : s.parent originIdx = none
  parentOk : ∀ v p, s.parent v = some p → s.visited p = true ∧ Linked g pm adm s p v
  reached : ∀ v, v ≠ originIdx → s.distances v < INT_MAX → ∃ p, s.parent v = some p
  chain : ∀ v, s.visited v = true →
    ∃ l, ParentChain s.parent originIdx v l ∧ l.length ≤ visitedCount pm.getSize s.visited ∧
      ∀ x ∈ l, s.visited x = true

/-- What one pass of a neighbour loop may do to the arrays: each port keeps
its entries, or is an unvisited port that gets parent `m` and the date of an
admissible route `r` ending there. -/
def RelaxStep (pm : PortMapper) (adm : Route → Bool) (m : Nat) (r : Route)
    (s t : DijkstraState) : Prop :=
  t.visited = s.visited ∧
  ∀ v, (t.parent v = s.parent v ∧ t.arrivalDates v = s.arrivalDates v ∧
        t.arrivalTimes v = s.arrivalTimes v ∧ t.distances v = s.distances v) ∨
      (s.visited v = false ∧ t.parent v = some m ∧ pm.findIndex r.destination = some v ∧
        t.arrivalDates v = r.date ∧ adm r = true)

/-- The invariants of a found `PathResult` stated in the data model. -/
structure PathResult.Consistent (origin destination : String) (r : PathResult) : Prop where
  head : r.path.head? = some origin
  last : r.path.getLast? = some destination
  pathLen : r.path.length = r.routes.length + 1
  layoverLen : r.layovers.length = r.routes.length - 1
  legs : ∀ i leg, r.routes[i]? = some leg →
    r.path[i]? = some leg.origin ∧ r.path[i + 1]? = some leg.destination
  stops : ∀ i a d, r.routes[i]? = some a → r.routes[i + 1]? = some d →
    ∃ lay, r.layovers[i]? = some lay ∧ lay.portName = a.destination ∧
      a.destination = d.origin ∧ lay.layoverHours = calculateLayoverHours a d

/-- What the invariant gives for the legs of a found result: each leg leaves
its origin port in the graph, and an admissible route of the graph has the
same origin, destination and date. -/
def LegsAdmitted (g : Graph) (adm : Route → Bool) (res : PathResult) : Prop :=
  ∀ leg ∈ res.routes, leg ∈ g.getRoutesFrom leg.origin ∧
    ∃ r0 ∈ g.getRoutesFrom leg.origin,
      adm r0 = true ∧ r0.destination = leg.destination ∧ r0.date = leg.date

/-! ## Concrete networks used in the examples -/

/-- Three ports in a row, both legs on 01/05/2025, no port charge. -/
def chainSameDay : Graph :=
  mkGraph [⟨"A", 0⟩, ⟨"B", 0⟩, ⟨"C", 0⟩]
    [⟨"A", "B", "01/05/2025", "08:00", "16:00", 100, "X"⟩,
     ⟨"B", "C", "01/05/2025", "18:00", "23:00", 150, "X"⟩]

/-- An excluded-port filter on port `P`. -/
def avoidP : PreferenceFilter :=
  { preferredCompanies := [], requiredPorts := [], excludedPorts := ["P"],
    maxVoyageTime := -1, hasCompanyPreference := false, hasPortPreference := true,
    hasTimeLimit := false }

/-- The cheap way from `A` to `C` goes through `P`, the dear one through `Q`. -/
def detourNetwork : Graph :=
  mkGraph [⟨"A", 0⟩, ⟨"P", 0⟩, ⟨"Q", 0⟩, ⟨"C", 0⟩]
    [⟨"A", "P", "01/05/2025", "08:00", "10:00", 10, "X"⟩,
     ⟨"P", "C", "01/05/2025", "12:00", "14:00", 10, "X"⟩,
     ⟨"A", "Q", "01/05/2025", "08:00", "10:00", 100, "X"⟩,
     ⟨"Q", "C", "01/05/2025", "12:00", "14:00", 100, "X"⟩]

/-- Two legs from `A` to `B` on the same date: fare 80 listed first, fare 100
listed second (so the fare-100 leg is at the head of the edge list). -/
def twoFares : Graph :=
  mkGraph [⟨"A", 0⟩, ⟨"B", 0⟩]
    [⟨"A", "B", "01/05/2025", "10:00", "12:00", 80, "Y"⟩,
     ⟨"A", "B", "01/05/2025", "08:00", "16:00", 100, "X"⟩]

/-- Two legs from `A` to `B` on the same date, the cheap one arriving at 10:00
and the dear one at 20:00, and a leg from `B` to `C` leaving at 12:00. -/
def earlyAndLate : Graph :=
  mkGraph [⟨"A", 0⟩, ⟨"B", 0⟩, ⟨"C", 0⟩]
    [⟨"A", "B", "01/05/2025", "06:00", "10:00", 80, "Y"⟩,
     ⟨"A", "B", "01/05/2025", "08:00", "20:00", 100, "X"⟩,
     ⟨"B", "C", "01/05/2025", "12:00", "15:00", 50, "X"⟩]

/-- A layover of 25 hours at `B`, whose daily charge is 40. -/
def layover25 : Graph :=
  mkGraph [⟨"A", 0⟩, ⟨"B", 40⟩, ⟨"C", 0⟩]
    [⟨"A", "B", "01/05/2025", "06:00", "08:00", 100, "X"⟩,
     ⟨"B", "C", "02/05/2025", "09:00", "15:00", 150, "X"⟩]

/-- Two parallel legs from `A` to `B`: fare 100 on carrier `X` listed first,
fare 80 on carrier `Y` listed second. -/
def twoCarriers : Graph :=
  mkGraph [⟨"A", 0⟩, ⟨"B", 0⟩]
    [⟨"A", "B", "01/05/2025", "08:00", "16:00", 100, "X"⟩,
     ⟨"A", "B", "01/05/2025", "08:00", "16:00", 80, "Y"⟩]

/-- The carrier whitelist `{X}`. -/
def onlyX : PreferenceFilter :=
  { preferredCompanies := ["X"], requiredPorts := [], excludedPorts := [],
    maxVoyageTime := -1, hasCompanyPreference := true, hasPortPreference := false,
    hasTimeLimit := false }

/-- A cheap way `A → B → C` (fares 1 and 1) and a direct leg `A → C` of
fare 100. -/
def cheapViaB : Graph :=
  mkGraph [⟨"A", 0⟩, ⟨"B", 0⟩, ⟨"C", 0⟩]
    [⟨"A", "B", "01/05/2025", "08:00", "09:00", 1, "X"⟩,
     ⟨"B", "C", "01/05/2025", "10:00", "11:00", 1, "X"⟩,
     ⟨"A", "C", "01/05/2025", "08:00", "16:00", 100, "X"⟩]

/-- A clock time `HH:MM` made of four digits and a colon (hours and minutes
are not range-checked). -/
def isClockTime (t : String) : Bool :=
  match t.data with
  | [a, b, c, d, e] => a.isDigit && b.isDigit && (c == ':') && d.isDigit && e.isDigit
  | _ => false

/-- The cost model applied to a sequence of legs: the fares plus the port
charges of the layovers between consecutive legs. -/
def legsCost (g : Graph) (legs : List Route) : Int :=
  (legs.map (fun r => r.cost)).sum + ((buildLayovers g legs).map (fun l => l.portCharge)).sum

/-- A feasible two-hop way `A → B → C` of cost 55 that the search misses: `B`
is first reached by the direct leg (fare 50, arrival 08:00), then more cheaply
through `D` (fares 10 + 10, arrival 20:00), after the 10:00 departure to `C`. -/
def lateCheapArrival : Graph :=
  mkGraph [⟨"A", 0⟩, ⟨"B", 0⟩, ⟨"C", 0⟩, ⟨"D", 0⟩]
    [⟨"A", "B", "01/05/2025", "06:00", "08:00", 50, "X"⟩,
     ⟨"A", "D", "01/05/2025", "06:00", "07:00", 10, "X"⟩,
     ⟨"D", "B", "01/05/2025", "09:00", "20:00", 10, "X"⟩,
     ⟨"B", "C", "01/05/2025", "10:00", "12:00", 5, "X"⟩,
     ⟨"A", "C", "01/05/2025", "06:00", "16:00", 100, "X"⟩]

/-- Seven ports.  The cheap way `A → D → B → C` has three legs; the direct leg
`A → B` reaches `B` in one hop but too late for the departure to `C`, so the
hop search, which keeps the one-hop arrival at `B`, is left with the four
legs through `E`, `F` and `G`. -/
def hopsVersusCost : Graph :=
  mkGraph [⟨"A", 0⟩, ⟨"B", 0⟩, ⟨"C", 0⟩, ⟨"D", 0⟩, ⟨"E", 0⟩, ⟨"F", 0⟩, ⟨"G", 0⟩]
    [⟨"A", "B", "01/05/2025", "06:00", "20:00", 50, "X"⟩,
     ⟨"A", "D", "01/05/2025", "06:00", "07:00", 10, "X"⟩,
     ⟨"D", "B", "01/05/2025", "07:30", "08:00", 10, "X"⟩,
     ⟨"B", "C", "01/05/2025", "10:00", "12:00", 5, "X"⟩,
     ⟨"A", "E", "01/05/2025", "06:00", "07:00", 1000, "X"⟩,
     ⟨"E", "F", "01/05/2025", "08:00", "09:00", 1000, "X"⟩,
     ⟨"F", "G", "01/05/2025", "10:00", "11:00", 1000, "X"⟩,
     ⟨"G", "C", "01/05/2025", "12:00", "13:00", 1000, "X"⟩]

/-- Three ports in a row, the second leg two days after the first, daily
charge 40 at `B`. -/
def chainTwoDays : Graph :=
  mkGraph [⟨"A", 0⟩, ⟨"B", 40⟩, ⟨"C", 0⟩]
    [⟨"A", "B", "01/05/2025", "08:00", "16:00", 100, "X"⟩,
     ⟨"B", "C", "03/05/2025", "06:00", "12:00", 150, "X"⟩]

/-- A single port without any leg. -/
def lone : Graph :=
  mkGraph [⟨"P", 0⟩] []

/-- Three ports in a row with the fares 200 and 300, both legs on the same day
and the second one leaving two hours after the first arrives. -/
def viaM : Graph :=
  mkGraph [⟨"A", 0⟩, ⟨"M", 0⟩, ⟨"C", 0⟩]
    [⟨"A", "M", "01/05/2025", "08:00", "16:00", 200, "X"⟩,
     ⟨"M", "C", "01/05/2025", "18:00", "23:00", 300, "X"⟩]

/-- Three ports in a row where the leg out of `B` leaves at 10:00, before the
leg from `A` arrives at 20:00 on the same day: `C` cannot be reached from `A`. -/
def missed : Graph :=
  mkGraph [⟨"A", 0⟩, ⟨"B", 0⟩, ⟨"C", 0⟩]
    [⟨"A", "B", "01/05/2025", "06:00", "20:00", 1, "X"⟩,
     ⟨"B", "C", "01/05/2025", "10:00", "12:00", 1, "X"⟩]

/-- The two searches of the bidirectional search have not met, the forward
search has visited no port but the origin, and no other port has a forward
distance. -/
def NoMeet (originIdx : Nat) (s : BidirState) : Prop :=
  s.meetingPoint = none ∧ (∀ v, s.forwardVisited v = true → v = originIdx) ∧
    (∀ v, v ≠ originIdx → INT_MAX ≤ s.forwardDist v)

/-- The minutes from midnight of a time `HH:MM`. -/
def minutesFromMidnight (time : String) : Int :=
  twoDigits time 0 * 60 + twoDigits time 3

/-- The way from `A` to `C` in `chainTwoDays`: fares 100 and 150, and a layover
of 38 hours at `B` charged two days at 40. -/
def chainTwoDaysResult : PathResult :=
  { found := true
    totalCost := 330
    totalTravelTime := 86
    path := ["A", "B", "C"]
    routes := [⟨"A", "B", "01/05/2025", "08:00", "16:00", 100, "X"⟩,
      ⟨"B", "C", "03/05/2025", "06:00", "12:00", 150, "X"⟩]
    layovers := [⟨"B", 38, 80, "01/05/2025", "16:00", "03/05/2025", "06:00"⟩] }

/-- The consecutive segments of a sequence of ports. -/
def consecutivePairs (ports : List String) : List (String × String) :=
  ports.zip ports.tail

/-- The paths of the segments put end to end, the first port of every path
but the first one left out. -/
def joinPaths : List (List String) → List String
  | [] => []
  | p :: ps => p ++ (ps.map (fun q => q.drop 1)).flatten

/-- The result `r` is what `findCheapestPath` returns for the segment, and
when it is found its path starts and ends at the ports of the segment. -/
def SegmentResult (g : Graph) (date : String) (segment : String × String)
    (r : PathResult) : Prop :=
  findCheapestPath g segment.1 segment.2 date = some r ∧
    (r.found = true → r.path.head? = some segment.1 ∧ r.path.getLast? = some segment.2)

/-- The quotient of `a` by `b` rounded up. -/
def ceilDiv (a b : Int) : Int :=
  -(Int.fdiv (-a) b)

/-- The length of a month on the calendar without leap years. -/
def monthLength (month : Int) : Int :=
  if month = 2 then 28
  else if month = 4 ∨ month = 6 ∨ month = 9 ∨ month = 11 then 30
  else 31

/-- The day after `day/month/year` on the calendar without leap years. -/
def nextDate (day month year : Int) : Int × Int × Int :=
  if day < monthLength month then (day + 1, month, year)
  else if month < 12 then (1, month + 1, year)
  else (1, 1, year + 1)

/-- The text `DD/MM/YYYY` with the given decimal digits. -/
def dateString (d1 d2 m1 m2 y1 y2 y3 y4 : Nat) : String :=
  String.mk [Nat.digitChar d1, Nat.digitChar d2, '/', Nat.digitChar m1, Nat.digitChar m2, '/',
    Nat.digitChar y1, Nat.digitChar y2, Nat.digitChar y3, Nat.digitChar y4]

/-- Four legs from `A` to `B`: one on the day before 01/05/2025, two on that
day (08:00 and 10:00) and one on the day after. -/
def fourDepartures : Graph :=
  mkGraph [⟨"A", 0⟩, ⟨"B", 0⟩]
    [⟨"A", "B", "30/04/2025", "12:00", "14:00", 1, "X"⟩,
     ⟨"A", "B", "01/05/2025", "08:00", "10:00", 2, "X"⟩,
     ⟨"A", "B", "01/05/2025", "10:00", "12:00", 3, "X"⟩,
     ⟨"A", "B", "02/05/2025", "06:00", "08:00", 4, "X"⟩]

/-- The method `Graph::getAllRoutes`: the edge lists of all vertices, in the
order of the vertices. -/
def Graph.getAllRoutes (g : Graph) : List Route :=
  g.vertices.flatMap (fun v => v.edges)

/-- A `Graph::VertexNode` with the parts that the searches do not read: the
drawing coordinates `x`, `y` of its port (of any type `Coord`) and its docking
queue, front first. -/
structure VertexState (Coord : Type) where
  vertex : VertexNode
  x : Coord
  y : Coord
  dockingQueue : List String

/-- The whole state of a `Graph` object: its vertices and the counter
`vertexCount`. -/
structure GraphState (Coord : Type) where
  vertices : List (VertexState Coord)
  vertexCount : Int

/-- The part of the state that the searches read. -/
def GraphState.graph {Coord : Type} (s : GraphState Coord) : Graph :=
  ⟨s.vertices.map (fun v => v.vertex)⟩

/-- The method `Graph::addPort` on the whole state: nothing happens when the
name is known, else a vertex without edges and with an empty docking queue is
pushed and `vertexCount` is incremented. -/
def GraphState.addPort {Coord : Type} (s : GraphState Coord) (port : Port) (x y : Coord) :
    GraphState Coord :=
  if s.graph.hasPort port.name then s
  else ⟨s.vertices ++ [⟨⟨port, []⟩, x, y, []⟩], s.vertexCount + 1⟩

/-- A state with the single port `A` (daily charge 5, coordinates 1 and 2)
and one ship in its docking queue. -/
def dockedAtA : GraphState Nat :=
  ⟨[⟨⟨⟨"A", 5⟩, []⟩, 1, 2, ["Evergreen"]⟩], 1⟩

/-! ## PreferenceFilter.h: the checks behind the two warnings -/

/-- The method `PreferenceFilter::pathMatchesPorts`. -/
def PreferenceFilter.pathMatchesPorts (self : PreferenceFilter) (path : List String) : Bool :=
  if !self.hasPortPreference || decide (self.requiredPorts.length = 0) then true
  else self.requiredPorts.all (fun required => path.any (fun p => decide (p = required)))

/-- The method `PreferenceFilter::calculateVoyageTime`. -/
def PreferenceFilter.calculateVoyageTime (_self : PreferenceFilter) (routes : List Route) : Int :=
  if routes.length = 0 then 0
  else
    let firstRoute := routes.getD 0 Route.dummy
    let lastRoute := routes.getD (routes.length - 1) Route.dummy
    let firstHour := twoDigits firstRoute.departureTime 0
    let firstMin := twoDigits firstRoute.departureTime 3
    let lastHour := twoDigits lastRoute.arrivalTime 0
    let lastMin := twoDigits lastRoute.arrivalTime 3
    let totalMinutes := (lastHour * 60 + lastMin) - (firstHour * 60 + firstMin)
    let totalMinutes := if totalMinutes < 0 then totalMinutes + 24 * 60 else totalMinutes
    Int.tdiv totalMinutes 60

/-- The method `PreferenceFilter::isVoyageTimeValid`. -/
def PreferenceFilter.isVoyageTimeValid (self : PreferenceFilter) (routes : List Route) : Bool :=
  if !self.hasTimeLimit || decide (self.maxVoyageTime < 0) then true
  else decide (self.calculateVoyageTime routes ≤ self.maxVoyageTime)

/-- The default-constructed `PreferenceFilter`. -/
def noPreferences : PreferenceFilter :=
  { preferredCompanies := [], requiredPorts := [], excludedPorts := [],
    maxVoyageTime := -1, hasCompanyPreference := false, hasPortPreference := false,
    hasTimeLimit := false }

/-- A filter that requires the port `Z` and allows one hour of voyage. -/
def demanding : PreferenceFilter :=
  { preferredCompanies := [], requiredPorts := ["Z"], excludedPorts := [],
    maxVoyageTime := 1, hasCompanyPreference := false, hasPortPreference := true,
    hasTimeLimit := true }

/-- The filter `demanding` without its required port and its time limit. -/
def lenient : PreferenceFilter :=
  { preferredCompanies := [], requiredPorts := [], excludedPorts := [],
    maxVoyageTime := -1, hasCompanyPreference := false, hasPortPreference := true,
    hasTimeLimit := false }

/-- Some leg of the graph runs from `p` to `q` on the date. -/
def PathLink (g : Graph) (date : String) (p q : String) : Prop :=
  ∃ r ∈ g.getRoutesFrom p, r.origin = p ∧ r.destination = q ∧ r.date = date

/-- Three ports on a cycle `A → B → C → A` with a chord `A → C`, all legs on
01/05/2025. -/
def roundTrip : Graph :=
  mkGraph [⟨"A", 0⟩, ⟨"B", 0⟩, ⟨"C", 0⟩]
    [⟨"A", "B", "01/05/2025", "08:00", "09:00", 1, "X"⟩,
     ⟨"B", "C", "01/05/2025", "10:00", "11:00", 1, "X"⟩,
     ⟨"C", "A", "01/05/2025", "12:00", "13:00", 1, "X"⟩,
     ⟨"A", "C", "01/05/2025", "14:00", "15:00", 5, "X"⟩]

/-- A clock time whose hours are from 0 to 23 and whose minutes are from 0 to
59. -/
def clockInRange (time : String) : Bool :=
  decide (0 ≤ twoDigits time 0) && decide (twoDigits time 0 ≤ 23) &&
    decide (0 ≤ twoDigits time 3) && decide (twoDigits time 3 ≤ 59)

/-- A filter with a time limit of 23 hours and nothing else. -/
def within23Hours : PreferenceFilter :=
  { preferredCompanies := [], requiredPorts := [], excludedPorts := [],
    maxVoyageTime := 23, hasCompanyPreference := false, hasPortPreference := false,
    hasTimeLimit := true }

/-- The value that `PortMapper::addPort` returns: the index of the name,
which is the former size when the name is new. -/
def PortMapper.addPortIndex (pm : PortMapper) (portName : String) : Nat :=
  match pm.findIndex portName with
  | some i => i
  | none => pm.portNames.length

/-! ## Queue.h and the docking queues of Graph.h -/

/-- The method `Queue::enqueue`, on the list of the elements from front to
rear. -/
def Queue.enqueue (queue : List String) (value : String) : List String :=
  queue ++ [value]

/-- The method `Queue::dequeue`: the returned flag and the elements left. -/
def Queue.dequeue (queue : List String) : Bool × List String :=
  match queue with
  | [] => (false, [])
  | _ :: rest => (true, rest)

/-- Apply `f` to the docking queue of the vertex at `index`. -/
def modifyQueueAt {Coord : Type} :
    List (VertexState Coord) → Nat → (List String → List String) → List (VertexState Coord)
  | [], _, _ => []
  | v :: vs, 0, f => { v with dockingQueue := f v.dockingQueue } :: vs
  | v :: vs, index + 1, f => v :: modifyQueueAt vs index f

/-- The method `Graph::addShipToQueue`. -/
def GraphState.addShipToQueue {Coord : Type} (s : GraphState Coord)
    (portName shipName : String) : GraphState Coord :=
  match s.graph.findPortIndex portName with
  | none => s
  | some index =>
    { s with vertices := modifyQueueAt s.vertices index (fun q => Queue.enqueue q shipName) }

/-- The method `Graph::removeShipFromQueue`: the returned flag and the new
state. -/
def GraphState.removeShipFromQueue {Coord : Type} (s : GraphState Coord)
    (portName : String) : Bool × GraphState Coord :=
  match s.graph.findPortIndex portName with
  | none => (false, s)
  | some index =>
    match s.vertices[index]? with
    | none => (false, s)
    | some vertex =>
      ((Queue.dequeue vertex.dockingQueue).1,
        { s with vertices := modifyQueueAt s.vertices index (fun q => (Queue.dequeue q).2) })

/-- The method `Graph::getQueueSize`. -/
def GraphState.getQueueSize {Coord : Type} (s : GraphState Coord) (portName : String) : Int :=
  match s.graph.findPortIndex portName with
  | none => 0
  | some index =>
    match s.vertices[index]? with
    | none => 0
    | some vertex => vertex.dockingQueue.length

/-- The first loop of `Graph::getQueueShips`: while the queue is not empty, its
front is pushed to `ships` and to `tempQueue` and dequeued.  Returns the
queue, `ships` and `tempQueue` at the end. -/
def drainQueue : List String → List String → List String →
    List String × List String × List String
  | [], ships, tempQueue => ([], ships, tempQueue)
  | ship :: queue, ships, tempQueue =>
    drainQueue queue (ships ++ [ship]) (Queue.enqueue tempQueue ship)

/-- The second loop of `Graph::getQueueShips`: while `tempQueue` is not empty,
its front is enqueued to the queue and dequeued.  Returns the queue. -/
def restoreQueue : List String → List String → List String
  | [], queue => queue
  | ship :: tempQueue, queue => restoreQueue tempQueue (Queue.enqueue queue ship)

/-- The method `Graph::getQueueShips`: the returned list and the new state. -/
def GraphState.getQueueShips {Coord : Type} (s : GraphState Coord) (portName : String) :
    List String × GraphState Coord :=
  match s.graph.findPortIndex portName with
  | none => ([], s)
  | some index =>
    match s.vertices[index]? with
    | none => ([], s)
    | some vertex =>
      let drained := drainQueue vertex.dockingQueue [] []
      (drained.2.1,
        { s with
          vertices := modifyQueueAt s.vertices index
            (fun _ => restoreQueue drained.2.2 drained.1) })

/-- The docking queue of a port in the state, front first (empty for an
unknown port). -/
def GraphState.dockingQueueOf {Coord : Type} (s : GraphState Coord) (portName : String) :
    List String :=
  match s.graph.findPortIndex portName with
  | none => []
  | some index =>
    match s.vertices[index]? with
    | none => []
    | some vertex => vertex.dockingQueue

/-- Two ports: `A` with the ships `Evergreen` and `Maersk` waiting, in this
order, and `B` with the ship `Cosco`. -/
def twoQueues : GraphState Nat :=
  ⟨[⟨⟨⟨"A", 5⟩, []⟩, 1, 2, ["Evergreen", "Maersk"]⟩, ⟨⟨⟨"B", 0⟩, []⟩, 3, 4, ["Cosco"]⟩], 2⟩

/-- A direct leg `A → Z` of fare 1000 and a way `A → B → C → Z` of three
legs of fare 200 each, all on 01/05/2025. -/
def dearDirect : Graph :=
  mkGraph [⟨"A", 0⟩, ⟨"B", 0⟩, ⟨"C", 0⟩, ⟨"Z", 0⟩]
    [⟨"A", "Z", "01/05/2025", "08:00", "20:00", 1000, "X"⟩,
     ⟨"A", "B", "01/05/2025", "06:00", "08:00", 200, "X"⟩,
     ⟨"B", "C", "01/05/2025", "09:00", "11:00", 200, "X"⟩,
     ⟨"C", "Z", "01/05/2025", "12:00", "14:00", 200, "X"⟩]

/-! ## PathFinder.h: the legs that can contribute to a path -/

/-- The arrays `visited` and `canReachDest` and the queue of the backward pass
of `getAllConnectingRoutes` (front of the queue first). -/
structure BackwardState where
  visited : Nat → Bool
  canReachDest : Nat → Bool
  queue : List Nat

/-- The body of the loop over the routes of `potentialPort` in the backward
pass.  `keep` is the test `preferences.matchesRoute(route)` of the variant with
preferences, whose failure skips the route; the plain variant has no test. -/
def markIfLeadsTo (pm : PortMapper) (keep : Route → Bool) (currentPort potentialPort : String)
    (s : BackwardState) (route : Route) : BackwardState :=
  if !keep route then s
  else if route.destination = currentPort then
    match pm.findIndex potentialPort with
    | some potentialIdx =>
      if !s.visited potentialIdx then
        { visited := setAt s.visited potentialIdx true
          canReachDest := setAt s.canReachDest potentialIdx true
          queue := s.queue ++ [potentialIdx] }
      else s
    | none => s
  else s

/-- The two nested loops of the backward pass for the dequeued port
`currentPort`: over all ports, and over the routes of each. -/
def markSources (g : Graph) (pm : PortMapper) (keep : Route → Bool) (currentPort : String)
    (s : BackwardState) : BackwardState :=
  g.getAllPorts.foldl
    (fun s potential =>
      (g.getRoutesFrom potential.name).foldl (markIfLeadsTo pm keep currentPort potential.name) s)
    s

/-- The loop `while (!queue.isEmpty())` of the backward pass; `none` when the
fuel runs out before the queue is empty. -/
def backwardLoop (g : Graph) (pm : PortMapper) (keep : Route → Bool) :
    Nat → BackwardState → Option BackwardState
  | 0, _ => none
  | fuel + 1, s =>
    match s.queue with
    | [] => some s
    | currentIdx :: rest =>
      backwardLoop g pm keep fuel
        (markSources g pm keep (pm.getName currentIdx) { s with queue := rest })

/-- The array `originVisited`, the queue and the result list of the forward
pass of `getAllConnectingRoutes`. -/
structure ForwardState where
  originVisited : Nat → Bool
  originQueue : List Nat
  connectingRoutes : List Route

/-- The test of the loop "check if already added". -/
def sameDeparture (existing route : Route) : Bool :=
  decide (existing.origin = route.origin) && decide (existing.destination = route.destination) &&
    decide (existing.date = route.date) &&
    decide (existing.departureTime = route.departureTime)

/-- The body of the loop over the routes of the dequeued port in the forward
pass (`keep` as in `markIfLeadsTo`). -/
def collectRoute (pm : PortMapper) (keep : Route → Bool) (canReachDest : Nat → Bool)
    (s : ForwardState) (route : Route) : ForwardState :=
  if !keep route then s
  else
    match pm.findIndex route.destination with
    | none => s
    | some routeDestIdx =>
      if canReachDest routeDestIdx then
        let found := s.connectingRoutes.any (fun existing => sameDeparture existing route)
        let connectingRoutes :=
          if !found then s.connectingRoutes ++ [route] else s.connectingRoutes
        if !s.originVisited routeDestIdx then
          { originVisited := setAt s.originVisited routeDestIdx true
            originQueue := s.originQueue ++ [routeDestIdx]
            connectingRoutes := connectingRoutes }
        else { s with connectingRoutes := connectingRoutes }
      else s

/-- The loop `while (!originQueue.isEmpty())` of the forward pass; `none` when
the fuel runs out before the queue is empty. -/
def forwardLoop (g : Graph) (pm : PortMapper) (keep : Route → Bool) (canReachDest : Nat → Bool) :
    Nat → ForwardState → Option ForwardState
  | 0, _ => none
  | fuel + 1, s =>
    match s.originQueue with
    | [] => some s
    | currentIdx :: rest =>
      forwardLoop g pm keep canReachDest fuel
        ((g.getRoutesFrom (pm.getName currentIdx)).foldl (collectRoute pm keep canReachDest)
          { s with originQueue := rest })

/-- The common text of `getAllConnectingRoutes` and
`getAllConnectingRoutesWithPreferences`, which differ only in the test `keep`
applied to each route in both passes.  The result is `none` only if one of
the two loops does not end within `numPorts + 1` iterations. -/
def connectingRoutesWith (g : Graph) (keep : Route → Bool) (origin destination : String) :
    Option (List Route) :=
  let pm := buildPortMapper g
  match pm.findIndex origin with
  | none => some []
  | some originIdx =>
    match pm.findIndex destination with
    | none => some []
    | some destIdx =>
      let numPorts := pm.getSize
      match backwardLoop g pm keep (numPorts + 1)
          { visited := setAt (fun _ => false) destIdx true
            canReachDest := setAt (fun _ => false) destIdx true
            queue := [destIdx] } with
      | none => none
      | some back =>
        match forwardLoop g pm keep back.canReachDest (numPorts + 1)
            { originVisited := setAt (fun _ => false) originIdx true
              originQueue := [originIdx]
              connectingRoutes := [] } with
        | none => none
        | some fwd => some fwd.connectingRoutes

/-- The method `PathFinder::getAllConnectingRoutes`; its parameter `date` is
not read. -/
def getAllConnectingRoutes (g : Graph) (origin destination _date : String) :
    Option (List Route) :=
  connectingRoutesWith g (fun _ => true) origin destination

/-- The method `PathFinder::getAllConnectingRoutesWithPreferences`; its
parameter `date` is not read. -/
def getAllConnectingRoutesWithPreferences (g : Graph) (origin destination _date : String)
    (preferences : PreferenceFilter) : Option (List Route) :=
  connectingRoutesWith g preferences.matchesRoute origin destination

/-- Some kept leg filed under port `p` ends at the port `q` of the graph. -/
def LegStep (g : Graph) (keep : Route → Bool) (p q : String) : Prop :=
  ∃ r ∈ g.getRoutesFrom p, keep r = true ∧ r.destination = q ∧ g.hasPort q = true

/-- A walk from `p` to `q` through kept legs between ports of the graph
(dates and times play no part). -/
def Walk (g : Graph) (keep : Route → Bool) (p q : String) : Prop :=
  Relation.ReflTransGen (LegStep g keep) p q

/-- The list holds a leg with the origin, destination, date and departure
time of `r`. -/
def Represented (legs : List Route) (r : Route) : Prop :=
  ∃ e ∈ legs, e.origin = r.origin ∧ e.destination = r.destination ∧ e.date = r.date ∧
    e.departureTime = r.departureTime

/-- The port at index `i` leads nowhere new: every port with a kept leg to it
is marked. -/
def SourcesMarked (g : Graph) (pm : PortMapper) (keep : Route → Bool) (visited : Nat → Bool)
    (i : Nat) : Prop :=
  ∀ p ∈ g.getAllPorts, ∀ r ∈ g.getRoutesFrom p.name, keep r = true →
    r.destination = pm.getName i → ∀ pi, pm.findIndex p.name = some pi → visited pi = true

/-- The invariant of the backward pass: the marked ports can reach the
destination, and every marked port is in the list `waiting` or has all its
sources marked. -/
structure BackwardInv (g : Graph) (pm : PortMapper) (keep : Route → Bool) (destination : String)
    (waiting : List Nat) (s : BackwardState) : Prop where
  same : s.canReachDest = s.visited
  sound : ∀ i, s.visited i = true →
    pm.findIndex (pm.getName i) = some i ∧ Walk g keep (pm.getName i) destination
  queued : ∀ i ∈ waiting, s.visited i = true
  closed : ∀ i, s.visited i = true → i ∈ waiting ∨ SourcesMarked g pm keep s.visited i

/-- The legs out of the port at index `i` have been looked at: each kept leg
to a port that can reach the destination is represented in the result, and its
destination is marked. -/
def LegsCollected (g : Graph) (pm : PortMapper) (keep : Route → Bool)
    (canReachDest : Nat → Bool) (s : ForwardState) (i : Nat) : Prop :=
  ∀ r ∈ g.getRoutesFrom (pm.getName i), keep r = true →
    ∀ j, pm.findIndex r.destination = some j → canReachDest j = true →
      s.originVisited j = true ∧ ∃ e ∈ s.connectingRoutes, sameDeparture e r = true

/-- The invariant of the forward pass: the marked ports are reached from the
origin, the collected legs leave marked ports for ports that can reach the
destination, and every marked port is in the list `waiting` or has had its
legs collected. -/
structure ForwardInv (g : Graph) (pm : PortMapper) (keep : Route → Bool)
    (canReachDest : Nat → Bool) (origin : String) (waiting : List Nat) (s : ForwardState) :
    Prop where
  sound : ∀ i, s.originVisited i = true →
    pm.findIndex (pm.getName i) = some i ∧ Walk g keep origin (pm.getName i)
  legs : ∀ e ∈ s.connectingRoutes, keep e = true ∧
    ∃ i, s.originVisited i = true ∧ e ∈ g.getRoutesFrom (pm.getName i) ∧
      ∃ j, pm.findIndex e.destination = some j ∧ canReachDest j = true
  queued : ∀ i ∈ waiting, s.originVisited i = true
  done : ∀ i, s.originVisited i = true →
    i ∈ waiting ∨ LegsCollected g pm keep canReachDest s i

/-- A sequence of legs of the graph that leads from port `p` to port `q`: each
leg is filed under the port where the one before it ends, and ends at a port
of the graph. -/
def LegChain (g : Graph) : String → String → List Route → Prop
  | p, q, [] => p = q
  | p, q, r :: rest =>
    r ∈ g.getRoutesFrom p ∧ r.origin = p ∧ g.hasPort r.destination = true ∧
      LegChain g r.destination q rest

/-- The leg departs no earlier than the given date and time: on a later date,
or on the same date at a time that is not before the given one. -/
def departsNoEarlier (date time : String) (r : Route) : Prop :=
  compareDates r.date date > 0 ∨
    (compareDates r.date date = 0 ∧ isTimeBefore r.departureTime time = false)

/-- Every leg of the sequence departs no earlier than the arrival of the one
before it, the first one no earlier than the given date and time. -/
def DepartInTurn : String → String → List Route → Prop
  | _, _, [] => True
  | date, time, r :: rest => departsNoEarlier date time r ∧ DepartInTurn r.date r.arrivalTime rest

/-- A feasible path for a query: a chain of legs from the origin to the
destination whose first leg departs on or after the query date and whose
later legs depart no earlier than the arrival of the leg before. -/
def FeasiblePath (g : Graph) (origin destination date : String) (legs : List Route) : Prop :=
  LegChain g origin destination legs ∧ DepartInTurn date "00:00" legs

/-- No two legs of the graph share origin, destination and date. -/
def UniqueLegs (g : Graph) : Prop :=
  ∀ r1 ∈ g.getAllRoutes, ∀ r2 ∈ g.getAllRoutes,
    r1.origin = r2.origin → r1.destination = r2.destination → r1.date = r2.date → r1 = r2

/-- The port charge that the neighbour loop adds when `route` leaves the port
at `minIdx`: none when no previous route is found, else the charge for the
layover between the previous route and `route`. -/
def chargeAt (g : Graph) (pm : PortMapper) (s : DijkstraState) (minIdx : Nat)
    (route : Route) : Int :=
  match previousRouteOf g pm s.parent s.arrivalDates s.arrivalTimes minIdx with
  | none => 0
  | some previousRoute =>
    portChargeFor g (pm.getName minIdx) (calculateLayoverHours previousRoute route)

/-- The cost invariant of `findCheapestPath`: for every port with a parent the
route lookup finds a leg whose arrival time is the stored one and that
accounts for the stored distance. -/
def CostInv (g : Graph) (pm : PortMapper) (s : DijkstraState) : Prop :=
  ∀ v p, s.parent v = some p →
    ∃ r, previousRouteOf g pm s.parent s.arrivalDates s.arrivalTimes v = some r ∧
      r.arrivalTime = s.arrivalTimes v ∧
      s.distances v = intAdd (intAdd (s.distances p) r.cost) (chargeAt g pm s p r)

/-- Three ports in a row where the fare of the first leg is `INT_MAX`. -/
def maxFare : Graph :=
  mkGraph [⟨"A", 0⟩, ⟨"B", 0⟩, ⟨"C", 0⟩]
    [⟨"A", "B", "01/05/2025", "08:00", "16:00", 2147483647, "X"⟩,
     ⟨"B", "C", "01/05/2025", "18:00", "23:00", 1, "X"⟩]

/-- Three ports in a row with the fares 2147483000 and 1000, whose sum
2147484000 is above `INT_MAX`; no port charge. -/
def bigFares : Graph :=
  mkGraph [⟨"A", 0⟩, ⟨"B", 0⟩, ⟨"C", 0⟩]
    [⟨"A", "B", "01/05/2025", "08:00", "16:00", 2147483000, "X"⟩,
     ⟨"B", "C", "01/05/2025", "18:00", "23:00", 1000, "X"⟩]

/-- A single port `A` with a leg to `Z`, which is not a port of the graph
(`Graph::addRoute` checks the origin only). -/
def strayLeg : Graph :=
  mkGraph [⟨"A", 0⟩] [⟨"A", "Z", "01/05/2025", "08:00", "20:00", 1000, "X"⟩]

/-- The sum of a list of `int` values accumulated in an `int` variable that
starts at 0. -/
def intSum (xs : List Int) : Int :=
  xs.foldl intAdd 0

/-- Every fare of the graph is a value of type `int`. -/
def IntFares (g : Graph) : Prop :=
  ∀ r ∈ g.getAllRoutes, isInt r.cost = true

/-! ## Lemmas on the arithmetic of `int` -/

theorem isInt_iff (x : Int) : isInt x = true ↔ -2147483648 ≤ x ∧ x ≤ 2147483647 := by
  simp [isInt, INT_MIN, INT_MAX]

theorem wrapInt_of_isInt {x : Int} (h : isInt x = true) : wrapInt x = x := by
  rw [isInt_iff] at h
  unfold wrapInt
  omega

theorem isInt_wrapInt (x : Int) : isInt (wrapInt x) = true := by
  rw [isInt_iff]
  unfold wrapInt
  omega

theorem wrapInt_add_left (a b : Int) : wrapInt (wrapInt a + b) = wrapInt (a + b) := by
  unfold wrapInt
  omega

theorem wrapInt_add_right (a b : Int) : wrapInt (a + wrapInt b) = wrapInt (a + b) := by
  unfold wrapInt
  omega

theorem intAdd_zero_left (b : Int) : intAdd 0 b = b := by
  unfold intAdd
  split
  · next h =>
    simp only [Bool.and_eq_true] at h
    rw [zero_add]
    exact wrapInt_of_isInt h.2
  · exact zero_add b

theorem intAdd_zero_right (a : Int) : intAdd a 0 = a := by
  unfold intAdd
  split
  · next h =>
    simp only [Bool.and_eq_true] at h
    rw [add_zero]
    exact wrapInt_of_isInt h.1
  · exact add_zero a

theorem intAdd_of_isInt {a b : Int} (ha : isInt a = true) (hb : isInt b = true) :
    intAdd a b = wrapInt (a + b) := by
  simp [intAdd, ha, hb]

theorem isInt_intAdd {a b : Int} (ha : isInt a = true) (hb : isInt b = true) :
    isInt (intAdd a b) = true := by
  rw [intAdd_of_isInt ha hb]
  exact isInt_wrapInt _

theorem intAdd_of_sum_isInt {a b : Int} (h : isInt (a + b) = true) : intAdd a b = a + b := by
  unfold intAdd
  split
  · exact wrapInt_of_isInt h
  · rfl

theorem isInt_intMul (a b : Int) : isInt (intMul a b) = true :=
  isInt_wrapInt _

theorem isInt_portChargeFor (g : Graph) (portName : String) (layoverHours : Int) :
    isInt (portChargeFor g portName layoverHours) = true := by
  unfold portChargeFor
  split
  · split
    · exact isInt_intMul _ _
    · rfl
  · rfl

theorem isInt_zero : isInt 0 = true := by decide

/-! ## Lemmas on the graph and the port mapper -/

theorem indexOfName_some {l : List String} {x : String} {i : Nat}
    (h : indexOfName l x = some i) : l[i]? = some x := by
  induction l generalizing i with
  | nil => simp [indexOfName] at h
  | cons y ys ih =>
    unfold indexOfName at h
    split at h
    · next hy => cases h; simp [hy]
    · cases hrec : indexOfName ys x with
      | none => simp [hrec] at h
      | some j =>
        simp [hrec] at h
        subst h
        simpa using ih hrec

theorem getName_of_findIndex {pm : PortMapper} {x : String} {i : Nat}
    (h : pm.findIndex x = some i) : pm.getName i = x := by
  have := indexOfName_some h
  simp [PortMapper.getName, List.getD, this]

theorem lt_size_of_findIndex {pm : PortMapper} {x : String} {i : Nat}
    (h : pm.findIndex x = some i) : i < pm.getSize := by
  have := indexOfName_some h
  exact (List.getElem?_eq_some.mp this).1

theorem origin_of_mem_getRoutesFrom {g : Graph} (hwf : g.WF) {name : String} {r : Route}
    (h : r ∈ g.getRoutesFrom name) : r.origin = name := by
  unfold Graph.getRoutesFrom at h
  cases hidx : g.findPortIndex name with
  | none => simp [hidx] at h
  | some idx =>
    simp only [hidx] at h
    have hname := indexOfName_some hidx
    cases hv : g.vertices[idx]? with
    | none => simp [hv] at h
    | some vertex =>
      simp only [hv] at h
      have hv2 : g.vertices[idx]? = some vertex := hv
      have hmem : vertex ∈ g.vertices := by
        obtain ⟨hlt, heq⟩ := List.getElem?_eq_some.mp hv2
        exact heq ▸ List.getElem_mem hlt
      have : vertex.port.name = name := by
        simp [List.getElem?_map, hv2] at hname
        exact hname
      rw [← this]
      exact hwf vertex hmem r h

theorem mem_getAllRoutes_of_getRoutesFrom {g : Graph} {p : String} {r : Route}
    (h : r ∈ g.getRoutesFrom p) : r ∈ g.getAllRoutes := by
  unfold Graph.getRoutesFrom at h
  cases hidx : g.findPortIndex p with
  | none => simp [hidx] at h
  | some idx =>
    simp only [hidx] at h
    cases hv : g.vertices[idx]? with
    | none => simp [hv] at h
    | some vertex =>
      simp only [hv] at h
      have hv2 : g.vertices[idx]? = some vertex := hv
      have hmem : vertex ∈ g.vertices := by
        obtain ⟨hlt, heq⟩ := List.getElem?_eq_some.mp hv2
        exact heq ▸ List.getElem_mem hlt
      unfold Graph.getAllRoutes
      exact List.mem_flatMap.mpr ⟨vertex, hmem, h⟩

theorem origin_of_mem_getConnectingRoutes {g : Graph} (hwf : g.WF) {name d t : String}
    {r : Route} (h : r ∈ g.getConnectingRoutes name d t) : r.origin = name :=
  origin_of_mem_getRoutesFrom hwf (List.mem_filter.mp h).1

theorem wf_empty : Graph.WF ⟨[]⟩ := by
  intro v hv
  simp at hv

theorem wf_addPort {g : Graph} (hwf : g.WF) (port : Port) : (g.addPort port).WF := by
  unfold Graph.addPort
  split
  · exact hwf
  · intro v hv r hr
    simp only [List.mem_append, List.mem_singleton] at hv
    rcases hv with hv | hv
    · exact hwf v hv r hr
    · subst hv
      simp at hr

theorem wf_pushEdgeAt (route : Route) :
    ∀ (vs : List VertexNode) (idx : Nat),
      (vs.map (fun v => v.port.name))[idx]? = some route.origin →
      (∀ v ∈ vs, ∀ r ∈ v.edges, r.origin = v.port.name) →
      ∀ v ∈ pushEdgeAt vs idx route, ∀ r ∈ v.edges, r.origin = v.port.name
  | [], _, _, _ => by simp [pushEdgeAt]
  | w :: ws, 0, hidx, hwf => by
    intro v hv r hr
    simp only [pushEdgeAt, List.mem_cons] at hv
    rcases hv with hv | hv
    · subst hv
      simp only [List.mem_cons] at hr
      rcases hr with hr | hr
      · subst hr
        simpa using hidx.symm
      · exact hwf w (List.mem_cons_self _ _) r hr
    · exact hwf v (List.mem_cons_of_mem _ hv) r hr
  | w :: ws, idx + 1, hidx, hwf => by
    intro v hv r hr
    simp only [pushEdgeAt, List.mem_cons] at hv
    rcases hv with hv | hv
    · subst hv
      exact hwf v (List.mem_cons_self _ _) r hr
    · have hidx2 : (ws.map (fun v => v.port.name))[idx]? = some route.origin := by
        simpa using hidx
      exact wf_pushEdgeAt route ws idx hidx2
        (fun v hv => hwf v (List.mem_cons_of_mem _ hv)) v hv r hr

theorem wf_addRoute {g : Graph} (hwf : g.WF) (route : Route) : (g.addRoute route).WF := by
  unfold Graph.addRoute
  cases hidx : g.findPortIndex route.origin with
  | none => exact hwf
  | some idx =>
    exact wf_pushEdgeAt route g.vertices idx (indexOfName_some hidx) hwf

theorem wf_foldl_addPort (ports : List Port) :
    ∀ g : Graph, g.WF → (ports.foldl Graph.addPort g).WF := by
  induction ports with
  | nil => intro g h; exact h
  | cons p ps ih => intro g h; exact ih _ (wf_addPort h p)

theorem wf_foldl_addRoute (routes : List Route) :
    ∀ g : Graph, g.WF → (routes.foldl Graph.addRoute g).WF := by
  induction routes with
  | nil => intro g h; exact h
  | cons r rs ih => intro g h; exact ih _ (wf_addRoute h r)

theorem wf_mkGraph (ports : List Port) (routes : List Route) : (mkGraph ports routes).WF :=
  wf_foldl_addRoute routes _ (wf_foldl_addPort ports _ wf_empty)

/-! ## Lemmas on the arrays -/

theorem setAt_same {α : Type} (a : Nat → α) (i : Nat) (v : α) : setAt a i v i = v := by
  simp [setAt]

theorem setAt_other {α : Type} (a : Nat → α) {i j : Nat} (v : α) (h : j ≠ i) :
    setAt a i v j = a j := by
  simp [setAt, h]

theorem visitedCount_le (n : Nat) (visited : Nat → Bool) : visitedCount n visited ≤ n := by
  unfold visitedCount
  simpa using @List.countP_le_length _ visited (List.range n)

theorem visitedCount_setAt {n m : Nat} {visited : Nat → Bool} (hm : m < n)
    (hv : visited m = false) :
    visitedCount n (setAt visited m true) = visitedCount n visited + 1 := by
  unfold visitedCount
  induction n with
  | zero => omega
  | succ k ih =>
    rw [List.range_succ, List.countP_append, List.countP_append]
    by_cases hk : m = k
    · subst hk
      have hsame : (List.range m).countP (setAt visited m true) =
          (List.range m).countP visited := by
        apply List.countP_congr
        intro x hx
        have : x ≠ m := by
          have := List.mem_range.mp hx
          omega
        simp [setAt, this]
      rw [hsame]
      simp [setAt, hv]
    · have hlt : m < k := by omega
      rw [ih hlt]
      have : setAt visited m true k = visited k := by
        have hne : k ≠ m := fun h => hk h.symm
        simp [setAt, hne]
      simp [List.countP_cons, this]
      omega

theorem selectMin_fold_spec (visited : Nat → Bool) (key : Nat → Int) (L : List Nat) :
    ∀ (l : List Nat) (acc : Int × Option Nat),
      (∀ i ∈ l, i ∈ L) →
      (acc.1 ≤ INT_MAX ∧ ∀ m, acc.2 = some m → m ∈ L ∧ visited m = false ∧ key m < INT_MAX) →
      (∀ m, (l.foldl
        (fun (acc : Int × Option Nat) i =>
          if !visited i && decide (key i < acc.1) then (key i, some i) else acc) acc).2 = some m →
        m ∈ L ∧ visited m = false ∧ key m < INT_MAX) := by
  intro l
  induction l with
  | nil => intro acc _ h m hm; exact h.2 m hm
  | cons i is ih =>
    intro acc hsub h m hm
    simp only [List.foldl_cons] at hm
    refine ih _ (fun j hj => hsub j (List.mem_cons_of_mem _ hj)) ?_ m hm
    by_cases hc : (!visited i && decide (key i < acc.1)) = true
    · simp only [hc, if_true]
      simp only [Bool.and_eq_true, Bool.not_eq_true', decide_eq_true_eq] at hc
      refine ⟨by have := h.1; omega, ?_⟩
      intro m' hm'
      simp only [Option.some.injEq] at hm'
      subst hm'
      exact ⟨hsub _ (List.mem_cons_self _ _), hc.1, by have := h.1; omega⟩
    · simp only [hc]
      exact h

theorem selectMin_some {visited : Nat → Bool} {key : Nat → Int} {n m : Nat}
    (h : selectMin visited key n = some m) :
    m < n ∧ visited m = false ∧ key m < INT_MAX := by
  have := selectMin_fold_spec visited key (List.range n) (List.range n) (INT_MAX, none)
    (fun _ hi => hi) ⟨le_refl _, by simp⟩ m h
  exact ⟨List.mem_range.mp this.1, this.2.1, this.2.2⟩

/-! ## Lemmas on parent chains -/

theorem ParentChain.congr {parent parent2 : Nat → Option Nat} {o v : Nat} {l : List Nat}
    (h : ParentChain parent o v l) (hsame : ∀ x ∈ l, parent2 x = parent x) :
    ParentChain parent2 o v l := by
  induction h with
  | root h0 =>
    exact ParentChain.root (by rw [hsame o (List.mem_singleton.mpr rfl)]; exact h0)
  | link hp _ ih =>
    refine ParentChain.link ?_ (ih (fun x hx => hsame x (List.mem_cons_of_mem _ hx)))
    rw [hsame _ (List.mem_cons_self _ _)]
    exact hp

theorem ParentChain.walk {parent : Nat → Option Nat} {o v : Nat} {l : List Nat}
    (h : ParentChain parent o v l) :
    ∀ fuel, l.length ≤ fuel → pathIndicesFrom parent fuel (some v) = some l := by
  induction h with
  | root h0 =>
    intro fuel hf
    cases fuel with
    | zero => simp at hf
    | succ k => simp [pathIndicesFrom, h0]
  | link hp _ ih =>
    intro fuel hf
    cases fuel with
    | zero => simp at hf
    | succ k =>
      have hk := ih k (by simpa using hf)
      simp only [pathIndicesFrom, hp, hk]

theorem ParentChain.head_eq {parent : Nat → Option Nat} {o v : Nat} {l : List Nat}
    (h : ParentChain parent o v l) : l.head? = some v := by
  cases h <;> rfl

theorem ParentChain.getLast_eq {parent : Nat → Option Nat} {o v : Nat} {l : List Nat}
    (h : ParentChain parent o v l) : l.getLast? = some o := by
  induction h with
  | root _ => rfl
  | link _ hc ih =>
    cases hc with
    | root _ => rfl
    | link _ _ => simpa [List.getLast?_cons_cons] using ih

theorem ParentChain.pairs {parent : Nat → Option Nat} {o v : Nat} {l : List Nat}
    (h : ParentChain parent o v l) : List.Chain' (fun a b => parent a = some b) l := by
  induction h with
  | root _ => exact List.chain'_singleton _
  | link hp hc ih =>
    cases hc with
    | root _ => exact List.chain'_cons.mpr ⟨hp, List.chain'_singleton _⟩
    | link hq hc2 => exact List.chain'_cons.mpr ⟨hp, ih⟩

/-! ## The loop invariant -/

theorem searchInv_init (g : Graph) (pm : PortMapper) (adm : Route → Bool)
    (originIdx : Nat) (date : String) :
    SearchInv g pm adm originIdx date (DijkstraState.init originIdx date) := by
  refine ⟨by simp [DijkstraState.init, setAt], by simp [DijkstraState.init, setAt],
    by simp [DijkstraState.init, setAt], rfl, ?_, ?_, ?_⟩
  · intro v p h
    simp [DijkstraState.init] at h
  · intro v hv h
    simp [DijkstraState.init, setAt, hv] at h
  · intro v h
    simp [DijkstraState.init] at h

theorem searchInv_origin_visited {g : Graph} {pm : PortMapper} {adm : Route → Bool}
    {originIdx : Nat} {date : String} {s : DijkstraState} (h : SearchInv g pm adm originIdx date s) {v : Nat}
    (hv : s.visited v = true) : s.visited originIdx = true := by
  obtain ⟨l, hc, _, hall⟩ := h.chain v hv
  have hlast := hc.getLast_eq
  exact hall _ (List.mem_of_getLast?_eq_some hlast)

theorem searchInv_visit {g : Graph} {pm : PortMapper} {adm : Route → Bool}
    {originIdx : Nat} {date : String} {s : DijkstraState} (h : SearchInv g pm adm originIdx date s) {m : Nat}
    (hsel : selectMin s.visited s.distances pm.getSize = some m) :
    SearchInv g pm adm originIdx date { s with visited := setAt s.visited m true } ∧
      setAt s.visited m true originIdx = true := by
  obtain ⟨hlt, hunv, hkey⟩ := selectMin_some hsel
  have hmono : ∀ x, s.visited x = true → setAt s.visited m true x = true := by
    intro x hx
    unfold setAt
    split <;> simp [hx]
  have hcount := visitedCount_setAt hlt hunv
  -- the chain of the newly visited port
  have hchain_m : ∃ l, ParentChain s.parent originIdx m l ∧
      l.length ≤ visitedCount pm.getSize (setAt s.visited m true) ∧
      ∀ x ∈ l, setAt s.visited m true x = true := by
    by_cases hmo : m = originIdx
    · subst hmo
      refine ⟨[m], ParentChain.root h.rootless, ?_, ?_⟩
      · rw [hcount]; simp
      · intro x hx
        rw [List.mem_singleton.mp hx]
        exact setAt_same _ _ _
    · obtain ⟨p, hp⟩ := h.reached m hmo hkey
      obtain ⟨hpv, _⟩ := h.parentOk m p hp
      obtain ⟨l, hc, hlen, hall⟩ := h.chain p hpv
      refine ⟨m :: l, ParentChain.link hp hc, ?_, ?_⟩
      · rw [hcount]; simp; omega
      · intro x hx
        rcases List.mem_cons.mp hx with hx | hx
        · rw [hx]; exact setAt_same _ _ _
        · exact hmono x (hall x hx)
  constructor
  · refine ⟨h.originKey, h.originDate, h.originTime, h.rootless, ?_, h.reached, ?_⟩
    · intro v p hp
      obtain ⟨hpv, hl⟩ := h.parentOk v p hp
      exact ⟨hmono p hpv, hl⟩
    · intro v hv
      by_cases hvm : v = m
      · subst hvm
        exact hchain_m
      · have hv2 : s.visited v = true := by
          simpa [setAt, hvm] using hv
        obtain ⟨l, hc, hlen, hall⟩ := h.chain v hv2
        exact ⟨l, hc, by show l.length ≤ visitedCount pm.getSize (setAt s.visited m true)
                         rw [hcount]; omega,
          fun x hx => hmono x (hall x hx)⟩
  · obtain ⟨l, hc, _, hall⟩ := hchain_m
    exact hall _ (List.mem_of_getLast?_eq_some hc.getLast_eq)

theorem searchInv_relax {g : Graph} {pm : PortMapper} {adm : Route → Bool}
    {originIdx m : Nat} {date : String} {s t : DijkstraState} {r : Route}
    (h : SearchInv g pm adm originIdx date s) (hm : s.visited m = true)
    (ho : s.visited originIdx = true)
    (hr : r ∈ g.getConnectingRoutes (pm.getName m) (s.arrivalDates m) (s.arrivalTimes m))
    (hstep : RelaxStep pm adm m r s t) :
    SearchInv g pm adm originIdx date t ∧ t.visited m = true ∧ t.visited originIdx = true ∧
      t.arrivalDates m = s.arrivalDates m ∧ t.arrivalTimes m = s.arrivalTimes m := by
  obtain ⟨hvis, hall⟩ := hstep
  have hkeep : ∀ x, s.visited x = true → t.parent x = s.parent x ∧
      t.arrivalDates x = s.arrivalDates x ∧ t.arrivalTimes x = s.arrivalTimes x ∧
      t.distances x = s.distances x := by
    intro x hx
    rcases hall x with h1 | h2
    · exact h1
    · rw [hx] at h2
      exact absurd h2.1 (by simp)
  refine ⟨⟨?_, ?_, ?_, ?_, ?_, ?_, ?_⟩, by rw [hvis]; exact hm, by rw [hvis]; exact ho,
    (hkeep m hm).2.1, (hkeep m hm).2.2.1⟩
  · rw [(hkeep originIdx ho).2.2.2]
    exact h.originKey
  · rw [(hkeep originIdx ho).2.1]
    exact h.originDate
  · rw [(hkeep originIdx ho).2.2.1]
    exact h.originTime
  · rw [(hkeep originIdx ho).1]
    exact h.rootless
  · intro v p hp
    rcases hall v with h1 | h2
    · rw [h1.1] at hp
      obtain ⟨hpv, r0, hr0, hidx, hdate, hadm⟩ := h.parentOk v p hp
      refine ⟨by rw [hvis]; exact hpv, r0, ?_, hidx, ?_, hadm⟩
      · rw [(hkeep p hpv).2.1, (hkeep p hpv).2.2.1]
        exact hr0
      · rw [h1.2.1]
        exact hdate
    · rw [h2.2.1] at hp
      cases hp
      refine ⟨by rw [hvis]; exact hm, r, ?_, h2.2.2.1, h2.2.2.2.1.symm, h2.2.2.2.2⟩
      rw [(hkeep m hm).2.1, (hkeep m hm).2.2.1]
      exact hr
  · intro v hv hlt
    rcases hall v with h1 | h2
    · rw [h1.2.2.2] at hlt
      obtain ⟨p, hp⟩ := h.reached v hv hlt
      exact ⟨p, by rw [h1.1]; exact hp⟩
    · exact ⟨m, h2.2.1⟩
  · intro v hv
    rw [hvis] at hv
    obtain ⟨l, hc, hlen, hlv⟩ := h.chain v hv
    refine ⟨l, hc.congr (fun x hx => (hkeep x (hlv x hx)).1), ?_, ?_⟩
    · rw [hvis]; exact hlen
    · rw [hvis]; exact hlv

theorem searchInv_fold {σ : Type} (g : Graph) (pm : PortMapper) (adm : Route → Bool)
    (originIdx m : Nat) (date : String) (view : σ → DijkstraState) (f : σ → Route → σ)
    (hf : ∀ s r, RelaxStep pm adm m r (view s) (view (f s r))) :
    ∀ (l : List Route) (s : σ),
      (∀ r ∈ l, r ∈ g.getConnectingRoutes (pm.getName m) ((view s).arrivalDates m)
        ((view s).arrivalTimes m)) →
      SearchInv g pm adm originIdx date (view s) → (view s).visited m = true →
      (view s).visited originIdx = true →
      SearchInv g pm adm originIdx date (view (l.foldl f s)) ∧
        (view (l.foldl f s)).visited = (view s).visited := by
  intro l
  induction l with
  | nil => intro s _ h _ _; exact ⟨h, rfl⟩
  | cons r rs ih =>
    intro s hl h hm ho
    obtain ⟨h1, hm1, ho1, hd1, ht1⟩ :=
      searchInv_relax h hm ho (hl r (List.mem_cons_self _ _)) (hf s r)
    have hl1 : ∀ r2 ∈ rs, r2 ∈ g.getConnectingRoutes (pm.getName m)
        ((view (f s r)).arrivalDates m) ((view (f s r)).arrivalTimes m) := by
      intro r2 hr2
      rw [hd1, ht1]
      exact hl r2 (List.mem_cons_of_mem _ hr2)
    obtain ⟨h2, hv2⟩ := ih (f s r) hl1 h1 hm1 ho1
    exact ⟨h2, by rw [List.foldl_cons, hv2, (hf s r).1]⟩

/-! ## The neighbour loops are relax steps -/

theorem RelaxStep.same (pm : PortMapper) (adm : Route → Bool) (m : Nat) (r : Route)
    (s : DijkstraState) : RelaxStep pm adm m r s s :=
  ⟨rfl, fun _ => Or.inl ⟨rfl, rfl, rfl, rfl⟩⟩

theorem relaxStep_updateCheapest (g : Graph) (pm : PortMapper) (adm : Route → Bool)
    (m : Nat) (s : DijkstraState) (route : Route) (n : Nat)
    (hn : s.visited n = false) (hidx : pm.findIndex route.destination = some n)
    (hadm : adm route = true) :
    RelaxStep pm adm m route s (updateCheapest g pm m s route n) := by
  unfold updateCheapest
  dsimp only
  split
  · exact RelaxStep.same pm adm m route s
  · split
    · refine ⟨rfl, fun v => ?_⟩
      by_cases hv : v = n
      · subst hv
        exact Or.inr ⟨hn, by simp [setAt], hidx, by simp [setAt], hadm⟩
      · exact Or.inl ⟨by simp [setAt, hv], by simp [setAt, hv], by simp [setAt, hv],
          by simp [setAt, hv]⟩
    · exact RelaxStep.same pm adm m route s

theorem relaxStep_relaxCheapest (g : Graph) (pm : PortMapper) (m : Nat) (s : DijkstraState)
    (route : Route) :
    RelaxStep pm (fun _ => true) m route s (relaxCheapest g pm m s route) := by
  unfold relaxCheapest
  split
  · exact RelaxStep.same _ _ _ _ _
  · next n hidx =>
    split
    · exact RelaxStep.same _ _ _ _ _
    · next hv =>
      exact relaxStep_updateCheapest g pm _ m s route n (by simpa using hv) hidx rfl

theorem relaxStep_relaxCheapestPref (g : Graph) (pm : PortMapper)
    (preferences : PreferenceFilter) (m : Nat) (s : DijkstraState) (route : Route) :
    RelaxStep pm preferences.matchesRoute m route s
      (relaxCheapestPref g pm preferences m s route) := by
  unfold relaxCheapestPref
  split
  · exact RelaxStep.same _ _ _ _ _
  · next hmatch =>
    split
    · exact RelaxStep.same _ _ _ _ _
    · next n hidx =>
      split
      · exact RelaxStep.same _ _ _ _ _
      · next hv =>
        split
        · exact RelaxStep.same _ _ _ _ _
        · exact relaxStep_updateCheapest g pm _ m s route n (by simpa using hv) hidx
            (by simpa using hmatch)

theorem relaxStep_updateShortest (g : Graph) (pm : PortMapper) (adm : Route → Bool)
    (m : Nat) (s : HopState) (route : Route) (n : Nat)
    (hn : s.visited n = false) (hidx : pm.findIndex route.destination = some n)
    (hadm : adm route = true) :
    RelaxStep pm adm m route s.view (updateShortest g pm m s route n).view := by
  unfold updateShortest
  dsimp only
  split
  · exact RelaxStep.same pm adm m route _
  · split
    · refine ⟨rfl, fun v => ?_⟩
      by_cases hv : v = n
      · subst hv
        exact Or.inr ⟨hn, by simp [HopState.view, setAt], hidx,
          by simp [HopState.view, setAt], hadm⟩
      · exact Or.inl ⟨by simp [HopState.view, setAt, hv], by simp [HopState.view, setAt, hv],
          by simp [HopState.view, setAt, hv], by simp [HopState.view, setAt, hv]⟩
    · split
      · refine ⟨rfl, fun v => ?_⟩
        by_cases hv : v = n
        · subst hv
          exact Or.inr ⟨hn, by simp [HopState.view, setAt], hidx,
            by simp [HopState.view, setAt], hadm⟩
        · exact Or.inl ⟨by simp [HopState.view, setAt, hv],
            by simp [HopState.view, setAt, hv], by simp [HopState.view, setAt, hv],
            by simp [HopState.view]⟩
      · exact RelaxStep.same pm adm m route _

theorem relaxStep_relaxShortest (g : Graph) (pm : PortMapper) (m : Nat) (s : HopState)
    (route : Route) :
    RelaxStep pm (fun _ => true) m route s.view (relaxShortest g pm m s route).view := by
  unfold relaxShortest
  split
  · exact RelaxStep.same _ _ _ _ _
  · next n hidx =>
    split
    · exact RelaxStep.same _ _ _ _ _
    · next hv =>
      exact relaxStep_updateShortest g pm _ m s route n (by simpa using hv) hidx rfl

theorem relaxStep_relaxShortestPref (g : Graph) (pm : PortMapper)
    (preferences : PreferenceFilter) (m : Nat) (s : HopState) (route : Route) :
    RelaxStep pm preferences.matchesRoute m route s.view
      (relaxShortestPref g pm preferences m s route).view := by
  unfold relaxShortestPref
  split
  · exact RelaxStep.same _ _ _ _ _
  · next hmatch =>
    split
    · exact RelaxStep.same _ _ _ _ _
    · next n hidx =>
      split
      · exact RelaxStep.same _ _ _ _ _
      · next hv =>
        split
        · exact RelaxStep.same _ _ _ _ _
        · exact relaxStep_updateShortest g pm _ m s route n (by simpa using hv) hidx
            (by simpa using hmatch)

/-! ## The main loops keep the invariant -/

theorem cheapestLoop_inv (g : Graph) (pm : PortMapper) (originIdx destIdx : Nat)
    (date : String) :
    ∀ (count : Nat) (s : DijkstraState), SearchInv g pm (fun _ => true) originIdx date s →
      SearchInv g pm (fun _ => true) originIdx date
          (cheapestLoop g pm pm.getSize destIdx count s).2.2 ∧
        ((cheapestLoop g pm pm.getSize destIdx count s).1 = true →
          (cheapestLoop g pm pm.getSize destIdx count s).2.2.visited destIdx = true) := by
  intro count
  induction count with
  | zero => intro s h; exact ⟨h, by simp [cheapestLoop]⟩
  | succ k ih =>
    intro s h
    unfold cheapestLoop
    cases hsel : selectMin s.visited s.distances pm.getSize with
    | none => exact ⟨h, by simp⟩
    | some m =>
      obtain ⟨h1, ho1⟩ := searchInv_visit h hsel
      dsimp only
      by_cases hmd : m = destIdx
      · simp only [hmd, if_true]
        refine ⟨by rw [← hmd]; exact h1, fun _ => ?_⟩
        simp [setAt]
      · simp only [hmd, if_false]
        have hfold := searchInv_fold g pm (fun _ => true) originIdx m date (fun s => s) (relaxCheapest g pm m)
          (relaxStep_relaxCheapest g pm m)
          (g.getConnectingRoutes (pm.getName m) (s.arrivalDates m) (s.arrivalTimes m))
          { s with visited := setAt s.visited m true } (fun r hr => hr) h1
          (setAt_same _ _ _) ho1
        exact ih _ hfold.1

theorem cheapestPrefLoop_inv (g : Graph) (pm : PortMapper) (preferences : PreferenceFilter)
    (originIdx destIdx : Nat) (date : String) :
    ∀ (count : Nat) (s : DijkstraState),
      SearchInv g pm preferences.matchesRoute originIdx date s →
      SearchInv g pm preferences.matchesRoute originIdx date
          (cheapestPrefLoop g pm preferences pm.getSize destIdx count s).2.2 ∧
        ((cheapestPrefLoop g pm preferences pm.getSize destIdx count s).1 = true →
          (cheapestPrefLoop g pm preferences pm.getSize destIdx count s).2.2.visited destIdx
            = true) := by
  intro count
  induction count with
  | zero => intro s h; exact ⟨h, by simp [cheapestPrefLoop]⟩
  | succ k ih =>
    intro s h
    unfold cheapestPrefLoop
    cases hsel : selectMin s.visited s.distances pm.getSize with
    | none => exact ⟨h, by simp⟩
    | some m =>
      obtain ⟨h1, ho1⟩ := searchInv_visit h hsel
      dsimp only
      by_cases hmd : m = destIdx
      · simp only [hmd, if_true]
        refine ⟨by rw [← hmd]; exact h1, fun _ => ?_⟩
        simp [setAt]
      · simp only [hmd, if_false]
        have hfold := searchInv_fold g pm preferences.matchesRoute originIdx m date (fun s => s)
          (relaxCheapestPref g pm preferences m)
          (relaxStep_relaxCheapestPref g pm preferences m)
          (g.getConnectingRoutes (pm.getName m) (s.arrivalDates m) (s.arrivalTimes m))
          { s with visited := setAt s.visited m true } (fun r hr => hr) h1
          (setAt_same _ _ _) ho1
        exact ih _ hfold.1

theorem shortestLoop_inv (g : Graph) (pm : PortMapper) (originIdx destIdx : Nat)
    (date : String) :
    ∀ (fuel : Nat) (s : HopState), SearchInv g pm (fun _ => true) originIdx date s.view →
      pm.getSize < fuel + visitedCount pm.getSize s.visited →
      ∃ out, shortestLoop g pm pm.getSize destIdx fuel s = some out ∧
        SearchInv g pm (fun _ => true) originIdx date out.2.2.view ∧
        (out.1 = true → out.2.2.visited destIdx = true) := by
  intro fuel
  induction fuel with
  | zero =>
    intro s _ hfuel
    have := visitedCount_le pm.getSize s.visited
    omega
  | succ k ih =>
    intro s h hfuel
    unfold shortestLoop
    cases hsel : selectMin s.visited s.hops pm.getSize with
    | none => exact ⟨_, rfl, h, by simp⟩
    | some m =>
      have hsel2 : selectMin s.view.visited s.view.distances pm.getSize = some m := hsel
      obtain ⟨h1, ho1⟩ := searchInv_visit h hsel2
      obtain ⟨hlt, hunv, _⟩ := selectMin_some hsel
      have hcount := visitedCount_setAt hlt hunv
      dsimp only
      by_cases hmd : m = destIdx
      · simp only [hmd, if_true]
        refine ⟨_, rfl, by rw [← hmd]; exact h1, fun _ => ?_⟩
        simp [setAt]
      · simp only [hmd, if_false]
        have hfold := searchInv_fold g pm (fun _ => true) originIdx m date HopState.view (relaxShortest g pm m)
          (relaxStep_relaxShortest g pm m)
          (g.getConnectingRoutes (pm.getName m) (s.arrivalDates m) (s.arrivalTimes m))
          { s with visited := setAt s.visited m true } (fun r hr => hr) h1
          (setAt_same _ _ _) ho1
        refine ih _ hfold.1 ?_
        have hv : (List.foldl (relaxShortest g pm m)
            { s with visited := setAt s.visited m true }
            (g.getConnectingRoutes (pm.getName m) (s.arrivalDates m)
              (s.arrivalTimes m))).visited = setAt s.visited m true := hfold.2
        rw [hv, hcount]
        omega

theorem shortestPrefLoop_inv (g : Graph) (pm : PortMapper) (preferences : PreferenceFilter)
    (originIdx destIdx : Nat) (date : String) :
    ∀ (fuel : Nat) (s : HopState),
      SearchInv g pm preferences.matchesRoute originIdx date s.view →
      pm.getSize < fuel + visitedCount pm.getSize s.visited →
      ∃ out, shortestPrefLoop g pm preferences pm.getSize destIdx fuel s = some out ∧
        SearchInv g pm preferences.matchesRoute originIdx date out.2.2.view ∧
        (out.1 = true → out.2.2.visited destIdx = true) := by
  intro fuel
  induction fuel with
  | zero =>
    intro s _ hfuel
    have := visitedCount_le pm.getSize s.visited
    omega
  | succ k ih =>
    intro s h hfuel
    unfold shortestPrefLoop
    cases hsel : selectMin s.visited s.hops pm.getSize with
    | none => exact ⟨_, rfl, h, by simp⟩
    | some m =>
      have hsel2 : selectMin s.view.visited s.view.distances pm.getSize = some m := hsel
      obtain ⟨h1, ho1⟩ := searchInv_visit h hsel2
      obtain ⟨hlt, hunv, _⟩ := selectMin_some hsel
      have hcount := visitedCount_setAt hlt hunv
      dsimp only
      by_cases hmd : m = destIdx
      · simp only [hmd, if_true]
        refine ⟨_, rfl, by rw [← hmd]; exact h1, fun _ => ?_⟩
        simp [setAt]
      · simp only [hmd, if_false]
        have hfold := searchInv_fold g pm preferences.matchesRoute originIdx m date HopState.view
          (relaxShortestPref g pm preferences m)
          (relaxStep_relaxShortestPref g pm preferences m)
          (g.getConnectingRoutes (pm.getName m) (s.arrivalDates m) (s.arrivalTimes m))
          { s with visited := setAt s.visited m true } (fun r hr => hr) h1
          (setAt_same _ _ _) ho1
        refine ih _ hfold.1 ?_
        have hv : (List.foldl (relaxShortestPref g pm preferences m)
            { s with visited := setAt s.visited m true }
            (g.getConnectingRoutes (pm.getName m) (s.arrivalDates m)
              (s.arrivalTimes m))).visited = setAt s.visited m true := hfold.2
        rw [hv, hcount]
        omega

/-! ## Reconstruction of the result -/

theorem LegsAlong.length_eq {path : List String} {routes : List Route}
    (h : LegsAlong path routes) : path.length = routes.length + 1 := by
  induction h with
  | one p => rfl
  | cons _ _ _ ih => simp [ih]

theorem LegsAlong.get {path : List String} {routes : List Route}
    (h : LegsAlong path routes) :
    ∀ i leg, routes[i]? = some leg →
      path[i]? = some leg.origin ∧ path[i + 1]? = some leg.destination := by
  induction h with
  | one p => intro i leg hi; simp at hi
  | @cons p q ps r rs ho hd hrest ih =>
    intro i leg hi
    cases i with
    | zero =>
      simp at hi
      subst hi
      simp [ho, hd]
    | succ j =>
      simp at hi
      simpa using ih j leg hi

theorem buildLayovers_length (g : Graph) :
    ∀ routes : List Route, (buildLayovers g routes).length = routes.length - 1
  | [] => rfl
  | [_] => rfl
  | a :: d :: rest => by
    simp [buildLayovers, buildLayovers_length g (d :: rest)]

theorem buildLayovers_get (g : Graph) :
    ∀ (routes : List Route) (i : Nat) (a d : Route), routes[i]? = some a →
      routes[i + 1]? = some d → (buildLayovers g routes)[i]? = some (mkLayover g a d)
  | [], i, a, d, h, _ => by simp at h
  | [_], i, a, d, _, h => by simp at h
  | x :: y :: rest, 0, a, d, h1, h2 => by
    simp at h1 h2
    subst h1 h2
    simp [buildLayovers]
  | x :: y :: rest, i + 1, a, d, h1, h2 => by
    simp at h1
    have h2b : (y :: rest)[i + 1]? = some d := by simpa using h2
    simpa [buildLayovers] using buildLayovers_get g (y :: rest) i a d h1 h2b

theorem findRouteTo_some {routes : List Route} {toPort date : String} {r : Route}
    (h : findRouteTo routes toPort date = some r) :
    r ∈ routes ∧ r.destination = toPort ∧ r.date = date := by
  unfold findRouteTo at h
  have h1 := List.find?_some h
  have h2 := List.mem_of_find?_eq_some h
  simp only [Bool.and_eq_true, decide_eq_true_eq] at h1
  exact ⟨h2, h1.1, h1.2⟩

theorem findRouteTo_of_mem {routes : List Route} {toPort date : String} {r0 : Route}
    (hmem : r0 ∈ routes) (hd : r0.destination = toPort) (hdate : r0.date = date) :
    ∃ r, findRouteTo routes toPort date = some r := by
  unfold findRouteTo
  cases hf : routes.find? (fun r => decide (r.destination = toPort) && decide (r.date = date)) with
  | some r => exact ⟨r, rfl⟩
  | none =>
    have := List.find?_eq_none.mp hf r0 hmem
    simp [hd, hdate] at this

theorem reconstructRoutes_spec {g : Graph} (hwf : g.WF) {pm : PortMapper}
    {adm : Route → Bool} {originIdx : Nat} {date : String} {s : DijkstraState}
    (h : SearchInv g pm adm originIdx date s) :
    ∀ order : List Nat, order ≠ [] →
      List.Chain' (fun a b => s.parent b = some a) order →
      LegsAlong (order.map pm.getName)
          (reconstructRoutes g pm s.arrivalDates s.arrivalTimes order) ∧
        ∀ leg ∈ reconstructRoutes g pm s.arrivalDates s.arrivalTimes order,
          ∃ p v, s.parent v = some p ∧
            leg ∈ g.getConnectingRoutes (pm.getName p) (s.arrivalDates p) (s.arrivalTimes p) ∧
            leg.destination = pm.getName v ∧ leg.date = s.arrivalDates v ∧
            ∃ r0 ∈ g.getConnectingRoutes (pm.getName p) (s.arrivalDates p)
                (s.arrivalTimes p),
              adm r0 = true ∧ r0.destination = leg.destination ∧ r0.date = leg.date
  | [], hne, _ => absurd rfl hne
  | [a], _, _ => by
    simp only [List.map, reconstructRoutes]
    exact ⟨LegsAlong.one _, by simp⟩
  | a :: b :: rest, _, hch => by
    obtain ⟨hab, hrest⟩ := List.chain'_cons.mp hch
    obtain ⟨_, r0, hr0, hidx, hdate, hadm⟩ := h.parentOk b a hab
    have hname : pm.getName b = r0.destination := getName_of_findIndex hidx
    obtain ⟨leg, hleg⟩ := findRouteTo_of_mem hr0 hname.symm hdate
    obtain ⟨hmem, hdest, hlegdate⟩ := findRouteTo_some hleg
    obtain ⟨ih1, ih2⟩ := reconstructRoutes_spec hwf h (b :: rest) (by simp) hrest
    simp only [reconstructRoutes, hleg, List.map, List.singleton_append]
    refine ⟨LegsAlong.cons (origin_of_mem_getConnectingRoutes hwf hmem) hdest ih1, ?_⟩
    intro x hx
    rcases List.mem_cons.mp hx with hx | hx
    · subst hx
      exact ⟨a, b, hab, hmem, hdest, hlegdate, r0, hr0, hadm,
        by rw [hdest, hname], by rw [hlegdate, hdate]⟩
    · exact ih2 x hx

theorem reconstructResult_spec {g : Graph} (hwf : g.WF) {pm : PortMapper}
    {adm : Route → Bool} {originIdx destIdx : Nat} {date : String} {s : DijkstraState}
    (h : SearchInv g pm adm originIdx date s) (hdest : s.visited destIdx = true)
    {origin destination : String} (ho : pm.findIndex origin = some originIdx)
    (hd : pm.findIndex destination = some destIdx) (totalCost : Int) :
    ∃ res, reconstructResult g pm s.parent s.arrivalDates s.arrivalTimes destIdx totalCost
        = some res ∧
      res.found = true ∧ res.totalCost = totalCost ∧
      res.Consistent origin destination ∧
      res.layovers = buildLayovers g res.routes ∧
      res.totalTravelTime = totalTravelHours res.routes res.layovers ∧
      ∀ leg ∈ res.routes,
        ∃ p v, s.parent v = some p ∧
          leg ∈ g.getConnectingRoutes (pm.getName p) (s.arrivalDates p) (s.arrivalTimes p) ∧
          leg.destination = pm.getName v ∧ leg.date = s.arrivalDates v ∧
          ∃ r0 ∈ g.getConnectingRoutes (pm.getName p) (s.arrivalDates p) (s.arrivalTimes p),
            adm r0 = true ∧ r0.destination = leg.destination ∧ r0.date = leg.date := by
  obtain ⟨l, hc, hlen, _⟩ := h.chain destIdx hdest
  have hwalk := hc.walk pm.getSize (le_trans hlen (visitedCount_le _ _))
  have hne : l.reverse ≠ [] := by
    intro hnil
    have := hc.head_eq
    simp at hnil
    simp [hnil] at this
  have hchain : List.Chain' (fun a b => s.parent b = some a) l.reverse :=
    List.chain'_reverse.mpr hc.pairs
  obtain ⟨hlegs, hfacts⟩ := reconstructRoutes_spec hwf h l.reverse hne hchain
  have hres : reconstructResult g pm s.parent s.arrivalDates s.arrivalTimes destIdx totalCost
      = some
        { found := true
          totalCost := totalCost
          totalTravelTime :=
            totalTravelHours (reconstructRoutes g pm s.arrivalDates s.arrivalTimes l.reverse)
              (buildLayovers g
                (reconstructRoutes g pm s.arrivalDates s.arrivalTimes l.reverse))
          path := l.reverse.map pm.getName
          routes := reconstructRoutes g pm s.arrivalDates s.arrivalTimes l.reverse
          layovers := buildLayovers g
            (reconstructRoutes g pm s.arrivalDates s.arrivalTimes l.reverse) } := by
    simp only [reconstructResult, hwalk]
  refine ⟨_, hres, rfl, rfl, ?_, rfl, rfl, hfacts⟩
  refine ⟨?_, ?_, hlegs.length_eq, buildLayovers_length g _, hlegs.get, ?_⟩
  · show (l.reverse.map pm.getName).head? = some origin
    rw [List.head?_map, List.head?_reverse, hc.getLast_eq]
    simp [getName_of_findIndex ho]
  · show (l.reverse.map pm.getName).getLast? = some destination
    rw [List.getLast?_map, List.getLast?_reverse, hc.head_eq]
    simp [getName_of_findIndex hd]
  · intro i a d ha hd2
    refine ⟨_, buildLayovers_get g _ i a d ha hd2, rfl, ?_, rfl⟩
    have h1 := (hlegs.get i a ha).2
    have h2 := (hlegs.get (i + 1) d hd2).1
    rw [h1] at h2
    exact Option.some.inj h2

/-! ## The four unidirectional searches: what a found result satisfies -/

theorem found_spec_of_inv {g : Graph} (hwf : g.WF) {pm : PortMapper}
    {adm : Route → Bool} {originIdx destIdx : Nat} {date : String} (s : DijkstraState)
    (h : SearchInv g pm adm originIdx date s) (hdest : s.visited destIdx = true)
    {origin destination : String} (ho : pm.findIndex origin = some originIdx)
    (hd : pm.findIndex destination = some destIdx) (totalCost : Int) :
    ∃ res, reconstructResult g pm s.parent s.arrivalDates s.arrivalTimes destIdx totalCost
        = some res ∧
      (res.found = true → res.Consistent origin destination ∧
        res.layovers = buildLayovers g res.routes ∧
        res.totalTravelTime = totalTravelHours res.routes res.layovers ∧
        LegsAdmitted g adm res) := by
  obtain ⟨res, hres, _, _, hcons, hlay, htime, hlegs⟩ :=
    reconstructResult_spec hwf h hdest ho hd totalCost
  refine ⟨res, hres, fun _ => ⟨hcons, hlay, htime, ?_⟩⟩
  intro leg hleg
  obtain ⟨p, v, _, hmem, _, _, r0, hr0, hadm, hrd, hrdate⟩ := hlegs leg hleg
  have hlo := origin_of_mem_getConnectingRoutes hwf hmem
  have hmem2 : leg ∈ g.getRoutesFrom (pm.getName p) := (List.mem_filter.mp hmem).1
  have hr02 : r0 ∈ g.getRoutesFrom (pm.getName p) := (List.mem_filter.mp hr0).1
  rw [hlo]
  exact ⟨hmem2, r0, hr02, hadm, hrd, hrdate⟩

theorem findCheapestPath_spec {g : Graph} (hwf : g.WF) (origin destination date : String) :
    ∃ res, findCheapestPath g origin destination date = some res ∧
      (res.found = true → res.Consistent origin destination ∧
        res.layovers = buildLayovers g res.routes ∧
        res.totalTravelTime = totalTravelHours res.routes res.layovers ∧
        LegsAdmitted g (fun _ => true) res) := by
  unfold findCheapestPath
  split
  · exact ⟨_, rfl, by simp [PathResult.empty]⟩
  split
  · exact ⟨_, rfl, by simp [PathResult.empty]⟩
  dsimp only
  split
  · next originIdx destIdx ho hd =>
    obtain ⟨hinv, hvis⟩ := cheapestLoop_inv g (buildPortMapper g) originIdx destIdx date
      (buildPortMapper g).getSize (DijkstraState.init originIdx date)
      (searchInv_init g _ _ originIdx date)
    split
    · next hfound => exact found_spec_of_inv hwf _ hinv (hvis hfound) ho hd _
    · exact ⟨_, rfl, by simp [PathResult.empty]⟩
  · exact ⟨_, rfl, by simp [PathResult.empty]⟩

theorem findCheapestPathWithPreferences_spec {g : Graph} (hwf : g.WF)
    (origin destination date : String) (preferences : PreferenceFilter) :
    ∃ res, findCheapestPathWithPreferences g origin destination date preferences = some res ∧
      (res.found = true → res.Consistent origin destination ∧
        res.layovers = buildLayovers g res.routes ∧
        res.totalTravelTime = totalTravelHours res.routes res.layovers ∧
        LegsAdmitted g preferences.matchesRoute res) := by
  unfold findCheapestPathWithPreferences
  split
  · exact ⟨_, rfl, by simp [PathResult.empty]⟩
  split
  · exact ⟨_, rfl, by simp [PathResult.empty]⟩
  dsimp only
  split
  · next originIdx destIdx ho hd =>
    obtain ⟨hinv, hvis⟩ := cheapestPrefLoop_inv g (buildPortMapper g) preferences originIdx
      destIdx date (buildPortMapper g).getSize (DijkstraState.init originIdx date)
      (searchInv_init g _ _ originIdx date)
    split
    · next hfound => exact found_spec_of_inv hwf _ hinv (hvis hfound) ho hd _
    · exact ⟨_, rfl, by simp [PathResult.empty]⟩
  · exact ⟨_, rfl, by simp [PathResult.empty]⟩

theorem findShortestPath_spec {g : Graph} (hwf : g.WF) (origin destination date : String) :
    ∃ res, findShortestPath g origin destination date = some res ∧
      (res.found = true → res.Consistent origin destination ∧
        res.layovers = buildLayovers g res.routes ∧
        res.totalTravelTime = totalTravelHours res.routes res.layovers ∧
        LegsAdmitted g (fun _ => true) res) := by
  unfold findShortestPath
  split
  · exact ⟨_, rfl, by simp [PathResult.empty]⟩
  split
  · exact ⟨_, rfl, by simp [PathResult.empty]⟩
  dsimp only
  split
  · next originIdx destIdx ho hd =>
    obtain ⟨out, hout, hinv, hvis⟩ := shortestLoop_inv g (buildPortMapper g) originIdx destIdx date
      ((buildPortMapper g).getSize + 1) (HopState.init originIdx date)
      (searchInv_init g _ _ originIdx date) (by omega)
    rw [hout]
    dsimp only
    split
    · next hfound =>
      exact found_spec_of_inv hwf out.2.2.view hinv (hvis hfound) ho hd _
    · exact ⟨_, rfl, by simp [PathResult.empty]⟩
  · exact ⟨_, rfl, by simp [PathResult.empty]⟩

theorem findShortestPathWithPreferences_spec {g : Graph} (hwf : g.WF)
    (origin destination date : String) (preferences : PreferenceFilter) :
    ∃ res, findShortestPathWithPreferences g origin destination date preferences = some res ∧
      (res.found = true → res.Consistent origin destination ∧
        res.layovers = buildLayovers g res.routes ∧
        res.totalTravelTime = totalTravelHours res.routes res.layovers ∧
        LegsAdmitted g preferences.matchesRoute res) := by
  unfold findShortestPathWithPreferences
  split
  · exact ⟨_, rfl, by simp [PathResult.empty]⟩
  split
  · exact ⟨_, rfl, by simp [PathResult.empty]⟩
  dsimp only
  split
  · next originIdx destIdx ho hd =>
    obtain ⟨out, hout, hinv, hvis⟩ := shortestPrefLoop_inv g (buildPortMapper g) preferences
      originIdx destIdx date ((buildPortMapper g).getSize + 1) (HopState.init originIdx date)
      (searchInv_init g _ _ originIdx date) (by omega)
    rw [hout]
    dsimp only
    split
    · next hfound =>
      exact found_spec_of_inv hwf out.2.2.view hinv (hvis hfound) ho hd _
    · exact ⟨_, rfl, by simp [PathResult.empty]⟩
  · exact ⟨_, rfl, by simp [PathResult.empty]⟩

/-! ## C1: shape of a found result -/

/-- C1: `findCheapestPath` and `findShortestPath` always return, and a found
result starts at the origin, ends at the destination, has one port more than
legs and one layover per pair of consecutive legs; the i-th leg runs from the
i-th port to the next one, and the i-th layover is at the port shared by legs
i and i+1 with the hours of `calculateLayoverHours`. -/
theorem c1_found_result_consistent (g : Graph) (hwf : g.WF)
    (origin destination date : String) :
    (∃ res, findCheapestPath g origin destination date = some res ∧
      (res.found = true → res.Consistent origin destination)) ∧
    (∃ res, findShortestPath g origin destination date = some res ∧
      (res.found = true → res.Consistent origin destination)) := by
  obtain ⟨r1, h1, hc1⟩ := findCheapestPath_spec hwf origin destination date
  obtain ⟨r2, h2, hc2⟩ := findShortestPath_spec hwf origin destination date
  exact ⟨⟨r1, h1, fun hf => (hc1 hf).1⟩, ⟨r2, h2, fun hf => (hc2 hf).1⟩⟩

/-- C1 on the three-port chain: both searches find the way from `A` to `C`,
and the result has the stated shape. -/
theorem c1_found_result_consistent_witness :
    chainSameDay.WF ∧
    (findCheapestPath chainSameDay "A" "C" "01/05/2025").map (fun r => r.found) = some true ∧
    (findShortestPath chainSameDay "A" "C" "01/05/2025").map (fun r => r.found) = some true ∧
    ((∃ res, findCheapestPath chainSameDay "A" "C" "01/05/2025" = some res ∧
      (res.found = true → res.Consistent "A" "C")) ∧
    (∃ res, findShortestPath chainSameDay "A" "C" "01/05/2025" = some res ∧
      (res.found = true → res.Consistent "A" "C"))) :=
  ⟨wf_mkGraph _ _, by decide, by decide,
    c1_found_result_consistent chainSameDay (wf_mkGraph _ _) "A" "C" "01/05/2025"⟩

/-! ## C7: excluded ports -/

theorem matchesRoute_excluded {preferences : PreferenceFilter} {r : Route}
    (hport : preferences.hasPortPreference = true)
    (hmatch : preferences.matchesRoute r = true) :
    r.origin ∉ preferences.excludedPorts ∧ r.destination ∉ preferences.excludedPorts := by
  unfold PreferenceFilter.matchesRoute at hmatch
  split at hmatch
  · simp at hmatch
  · split at hmatch
    · simp at hmatch
    · next _ hex =>
      simp only [hport, Bool.true_and, Bool.and_eq_true, decide_eq_true_eq, List.any_eq_true,
        Bool.or_eq_true, not_and, not_exists] at hex
      constructor
      · intro hmem
        exact hex (List.length_pos_of_mem hmem) r.origin hmem (Or.inl rfl)
      · intro hmem
        exact hex (List.length_pos_of_mem hmem) r.destination hmem (Or.inr rfl)

theorem legsAdmitted_excluded {g : Graph} (hwf : g.WF) {preferences : PreferenceFilter}
    (hport : preferences.hasPortPreference = true) {res : PathResult}
    (h : LegsAdmitted g preferences.matchesRoute res) :
    ∀ leg ∈ res.routes, leg.origin ∉ preferences.excludedPorts ∧
      leg.destination ∉ preferences.excludedPorts := by
  intro leg hleg
  obtain ⟨_, r0, hr0, hadm, hd, _⟩ := h leg hleg
  have ho := origin_of_mem_getRoutesFrom hwf hr0
  have := matchesRoute_excluded hport hadm
  rw [ho, hd] at this
  exact this

/-- C7: with `hasPortPreference` set, `findCheapestPathWithPreferences` and
`findShortestPathWithPreferences` always return, and no leg of a found result
has its origin or its destination among the excluded ports. -/
theorem c7_excluded_ports_never_touched (g : Graph) (hwf : g.WF)
    (origin destination date : String) (preferences : PreferenceFilter)
    (hport : preferences.hasPortPreference = true) :
    (∃ res, findCheapestPathWithPreferences g origin destination date preferences = some res ∧
      (res.found = true → ∀ leg ∈ res.routes,
        leg.origin ∉ preferences.excludedPorts ∧
          leg.destination ∉ preferences.excludedPorts)) ∧
    (∃ res, findShortestPathWithPreferences g origin destination date preferences = some res ∧
      (res.found = true → ∀ leg ∈ res.routes,
        leg.origin ∉ preferences.excludedPorts ∧
          leg.destination ∉ preferences.excludedPorts)) := by
  obtain ⟨r1, h1, hc1⟩ :=
    findCheapestPathWithPreferences_spec hwf origin destination date preferences
  obtain ⟨r2, h2, hc2⟩ :=
    findShortestPathWithPreferences_spec hwf origin destination date preferences
  exact ⟨⟨r1, h1, fun hf => legsAdmitted_excluded hwf hport (hc1 hf).2.2.2⟩,
    ⟨r2, h2, fun hf => legsAdmitted_excluded hwf hport (hc2 hf).2.2.2⟩⟩

/-- C7 on a network whose cheap way goes through the excluded port `P`: both
searches take the detour through `Q`, and no leg touches `P`. -/
theorem c7_excluded_ports_never_touched_witness :
    detourNetwork.WF ∧ avoidP.hasPortPreference = true ∧
    (findCheapestPathWithPreferences detourNetwork "A" "C" "01/05/2025" avoidP).map
      (fun r => (r.found, r.path)) = some (true, ["A", "Q", "C"]) ∧
    (findShortestPathWithPreferences detourNetwork "A" "C" "01/05/2025" avoidP).map
      (fun r => (r.found, r.path)) = some (true, ["A", "Q", "C"]) ∧
    ((∃ res, findCheapestPathWithPreferences detourNetwork "A" "C" "01/05/2025" avoidP
        = some res ∧
      (res.found = true → ∀ leg ∈ res.routes,
        leg.origin ∉ avoidP.excludedPorts ∧ leg.destination ∉ avoidP.excludedPorts)) ∧
    (∃ res, findShortestPathWithPreferences detourNetwork "A" "C" "01/05/2025" avoidP
        = some res ∧
      (res.found = true → ∀ leg ∈ res.routes,
        leg.origin ∉ avoidP.excludedPorts ∧ leg.destination ∉ avoidP.excludedPorts))) :=
  ⟨wf_mkGraph _ _, rfl, by decide, by decide,
    c7_excluded_ports_never_touched detourNetwork (wf_mkGraph _ _) "A" "C" "01/05/2025"
      avoidP rfl⟩

/-! ## C2, C3, C6: the legs of the result are looked up again by destination and date -/

/-- C2 at `twoFares`: the search relaxes `B` through the fare-80 leg and
reports `totalCost = 80`, but the reconstruction returns the first leg to `B`
on that date, the fare-100 one; the fares and port charges of the result sum
to 100. -/
theorem c2_total_cost_differs_from_legs :
    (findCheapestPath twoFares "A" "B" "01/05/2025").map
      (fun r => (r.found, r.totalCost,
        (r.routes.map (fun x => x.cost)).sum + (r.layovers.map (fun l => l.portCharge)).sum,
        r.routes.map (fun x => (x.departureTime, x.cost))))
      = some (true, 80, 100, [("08:00", 100)]) := by
  decide

/-- C3 at `earlyAndLate`: the result is the leg `A → B` arriving at 20:00
followed by the leg `B → C` of the same date leaving at 12:00, which is before
that arrival. -/
theorem c3_leg_departs_before_arrival :
    (findCheapestPath earlyAndLate "A" "C" "01/05/2025").map
      (fun r => (r.found, r.routes.map (fun x => (x.date, x.departureTime, x.arrivalTime))))
      = some (true, [("01/05/2025", "08:00", "20:00"), ("01/05/2025", "12:00", "15:00")]) ∧
    isTimeBefore "12:00" "20:00" = true := by
  decide

/-- C6 at `twoCarriers` with whitelist `{X}`: both searches with preferences
relax `B` through the leg of carrier `X` (total cost 100) and return the leg
of carrier `Y`, fare 80. -/
theorem c6_returned_leg_not_whitelisted :
    (findCheapestPathWithPreferences twoCarriers "A" "B" "01/05/2025" onlyX).map
      (fun r => (r.found, r.totalCost, r.routes.map (fun x => (x.shippingCompany, x.cost))))
      = some (true, 100, [("Y", 80)]) ∧
    (findShortestPathWithPreferences twoCarriers "A" "B" "01/05/2025" onlyX).map
      (fun r => (r.found, r.totalCost, r.routes.map (fun x => (x.shippingCompany, x.cost))))
      = some (true, 100, [("Y", 80)]) ∧
    "Y" ∉ onlyX.preferredCompanies := by
  decide

/-! ## C4: the number of charged days -/

/-- C4 at `layover25`: the three searches report a layover of 25 hours at `B`
(daily charge 40) with port charge 40, one day, where two started days give
80. -/
theorem c4_port_charge_of_25_hours :
    (findCheapestPath layover25 "A" "C" "01/05/2025").map
      (fun r => r.layovers.map (fun l => (l.portName, l.layoverHours, l.portCharge)))
      = some [("B", 25, 40)] ∧
    (findShortestPath layover25 "A" "C" "01/05/2025").map
      (fun r => r.layovers.map (fun l => (l.portName, l.layoverHours, l.portCharge)))
      = some [("B", 25, 40)] ∧
    (findCheapestPathBidirectional layover25 "A" "C" "01/05/2025").map
      (fun r => r.layovers.map (fun l => (l.portName, l.layoverHours, l.portCharge)))
      = some [("B", 25, 40)] ∧
    Int.tdiv (25 + 11) 24 = 1 ∧ Int.tdiv (25 + 23) 24 = 2 := by
  decide

/-! ## C9: the two cost searches -/

/-- C9 at `cheapViaB`: `findCheapestPath` returns the way through `B` of total
cost 2, `findCheapestPathBidirectional` stops at its first meeting point and
returns the direct leg of total cost 100. -/
theorem c9_bidirectional_total_differs :
    (findCheapestPath cheapViaB "A" "C" "01/05/2025").map
      (fun r => (r.found, r.totalCost, r.path)) = some (true, 2, ["A", "B", "C"]) ∧
    (findCheapestPathBidirectional cheapViaB "A" "C" "01/05/2025").map
      (fun r => (r.found, r.totalCost, r.path)) = some (true, 100, ["A", "C"]) := by
  decide

/-! ## C8: the cost search against the enumerated paths -/

/-- C8 fails at `lateCheapArrival`: `findAllPaths` returns `[A, B, C]`, whose
two legs are in the graph on the query date, connect in time and cost 55 with
the cost model (and with `calculatePathCost`), while `findCheapestPath`
returns a found result of total cost 100. -/
theorem c8_counterexample :
    ["A", "B", "C"] ∈ findAllPaths lateCheapArrival "A" "C" "01/05/2025" ∧
    (⟨"A", "B", "01/05/2025", "06:00", "08:00", 50, "X"⟩ : Route)
      ∈ lateCheapArrival.getRoutesFromOnDate "A" "01/05/2025" ∧
    (⟨"B", "C", "01/05/2025", "10:00", "12:00", 5, "X"⟩ : Route)
      ∈ lateCheapArrival.getConnectingRoutes "B" "01/05/2025" "08:00" ∧
    legsCost lateCheapArrival
      [⟨"A", "B", "01/05/2025", "06:00", "08:00", 50, "X"⟩,
       ⟨"B", "C", "01/05/2025", "10:00", "12:00", 5, "X"⟩] = 55 ∧
    calculatePathCost lateCheapArrival "01/05/2025" ["A", "B", "C"] 0 = 55 ∧
    (findCheapestPath lateCheapArrival "A" "C" "01/05/2025").map
      (fun r => (r.found, r.totalCost)) = some (true, 100) ∧
    ¬ ((100 : Int) ≤ 55) := by
  decide

theorem updateCheapest_distances_le (g : Graph) (pm : PortMapper) (m : Nat)
    (s : DijkstraState) (route : Route) (n v : Nat) :
    (updateCheapest g pm m s route n).distances v ≤ s.distances v := by
  unfold updateCheapest
  dsimp only
  split
  · exact le_refl _
  · split
    · next hlt =>
      show setAt s.distances n _ v ≤ s.distances v
      by_cases hv : v = n
      · subst hv
        rw [setAt_same]
        exact le_of_lt hlt
      · rw [setAt_other _ _ hv]
    · exact le_refl _

theorem relaxCheapest_distances_le (g : Graph) (pm : PortMapper) (m : Nat)
    (s : DijkstraState) (route : Route) (v : Nat) :
    (relaxCheapest g pm m s route).distances v ≤ s.distances v := by
  unfold relaxCheapest
  split
  · exact le_refl _
  · split
    · exact le_refl _
    · exact updateCheapest_distances_le g pm m s route _ v

theorem foldl_relaxCheapest_distances_le (g : Graph) (pm : PortMapper) (m v : Nat) :
    ∀ (l : List Route) (s : DijkstraState),
      (l.foldl (relaxCheapest g pm m) s).distances v ≤ s.distances v := by
  intro l
  induction l with
  | nil => intro s; exact le_refl _
  | cons r rs ih =>
    intro s
    exact le_trans (ih _) (relaxCheapest_distances_le g pm m s r v)

theorem portChargeFor_zero (g : Graph) (portName : String) : portChargeFor g portName 0 = 0 := by
  simp [portChargeFor]

theorem relaxCheapest_direct (g : Graph) (pm : PortMapper) (m destIdx : Nat)
    (s : DijkstraState) (route : Route) (hv : s.visited destIdx = false)
    (hidx : pm.findIndex route.destination = some destIdx) (hpar : s.parent m = none) :
    (relaxCheapest g pm m s route).distances destIdx ≤ intAdd (s.distances m) route.cost := by
  unfold relaxCheapest
  simp only [hidx, hv]
  unfold updateCheapest
  simp only [previousRouteOf, hpar, portChargeFor_zero, intAdd_zero_right]
  simp only [Bool.not_true, Bool.false_eq_true, if_false]
  split
  · simp [setAt]
  · next hnot => exact not_lt.mp hnot

theorem foldl_relaxCheapest_direct (g : Graph) (pm : PortMapper) (m destIdx : Nat)
    (route : Route) (hidx : pm.findIndex route.destination = some destIdx) :
    ∀ (l : List Route) (s : DijkstraState), s.visited m = true → s.visited destIdx = false →
      s.parent m = none →
      (s.distances destIdx ≤ intAdd (s.distances m) route.cost ∨ route ∈ l) →
      (l.foldl (relaxCheapest g pm m) s).distances destIdx ≤
        intAdd (s.distances m) route.cost := by
  intro l
  induction l with
  | nil =>
    intro s _ _ _ h
    rcases h with h | h
    · exact h
    · simp at h
  | cons x xs ih =>
    intro s hm hd hpar h
    obtain ⟨hvis, hall⟩ := relaxStep_relaxCheapest g pm m s x
    have hkeep : (relaxCheapest g pm m s x).parent m = s.parent m ∧
        (relaxCheapest g pm m s x).distances m = s.distances m := by
      rcases hall m with h1 | h2
      · exact ⟨h1.1, h1.2.2.2⟩
      · rw [hm] at h2
        exact absurd h2.1 (by simp)
    have hstep := ih (relaxCheapest g pm m s x) (by rw [hvis]; exact hm)
      (by rw [hvis]; exact hd) (by rw [hkeep.1]; exact hpar)
    rw [hkeep.2] at hstep
    simp only [List.foldl_cons]
    apply hstep
    rcases h with h | h
    · exact Or.inl (le_trans (relaxCheapest_distances_le g pm m s x destIdx) h)
    · rcases List.mem_cons.mp h with h | h
      · subst h
        exact Or.inl (relaxCheapest_direct g pm m destIdx s route hd hidx hpar)
      · exact Or.inr h

theorem digit_bounds (c : Char) (h : c.isDigit = true) : 48 ≤ c.toNat ∧ c.toNat ≤ 57 := by
  unfold Char.isDigit at h
  simp only [Bool.and_eq_true, decide_eq_true_eq] at h
  exact h

theorem char_zero_of_toNat (c : Char) (h : c.toNat = 48) : c = '0' := by
  rw [← Char.ofNat_toNat c, h]

theorem clock_after_midnight (t : String) (h : isClockTime t = true) :
    isTimeBefore "00:00" t = true ∨ "00:00" = t := by
  obtain ⟨data⟩ := t
  unfold isClockTime at h
  dsimp only at h
  split at h
  · next _ a b c d e =>
    simp only [Bool.and_eq_true, beq_iff_eq] at h
    obtain ⟨⟨⟨⟨ha, hb⟩, hc⟩, hd⟩, he⟩ := h
    have ha2 := digit_bounds a ha
    have hb2 := digit_bounds b hb
    have hd2 := digit_bounds d hd
    have he2 := digit_bounds e he
    subst hc
    have h00a : twoDigits "00:00" 0 = 0 := by decide
    have h00b : twoDigits "00:00" 3 = 0 := by decide
    have hh : twoDigits ⟨[a, b, ':', d, e]⟩ 0 =
        ((a.toNat : Int) - 48) * 10 + ((b.toNat : Int) - 48) := by
      simp [twoDigits, digitAt]
    have hm : twoDigits ⟨[a, b, ':', d, e]⟩ 3 =
        ((d.toNat : Int) - 48) * 10 + ((e.toNat : Int) - 48) := by
      simp [twoDigits, digitAt]
    by_cases hall : a.toNat = 48 ∧ b.toNat = 48 ∧ d.toNat = 48 ∧ e.toNat = 48
    · right
      obtain ⟨h1, h2, h3, h4⟩ := hall
      rw [char_zero_of_toNat a h1, char_zero_of_toNat b h2, char_zero_of_toNat d h3,
        char_zero_of_toNat e h4]
    · left
      unfold isTimeBefore
      simp only [h00a, h00b, hh, hm]
      by_cases h1 : (0 : Int) < ((a.toNat : Int) - 48) * 10 + ((b.toNat : Int) - 48)
      · simp [h1]
      · have h2 : ¬ ((0 : Int) > ((a.toNat : Int) - 48) * 10 + ((b.toNat : Int) - 48)) := by
          omega
        have h3 : (0 : Int) < ((d.toNat : Int) - 48) * 10 + ((e.toNat : Int) - 48) := by
          omega
        simp [h1, h2, h3]
  · simp at h

theorem mem_connecting_of_onDate {g : Graph} {origin date : String} {r : Route}
    (hr : r ∈ g.getRoutesFromOnDate origin date) (htime : isClockTime r.departureTime = true) :
    r ∈ g.getConnectingRoutes origin date "00:00" := by
  unfold Graph.getRoutesFromOnDate at hr
  obtain ⟨hmem, hdate⟩ := List.mem_filter.mp hr
  simp only [decide_eq_true_eq] at hdate
  refine List.mem_filter.mpr ⟨hmem, ?_⟩
  unfold connectsAfter
  split
  · rfl
  · simp only [hdate, if_true, Bool.or_eq_true, decide_eq_true_eq]
    exact clock_after_midnight _ htime

theorem cheapestLoop_direct_bound (g : Graph) (pm : PortMapper) (originIdx destIdx : Nat)
    (date : String) (route : Route) (hne : originIdx ≠ destIdx)
    (hidx : pm.findIndex route.destination = some destIdx)
    (hroute : route ∈ g.getConnectingRoutes (pm.getName originIdx) date "00:00") :
    ∀ (count : Nat) (s : DijkstraState), SearchInv g pm (fun _ => true) originIdx date s →
      (s.visited originIdx = true → s.distances destIdx ≤ route.cost) →
      (cheapestLoop g pm pm.getSize destIdx count s).1 = true →
      (cheapestLoop g pm pm.getSize destIdx count s).2.1 ≤ route.cost := by
  intro count
  induction count with
  | zero => intro s _ _ hf; simp [cheapestLoop] at hf
  | succ k ih =>
    intro s h hbound
    unfold cheapestLoop
    cases hsel : selectMin s.visited s.distances pm.getSize with
    | none => intro hf; simp at hf
    | some m =>
      obtain ⟨h1, ho1⟩ := searchInv_visit h hsel
      obtain ⟨_, _, hkey⟩ := selectMin_some hsel
      dsimp only
      by_cases hmd : m = destIdx
      · simp only [hmd, if_true]
        intro _
        subst hmd
        obtain ⟨p, hp⟩ := h.reached m (fun e => hne e.symm) hkey
        exact hbound (searchInv_origin_visited h (h.parentOk m p hp).1)
      · simp only [hmd, if_false]
        have hfold := searchInv_fold g pm (fun _ => true) originIdx m date (fun s => s)
          (relaxCheapest g pm m) (relaxStep_relaxCheapest g pm m)
          (g.getConnectingRoutes (pm.getName m) (s.arrivalDates m) (s.arrivalTimes m))
          { s with visited := setAt s.visited m true } (fun r hr => hr) h1
          (setAt_same _ _ _) ho1
        refine ih _ hfold.1 (fun _ => ?_)
        by_cases hov : s.visited originIdx = true
        · exact le_trans (foldl_relaxCheapest_distances_le g pm m destIdx _ _) (hbound hov)
        · have hmo : m = originIdx := by
            by_contra hmo
            have : setAt s.visited m true originIdx = s.visited originIdx :=
              setAt_other _ _ (fun e => hmo e.symm)
            rw [this] at ho1
            exact hov ho1
          subst hmo
          have hdv : s.visited destIdx = false := by
            cases hdv : s.visited destIdx with
            | false => rfl
            | true => exact absurd (searchInv_origin_visited h hdv) hov
          have hres := foldl_relaxCheapest_direct g pm m destIdx route hidx
            (g.getConnectingRoutes (pm.getName m) (s.arrivalDates m) (s.arrivalTimes m))
            { s with visited := setAt s.visited m true } (setAt_same _ _ _)
            (by show setAt s.visited m true destIdx = false
                rw [setAt_other _ _ (fun e => hmd e.symm)]; exact hdv)
            h.rootless
            (Or.inr (by rw [h.originDate, h.originTime]; exact hroute))
          have hzero : s.distances m = 0 := h.originKey
          simpa [hzero, intAdd_zero_left] using hres

/-- C8 as amended: for distinct origin and destination, a found result of
`findCheapestPath` costs no more than the fare of any leg that goes from the
origin straight to the destination on the query date (the one-hop paths of
`findAllPaths`). -/
theorem c8_cheapest_at_most_direct_leg (g : Graph) (hwf : g.WF)
    (origin destination date : String) (hne : origin ≠ destination) (leg : Route)
    (hleg : leg ∈ g.getRoutesFromOnDate origin date) (hdest : leg.destination = destination)
    (htime : isClockTime leg.departureTime = true) :
    ∃ res, findCheapestPath g origin destination date = some res ∧
      (res.found = true → res.totalCost ≤ leg.cost) := by
  have hconn := mem_connecting_of_onDate hleg htime
  unfold findCheapestPath
  split
  · exact ⟨_, rfl, by simp [PathResult.empty]⟩
  split
  · exact ⟨_, rfl, by simp [PathResult.empty]⟩
  dsimp only
  split
  · next originIdx destIdx ho hd =>
    have hidxne : originIdx ≠ destIdx := by
      intro e
      apply hne
      rw [← getName_of_findIndex ho, ← getName_of_findIndex hd, e]
    obtain ⟨hinv, hvis⟩ := cheapestLoop_inv g (buildPortMapper g) originIdx destIdx date
      (buildPortMapper g).getSize (DijkstraState.init originIdx date)
      (searchInv_init g _ _ originIdx date)
    have hbound := cheapestLoop_direct_bound g (buildPortMapper g) originIdx destIdx date leg
      hidxne (by rw [hdest]; exact hd) (by rw [getName_of_findIndex ho]; exact hconn)
      (buildPortMapper g).getSize (DijkstraState.init originIdx date)
      (searchInv_init g _ _ originIdx date) (by simp [DijkstraState.init])
    split
    · next hfound =>
      obtain ⟨res, hres, _, hcost, _⟩ :=
        reconstructResult_spec hwf hinv (hvis hfound) ho hd
          (cheapestLoop g (buildPortMapper g) (buildPortMapper g).getSize destIdx
            (buildPortMapper g).getSize (DijkstraState.init originIdx date)).2.1
      exact ⟨res, hres, fun _ => by rw [hcost]; exact hbound hfound⟩
    · exact ⟨_, rfl, by simp [PathResult.empty]⟩
  · exact ⟨_, rfl, by simp [PathResult.empty]⟩

/-- C8 as amended, on `lateCheapArrival`: the found result from `A` to `C`
costs 100, the fare of the direct leg. -/
theorem c8_cheapest_at_most_direct_leg_witness :
    lateCheapArrival.WF ∧ "A" ≠ "C" ∧
    (⟨"A", "C", "01/05/2025", "06:00", "16:00", 100, "X"⟩ : Route)
      ∈ lateCheapArrival.getRoutesFromOnDate "A" "01/05/2025" ∧
    isClockTime "06:00" = true ∧
    (findCheapestPath lateCheapArrival "A" "C" "01/05/2025").map (fun r => r.found)
      = some true ∧
    ∃ res, findCheapestPath lateCheapArrival "A" "C" "01/05/2025" = some res ∧
      (res.found = true → res.totalCost ≤ 100) :=
  ⟨wf_mkGraph _ _, by decide, by decide, by decide, by decide,
    c8_cheapest_at_most_direct_leg lateCheapArrival (wf_mkGraph _ _) "A" "C" "01/05/2025"
      (by decide) ⟨"A", "C", "01/05/2025", "06:00", "16:00", 100, "X"⟩ (by decide) rfl
      (by decide)⟩

/-! ## C10: hop counts -/

theorem updateShortest_effect (g : Graph) (pm : PortMapper) (m : Nat) (s : HopState)
    (route : Route) (n : Nat) :
    (updateShortest g pm m s route n).visited = s.visited ∧
    ((updateShortest g pm m s route n).hops = s.hops ∧
        (updateShortest g pm m s route n).parent = s.parent ∨
      ((updateShortest g pm m s route n).hops n = s.hops m + 1 ∧
        (updateShortest g pm m s route n).parent n = some m ∧ s.hops m + 1 ≤ s.hops n ∧
        ∀ v, v ≠ n → (updateShortest g pm m s route n).hops v = s.hops v ∧
          (updateShortest g pm m s route n).parent v = s.parent v)) ∧
    (s.parent m = none → s.hops m + 1 < s.hops n →
      (updateShortest g pm m s route n).hops n = s.hops m + 1 ∧
        (updateShortest g pm m s route n).parent n = some m) := by
  unfold updateShortest
  dsimp only
  refine ⟨?_, ?_, ?_⟩
  · split
    · rfl
    · split
      · rfl
      · split <;> rfl
  · split
    · exact Or.inl ⟨rfl, rfl⟩
    · split
      · next hlt =>
        refine Or.inr ⟨by simp [setAt], by simp [setAt], le_of_lt hlt, fun v hv => ?_⟩
        simp [setAt, hv]
      · split
        · next htie =>
          refine Or.inr ⟨by simp [htie.1], by simp [setAt], le_of_eq htie.1, fun v hv => ?_⟩
          simp [setAt, hv]
        · exact Or.inl ⟨rfl, rfl⟩
  · intro hpar hlt
    simp only [previousRouteOf, hpar]
    simp only [Bool.not_true, Bool.false_eq_true, if_false, hlt, if_true]
    simp [setAt]

theorem relaxShortest_effect (g : Graph) (pm : PortMapper) (m : Nat) (s : HopState)
    (route : Route) :
    (relaxShortest g pm m s route).visited = s.visited ∧
    (((relaxShortest g pm m s route).hops = s.hops ∧
        (relaxShortest g pm m s route).parent = s.parent) ∨
      ∃ n, s.visited n = false ∧ pm.findIndex route.destination = some n ∧
        (relaxShortest g pm m s route).hops n = s.hops m + 1 ∧
        (relaxShortest g pm m s route).parent n = some m ∧ s.hops m + 1 ≤ s.hops n ∧
        ∀ v, v ≠ n → (relaxShortest g pm m s route).hops v = s.hops v ∧
          (relaxShortest g pm m s route).parent v = s.parent v) := by
  unfold relaxShortest
  split
  · exact ⟨rfl, Or.inl ⟨rfl, rfl⟩⟩
  · next n hidx =>
    split
    · exact ⟨rfl, Or.inl ⟨rfl, rfl⟩⟩
    · next hv =>
      obtain ⟨h1, h2, _⟩ := updateShortest_effect g pm m s route n
      refine ⟨h1, ?_⟩
      rcases h2 with h2 | h2
      · exact Or.inl h2
      · exact Or.inr ⟨n, by simpa using hv, hidx, h2⟩

theorem relaxShortest_forced (g : Graph) (pm : PortMapper) (m n : Nat) (s : HopState)
    (route : Route) (hidx : pm.findIndex route.destination = some n)
    (hv : s.visited n = false) (hpar : s.parent m = none) (hlt : s.hops m + 1 < s.hops n) :
    (relaxShortest g pm m s route).hops n = s.hops m + 1 ∧
      (relaxShortest g pm m s route).parent n = some m := by
  unfold relaxShortest
  simp only [hidx, hv]
  exact (updateShortest_effect g pm m s route n).2.2 hpar hlt

theorem foldl_relaxShortest_keep (g : Graph) (pm : PortMapper) (m originIdx destIdx : Nat) :
    ∀ (l : List Route) (s : HopState), s.visited m = true → 1 ≤ s.hops m →
      (∀ v, v ≠ originIdx → 1 ≤ s.hops v) → s.parent destIdx = some originIdx →
      s.hops destIdx = 1 →
      (∀ v, v ≠ originIdx → 1 ≤ (l.foldl (relaxShortest g pm m) s).hops v) ∧
        (l.foldl (relaxShortest g pm m) s).parent destIdx = some originIdx ∧
        (l.foldl (relaxShortest g pm m) s).hops destIdx = 1 := by
  intro l
  induction l with
  | nil => intro s _ _ h1 h2 h3; exact ⟨h1, h2, h3⟩
  | cons x xs ih =>
    intro s hm hhm h1 h2 h3
    obtain ⟨hvis, heff⟩ := relaxShortest_effect g pm m s x
    simp only [List.foldl_cons]
    rcases heff with ⟨hh, hp⟩ | ⟨n, hn, _, hhn, hpn, hle, hrest⟩
    · exact ih _ (by rw [hvis]; exact hm) (by rw [hh]; exact hhm) (by rw [hh]; exact h1)
        (by rw [hp]; exact h2) (by rw [hh]; exact h3)
    · have hnm : m ≠ n := by
        intro e
        rw [e, hn] at hm
        exact absurd hm (by simp)
      have hnd : destIdx ≠ n := by
        intro e
        rw [← e, h3] at hle
        omega
      refine ih _ (by rw [hvis]; exact hm) (by rw [(hrest m hnm).1]; exact hhm) ?_
        (by rw [(hrest destIdx hnd).2]; exact h2) (by rw [(hrest destIdx hnd).1]; exact h3)
      intro v hv
      by_cases hvn : v = n
      · rw [hvn, hhn]
        omega
      · rw [(hrest v hvn).1]
        exact h1 v hv

theorem foldl_relaxShortest_first (g : Graph) (pm : PortMapper) (m destIdx : Nat)
    (route : Route) (hne : destIdx ≠ m)
    (hidx : pm.findIndex route.destination = some destIdx) :
    ∀ (l : List Route) (s : HopState), s.visited m = true → s.visited destIdx = false →
      s.parent m = none → s.hops m = 0 →
      (∀ v, v ≠ m → s.hops v = INT_MAX ∨ (s.hops v = 1 ∧ s.parent v = some m)) →
      ((s.hops destIdx = 1 ∧ s.parent destIdx = some m) ∨ route ∈ l) →
      (∀ v, v ≠ m → 1 ≤ (l.foldl (relaxShortest g pm m) s).hops v) ∧
        (l.foldl (relaxShortest g pm m) s).parent destIdx = some m ∧
        (l.foldl (relaxShortest g pm m) s).hops destIdx = 1 := by
  intro l
  induction l with
  | nil =>
    intro s _ _ _ _ hP hQ
    rcases hQ with hQ | hQ
    · refine ⟨fun v hv => ?_, hQ.2, hQ.1⟩
      show 1 ≤ s.hops v
      rcases hP v hv with h | h
      · rw [h]; decide
      · rw [h.1]
    · simp at hQ
  | cons x xs ih =>
    intro s hm hd hpar hzero hP hQ
    obtain ⟨hvis, heff⟩ := relaxShortest_effect g pm m s x
    simp only [List.foldl_cons]
    have hkeep : (relaxShortest g pm m s x).parent m = s.parent m ∧
        (relaxShortest g pm m s x).hops m = s.hops m := by
      rcases heff with ⟨hh, hp⟩ | ⟨n, hn, _, _, _, _, hrest⟩
      · rw [hh, hp]; exact ⟨rfl, rfl⟩
      · have hnm : m ≠ n := by
          intro e
          rw [e, hn] at hm
          exact absurd hm (by simp)
        exact ⟨(hrest m hnm).2, (hrest m hnm).1⟩
    have hP2 : ∀ v, v ≠ m → (relaxShortest g pm m s x).hops v = INT_MAX ∨
        ((relaxShortest g pm m s x).hops v = 1 ∧
          (relaxShortest g pm m s x).parent v = some m) := by
      intro v hv
      rcases heff with ⟨hh, hp⟩ | ⟨n, _, _, hhn, hpn, _, hrest⟩
      · rw [hh, hp]; exact hP v hv
      · by_cases hvn : v = n
        · rw [hvn]
          exact Or.inr ⟨by rw [hhn, hzero]; rfl, hpn⟩
        · rw [(hrest v hvn).1, (hrest v hvn).2]
          exact hP v hv
    have hQkeep : (s.hops destIdx = 1 ∧ s.parent destIdx = some m) →
        (relaxShortest g pm m s x).hops destIdx = 1 ∧
          (relaxShortest g pm m s x).parent destIdx = some m := by
      intro hq
      rcases heff with ⟨hh, hp⟩ | ⟨n, _, _, hhn, hpn, _, hrest⟩
      · rw [hh, hp]; exact hq
      · by_cases hdn : destIdx = n
        · rw [hdn]
          exact ⟨by rw [hhn, hzero]; rfl, hpn⟩
        · rw [(hrest destIdx hdn).1, (hrest destIdx hdn).2]
          exact hq
    refine ih _ (by rw [hvis]; exact hm) (by rw [hvis]; exact hd) (by rw [hkeep.1]; exact hpar)
      (by rw [hkeep.2]; exact hzero) hP2 ?_
    rcases hQ with hQ | hQ
    · exact Or.inl (hQkeep hQ)
    · rcases List.mem_cons.mp hQ with hQ | hQ
      · subst hQ
        left
        rcases hP destIdx hne with h | h
        · have := relaxShortest_forced g pm m destIdx s route hidx hd hpar
            (by rw [hzero, h]; decide)
          rw [hzero] at this
          exact ⟨by rw [this.1]; rfl, this.2⟩
        · exact hQkeep h
      · exact Or.inr hQ

theorem shortestLoop_direct (g : Graph) (pm : PortMapper) (originIdx destIdx : Nat)
    (date : String) (route : Route) (hne : originIdx ≠ destIdx)
    (hidx : pm.findIndex route.destination = some destIdx)
    (hroute : route ∈ g.getConnectingRoutes (pm.getName originIdx) date "00:00") :
    ∀ (fuel : Nat) (s : HopState) (out : Bool × Int × HopState),
      SearchInv g pm (fun _ => true) originIdx date s.view →
      (∀ v, v ≠ originIdx → 1 ≤ s.hops v) →
      (s.visited originIdx = false → ∀ v, v ≠ originIdx → s.hops v = INT_MAX) →
      (s.visited originIdx = true → s.parent destIdx = some originIdx ∧ s.hops destIdx = 1) →
      shortestLoop g pm pm.getSize destIdx fuel s = some out → out.1 = true →
      out.2.2.parent destIdx = some originIdx ∧ out.2.2.parent originIdx = none := by
  intro fuel
  induction fuel with
  | zero => intro s out _ _ _ _ hout; simp [shortestLoop] at hout
  | succ k ih =>
    intro s out h hpos hinit hdone hout hfound
    unfold shortestLoop at hout
    cases hsel : selectMin s.visited s.hops pm.getSize with
    | none =>
      simp only [hsel, Option.some.injEq] at hout
      rw [← hout] at hfound
      simp at hfound
    | some m =>
      have hsel2 : selectMin s.view.visited s.view.distances pm.getSize = some m := hsel
      obtain ⟨h1, ho0⟩ := searchInv_visit h hsel2
      have ho1 : setAt s.visited m true originIdx = true := ho0
      obtain ⟨_, hunv, hkey⟩ := selectMin_some hsel
      simp only [hsel] at hout
      by_cases hmd : m = destIdx
      · simp only [hmd, if_true, Option.some.injEq] at hout
        subst hmd
        obtain ⟨p, hp⟩ := h.reached m (fun e => hne e.symm) hkey
        have hov := searchInv_origin_visited h (h.parentOk m p hp).1
        rw [← hout]
        exact ⟨(hdone hov).1, h.rootless⟩
      · simp only [hmd, if_false] at hout
        have hfold := searchInv_fold g pm (fun _ => true) originIdx m date HopState.view
          (relaxShortest g pm m) (relaxStep_relaxShortest g pm m)
          (g.getConnectingRoutes (pm.getName m) (s.arrivalDates m) (s.arrivalTimes m))
          { s with visited := setAt s.visited m true } (fun r hr => hr) h1
          (setAt_same _ _ _) ho1
        have hvisF : (List.foldl (relaxShortest g pm m)
            { s with visited := setAt s.visited m true }
            (g.getConnectingRoutes (pm.getName m) (s.arrivalDates m)
              (s.arrivalTimes m))).visited originIdx = true := by
          have := congrFun hfold.2 originIdx
          exact this.trans ho1
        by_cases hov : s.visited originIdx = true
        · have hmo : m ≠ originIdx := by
            intro e
            rw [e, hov] at hunv
            exact absurd hunv (by simp)
          obtain ⟨hparent, hhops⟩ := hdone hov
          obtain ⟨k1, k2, k3⟩ := foldl_relaxShortest_keep g pm m originIdx destIdx
            (g.getConnectingRoutes (pm.getName m) (s.arrivalDates m) (s.arrivalTimes m))
            { s with visited := setAt s.visited m true } (setAt_same _ _ _) (hpos m hmo)
            hpos hparent hhops
          exact ih _ out hfold.1 k1 (fun hf => absurd hvisF (by rw [hf]; simp))
            (fun _ => ⟨k2, k3⟩) hout hfound
        · have hov2 : s.visited originIdx = false := by
            cases hc : s.visited originIdx with
            | false => rfl
            | true => exact absurd hc hov
          have hmo : m = originIdx := by
            by_contra hmo
            have : setAt s.visited m true originIdx = s.visited originIdx :=
              setAt_other _ _ (fun e => hmo e.symm)
            rw [this] at ho1
            exact hov ho1
          subst hmo
          have hdv : s.visited destIdx = false := by
            cases hdv : s.visited destIdx with
            | false => rfl
            | true => exact absurd (searchInv_origin_visited h hdv) hov
          obtain ⟨k1, k2, k3⟩ := foldl_relaxShortest_first g pm m destIdx route
            (fun e => hmd e.symm) hidx
            (g.getConnectingRoutes (pm.getName m) (s.arrivalDates m) (s.arrivalTimes m))
            { s with visited := setAt s.visited m true } (setAt_same _ _ _)
            (by show setAt s.visited m true destIdx = false
                rw [setAt_other _ _ (fun e => hmd e.symm)]; exact hdv)
            h.rootless h.originKey (fun v hv => Or.inl (hinit hov2 v hv))
            (Or.inr (by
              have hd := h.originDate
              have ht := h.originTime
              show route ∈ g.getConnectingRoutes (pm.getName m) (s.arrivalDates m)
                (s.arrivalTimes m)
              rw [show s.arrivalDates m = date from hd, show s.arrivalTimes m = "00:00" from ht]
              exact hroute))
          exact ih _ out hfold.1 k1 (fun hf => absurd hvisF (by rw [hf]; simp))
            (fun _ => ⟨k2, k3⟩) hout hfound

theorem reconstructRoutes_pair_length (g : Graph) (pm : PortMapper)
    (arrivalDates arrivalTimes : Nat → String) (a b : Nat) :
    (reconstructRoutes g pm arrivalDates arrivalTimes [a, b]).length ≤ 1 := by
  simp only [reconstructRoutes]
  split <;> simp

theorem findShortestPath_direct {g : Graph} (origin destination date : String)
    (hne : origin ≠ destination) (route : Route)
    (hroute : route ∈ g.getConnectingRoutes origin date "00:00")
    (hdest : route.destination = destination) (res : PathResult)
    (hres : findShortestPath g origin destination date = some res) (hfound : res.found = true) :
    res.routes.length ≤ 1 := by
  unfold findShortestPath at hres
  split at hres
  · cases hres; simp [PathResult.empty] at hfound
  split at hres
  · cases hres; simp [PathResult.empty] at hfound
  dsimp only at hres
  split at hres
  · next originIdx destIdx ho hd =>
    have hidxne : originIdx ≠ destIdx := by
      intro e
      apply hne
      rw [← getName_of_findIndex ho, ← getName_of_findIndex hd, e]
    split at hres
    · cases hres
    · next out hout =>
      split at hres
      · next hf =>
        obtain ⟨hp, hroot⟩ := shortestLoop_direct g (buildPortMapper g) originIdx destIdx date
          route hidxne (by rw [hdest]; exact hd)
          (by rw [getName_of_findIndex ho]; exact hroute)
          ((buildPortMapper g).getSize + 1) (HopState.init originIdx date) out
          (searchInv_init g _ _ originIdx date)
          (by intro v hv; simp [HopState.init, setAt, hv, INT_MAX])
          (by intro _ v hv; simp [HopState.init, setAt, hv])
          (by simp [HopState.init]) hout hf
        have hsize : 2 ≤ (buildPortMapper g).getSize := by
          have h1 := lt_size_of_findIndex ho
          have h2 := lt_size_of_findIndex hd
          omega
        obtain ⟨k, hk⟩ : ∃ k, (buildPortMapper g).getSize = k + 2 := ⟨_, (Nat.sub_add_cancel hsize).symm⟩
        have hwalk : pathIndicesFrom out.2.2.parent (buildPortMapper g).getSize (some destIdx)
            = some [destIdx, originIdx] := by
          rw [hk]
          simp [pathIndicesFrom, hp, hroot]
        simp only [reconstructResult, hwalk, Option.some.injEq] at hres
        rw [← hres]
        exact reconstructRoutes_pair_length _ _ _ _ _ _
      · cases hres; simp [PathResult.empty] at hfound
  · cases hres; simp [PathResult.empty] at hfound

theorem findShortestPath_same {g : Graph} (origin destination date : String)
    (heq : origin = destination) (res : PathResult)
    (hres : findShortestPath g origin destination date = some res)
    (hfound : res.found = true) : res.routes.length = 0 := by
  unfold findShortestPath at hres
  split at hres
  · cases hres; simp [PathResult.empty] at hfound
  split at hres
  · cases hres; simp [PathResult.empty] at hfound
  dsimp only at hres
  split at hres
  · next originIdx destIdx ho hd =>
    have hsame : destIdx = originIdx := by
      rw [← heq, ho] at hd
      exact (Option.some.inj hd).symm
    subst hsame
    obtain ⟨out2, hout2, hinv, _⟩ := shortestLoop_inv g (buildPortMapper g) destIdx destIdx date
      ((buildPortMapper g).getSize + 1) (HopState.init destIdx date)
      (searchInv_init g _ _ destIdx date) (by omega)
    rw [hout2] at hres
    dsimp only at hres
    split at hres
    · have hroot : out2.2.2.parent destIdx = none := hinv.rootless
      have hsize := lt_size_of_findIndex hd
      obtain ⟨k, hk⟩ : ∃ k, (buildPortMapper g).getSize = k + 1 :=
        ⟨_, (Nat.sub_add_cancel (Nat.succ_le_of_lt hsize)).symm⟩
      have hwalk : pathIndicesFrom out2.2.2.parent (buildPortMapper g).getSize (some destIdx)
          = some [destIdx] := by
        rw [hk]
        simp [pathIndicesFrom, hroot]
      simp only [reconstructResult, hwalk, Option.some.injEq] at hres
      rw [← hres]
      simp [reconstructRoutes]
    · cases hres; simp [PathResult.empty] at hfound
  · cases hres; simp [PathResult.empty] at hfound

theorem PathResult.Consistent.one_leg_of_ne {origin destination : String} {res : PathResult}
    (h : res.Consistent origin destination) (hne : origin ≠ destination) :
    1 ≤ res.routes.length := by
  by_contra hlt
  have hzero : res.routes.length = 0 := by omega
  have hlen := h.pathLen
  rw [hzero] at hlen
  obtain ⟨x, hx⟩ := List.length_eq_one.mp hlen
  have h1 := h.head
  have h2 := h.last
  rw [hx] at h1 h2
  simp at h1 h2
  exact hne (h1.symm.trans h2)

/-- C10 fails at `hopsVersusCost`: `findShortestPath` returns a found result
of four legs, `findCheapestPath` and `findCheapestPathBidirectional` found
results of three legs. -/
theorem c10_counterexample :
    (findShortestPath hopsVersusCost "A" "C" "01/05/2025").map
      (fun r => (r.found, r.routes.length, r.path))
      = some (true, 4, ["A", "E", "F", "G", "C"]) ∧
    (findCheapestPath hopsVersusCost "A" "C" "01/05/2025").map
      (fun r => (r.found, r.routes.length, r.path))
      = some (true, 3, ["A", "D", "B", "C"]) ∧
    (findCheapestPathBidirectional hopsVersusCost "A" "C" "01/05/2025").map
      (fun r => (r.found, r.routes.length, r.path))
      = some (true, 3, ["A", "D", "B", "C"]) ∧
    ¬ (4 ≤ 3) := by
  decide

/-- C10 as amended: when the origin is the destination, or some leg from the
origin to the destination departs on or after the query date, both searches
return and a found result of `findShortestPath` has at most as many legs as a
found result of `findCheapestPath`. -/
theorem c10_shortest_hops_with_direct_leg (g : Graph) (hwf : g.WF)
    (origin destination date : String)
    (hdirect : origin = destination ∨
      ∃ leg ∈ g.getConnectingRoutes origin date "00:00", leg.destination = destination) :
    ∃ rs rc, findShortestPath g origin destination date = some rs ∧
      findCheapestPath g origin destination date = some rc ∧
      (rs.found = true → rc.found = true → rs.routes.length ≤ rc.routes.length) := by
  obtain ⟨rs, hrs, _⟩ := findShortestPath_spec hwf origin destination date
  obtain ⟨rc, hrc, hcspec⟩ := findCheapestPath_spec hwf origin destination date
  refine ⟨rs, rc, hrs, hrc, fun hfs hfc => ?_⟩
  by_cases heq : origin = destination
  · rw [findShortestPath_same origin destination date heq rs hrs hfs]
    exact Nat.zero_le _
  · rcases hdirect with hd | ⟨leg, hleg, hdest⟩
    · exact absurd hd heq
    · exact le_trans (findShortestPath_direct origin destination date heq leg hleg hdest rs hrs hfs)
        ((hcspec hfc).1.one_leg_of_ne heq)

/-- C10 as amended, on `cheapViaB`: the direct leg `A → C` connects, the hop
search returns it (one leg) and the cost search returns the two legs through
`B`. -/
theorem c10_shortest_hops_with_direct_leg_witness :
    cheapViaB.WF ∧
    (⟨"A", "C", "01/05/2025", "08:00", "16:00", 100, "X"⟩ : Route)
      ∈ cheapViaB.getConnectingRoutes "A" "01/05/2025" "00:00" ∧
    (findShortestPath cheapViaB "A" "C" "01/05/2025").map
      (fun r => (r.found, r.routes.length)) = some (true, 1) ∧
    (findCheapestPath cheapViaB "A" "C" "01/05/2025").map
      (fun r => (r.found, r.routes.length)) = some (true, 2) ∧
    ∃ rs rc, findShortestPath cheapViaB "A" "C" "01/05/2025" = some rs ∧
      findCheapestPath cheapViaB "A" "C" "01/05/2025" = some rc ∧
      (rs.found = true → rc.found = true → rs.routes.length ≤ rc.routes.length) :=
  ⟨wf_mkGraph _ _, by decide, by decide, by decide,
    c10_shortest_hops_with_direct_leg cheapViaB (wf_mkGraph _ _) "A" "C" "01/05/2025"
      (Or.inr ⟨⟨"A", "C", "01/05/2025", "08:00", "16:00", 100, "X"⟩, by decide, rfl⟩)⟩

/-! ## C5: a chain of two legs -/

theorem selectMin_fold_unique (visited : Nat → Bool) (key : Nat → Int) (i : Nat)
    (hv : visited i = false) (hk : key i < INT_MAX) :
    ∀ (l : List Nat) (acc : Int × Option Nat),
      (∀ j ∈ l, j = i ∨ visited j = true ∨ INT_MAX ≤ key j) →
      (acc = (INT_MAX, none) ∨ acc = (key i, some i)) →
      (l.foldl
        (fun (acc : Int × Option Nat) j =>
          if !visited j && decide (key j < acc.1) then (key j, some j) else acc) acc
          = (key i, some i)) ∨
        (i ∉ l ∧ acc = (INT_MAX, none)) := by
  intro l
  induction l with
  | nil =>
    intro acc _ hacc
    rcases hacc with h | h
    · exact Or.inr ⟨by simp, h⟩
    · exact Or.inl h
  | cons j js ih =>
    intro acc hl hacc
    simp only [List.foldl_cons]
    have hjs : ∀ x ∈ js, x = i ∨ visited x = true ∨ INT_MAX ≤ key x :=
      fun x hx => hl x (List.mem_cons_of_mem _ hx)
    have hacc1 : acc.1 ≤ INT_MAX := by
      rcases hacc with h | h
      · rw [h]
      · rw [h]; exact le_of_lt hk
    rcases hl j (List.mem_cons_self _ _) with hj | hj | hj
    · subst hj
      have hnew : (if !visited j && decide (key j < acc.1) then (key j, some j) else acc)
          = (key j, some j) := by
        rcases hacc with h | h
        · simp [h, hv, hk]
        · simp [h]
      rw [hnew]
      rcases ih (key j, some j) hjs (Or.inr rfl) with h | h
      · exact Or.inl h
      · have := h.2
        simp at this
    · have hsame : (if !visited j && decide (key j < acc.1) then (key j, some j) else acc)
          = acc := by
        simp [hj]
      rw [hsame]
      rcases ih acc hjs hacc with h | h
      · exact Or.inl h
      · by_cases hji : j = i
        · rw [hji, hv] at hj
          exact absurd hj (by simp)
        · exact Or.inr ⟨by
            intro hmem
            rcases List.mem_cons.mp hmem with e | e
            · exact hji e.symm
            · exact h.1 e, h.2⟩
    · have hsame : (if !visited j && decide (key j < acc.1) then (key j, some j) else acc)
          = acc := by
        have : ¬ key j < acc.1 := by omega
        simp [this]
      rw [hsame]
      rcases ih acc hjs hacc with h | h
      · exact Or.inl h
      · by_cases hji : j = i
        · rw [hji] at hj
          omega
        · exact Or.inr ⟨by
            intro hmem
            rcases List.mem_cons.mp hmem with e | e
            · exact hji e.symm
            · exact h.1 e, h.2⟩

theorem selectMin_unique {visited : Nat → Bool} {key : Nat → Int} {n i : Nat}
    (hi : i < n) (hv : visited i = false) (hk : key i < INT_MAX)
    (hothers : ∀ j, j ≠ i → visited j = true ∨ INT_MAX ≤ key j) :
    selectMin visited key n = some i := by
  unfold selectMin
  rcases selectMin_fold_unique visited key i hv hk (List.range n) (INT_MAX, none)
    (fun j _ => by
      by_cases hji : j = i
      · exact Or.inl hji
      · exact Or.inr (hothers j hji))
    (Or.inl rfl) with h | h
  · rw [h]
  · exact absurd (List.mem_range.mpr hi) h.1

theorem indexOfName_of_mem {l : List String} {x : String} (h : x ∈ l) :
    ∃ i, indexOfName l x = some i := by
  induction l with
  | nil => simp at h
  | cons y ys ih =>
    unfold indexOfName
    by_cases hy : y = x
    · exact ⟨0, by simp [hy]⟩
    · rcases List.mem_cons.mp h with h | h
      · exact absurd h.symm hy
      · obtain ⟨i, hi⟩ := ih h
        exact ⟨i + 1, by simp [hy, hi]⟩

theorem mem_of_indexOfName {l : List String} {x : String} {i : Nat}
    (h : indexOfName l x = some i) : x ∈ l := by
  have := indexOfName_some h
  obtain ⟨hlt, heq⟩ := List.getElem?_eq_some.mp this
  exact heq ▸ List.getElem_mem hlt

theorem mem_foldl_addPort (x : String) :
    ∀ (ports : List Port) (pm : PortMapper),
      (x ∈ pm.portNames ∨ x ∈ ports.map (fun p => p.name)) →
      x ∈ (ports.foldl (fun pm p => pm.addPort p.name) pm).portNames := by
  intro ports
  induction ports with
  | nil =>
    intro pm h
    rcases h with h | h
    · exact h
    · simp at h
  | cons p ps ih =>
    intro pm h
    simp only [List.foldl_cons]
    apply ih
    by_cases hx : x ∈ (pm.addPort p.name).portNames
    · exact Or.inl hx
    · right
      rcases h with h | h
      · exfalso
        apply hx
        unfold PortMapper.addPort
        split
        · exact h
        · simp [h]
      · simp only [List.map_cons, List.mem_cons] at h
        rcases h with h | h
        · exfalso
          apply hx
          unfold PortMapper.addPort
          split
          · next j hj => rw [h]; exact mem_of_indexOfName hj
          · simp [h]
        · exact h

theorem findIndex_of_hasPort {g : Graph} {x : String} (h : g.hasPort x = true) :
    ∃ i, (buildPortMapper g).findIndex x = some i := by
  unfold Graph.hasPort at h
  obtain ⟨j, hj⟩ := Option.isSome_iff_exists.mp h
  have hmem := mem_of_indexOfName hj
  apply indexOfName_of_mem
  unfold buildPortMapper Graph.getAllPorts
  apply mem_foldl_addPort
  right
  simpa using hmem

theorem hasPort_of_getRoutesFrom {g : Graph} {x : String} {r : Route} {rs : List Route}
    (h : g.getRoutesFrom x = r :: rs) : g.hasPort x = true := by
  unfold Graph.getRoutesFrom at h
  unfold Graph.hasPort
  cases hidx : g.findPortIndex x with
  | none => simp [hidx] at h
  | some i => rfl

theorem compareDates_self (d : String) : compareDates d d = 0 := by
  simp [compareDates]

theorem canConnectTo_of_connectsAfter {prev next : Route} {t : String}
    (h : connectsAfter prev.date t next = true) : prev.canConnectTo next = true := by
  unfold Route.canConnectTo
  unfold connectsAfter at h
  simp only [decide_eq_true_eq]
  split at h
  · next hgt => omega
  · split at h
    · next heq => rw [heq, compareDates_self]
    · simp at h

theorem relaxCheapest_first (g : Graph) (pm : PortMapper) (m n : Nat) (s : DijkstraState)
    (route : Route) (hidx : pm.findIndex route.destination = some n)
    (hv : s.visited n = false) (hpar : s.parent m = none)
    (hlt : intAdd (s.distances m) route.cost < s.distances n) :
    relaxCheapest g pm m s route =
      { s with
        distances := setAt s.distances n (intAdd (s.distances m) route.cost)
        parent := setAt s.parent n (some m)
        arrivalDates := setAt s.arrivalDates n route.date
        arrivalTimes := setAt s.arrivalTimes n route.arrivalTime } := by
  unfold relaxCheapest
  simp only [hidx, hv]
  unfold updateCheapest
  simp only [previousRouteOf, hpar, portChargeFor_zero, intAdd_zero_right]
  simp [hlt]

theorem relaxCheapest_next (g : Graph) (pm : PortMapper) (m n : Nat) (s : DijkstraState)
    (route previousRoute : Route) (hidx : pm.findIndex route.destination = some n)
    (hv : s.visited n = false)
    (hprev : previousRouteOf g pm s.parent s.arrivalDates s.arrivalTimes m = some previousRoute)
    (hcan : previousRoute.canConnectTo route = true)
    (hlt : intAdd (intAdd (s.distances m) route.cost)
      (portChargeFor g (pm.getName m) (calculateLayoverHours previousRoute route))
        < s.distances n) :
    relaxCheapest g pm m s route =
      { s with
        distances := setAt s.distances n (intAdd (intAdd (s.distances m) route.cost)
          (portChargeFor g (pm.getName m) (calculateLayoverHours previousRoute route)))
        parent := setAt s.parent n (some m)
        arrivalDates := setAt s.arrivalDates n route.date
        arrivalTimes := setAt s.arrivalTimes n route.arrivalTime } := by
  unfold relaxCheapest
  simp only [hidx, hv]
  unfold updateCheapest
  simp only [hprev, hcan]
  simp [hlt]

theorem cheapestLoop_two_legs (g : Graph) (pm : PortMapper) (a b c date : String)
    (legAB legBC : Route) (ia ib ic numPorts k : Nat)
    (hia : pm.findIndex a = some ia) (hib : pm.findIndex b = some ib)
    (hic : pm.findIndex c = some ic)
    (hiab : ia ≠ ib) (hiac : ia ≠ ic) (hibc : ib ≠ ic)
    (hna : ia < numPorts) (hnb : ib < numPorts) (hnc : ic < numPorts)
    (hra : g.getRoutesFrom a = [legAB]) (hrb : g.getRoutesFrom b = [legBC])
    (hd1 : legAB.destination = b)
    (hdep : connectsAfter date "00:00" legAB = true)
    (hd2 : legBC.destination = c)
    (hconn : connectsAfter legAB.date legAB.arrivalTime legBC = true)
    (hc1 : legAB.cost < INT_MAX)
    (hc2 : intAdd (intAdd legAB.cost legBC.cost)
      (portChargeFor g b (calculateLayoverHours legAB legBC)) < INT_MAX) :
    ∃ s, cheapestLoop g pm numPorts ic (k + 3) (DijkstraState.init ia date) =
        (true, intAdd (intAdd legAB.cost legBC.cost)
          (portChargeFor g b (calculateLayoverHours legAB legBC)), s) ∧
      s.parent ic = some ib ∧ s.parent ib = some ia ∧ s.parent ia = none ∧
      s.arrivalDates ia = date ∧ s.arrivalTimes ia = "00:00" ∧
      s.arrivalDates ib = legAB.date ∧ s.arrivalTimes ib = legAB.arrivalTime ∧
      s.arrivalDates ic = legBC.date := by
  have hna2 : pm.getName ia = a := getName_of_findIndex hia
  have hnb2 : pm.getName ib = b := getName_of_findIndex hib
  have hiba := hiab.symm
  have hica := hiac.symm
  have hicb := hibc.symm
  -- first iteration: the origin
  have hsel0 : selectMin (DijkstraState.init ia date).visited
      (DijkstraState.init ia date).distances numPorts = some ia := by
    apply selectMin_unique hna
    · rfl
    · simp [DijkstraState.init, setAt, INT_MAX]
    · intro j hj
      right
      simp [DijkstraState.init, setAt, hj]
  rw [cheapestLoop]
  simp only [hsel0, hiac, if_false]
  have hconnA : g.getConnectingRoutes (pm.getName ia)
      ((DijkstraState.init ia date).arrivalDates ia)
      ((DijkstraState.init ia date).arrivalTimes ia) = [legAB] := by
    simp [Graph.getConnectingRoutes, hna2, hra, DijkstraState.init, setAt, hdep]
  rw [hconnA]
  simp only [List.foldl_cons, List.foldl_nil]
  rw [relaxCheapest_first g pm ia ib _ legAB (by rw [hd1]; exact hib)
    (by simp [DijkstraState.init, setAt, hiba]) rfl
    (by simp [DijkstraState.init, setAt, hiba, hc1, intAdd_zero_left])]
  -- second iteration: the middle port
  rw [cheapestLoop]
  have hsel1 : selectMin
      (setAt (DijkstraState.init ia date).visited ia true)
      (setAt (DijkstraState.init ia date).distances ib
        (intAdd ((DijkstraState.init ia date).distances ia) legAB.cost)) numPorts = some ib := by
    apply selectMin_unique hnb
    · simp [DijkstraState.init, setAt, hiba]
    · simp [DijkstraState.init, setAt, hc1, intAdd_zero_left]
    · intro j hj
      by_cases hja : j = ia
      · left; simp [setAt, hja]
      · right; simp [DijkstraState.init, setAt, hj, hja]
  simp only [hsel1, hibc, if_false]
  have hconnB : g.getConnectingRoutes (pm.getName ib)
      (setAt (DijkstraState.init ia date).arrivalDates ib legAB.date ib)
      (setAt (DijkstraState.init ia date).arrivalTimes ib legAB.arrivalTime ib) = [legBC] := by
    simp [Graph.getConnectingRoutes, hnb2, hrb, setAt, hconn]
  rw [hconnB]
  simp only [List.foldl_cons, List.foldl_nil]
  have hprev : previousRouteOf g pm
      (setAt (DijkstraState.init ia date).parent ib (some ia))
      (setAt (DijkstraState.init ia date).arrivalDates ib legAB.date)
      (setAt (DijkstraState.init ia date).arrivalTimes ib legAB.arrivalTime) ib
      = some legAB := by
    simp [previousRouteOf, setAt, hiab, hna2, hnb2, DijkstraState.init, Graph.getConnectingRoutes,
      hra, hdep, findRouteTo, hd1]
  have hdist : (DijkstraState.init ia date).distances ia = 0 := by
    simp [DijkstraState.init, setAt]
  rw [relaxCheapest_next g pm ib ic _ legBC legAB (by rw [hd2]; exact hic)
    (by simp [DijkstraState.init, setAt, hica, hicb]) hprev
    (canConnectTo_of_connectsAfter hconn)
    (by simp only [setAt_same, hnb2, hdist, intAdd_zero_left]
        rw [setAt_other _ _ hicb]
        simpa [DijkstraState.init, setAt, hica] using hc2)]
  -- third iteration: the destination
  rw [cheapestLoop]
  simp only [setAt_same, hnb2, hdist, intAdd_zero_left]
  have hsel2 : selectMin
      (setAt (setAt (DijkstraState.init ia date).visited ia true) ib true)
      (setAt (setAt (DijkstraState.init ia date).distances ib legAB.cost) ic
        (intAdd (intAdd legAB.cost legBC.cost)
          (portChargeFor g b (calculateLayoverHours legAB legBC))))
      numPorts = some ic := by
    apply selectMin_unique hnc
    · simp [DijkstraState.init, setAt, hica, hicb]
    · simpa [setAt] using hc2
    · intro j hj
      by_cases hja : j = ia
      · left; simp [setAt, hja, hiab]
      · by_cases hjb : j = ib
        · left; simp [setAt, hjb]
        · right; simp [DijkstraState.init, setAt, hj, hja, hjb]
  simp only [hsel2, if_true]
  refine ⟨_, rfl, ?_⟩
  simp [setAt, hiab, hiac, hibc, hiba, hica, hicb, DijkstraState.init]

theorem findCheapestPath_two_legs (g : Graph) (a b c date : String) (legAB legBC : Route)
    (hab : a ≠ b) (hac : a ≠ c) (hbc : b ≠ c) (hpc : g.hasPort c = true)
    (hra : g.getRoutesFrom a = [legAB]) (hrb : g.getRoutesFrom b = [legBC])
    (hd1 : legAB.destination = b)
    (hdep : connectsAfter date "00:00" legAB = true)
    (hd2 : legBC.destination = c)
    (hconn : connectsAfter legAB.date legAB.arrivalTime legBC = true)
    (hc1 : legAB.cost < INT_MAX)
    (hc2 : intAdd (intAdd legAB.cost legBC.cost)
      (portChargeFor g b (calculateLayoverHours legAB legBC)) < INT_MAX) :
    findCheapestPath g a c date = some
      { found := true
        totalCost := intAdd (intAdd legAB.cost legBC.cost)
          (portChargeFor g b (calculateLayoverHours legAB legBC))
        totalTravelTime := 48 + calculateLayoverHours legAB legBC
        path := [a, b, c]
        routes := [legAB, legBC]
        layovers := [mkLayover g legAB legBC] } := by
  have hpa := hasPort_of_getRoutesFrom hra
  have hpb := hasPort_of_getRoutesFrom hrb
  obtain ⟨ia, hia⟩ := findIndex_of_hasPort hpa
  obtain ⟨ib, hib⟩ := findIndex_of_hasPort hpb
  obtain ⟨ic, hic⟩ := findIndex_of_hasPort hpc
  have hna2 : (buildPortMapper g).getName ia = a := getName_of_findIndex hia
  have hnb2 : (buildPortMapper g).getName ib = b := getName_of_findIndex hib
  have hnc2 : (buildPortMapper g).getName ic = c := getName_of_findIndex hic
  have hiab : ia ≠ ib := fun e => hab (by rw [← hna2, ← hnb2, e])
  have hiac : ia ≠ ic := fun e => hac (by rw [← hna2, ← hnc2, e])
  have hibc : ib ≠ ic := fun e => hbc (by rw [← hnb2, ← hnc2, e])
  have hna := lt_size_of_findIndex hia
  have hnb := lt_size_of_findIndex hib
  have hnc := lt_size_of_findIndex hic
  obtain ⟨k, hk⟩ : ∃ k, (buildPortMapper g).getSize = k + 3 :=
    ⟨(buildPortMapper g).getSize - 3, by omega⟩
  obtain ⟨s, hloop, hp3, hp2, hp1, hda, hta, hdb, htb, hdc⟩ :=
    cheapestLoop_two_legs g (buildPortMapper g) a b c date legAB legBC ia ib ic
      (buildPortMapper g).getSize k hia hib hic hiab hiac hibc hna hnb hnc hra hrb hd1 hdep hd2
      hconn hc1 hc2
  rw [← hk] at hloop
  unfold findCheapestPath
  simp only [hpa, hpc, Bool.not_true, Bool.false_eq_true, if_false, hia, hic, hloop, if_true]
  have hwalk : pathIndicesFrom s.parent (buildPortMapper g).getSize (some ic)
      = some [ic, ib, ia] := by
    rw [hk]
    simp [pathIndicesFrom, hp3, hp2, hp1]
  have hconnA : g.getConnectingRoutes a date "00:00" = [legAB] := by
    simp [Graph.getConnectingRoutes, hra, hdep]
  have hconnB : g.getConnectingRoutes b legAB.date legAB.arrivalTime = [legBC] := by
    simp [Graph.getConnectingRoutes, hrb, hconn]
  have hroutes : reconstructRoutes g (buildPortMapper g) s.arrivalDates s.arrivalTimes
      [ia, ib, ic] = [legAB, legBC] := by
    simp [reconstructRoutes, hna2, hnb2, hnc2, hda, hta, hdb, htb, hdc, hconnA, hconnB,
      findRouteTo, hd1, hd2]
  simp only [reconstructResult, hwalk, List.reverse_cons, List.reverse_nil, List.nil_append,
    List.cons_append, hroutes, buildLayovers, List.map, hna2, hnb2, hnc2]
  simp [totalTravelHours, mkLayover]

theorem connectsAfter_of_later {arrivalDate arrivalTime : String} {route : Route}
    (h : compareDates route.date arrivalDate > 0 ∨
      (route.date = arrivalDate ∧
        (isTimeBefore arrivalTime route.departureTime = true ∨
          arrivalTime = route.departureTime))) :
    connectsAfter arrivalDate arrivalTime route = true := by
  unfold connectsAfter
  rcases h with h | ⟨hd, ht⟩
  · simp [h]
  · split
    · rfl
    · simpa [hd] using ht

/-- C5 fails on `maxFare`: the only legs are `A → B` on the query date, of
fare `INT_MAX`, and `B → C` two hours after its arrival, but
`findCheapestPath(A, C, date)` finds nothing: a distance of `INT_MAX` is not
below the initial distance `INT_MAX` of `B`, so `B` is never reached. -/
theorem c5_counterexample :
    maxFare.getRoutesFrom "A" = [⟨"A", "B", "01/05/2025", "08:00", "16:00", 2147483647, "X"⟩] ∧
    maxFare.getRoutesFrom "B" = [⟨"B", "C", "01/05/2025", "18:00", "23:00", 1, "X"⟩] ∧
    maxFare.getRoutesFrom "C" = [] ∧
    findCheapestPath maxFare "A" "C" "01/05/2025" = some PathResult.empty ∧
    PathResult.empty.found = false := by
  decide

/-- C5 as amended: in a graph with port `C` where the only leg from `A` is
one leg to `B` on the query date and the only leg from `B` is one leg to `C`
that leaves on a later date, or on the same date not before the arrival of the
first, and where the fare of the first leg is below `INT_MAX`, the sum of the
two fares is in the range of `int`, and the sum of the two fares and the port
charge of the layover is in the range of `int` and below `INT_MAX`:
`findCheapestPath(A, C, date)` returns found = true, path `[A, B, C]`, exactly
these two legs, one layover at `B` with the hours of `calculateLayoverHours`,
total cost = the two fares plus the port charge of that layover, and total
travel time = 48 + the layover hours. -/
theorem c5_two_leg_chain (g : Graph) (a b c date : String) (legAB legBC : Route)
    (hab : a ≠ b) (hac : a ≠ c) (hbc : b ≠ c) (hpc : g.hasPort c = true)
    (hra : g.getRoutesFrom a = [legAB]) (hrb : g.getRoutesFrom b = [legBC])
    (hd1 : legAB.destination = b) (hdate : legAB.date = date)
    (htime : isClockTime legAB.departureTime = true)
    (hd2 : legBC.destination = c)
    (hlater : compareDates legBC.date legAB.date > 0 ∨
      (legBC.date = legAB.date ∧
        (isTimeBefore legAB.arrivalTime legBC.departureTime = true ∨
          legAB.arrivalTime = legBC.departureTime)))
    (hc1 : legAB.cost < INT_MAX)
    (hfares : INT_MIN ≤ legAB.cost + legBC.cost ∧ legAB.cost + legBC.cost ≤ INT_MAX)
    (hlow : INT_MIN ≤ legAB.cost + legBC.cost + (mkLayover g legAB legBC).portCharge)
    (hc2 : legAB.cost + legBC.cost + (mkLayover g legAB legBC).portCharge < INT_MAX) :
    findCheapestPath g a c date = some
      { found := true
        totalCost := legAB.cost + legBC.cost + (mkLayover g legAB legBC).portCharge
        totalTravelTime := 48 + calculateLayoverHours legAB legBC
        path := [a, b, c]
        routes := [legAB, legBC]
        layovers := [mkLayover g legAB legBC] } ∧
    (mkLayover g legAB legBC).portName = b ∧
    (mkLayover g legAB legBC).layoverHours = calculateLayoverHours legAB legBC := by
  have hcharge : (mkLayover g legAB legBC).portCharge
      = portChargeFor g b (calculateLayoverHours legAB legBC) := by
    simp [mkLayover, hd1]
  have hdep : connectsAfter date "00:00" legAB = true := by
    apply connectsAfter_of_later
    right
    exact ⟨hdate, clock_after_midnight _ htime⟩
  rw [hcharge] at hc2 hlow ⊢
  have e1 : intAdd legAB.cost legBC.cost = legAB.cost + legBC.cost := by
    apply intAdd_of_sum_isInt
    simp only [isInt, Bool.and_eq_true, decide_eq_true_eq]
    exact hfares
  have e2 : intAdd (legAB.cost + legBC.cost)
      (portChargeFor g b (calculateLayoverHours legAB legBC)) =
      legAB.cost + legBC.cost + portChargeFor g b (calculateLayoverHours legAB legBC) := by
    apply intAdd_of_sum_isInt
    simp only [isInt, Bool.and_eq_true, decide_eq_true_eq]
    exact ⟨hlow, le_of_lt hc2⟩
  have h := findCheapestPath_two_legs g a b c date legAB legBC hab hac hbc hpc hra hrb hd1 hdep
    hd2 (connectsAfter_of_later hlater) hc1 (by rw [e1, e2]; exact hc2)
  rw [e1, e2] at h
  exact ⟨h, by simp [mkLayover, hd1], rfl⟩

/-- C5 on the two scenarios of the specification: same day (layover 2 h, no
charge, total 250, 50 h) and two days later with daily charge 40 at `B`
(layover 38 h, port charge 80, total 330, 86 h). -/
theorem c5_two_leg_chain_witness :
    (findCheapestPath chainSameDay "A" "C" "01/05/2025").map
      (fun r => (r.found, r.totalCost, r.totalTravelTime, r.path))
      = some (true, 250, 50, ["A", "B", "C"]) ∧
    (findCheapestPath chainSameDay "A" "C" "01/05/2025").map
      (fun r => r.layovers.map (fun l => (l.portName, l.layoverHours, l.portCharge)))
      = some [("B", 2, 0)] ∧
    (findCheapestPath chainTwoDays "A" "C" "01/05/2025").map
      (fun r => (r.found, r.totalCost, r.totalTravelTime, r.path))
      = some (true, 330, 86, ["A", "B", "C"]) ∧
    (findCheapestPath chainTwoDays "A" "C" "01/05/2025").map
      (fun r => r.layovers.map (fun l => (l.portName, l.layoverHours, l.portCharge)))
      = some [("B", 38, 80)] ∧
    (findCheapestPath chainTwoDays "A" "C" "01/05/2025" = some
      { found := true
        totalCost := 100 + 150 +
          (mkLayover chainTwoDays ⟨"A", "B", "01/05/2025", "08:00", "16:00", 100, "X"⟩
            ⟨"B", "C", "03/05/2025", "06:00", "12:00", 150, "X"⟩).portCharge
        totalTravelTime := 48 +
          calculateLayoverHours ⟨"A", "B", "01/05/2025", "08:00", "16:00", 100, "X"⟩
            ⟨"B", "C", "03/05/2025", "06:00", "12:00", 150, "X"⟩
        path := ["A", "B", "C"]
        routes := [⟨"A", "B", "01/05/2025", "08:00", "16:00", 100, "X"⟩,
          ⟨"B", "C", "03/05/2025", "06:00", "12:00", 150, "X"⟩]
        layovers := [mkLayover chainTwoDays
          ⟨"A", "B", "01/05/2025", "08:00", "16:00", 100, "X"⟩
          ⟨"B", "C", "03/05/2025", "06:00", "12:00", 150, "X"⟩] } ∧
      (mkLayover chainTwoDays ⟨"A", "B", "01/05/2025", "08:00", "16:00", 100, "X"⟩
        ⟨"B", "C", "03/05/2025", "06:00", "12:00", 150, "X"⟩).portName = "B" ∧
      (mkLayover chainTwoDays ⟨"A", "B", "01/05/2025", "08:00", "16:00", 100, "X"⟩
        ⟨"B", "C", "03/05/2025", "06:00", "12:00", 150, "X"⟩).layoverHours =
        calculateLayoverHours ⟨"A", "B", "01/05/2025", "08:00", "16:00", 100, "X"⟩
          ⟨"B", "C", "03/05/2025", "06:00", "12:00", 150, "X"⟩) :=
  ⟨by decide, by decide, by decide, by decide,
    c5_two_leg_chain chainTwoDays "A" "B" "C" "01/05/2025"
      ⟨"A", "B", "01/05/2025", "08:00", "16:00", 100, "X"⟩
      ⟨"B", "C", "03/05/2025", "06:00", "12:00", 150, "X"⟩
      (by decide) (by decide) (by decide) (by decide) (by decide) (by decide) rfl rfl
      (by decide) rfl (by decide) (by decide) (by decide) (by decide) (by decide)⟩

/-! ## Degenerate queries: unknown ports and identical endpoints -/

theorem selectMin_fold_none (visited : Nat → Bool) (key : Nat → Int) :
    ∀ (l : List Nat), (∀ j ∈ l, visited j = true ∨ INT_MAX ≤ key j) →
      l.foldl
        (fun (acc : Int × Option Nat) j =>
          if !visited j && decide (key j < acc.1) then (key j, some j) else acc)
        (INT_MAX, none) = (INT_MAX, none) := by
  intro l
  induction l with
  | nil => intro _; rfl
  | cons j js ih =>
    intro hl
    simp only [List.foldl_cons]
    have hsame : (if !visited j && decide (key j < (INT_MAX, (none : Option Nat)).1)
        then (key j, some j) else (INT_MAX, none)) = (INT_MAX, (none : Option Nat)) := by
      rcases hl j (List.mem_cons_self _ _) with h | h
      · simp [h]
      · have : ¬ key j < INT_MAX := by omega
        simp [this]
    rw [hsame]
    exact ih (fun x hx => hl x (List.mem_cons_of_mem _ hx))

theorem selectMin_none {visited : Nat → Bool} {key : Nat → Int} {n : Nat}
    (h : ∀ j, visited j = true ∨ INT_MAX ≤ key j) : selectMin visited key n = none := by
  unfold selectMin
  rw [selectMin_fold_none visited key (List.range n) (fun j _ => h j)]

theorem findCheapestPath_unknown (g : Graph) (origin destination date : String)
    (h : g.hasPort origin = false ∨ g.hasPort destination = false) :
    findCheapestPath g origin destination date = some PathResult.empty := by
  unfold findCheapestPath
  rcases h with h | h
  · simp [h]
  · simp [h]

theorem findShortestPath_unknown (g : Graph) (origin destination date : String)
    (h : g.hasPort origin = false ∨ g.hasPort destination = false) :
    findShortestPath g origin destination date = some PathResult.empty := by
  unfold findShortestPath
  rcases h with h | h
  · simp [h]
  · simp [h]

theorem findCheapestPathBidirectional_unknown (g : Graph) (origin destination date : String)
    (h : g.hasPort origin = false ∨ g.hasPort destination = false) :
    findCheapestPathBidirectional g origin destination date = some PathResult.empty := by
  unfold findCheapestPathBidirectional
  rcases h with h | h
  · simp [h]
  · simp [h]

theorem findMultiLegRoute_unknown (g : Graph) (origin : String) (intermediatePorts : List String)
    (destination date : String)
    (h : g.hasPort origin = false ∨ g.hasPort destination = false ∨
      ∃ m ∈ intermediatePorts, g.hasPort m = false) :
    findMultiLegRoute g origin intermediatePorts destination date = some PathResult.empty := by
  unfold findMultiLegRoute
  rcases h with h | h | ⟨m, hm, h⟩
  · simp [h]
  · simp [h]
  · have hany : intermediatePorts.any (fun p => !g.hasPort p) = true :=
      List.any_eq_true.mpr ⟨m, hm, by simp [h]⟩
    simp [hany]

theorem findCheapestPath_self (g : Graph) (p date : String) (hp : g.hasPort p = true) :
    findCheapestPath g p p date = some ⟨true, 0, 0, [p], [], []⟩ := by
  obtain ⟨i, hi⟩ := findIndex_of_hasPort hp
  have hn := lt_size_of_findIndex hi
  have hname := getName_of_findIndex hi
  obtain ⟨k, hk⟩ : ∃ k, (buildPortMapper g).getSize = k + 1 :=
    ⟨(buildPortMapper g).getSize - 1, by omega⟩
  have hsel : selectMin (DijkstraState.init i date).visited
      (DijkstraState.init i date).distances (buildPortMapper g).getSize = some i := by
    apply selectMin_unique hn
    · rfl
    · simp [DijkstraState.init, setAt, INT_MAX]
    · intro j hj
      right
      simp [DijkstraState.init, setAt, hj]
  unfold findCheapestPath
  simp only [hp, Bool.not_true, Bool.false_eq_true, if_false, hi]
  have hloop : cheapestLoop g (buildPortMapper g) (buildPortMapper g).getSize i
      (buildPortMapper g).getSize (DijkstraState.init i date) =
      (true, 0, { DijkstraState.init i date with
        visited := setAt (DijkstraState.init i date).visited i true }) := by
    conv => lhs; arg 5; rw [hk]
    rw [cheapestLoop]
    simp only [hsel, if_true]
    have hd : (DijkstraState.init i date).distances i = 0 := by
      simp [DijkstraState.init, setAt]
    rw [hd]
  rw [hloop]
  simp only [if_true]
  have hwalk : pathIndicesFrom (DijkstraState.init i date).parent (buildPortMapper g).getSize
      (some i) = some [i] := by
    rw [hk]
    simp [pathIndicesFrom, DijkstraState.init]
  simp [reconstructResult, hwalk, reconstructRoutes, buildLayovers, totalTravelHours, hname]

theorem findShortestPath_self (g : Graph) (p date : String) (hp : g.hasPort p = true) :
    findShortestPath g p p date = some ⟨true, 0, 0, [p], [], []⟩ := by
  obtain ⟨i, hi⟩ := findIndex_of_hasPort hp
  have hn := lt_size_of_findIndex hi
  have hname := getName_of_findIndex hi
  obtain ⟨k, hk⟩ : ∃ k, (buildPortMapper g).getSize = k + 1 :=
    ⟨(buildPortMapper g).getSize - 1, by omega⟩
  have hsel : selectMin (HopState.init i date).visited
      (HopState.init i date).hops (buildPortMapper g).getSize = some i := by
    apply selectMin_unique hn
    · rfl
    · simp [HopState.init, setAt, INT_MAX]
    · intro j hj
      right
      simp [HopState.init, setAt, hj]
  unfold findShortestPath
  simp only [hp, Bool.not_true, Bool.false_eq_true, if_false, hi]
  have hloop : shortestLoop g (buildPortMapper g) (buildPortMapper g).getSize i
      ((buildPortMapper g).getSize + 1) (HopState.init i date) =
      some (true, 0, { HopState.init i date with
        visited := setAt (HopState.init i date).visited i true }) := by
    rw [shortestLoop]
    simp only [hsel, if_true]
    have hd : (HopState.init i date).totalCost i = 0 := by
      simp [HopState.init, setAt]
    rw [hd]
  rw [hloop]
  have hwalk : pathIndicesFrom (HopState.init i date).parent (buildPortMapper g).getSize
      (some i) = some [i] := by
    rw [hk]
    simp [pathIndicesFrom, HopState.init]
  simp [reconstructResult, hwalk, reconstructRoutes, buildLayovers, totalTravelHours, hname]

theorem findMultiLegRoute_self (g : Graph) (p date : String) (hp : g.hasPort p = true) :
    findMultiLegRoute g p [] p date = some ⟨true, 0, 0, [p], [], []⟩ := by
  unfold findMultiLegRoute
  simp [hp, multiLegLoop, findCheapestPath_self g p date hp, PathResult.empty,
    intAdd_zero_left]

/-! ## C11: origin equal to destination -/

/-- C11: for a port `p` of the graph and any date, `findCheapestPath` from `p` to
`p`, `findShortestPath` from `p` to `p` and `findMultiLegRoute` from `p` to `p` with
no intermediate port each return the found result with total cost 0, travel
time 0, the path `[p]`, no leg and no layover. -/
theorem c11_same_port_trivial_result (g : Graph) (p date : String)
    (hp : g.hasPort p = true) :
    findCheapestPath g p p date = some ⟨true, 0, 0, [p], [], []⟩ ∧
    findShortestPath g p p date = some ⟨true, 0, 0, [p], [], []⟩ ∧
    findMultiLegRoute g p [] p date = some ⟨true, 0, 0, [p], [], []⟩ :=
  ⟨findCheapestPath_self g p date hp, findShortestPath_self g p date hp,
    findMultiLegRoute_self g p date hp⟩

theorem c11_same_port_trivial_result_witness :
    chainSameDay.hasPort "B" = true ∧
    findCheapestPath chainSameDay "B" "B" "01/05/2025" = some ⟨true, 0, 0, ["B"], [], []⟩ ∧
    findShortestPath chainSameDay "B" "B" "01/05/2025" = some ⟨true, 0, 0, ["B"], [], []⟩ ∧
    findMultiLegRoute chainSameDay "B" [] "B" "01/05/2025" =
      some ⟨true, 0, 0, ["B"], [], []⟩ :=
  ⟨by decide, c11_same_port_trivial_result chainSameDay "B" "01/05/2025" (by decide)⟩

/-! ## C13: unknown ports -/

/-- C13: when the origin or the destination is not a port of the graph,
`findCheapestPath`, `findCheapestPathBidirectional`, `findShortestPath` and
`findMultiLegRoute` return the empty result (not found, cost 0, travel time 0, no
path, no leg, no layover); `findMultiLegRoute` returns it as well when one of
the listed intermediate ports is not in the graph. -/
theorem c13_unknown_port_gives_empty (g : Graph) (origin : String)
    (intermediatePorts : List String) (destination date : String) :
    PathResult.empty = ⟨false, 0, 0, [], [], []⟩ ∧
    ((g.hasPort origin = false ∨ g.hasPort destination = false) →
      findCheapestPath g origin destination date = some PathResult.empty ∧
      findCheapestPathBidirectional g origin destination date = some PathResult.empty ∧
      findShortestPath g origin destination date = some PathResult.empty ∧
      findMultiLegRoute g origin intermediatePorts destination date =
        some PathResult.empty) ∧
    ((∃ m ∈ intermediatePorts, g.hasPort m = false) →
      findMultiLegRoute g origin intermediatePorts destination date =
        some PathResult.empty) := by
  refine ⟨rfl, fun h => ⟨findCheapestPath_unknown g origin destination date h,
    findCheapestPathBidirectional_unknown g origin destination date h,
    findShortestPath_unknown g origin destination date h,
    findMultiLegRoute_unknown g origin intermediatePorts destination date ?_⟩,
    fun h => findMultiLegRoute_unknown g origin intermediatePorts destination date
      (Or.inr (Or.inr h))⟩
  rcases h with h | h
  · exact Or.inl h
  · exact Or.inr (Or.inl h)

theorem c13_unknown_port_gives_empty_witness :
    (findCheapestPath chainSameDay "A" "Z" "01/05/2025" = some PathResult.empty ∧
      findCheapestPathBidirectional chainSameDay "A" "Z" "01/05/2025" =
        some PathResult.empty ∧
      findShortestPath chainSameDay "A" "Z" "01/05/2025" = some PathResult.empty ∧
      findMultiLegRoute chainSameDay "A" ["B"] "Z" "01/05/2025" = some PathResult.empty) ∧
    findMultiLegRoute chainSameDay "A" ["Z"] "C" "01/05/2025" = some PathResult.empty :=
  ⟨(c13_unknown_port_gives_empty chainSameDay "A" ["B"] "Z" "01/05/2025").2.1
      (Or.inr (by decide)),
    (c13_unknown_port_gives_empty chainSameDay "A" ["Z"] "C" "01/05/2025").2.2
      ⟨"Z", by simp, by decide⟩⟩

/-! ## C14: an origin without outbound legs -/

theorem getConnectingRoutes_nil {g : Graph} {portName : String} (arrivalDate arrivalTime : String)
    (h : g.getRoutesFrom portName = []) :
    g.getConnectingRoutes portName arrivalDate arrivalTime = [] := by
  simp [Graph.getConnectingRoutes, h]

theorem findIndex_ne_of_ne {pm : PortMapper} {x y : String} {i j : Nat}
    (hx : pm.findIndex x = some i) (hy : pm.findIndex y = some j) (hne : x ≠ y) : i ≠ j := by
  intro hij
  apply hne
  rw [← getName_of_findIndex hx, ← getName_of_findIndex hy, hij]

theorem findCheapestPath_no_outbound (g : Graph) (origin destination date : String)
    (hout : g.getRoutesFrom origin = []) (hne : origin ≠ destination) :
    findCheapestPath g origin destination date = some PathResult.empty := by
  by_cases ho : g.hasPort origin = true
  swap
  · exact findCheapestPath_unknown g origin destination date (Or.inl (by simpa using ho))
  by_cases hd : g.hasPort destination = true
  swap
  · exact findCheapestPath_unknown g origin destination date (Or.inr (by simpa using hd))
  obtain ⟨i, hi⟩ := findIndex_of_hasPort ho
  obtain ⟨d, hdi⟩ := findIndex_of_hasPort hd
  have hid : i ≠ d := findIndex_ne_of_ne hi hdi hne
  have hn := lt_size_of_findIndex hi
  have hnd := lt_size_of_findIndex hdi
  have hname := getName_of_findIndex hi
  obtain ⟨k, hk⟩ : ∃ k, (buildPortMapper g).getSize = k + 2 :=
    ⟨(buildPortMapper g).getSize - 2, by omega⟩
  have hsel : selectMin (DijkstraState.init i date).visited
      (DijkstraState.init i date).distances (buildPortMapper g).getSize = some i := by
    apply selectMin_unique hn
    · rfl
    · simp [DijkstraState.init, setAt, INT_MAX]
    · intro j hj
      right
      simp [DijkstraState.init, setAt, hj]
  have hsel2 : selectMin (setAt (DijkstraState.init i date).visited i true)
      (DijkstraState.init i date).distances (buildPortMapper g).getSize = none := by
    apply selectMin_none
    intro j
    by_cases hj : j = i
    · left; simp [setAt, hj]
    · right; simp [DijkstraState.init, setAt, hj]
  unfold findCheapestPath
  simp only [ho, hd, Bool.not_true, Bool.false_eq_true, if_false, hi, hdi]
  have hloop : cheapestLoop g (buildPortMapper g) (buildPortMapper g).getSize d
      (buildPortMapper g).getSize (DijkstraState.init i date) =
      (false, 0, { DijkstraState.init i date with
        visited := setAt (DijkstraState.init i date).visited i true }) := by
    conv => lhs; arg 5; rw [hk]
    rw [cheapestLoop]
    simp only [hsel, if_neg hid, hname, getConnectingRoutes_nil _ _ hout, List.foldl_nil]
    rw [cheapestLoop]
    simp only [hsel2]
  rw [hloop]
  simp

theorem findShortestPath_no_outbound (g : Graph) (origin destination date : String)
    (hout : g.getRoutesFrom origin = []) (hne : origin ≠ destination) :
    findShortestPath g origin destination date = some PathResult.empty := by
  by_cases ho : g.hasPort origin = true
  swap
  · exact findShortestPath_unknown g origin destination date (Or.inl (by simpa using ho))
  by_cases hd : g.hasPort destination = true
  swap
  · exact findShortestPath_unknown g origin destination date (Or.inr (by simpa using hd))
  obtain ⟨i, hi⟩ := findIndex_of_hasPort ho
  obtain ⟨d, hdi⟩ := findIndex_of_hasPort hd
  have hid : i ≠ d := findIndex_ne_of_ne hi hdi hne
  have hn := lt_size_of_findIndex hi
  have hname := getName_of_findIndex hi
  have hsel : selectMin (HopState.init i date).visited
      (HopState.init i date).hops (buildPortMapper g).getSize = some i := by
    apply selectMin_unique hn
    · rfl
    · simp [HopState.init, setAt, INT_MAX]
    · intro j hj
      right
      simp [HopState.init, setAt, hj]
  have hsel2 : selectMin (setAt (HopState.init i date).visited i true)
      (HopState.init i date).hops (buildPortMapper g).getSize = none := by
    apply selectMin_none
    intro j
    by_cases hj : j = i
    · left; simp [setAt, hj]
    · right; simp [HopState.init, setAt, hj]
  obtain ⟨k, hk⟩ : ∃ k, (buildPortMapper g).getSize + 1 = k + 2 :=
    ⟨(buildPortMapper g).getSize - 1, by omega⟩
  unfold findShortestPath
  simp only [ho, hd, Bool.not_true, Bool.false_eq_true, if_false, hi, hdi]
  have hloop : shortestLoop g (buildPortMapper g) (buildPortMapper g).getSize d
      ((buildPortMapper g).getSize + 1) (HopState.init i date) =
      some (false, 0, { HopState.init i date with
        visited := setAt (HopState.init i date).visited i true }) := by
    rw [hk]
    rw [shortestLoop]
    simp only [hsel, if_neg hid, hname, getConnectingRoutes_nil _ _ hout, List.foldl_nil]
    rw [shortestLoop]
    simp only [hsel2]
  rw [hloop]
  simp

theorem foldl_invariant {α β : Type} (P : β → Prop) (f : β → α → β) :
    ∀ (l : List α) (s : β), (∀ s x, x ∈ l → P s → P (f s x)) → P s → P (l.foldl f s) := by
  intro l
  induction l with
  | nil => intro s _ hs; exact hs
  | cons x xs ih =>
    intro s hf hs
    simp only [List.foldl_cons]
    exact ih _ (fun s y hy => hf s y (List.mem_cons_of_mem _ hy))
      (hf s x (List.mem_cons_self _ _) hs)

theorem meetAt_of_not_visited (s : BidirState) (otherVisited : Nat → Bool) (idx : Nat)
    (h : otherVisited idx = false) : s.meetAt otherVisited idx = s := by
  simp [BidirState.meetAt, h]

theorem noMeet_backwardRelax {g : Graph} {pm : PortMapper} {origin : String} {originIdx : Nat}
    (hout : g.getRoutesFrom origin = []) (hio : pm.findIndex origin = some originIdx)
    (backwardMinIdx : Nat) (potentialPort : String) (s : BidirState) (route : Route)
    (hroute : route ∈ g.getRoutesFrom potentialPort) (hs : NoMeet originIdx s) :
    NoMeet originIdx (bidirBackwardRelax pm backwardMinIdx potentialPort s route) := by
  unfold bidirBackwardRelax
  split
  swap
  · exact hs
  split
  · exact hs
  next fromIdx hfrom =>
    split
    · exact hs
    have hnv : s.forwardVisited fromIdx = false := by
      by_contra hv
      have hv1 : s.forwardVisited fromIdx = true := by simpa using hv
      have hidx := hs.2.1 fromIdx hv1
      have h1 := getName_of_findIndex hfrom
      have h2 := getName_of_findIndex hio
      rw [hidx, h2] at h1
      rw [← h1, hout] at hroute
      simp at hroute
    by_cases hc : intAdd (s.backwardDist backwardMinIdx) route.cost < s.backwardDist fromIdx
    · simp only [hc, if_true]
      rw [meetAt_of_not_visited _ _ _ hnv]
      exact ⟨hs.1, hs.2.1, hs.2.2⟩
    · simp only [hc, if_false]
      rw [meetAt_of_not_visited _ _ _ hnv]
      exact hs

theorem noMeet_backwardStep {g : Graph} {pm : PortMapper} {origin : String} {originIdx : Nat}
    (hout : g.getRoutesFrom origin = []) (hio : pm.findIndex origin = some originIdx)
    (allPorts : List Port) (numPorts : Nat) (s : BidirState) (hs : NoMeet originIdx s) :
    NoMeet originIdx (bidirBackwardStep g pm allPorts numPorts s).1 := by
  unfold bidirBackwardStep
  split
  · exact hs
  next backwardMinIdx _ =>
    apply foldl_invariant (NoMeet originIdx)
    · intro s1 port _ hs1
      apply foldl_invariant (NoMeet originIdx)
      · intro s2 route hroute hs2
        exact noMeet_backwardRelax hout hio backwardMinIdx port.name s2 route hroute hs2
      · exact hs1
    · exact ⟨hs.1, hs.2.1, hs.2.2⟩

theorem noMeet_forwardStep {g : Graph} {pm : PortMapper} {origin : String} {originIdx : Nat}
    (hout : g.getRoutesFrom origin = []) (hio : pm.findIndex origin = some originIdx)
    (numPorts : Nat) (s : BidirState) (hs : NoMeet originIdx s) :
    NoMeet originIdx (bidirForwardStep g pm numPorts s).1 := by
  unfold bidirForwardStep
  split
  · exact hs
  next forwardMinIdx hsel =>
    have hm := selectMin_some hsel
    have hidx : forwardMinIdx = originIdx := by
      by_contra hne
      have := hs.2.2 forwardMinIdx hne
      omega
    subst hidx
    simp only [getName_of_findIndex hio, getConnectingRoutes_nil _ _ hout, List.foldl_nil]
    refine ⟨hs.1, ?_, hs.2.2⟩
    intro v hv
    by_cases hvi : v = forwardMinIdx
    · exact hvi
    · have hv1 : setAt s.forwardVisited forwardMinIdx true v = true := hv
      rw [setAt_other _ _ hvi] at hv1
      exact hs.2.1 v hv1

theorem noMeet_bidirLoop {g : Graph} {pm : PortMapper} {origin : String} {originIdx : Nat}
    (hout : g.getRoutesFrom origin = []) (hio : pm.findIndex origin = some originIdx)
    (allPorts : List Port) (numPorts : Nat) :
    ∀ (iterations : Nat) (s : BidirState), NoMeet originIdx s →
      NoMeet originIdx (bidirLoop g pm allPorts numPorts iterations s) := by
  intro iterations
  induction iterations with
  | zero => intro s hs; exact hs
  | succ k ih =>
    intro s hs
    have h1 := noMeet_forwardStep hout hio numPorts s hs
    have h2 := noMeet_backwardStep hout hio allPorts numPorts _ h1
    rw [bidirLoop]
    split
    · exact h2
    split
    · exact h2
    · exact ih _ h2

theorem findCheapestPathBidirectional_no_outbound (g : Graph) (origin destination date : String)
    (hout : g.getRoutesFrom origin = []) :
    findCheapestPathBidirectional g origin destination date = some PathResult.empty := by
  by_cases ho : g.hasPort origin = true
  swap
  · exact findCheapestPathBidirectional_unknown g origin destination date
      (Or.inl (by simpa using ho))
  by_cases hd : g.hasPort destination = true
  swap
  · exact findCheapestPathBidirectional_unknown g origin destination date
      (Or.inr (by simpa using hd))
  obtain ⟨i, hi⟩ := findIndex_of_hasPort ho
  obtain ⟨d, hdi⟩ := findIndex_of_hasPort hd
  have hinit : NoMeet i (BidirState.init i d date) := by
    refine ⟨rfl, ?_, ?_⟩
    · intro v hv
      simp [BidirState.init] at hv
    · intro v hv
      simp [BidirState.init, setAt, hv]
  have hfin := noMeet_bidirLoop hout hi g.getAllPorts (buildPortMapper g).getSize
    ((buildPortMapper g).getSize * 2) _ hinit
  unfold findCheapestPathBidirectional
  simp only [ho, hd, Bool.not_true, Bool.false_eq_true, if_false, hi, hdi]
  rw [hfin.1]

/-- C14: when the origin has no outbound leg and the destination is another
port, `findCheapestPath`, `findShortestPath` and `findCheapestPathBidirectional`
return the result that is not found and has no path, no leg and no layover. -/
theorem c14_no_outbound_legs_not_found (g : Graph) (origin destination date : String)
    (hout : g.getRoutesFrom origin = []) (hne : origin ≠ destination) :
    findCheapestPath g origin destination date = some ⟨false, 0, 0, [], [], []⟩ ∧
    findShortestPath g origin destination date = some ⟨false, 0, 0, [], [], []⟩ ∧
    findCheapestPathBidirectional g origin destination date =
      some ⟨false, 0, 0, [], [], []⟩ :=
  ⟨findCheapestPath_no_outbound g origin destination date hout hne,
    findShortestPath_no_outbound g origin destination date hout hne,
    findCheapestPathBidirectional_no_outbound g origin destination date hout⟩

theorem c14_no_outbound_legs_not_found_witness :
    chainSameDay.getRoutesFrom "C" = [] ∧ "C" ≠ "A" ∧
    findCheapestPath chainSameDay "C" "A" "01/05/2025" = some ⟨false, 0, 0, [], [], []⟩ ∧
    findShortestPath chainSameDay "C" "A" "01/05/2025" = some ⟨false, 0, 0, [], [], []⟩ ∧
    findCheapestPathBidirectional chainSameDay "C" "A" "01/05/2025" =
      some ⟨false, 0, 0, [], [], []⟩ :=
  ⟨by decide, by decide,
    c14_no_outbound_legs_not_found chainSameDay "C" "A" "01/05/2025" (by decide) (by decide)⟩

/-! ## C12: the bidirectional search from a port to itself -/

/-- C12 at `lone` and at `chainSameDay`: asked for a route from a port of the
graph to the same port, `findCheapestPathBidirectional` returns the result
that is not found, with no path, where `findCheapestPath` returns the found
result with the one-port path and total cost 0. -/
theorem c12_bidirectional_same_port_not_found :
    lone.hasPort "P" = true ∧
    findCheapestPathBidirectional lone "P" "P" "01/05/2025" =
      some ⟨false, 0, 0, [], [], []⟩ ∧
    findCheapestPath lone "P" "P" "01/05/2025" = some ⟨true, 0, 0, ["P"], [], []⟩ ∧
    chainSameDay.hasPort "A" = true ∧
    findCheapestPathBidirectional chainSameDay "A" "A" "01/05/2025" =
      some ⟨false, 0, 0, [], [], []⟩ := by
  decide

/-! ## C17: path and legs of the bidirectional search -/

/-- C17 at `missed`: `findCheapestPathBidirectional` from `A` to `C` returns a
found result whose path has the three ports `A`, `B`, `C` and whose only leg
is the one from `A` to `B`; no leg runs from `B` to `C`.  On the same query
`findCheapestPath` finds nothing. -/
theorem c17_bidirectional_path_without_leg :
    (findCheapestPathBidirectional missed "A" "C" "01/05/2025").map
      (fun r => (r.found, r.path, r.routes)) =
      some (true, ["A", "B", "C"], [⟨"A", "B", "01/05/2025", "06:00", "20:00", 1, "X"⟩]) ∧
    (findCheapestPath missed "A" "C" "01/05/2025").map (fun r => r.found) = some false := by
  decide

/-! ## C20: layover hours of two legs on the same date -/

/-- C20 fails for a departure before the arrival: with an arrival at 20:00
and a departure at 12:00 on the same date, `calculateLayoverHours` is 24, while
the floor of `(720 - 1200) / 60` is `-8`. -/
theorem c20_counterexample :
    calculateLayoverHours ⟨"A", "B", "01/05/2025", "06:00", "20:00", 1, "X"⟩
      ⟨"B", "C", "01/05/2025", "12:00", "14:00", 1, "X"⟩ = 24 ∧
    minutesFromMidnight "12:00" = 720 ∧ minutesFromMidnight "20:00" = 1200 ∧
    Int.fdiv (minutesFromMidnight "12:00" - minutesFromMidnight "20:00") 60 = -8 := by
  decide

/-- C20, amended: for two legs with the same date, `calculateLayoverHours` is
the floor of `(depMinute - arrMinute) / 60` when the departure is not before
the arrival, and 24 when the departure is before the arrival. -/
theorem c20_same_date_layover_hours (arrivingRoute departingRoute : Route)
    (hdate : arrivingRoute.date = departingRoute.date) :
    calculateLayoverHours arrivingRoute departingRoute =
      if minutesFromMidnight arrivingRoute.arrivalTime ≤
          minutesFromMidnight departingRoute.departureTime then
        Int.fdiv (minutesFromMidnight departingRoute.departureTime -
          minutesFromMidnight arrivingRoute.arrivalTime) 60
      else 24 := by
  unfold calculateLayoverHours minutesFromMidnight
  simp only [hdate, if_true, ge_iff_le]
  split
  · next h =>
    rw [Int.fdiv_eq_tdiv (by omega) (by decide)]
  · rfl

theorem c20_same_date_layover_hours_witness :
    calculateLayoverHours ⟨"A", "B", "01/05/2025", "06:00", "08:30", 1, "X"⟩
        ⟨"B", "C", "01/05/2025", "11:15", "14:00", 1, "X"⟩ = 2 ∧
      calculateLayoverHours ⟨"A", "B", "01/05/2025", "06:00", "20:00", 1, "X"⟩
        ⟨"B", "C", "01/05/2025", "12:00", "14:00", 1, "X"⟩ = 24 :=
  ⟨(c20_same_date_layover_hours ⟨"A", "B", "01/05/2025", "06:00", "08:30", 1, "X"⟩
      ⟨"B", "C", "01/05/2025", "11:15", "14:00", 1, "X"⟩ rfl).trans (by decide),
    (c20_same_date_layover_hours ⟨"A", "B", "01/05/2025", "06:00", "20:00", 1, "X"⟩
      ⟨"B", "C", "01/05/2025", "12:00", "14:00", 1, "X"⟩ rfl).trans (by decide)⟩

/-! ## C18, C19: the totals of a found result -/

theorem foldl_add_hours (routes : List Route) :
    ∀ a : Int, routes.foldl (fun total _ => total + 24) a = a + 24 * routes.length := by
  induction routes with
  | nil => intro a; simp
  | cons r rs ih =>
    intro a
    simp only [List.foldl_cons, ih, List.length_cons]
    push_cast
    ring

theorem foldl_add_layoverHours (layovers : List LayoverInfo) :
    ∀ a : Int, layovers.foldl (fun total l => total + l.layoverHours) a =
      a + (layovers.map (fun l => l.layoverHours)).sum := by
  induction layovers with
  | nil => intro a; simp
  | cons l ls ih =>
    intro a
    simp only [List.foldl_cons, ih, List.map_cons, List.sum_cons]
    ring

theorem foldl_intAdd_eq :
    ∀ (xs : List Int) (a : Int), isInt a = true → (∀ x ∈ xs, isInt x = true) →
      xs.foldl intAdd a = wrapInt (a + xs.sum) ∧ isInt (xs.foldl intAdd a) = true := by
  intro xs
  induction xs with
  | nil =>
    intro a ha _
    simp only [List.foldl_nil, List.sum_nil, add_zero]
    exact ⟨(wrapInt_of_isInt ha).symm, ha⟩
  | cons x xs ih =>
    intro a ha hxs
    have hx := hxs x (List.mem_cons_self _ _)
    obtain ⟨h1, h2⟩ := ih (intAdd a x) (isInt_intAdd ha hx)
      (fun y hy => hxs y (List.mem_cons_of_mem _ hy))
    simp only [List.foldl_cons, List.sum_cons]
    refine ⟨?_, h2⟩
    rw [h1, intAdd_of_isInt ha hx, wrapInt_add_left, add_assoc]

theorem intSum_eq {xs : List Int} (h : ∀ x ∈ xs, isInt x = true) :
    intSum xs = wrapInt xs.sum ∧ isInt (intSum xs) = true := by
  have := foldl_intAdd_eq xs 0 isInt_zero h
  rw [zero_add] at this
  exact this

theorem foldl_intAdd_cost (routes : List Route) (a : Int) :
    routes.foldl (fun total r => intAdd total r.cost) a =
      (routes.map (fun r => r.cost)).foldl intAdd a := by
  rw [List.foldl_map]

theorem totalTravelHours_eq (routes : List Route) (layovers : List LayoverInfo) :
    totalTravelHours routes layovers =
      24 * routes.length + (layovers.map (fun l => l.layoverHours)).sum := by
  unfold totalTravelHours
  rw [foldl_add_layoverHours, foldl_add_hours]
  ring

theorem sumPortCharges_eq (g : Graph) :
    ∀ (routes : List Route) (a : Int), sumPortCharges g routes a =
      ((buildLayovers g routes).map (fun l => l.portCharge)).foldl intAdd a := by
  intro routes
  induction routes with
  | nil => intro a; simp [sumPortCharges, buildLayovers]
  | cons r rs ih =>
    intro a
    cases rs with
    | nil => simp [sumPortCharges, buildLayovers]
    | cons d rest =>
      rw [sumPortCharges, ih]
      simp only [buildLayovers, List.map_cons, List.foldl_cons, mkLayover]

theorem isInt_charge_of_mem_buildLayovers (g : Graph) :
    ∀ (routes : List Route), ∀ l ∈ buildLayovers g routes, isInt l.portCharge = true
  | [], l, hl => by simp [buildLayovers] at hl
  | [_], l, hl => by simp [buildLayovers] at hl
  | a :: d :: rest, l, hl => by
    simp only [buildLayovers, List.mem_cons] at hl
    rcases hl with hl | hl
    · rw [hl]
      exact isInt_portChargeFor _ _ _
    · exact isInt_charge_of_mem_buildLayovers g (d :: rest) l hl

theorem int_total_of_legs (g : Graph) (routes : List Route)
    (hfares : ∀ r ∈ routes, isInt r.cost = true) :
    intAdd (intSum (routes.map (fun r => r.cost)))
        (intSum ((buildLayovers g routes).map (fun l => l.portCharge))) =
      wrapInt ((routes.map (fun r => r.cost)).sum +
        ((buildLayovers g routes).map (fun l => l.portCharge)).sum) := by
  have h1 := @intSum_eq (routes.map (fun r => r.cost)) (by
    intro x hx
    obtain ⟨r, hr, hrx⟩ := List.mem_map.mp hx
    rw [← hrx]
    exact hfares r hr)
  have h2 := @intSum_eq ((buildLayovers g routes).map (fun l => l.portCharge)) (by
    intro x hx
    obtain ⟨l, hl, hlx⟩ := List.mem_map.mp hx
    rw [← hlx]
    exact isInt_charge_of_mem_buildLayovers g routes l hl)
  rw [intAdd_of_isInt h1.2 h2.2, h1.1, h2.1, wrapInt_add_left, wrapInt_add_right]

theorem bidirRoutes_mem (g : Graph) (date : String) :
    ∀ (path : List String) (i : Nat) (routes out : List Route),
      (∀ r ∈ routes, r ∈ g.getAllRoutes) → bidirRoutes g date path i routes = some out →
      ∀ r ∈ out, r ∈ g.getAllRoutes
  | [], i, routes, out, h, hout => by
    simp only [bidirRoutes, Option.some.injEq] at hout
    rw [← hout]
    exact h
  | [_], i, routes, out, h, hout => by
    simp only [bidirRoutes, Option.some.injEq] at hout
    rw [← hout]
    exact h
  | fromPort :: toPort :: rest, i, routes, out, h, hout => by
    rw [bidirRoutes] at hout
    dsimp only at hout
    split at hout
    · cases hout
    · refine bidirRoutes_mem g date (toPort :: rest) (i + 1) _ out ?_ hout
      intro r hr
      split at hr
      · next r0 hfind =>
        rcases List.mem_append.mp hr with hr | hr
        · exact h r hr
        · rw [List.mem_singleton.mp hr]
          have hm := List.mem_of_find?_eq_some hfind
          exact mem_getAllRoutes_of_getRoutesFrom (List.mem_filter.mp hm).1
      · exact h r hr

theorem findCheapestPathBidirectional_totals {g : Graph} {origin destination date : String}
    {res : PathResult} (hres : findCheapestPathBidirectional g origin destination date = some res)
    (hfound : res.found = true) :
    res.layovers = buildLayovers g res.routes ∧
    res.totalCost = intAdd (intSum (res.routes.map (fun r => r.cost)))
      (intSum (res.layovers.map (fun l => l.portCharge))) ∧
    res.totalTravelTime = 24 * res.routes.length +
      (res.layovers.map (fun l => l.layoverHours)).sum ∧
    ∀ r ∈ res.routes, r ∈ g.getAllRoutes := by
  unfold findCheapestPathBidirectional at hres
  split at hres
  · cases hres; simp [PathResult.empty] at hfound
  split at hres
  · cases hres; simp [PathResult.empty] at hfound
  dsimp only at hres
  split at hres
  swap
  · cases hres; simp [PathResult.empty] at hfound
  split at hres
  · cases hres; simp [PathResult.empty] at hfound
  split at hres
  swap
  · cases hres
  split at hres
  · cases hres
  next routes hroutes =>
    cases hres
    refine ⟨rfl, ?_, totalTravelHours_eq _ _, ?_⟩
    · simp only [foldl_intAdd_cost, sumPortCharges_eq, intSum]
    · exact bidirRoutes_mem g date _ 0 [] routes (by simp) hroutes

/-- C18 fails on `bigFares`: the bidirectional search from `A` to `C` returns
a found result with the legs of fares 2147483000 and 1000 and no port charge,
whose total cost is -2147483296, not the sum 2147484000: the total is kept in
an `int`. -/
theorem c18_counterexample :
    (findCheapestPathBidirectional bigFares "A" "C" "01/05/2025").map
      (fun r => (r.found, r.totalCost,
        (r.routes.map (fun x => x.cost)).sum + (r.layovers.map (fun l => l.portCharge)).sum)) =
      some (true, -2147483296, 2147484000) := by
  decide

/-- C18 as amended: in every found result of `findCheapestPathBidirectional`
on a graph whose fares are values of `int`, the layovers are those built from
the legs of the result, and the total cost is the sum of the fares of the legs
of the result plus the sum of the port charges of the layovers of the result,
reduced modulo 2^32 to a value of `int`; it is that sum itself when the sum
is in the range of `int`.  The distance of the meeting point kept during the
search does not enter it.  (The search gives no result when the lookup of the
legs raises.) -/
theorem c18_bidirectional_total_cost_recomputed (g : Graph) (hint : IntFares g)
    (origin destination date : String) (res : PathResult)
    (hres : findCheapestPathBidirectional g origin destination date = some res)
    (hfound : res.found = true) :
    res.layovers = buildLayovers g res.routes ∧
    res.totalCost = wrapInt ((res.routes.map (fun r => r.cost)).sum +
      (res.layovers.map (fun l => l.portCharge)).sum) ∧
    (INT_MIN ≤ (res.routes.map (fun r => r.cost)).sum +
        (res.layovers.map (fun l => l.portCharge)).sum →
      (res.routes.map (fun r => r.cost)).sum +
        (res.layovers.map (fun l => l.portCharge)).sum ≤ INT_MAX →
      res.totalCost = (res.routes.map (fun r => r.cost)).sum +
        (res.layovers.map (fun l => l.portCharge)).sum) := by
  obtain ⟨h1, h2, _, h4⟩ := findCheapestPathBidirectional_totals hres hfound
  have hw : res.totalCost = wrapInt ((res.routes.map (fun r => r.cost)).sum +
      (res.layovers.map (fun l => l.portCharge)).sum) := by
    rw [h2, h1]
    exact int_total_of_legs g res.routes (fun r hr => hint r (h4 r hr))
  refine ⟨h1, hw, fun hlo hhi => ?_⟩
  rw [hw]
  apply wrapInt_of_isInt
  simp only [isInt, Bool.and_eq_true, decide_eq_true_eq]
  exact ⟨hlo, hhi⟩

/-- C18 as amended, on `chainTwoDays`: the found result costs 330, the fares
100 and 150 plus the charge of 80 for the layover at `B`. -/
theorem c18_bidirectional_total_cost_recomputed_witness :
    IntFares chainTwoDays ∧
    findCheapestPathBidirectional chainTwoDays "A" "C" "01/05/2025" =
      some chainTwoDaysResult ∧
    chainTwoDaysResult.found = true ∧ chainTwoDaysResult.totalCost = 100 + 150 + 80 ∧
    (chainTwoDaysResult.layovers = buildLayovers chainTwoDays chainTwoDaysResult.routes ∧
      chainTwoDaysResult.totalCost =
        wrapInt ((chainTwoDaysResult.routes.map (fun r => r.cost)).sum +
          (chainTwoDaysResult.layovers.map (fun l => l.portCharge)).sum) ∧
      (INT_MIN ≤ (chainTwoDaysResult.routes.map (fun r => r.cost)).sum +
          (chainTwoDaysResult.layovers.map (fun l => l.portCharge)).sum →
        (chainTwoDaysResult.routes.map (fun r => r.cost)).sum +
          (chainTwoDaysResult.layovers.map (fun l => l.portCharge)).sum ≤ INT_MAX →
        chainTwoDaysResult.totalCost =
          (chainTwoDaysResult.routes.map (fun r => r.cost)).sum +
            (chainTwoDaysResult.layovers.map (fun l => l.portCharge)).sum)) :=
  ⟨by unfold IntFares; decide, by decide, rfl, by decide,
    c18_bidirectional_total_cost_recomputed chainTwoDays (by unfold IntFares; decide)
      "A" "C" "01/05/2025" chainTwoDaysResult (by decide) rfl⟩

/-- C19: on a graph built by `addPort` and `addRoute`, `findCheapestPath`,
`findCheapestPathWithPreferences`, `findShortestPath` and
`findShortestPathWithPreferences` return a result, and when it is found its
total travel time is 24 hours per leg plus the sum of the hours of its
layovers; the same equation holds for every found result of
`findCheapestPathBidirectional`. -/
theorem c19_total_travel_time (g : Graph) (hwf : g.WF) (origin destination date : String)
    (preferences : PreferenceFilter) :
    (∃ res, findCheapestPath g origin destination date = some res ∧
      (res.found = true → res.totalTravelTime =
        24 * res.routes.length + (res.layovers.map (fun l => l.layoverHours)).sum)) ∧
    (∃ res, findCheapestPathWithPreferences g origin destination date preferences = some res ∧
      (res.found = true → res.totalTravelTime =
        24 * res.routes.length + (res.layovers.map (fun l => l.layoverHours)).sum)) ∧
    (∃ res, findShortestPath g origin destination date = some res ∧
      (res.found = true → res.totalTravelTime =
        24 * res.routes.length + (res.layovers.map (fun l => l.layoverHours)).sum)) ∧
    (∃ res, findShortestPathWithPreferences g origin destination date preferences = some res ∧
      (res.found = true → res.totalTravelTime =
        24 * res.routes.length + (res.layovers.map (fun l => l.layoverHours)).sum)) ∧
    (∀ res, findCheapestPathBidirectional g origin destination date = some res →
      res.found = true → res.totalTravelTime =
        24 * res.routes.length + (res.layovers.map (fun l => l.layoverHours)).sum) := by
  obtain ⟨r1, h1, hc1⟩ := findCheapestPath_spec hwf origin destination date
  obtain ⟨r2, h2, hc2⟩ :=
    findCheapestPathWithPreferences_spec hwf origin destination date preferences
  obtain ⟨r3, h3, hc3⟩ := findShortestPath_spec hwf origin destination date
  obtain ⟨r4, h4, hc4⟩ :=
    findShortestPathWithPreferences_spec hwf origin destination date preferences
  refine ⟨⟨r1, h1, fun hf => ?_⟩, ⟨r2, h2, fun hf => ?_⟩, ⟨r3, h3, fun hf => ?_⟩,
    ⟨r4, h4, fun hf => ?_⟩,
    fun res hres hf => (findCheapestPathBidirectional_totals hres hf).2.2.1⟩
  · rw [(hc1 hf).2.2.1, totalTravelHours_eq]
  · rw [(hc2 hf).2.2.1, totalTravelHours_eq]
  · rw [(hc3 hf).2.2.1, totalTravelHours_eq]
  · rw [(hc4 hf).2.2.1, totalTravelHours_eq]

theorem c19_total_travel_time_witness :
    chainTwoDays.WF ∧
    (findCheapestPath chainTwoDays "A" "C" "01/05/2025").map
      (fun r => (r.found, r.totalTravelTime, r.routes.length)) = some (true, 86, 2) ∧
    (findCheapestPathBidirectional chainTwoDays "A" "C" "01/05/2025").map
      (fun r => (r.found, r.totalTravelTime, r.routes.length)) = some (true, 86, 2) ∧
    ((∃ res, findCheapestPath chainTwoDays "A" "C" "01/05/2025" = some res ∧
      (res.found = true → res.totalTravelTime =
        24 * res.routes.length + (res.layovers.map (fun l => l.layoverHours)).sum)) ∧
    (∃ res, findCheapestPathWithPreferences chainTwoDays "A" "C" "01/05/2025" onlyX = some res ∧
      (res.found = true → res.totalTravelTime =
        24 * res.routes.length + (res.layovers.map (fun l => l.layoverHours)).sum)) ∧
    (∃ res, findShortestPath chainTwoDays "A" "C" "01/05/2025" = some res ∧
      (res.found = true → res.totalTravelTime =
        24 * res.routes.length + (res.layovers.map (fun l => l.layoverHours)).sum)) ∧
    (∃ res, findShortestPathWithPreferences chainTwoDays "A" "C" "01/05/2025" onlyX = some res ∧
      (res.found = true → res.totalTravelTime =
        24 * res.routes.length + (res.layovers.map (fun l => l.layoverHours)).sum)) ∧
    (∀ res, findCheapestPathBidirectional chainTwoDays "A" "C" "01/05/2025" = some res →
      res.found = true → res.totalTravelTime =
        24 * res.routes.length + (res.layovers.map (fun l => l.layoverHours)).sum)) :=
  ⟨wf_mkGraph _ _, by decide, by decide,
    c19_total_travel_time chainTwoDays (wf_mkGraph _ _) "A" "C" "01/05/2025" onlyX⟩

/-! ## C15, C16: routes through intermediate ports -/

theorem updateCheapest_isInt (g : Graph) (pm : PortMapper) (m : Nat) (s : DijkstraState)
    (route : Route) (n : Nat) (hs : ∀ v, isInt (s.distances v) = true)
    (hr : isInt route.cost = true) :
    ∀ v, isInt ((updateCheapest g pm m s route n).distances v) = true := by
  unfold updateCheapest
  dsimp only
  split
  · exact hs
  · split
    · intro v
      show isInt (setAt s.distances n _ v) = true
      by_cases hv : v = n
      · rw [hv, setAt_same]
        exact isInt_intAdd (isInt_intAdd (hs m) hr) (isInt_portChargeFor _ _ _)
      · rw [setAt_other _ _ hv]
        exact hs v
    · exact hs

theorem relaxCheapest_isInt (g : Graph) (pm : PortMapper) (m : Nat) (s : DijkstraState)
    (route : Route) (hs : ∀ v, isInt (s.distances v) = true) (hr : isInt route.cost = true) :
    ∀ v, isInt ((relaxCheapest g pm m s route).distances v) = true := by
  unfold relaxCheapest
  split
  · exact hs
  · split
    · exact hs
    · exact updateCheapest_isInt g pm m s route _ hs hr

theorem cheapestLoop_isInt {g : Graph} (hint : IntFares g) (pm : PortMapper)
    (numPorts destIdx : Nat) :
    ∀ (count : Nat) (s : DijkstraState), (∀ v, isInt (s.distances v) = true) →
      isInt (cheapestLoop g pm numPorts destIdx count s).2.1 = true := by
  intro count
  induction count with
  | zero => intro s _; rfl
  | succ k ih =>
    intro s hs
    unfold cheapestLoop
    split
    · rfl
    · next m _ =>
      dsimp only
      split
      · exact hs destIdx
      · apply ih
        apply foldl_invariant (fun t : DijkstraState => ∀ v, isInt (t.distances v) = true)
        · intro t r hr ht
          exact relaxCheapest_isInt g pm m t r ht
            (hint r (mem_getAllRoutes_of_getRoutesFrom (List.mem_filter.mp hr).1))
        · exact hs

theorem isInt_init_distances (originIdx : Nat) (date : String) :
    ∀ v, isInt ((DijkstraState.init originIdx date).distances v) = true := by
  intro v
  show isInt (setAt (fun _ => INT_MAX) originIdx 0 v) = true
  unfold setAt
  split
  · rfl
  · rfl

theorem findCheapestPath_isInt {g : Graph} (hint : IntFares g) {origin destination date : String}
    {res : PathResult} (hres : findCheapestPath g origin destination date = some res) :
    isInt res.totalCost = true := by
  unfold findCheapestPath at hres
  split at hres
  · cases hres; rfl
  split at hres
  · cases hres; rfl
  dsimp only at hres
  split at hres
  · next originIdx destIdx _ _ =>
    have hint2 := cheapestLoop_isInt hint (buildPortMapper g) (buildPortMapper g).getSize destIdx
      (buildPortMapper g).getSize (DijkstraState.init originIdx date)
      (isInt_init_distances originIdx date)
    split at hres
    · unfold reconstructResult at hres
      split at hres
      · cases hres
      · cases hres
        exact hint2
    · cases hres; rfl
  · cases hres; rfl

theorem isInt_segment_totals {g : Graph} (hint : IntFares g) {date : String} :
    ∀ {pairs : List (String × String)} {segments : List PathResult},
      List.Forall₂ (SegmentResult g date) pairs segments →
      ∀ x ∈ segments.map (fun r => r.totalCost), isInt x = true := by
  intro pairs segments h
  induction h with
  | nil => intro x hx; simp at hx
  | cons hab _ ih =>
    intro x hx
    simp only [List.map_cons, List.mem_cons] at hx
    rcases hx with hx | hx
    · rw [hx]
      exact findCheapestPath_isInt hint hab.1
    · exact ih x hx

theorem multiLegLoop_spec {g : Graph} (hwf : g.WF) (date : String) :
    ∀ (ports : List String) (i : Nat) (acc : PathResult),
    ∃ segments : List PathResult,
      List.Forall₂ (SegmentResult g date) (consecutivePairs ports) segments ∧
      ((∃ r ∈ segments, r.found = false) →
        multiLegLoop g date ports i acc =
          some { acc with found := false, totalCost := 0, path := [], routes := [] }) ∧
      ((∀ r ∈ segments, r.found = true) →
        multiLegLoop g date ports i acc =
          some { acc with
            path := acc.path ++
              (if i = 0 then joinPaths (segments.map (fun r => r.path))
               else ((segments.map (fun r => r.path)).map (fun q => q.drop 1)).flatten)
            routes := acc.routes ++ (segments.map (fun r => r.routes)).flatten
            totalCost := (segments.map (fun r => r.totalCost)).foldl intAdd acc.totalCost }) := by
  intro ports
  induction ports with
  | nil =>
    intro i acc
    refine ⟨[], List.Forall₂.nil, ?_, ?_⟩
    · rintro ⟨r, hr, _⟩
      simp at hr
    · intro _
      simp [multiLegLoop, joinPaths]
  | cons p tl ih =>
    intro i acc
    cases tl with
    | nil =>
      refine ⟨[], List.Forall₂.nil, ?_, ?_⟩
      · rintro ⟨r, hr, _⟩
        simp at hr
      · intro _
        simp [multiLegLoop, joinPaths]
    | cons q rest =>
      obtain ⟨r, hr, hcr⟩ := findCheapestPath_spec hwf p q date
      by_cases hfound : r.found = true
      · obtain ⟨rs, hrs, hfail, hok⟩ := ih (i + 1)
          { acc with
            path := if i = 0 then acc.path ++ r.path else acc.path ++ r.path.drop 1
            routes := acc.routes ++ r.routes
            totalCost := intAdd acc.totalCost r.totalCost }
        refine ⟨r :: rs, List.Forall₂.cons ⟨hr, fun hf => ⟨(hcr hf).1.head, (hcr hf).1.last⟩⟩ hrs,
          ?_, ?_⟩
        · rintro ⟨x, hx, hxf⟩
          have hxrs : x ∈ rs := by
            rcases List.mem_cons.mp hx with h | h
            · rw [h, hfound] at hxf
              cases hxf
            · exact h
          rw [multiLegLoop]
          simp only [hr, hfound, Bool.not_true, Bool.false_eq_true, if_false]
          rw [hfail ⟨x, hxrs, hxf⟩]
        · intro hall
          rw [multiLegLoop]
          simp only [hr, hfound, Bool.not_true, Bool.false_eq_true, if_false]
          rw [hok (fun x hx => hall x (List.mem_cons_of_mem _ hx))]
          by_cases hi : i = 0
          · simp [hi, joinPaths]
          · simp [hi]
      · have hnf : r.found = false := by simpa using hfound
        obtain ⟨rs, hrs, _, _⟩ := ih (i + 1) acc
        refine ⟨r :: rs, List.Forall₂.cons ⟨hr, fun hf => absurd hf hfound⟩ hrs, ?_, ?_⟩
        · intro _
          rw [multiLegLoop]
          simp [hr, hnf]
        · intro hall
          exact absurd (hall r (List.mem_cons_self _ _)) hfound

theorem findMultiLegRoute_spec {g : Graph} (hwf : g.WF) (origin : String)
    (intermediatePorts : List String) (destination date : String)
    (hknown : ∀ p ∈ origin :: (intermediatePorts ++ [destination]), g.hasPort p = true) :
    ∃ segments : List PathResult,
      List.Forall₂ (SegmentResult g date)
        (consecutivePairs (origin :: (intermediatePorts ++ [destination]))) segments ∧
      ((∃ r ∈ segments, r.found = false) →
        findMultiLegRoute g origin intermediatePorts destination date =
          some PathResult.empty) ∧
      ((∀ r ∈ segments, r.found = true) →
        findMultiLegRoute g origin intermediatePorts destination date =
          some { found := true
                 totalCost := intSum (segments.map (fun r => r.totalCost))
                 totalTravelTime := 0
                 path := joinPaths (segments.map (fun r => r.path))
                 routes := (segments.map (fun r => r.routes)).flatten
                 layovers := [] }) := by
  have ho : g.hasPort origin = true := hknown origin (List.mem_cons_self _ _)
  have hd : g.hasPort destination = true :=
    hknown destination (List.mem_cons_of_mem _ (List.mem_append_right _ (List.mem_singleton_self _)))
  have hany : intermediatePorts.any (fun p => !g.hasPort p) = false := by
    rw [Bool.eq_false_iff]
    intro h
    obtain ⟨m, hm, hmf⟩ := List.any_eq_true.mp h
    have := hknown m (List.mem_cons_of_mem _ (List.mem_append_left _ hm))
    simp [this] at hmf
  obtain ⟨segments, hseg, hfail, hok⟩ := multiLegLoop_spec hwf date
    (origin :: (intermediatePorts ++ [destination])) 0
    { PathResult.empty with found := true, totalCost := 0 }
  refine ⟨segments, hseg, ?_, ?_⟩
  · intro h
    unfold findMultiLegRoute
    simp only [ho, hd, hany, Bool.not_true, Bool.false_eq_true, if_false]
    rw [hfail h]
    rfl
  · intro h
    unfold findMultiLegRoute
    simp only [ho, hd, hany, Bool.not_true, Bool.false_eq_true, if_false]
    rw [hok h]
    simp [PathResult.empty, intSum]

/-- C15 fails on `bigFares`: the segments `A → B` and `B → C` are found with
the total costs 2147483000 and 1000, and `findMultiLegRoute` from `A` through
`B` to `C` returns a found result whose total cost is -2147483296, not the sum
2147484000: the total is kept in an `int`. -/
theorem c15_counterexample :
    (findCheapestPath bigFares "A" "B" "01/05/2025").map (fun r => (r.found, r.totalCost)) =
      some (true, 2147483000) ∧
    (findCheapestPath bigFares "B" "C" "01/05/2025").map (fun r => (r.found, r.totalCost)) =
      some (true, 1000) ∧
    (findMultiLegRoute bigFares "A" ["B"] "C" "01/05/2025").map
      (fun r => (r.found, r.totalCost, r.path)) =
      some (true, -2147483296, ["A", "B", "C"]) := by
  decide

/-- C15 as amended: with all ports known, on a graph built by `addPort` and
`addRoute` whose fares are values of `int`, let the segment results be what
`findCheapestPath` returns, for the original date, on each consecutive pair of
origin, intermediate ports, destination.  `findMultiLegRoute` returns a
result; it is not found exactly when some segment result is not found, and
then its path and routes are empty; otherwise its path is the first segment
path followed by the other segment paths without their first port (which is
the last port of the segment before), its routes are the segment routes in
order, and its total cost is the sum of the segment total costs reduced modulo
2^32 to a value of `int`, which is that sum itself when the sum is in the range
of `int`. -/
theorem c15_multi_leg_composition (g : Graph) (hwf : g.WF) (hint : IntFares g)
    (origin : String) (intermediatePorts : List String) (destination date : String)
    (hknown : ∀ p ∈ origin :: (intermediatePorts ++ [destination]), g.hasPort p = true) :
    ∃ segments : List PathResult,
      List.Forall₂ (SegmentResult g date)
        (consecutivePairs (origin :: (intermediatePorts ++ [destination]))) segments ∧
      ∃ res, findMultiLegRoute g origin intermediatePorts destination date = some res ∧
        (res.found = false ↔ ∃ r ∈ segments, r.found = false) ∧
        (res.found = false → res.path = [] ∧ res.routes = []) ∧
        (res.found = true →
          res.path = joinPaths (segments.map (fun r => r.path)) ∧
          res.routes = (segments.map (fun r => r.routes)).flatten ∧
          res.totalCost = wrapInt (segments.map (fun r => r.totalCost)).sum ∧
          (INT_MIN ≤ (segments.map (fun r => r.totalCost)).sum →
            (segments.map (fun r => r.totalCost)).sum ≤ INT_MAX →
            res.totalCost = (segments.map (fun r => r.totalCost)).sum)) := by
  obtain ⟨segments, hseg, hfail, hok⟩ :=
    findMultiLegRoute_spec hwf origin intermediatePorts destination date hknown
  have hsum := (intSum_eq (isInt_segment_totals hint hseg)).1
  refine ⟨segments, hseg, ?_⟩
  by_cases hall : ∀ r ∈ segments, r.found = true
  · refine ⟨_, hok hall, ?_, ?_, ?_⟩
    · constructor
      · intro h
        cases h
      · rintro ⟨r, hr, hrf⟩
        rw [hall r hr] at hrf
        cases hrf
    · intro h
      cases h
    · intro _
      refine ⟨rfl, rfl, hsum, fun hlo hhi => ?_⟩
      show intSum (segments.map (fun r => r.totalCost)) = _
      rw [hsum]
      apply wrapInt_of_isInt
      simp only [isInt, Bool.and_eq_true, decide_eq_true_eq]
      exact ⟨hlo, hhi⟩
  · have hex : ∃ r ∈ segments, r.found = false := by
      by_contra hne
      apply hall
      intro r hr
      by_contra hrf
      exact hne ⟨r, hr, by simpa using hrf⟩
    refine ⟨_, hfail hex, ?_, ?_, ?_⟩
    · exact ⟨fun _ => hex, fun _ => rfl⟩
    · intro _
      exact ⟨rfl, rfl⟩
    · intro h
      cases h

/-- C15 as amended, on `viaM`: the segments cost 200 and 300, the route from
`A` through `M` to `C` costs 500 and its path is `A`, `M`, `C`. -/
theorem c15_multi_leg_composition_witness :
    viaM.WF ∧ IntFares viaM ∧ (∀ p ∈ "A" :: (["M"] ++ ["C"]), viaM.hasPort p = true) ∧
    (findCheapestPath viaM "A" "M" "01/05/2025").map (fun r => (r.found, r.totalCost)) =
      some (true, 200) ∧
    (findCheapestPath viaM "M" "C" "01/05/2025").map (fun r => (r.found, r.totalCost)) =
      some (true, 300) ∧
    (findMultiLegRoute viaM "A" ["M"] "C" "01/05/2025").map
      (fun r => (r.found, r.totalCost, r.path)) = some (true, 500, ["A", "M", "C"]) ∧
    (∃ segments : List PathResult,
      List.Forall₂ (SegmentResult viaM "01/05/2025")
        (consecutivePairs ("A" :: (["M"] ++ ["C"]))) segments ∧
      ∃ res, findMultiLegRoute viaM "A" ["M"] "C" "01/05/2025" = some res ∧
        (res.found = false ↔ ∃ r ∈ segments, r.found = false) ∧
        (res.found = false → res.path = [] ∧ res.routes = []) ∧
        (res.found = true →
          res.path = joinPaths (segments.map (fun r => r.path)) ∧
          res.routes = (segments.map (fun r => r.routes)).flatten ∧
          res.totalCost = wrapInt (segments.map (fun r => r.totalCost)).sum ∧
          (INT_MIN ≤ (segments.map (fun r => r.totalCost)).sum →
            (segments.map (fun r => r.totalCost)).sum ≤ INT_MAX →
            res.totalCost = (segments.map (fun r => r.totalCost)).sum))) :=
  ⟨wf_mkGraph _ _, by unfold IntFares; decide, by decide, by decide, by decide, by decide,
    c15_multi_leg_composition viaM (wf_mkGraph _ _) (by unfold IntFares; decide)
      "A" ["M"] "C" "01/05/2025" (by decide)⟩

/-- C16 fails at `viaM`: the found result of `findMultiLegRoute` from `A`
through `M` to `C` has two legs, no layover and total travel time 0, where the
claim asks for one layover and at least 48 hours. -/
theorem c16_counterexample :
    (findMultiLegRoute viaM "A" ["M"] "C" "01/05/2025").map
      (fun r => (r.found, r.routes.length, r.layovers.length, r.totalTravelTime)) =
      some (true, 2, 0, 0) := by
  decide

/-- C16 as amended: on a graph built by `addPort` and `addRoute` whose fares
are values of `int`, `findMultiLegRoute` returns a result with no layover and
total travel time 0, whatever its legs; when the result is found, its total
cost is the sum of the total costs that `findCheapestPath` returns for the
consecutive segments, reduced modulo 2^32 to a value of `int` (that sum itself
when it is in the range of `int`). -/
theorem c16_multi_leg_totals (g : Graph) (hwf : g.WF) (hint : IntFares g) (origin : String)
    (intermediatePorts : List String) (destination date : String) :
    ∃ res, findMultiLegRoute g origin intermediatePorts destination date = some res ∧
      res.layovers = [] ∧ res.totalTravelTime = 0 ∧
      (res.found = true → ∃ segments : List PathResult,
        List.Forall₂ (SegmentResult g date)
          (consecutivePairs (origin :: (intermediatePorts ++ [destination]))) segments ∧
        res.totalCost = wrapInt (segments.map (fun r => r.totalCost)).sum ∧
        (INT_MIN ≤ (segments.map (fun r => r.totalCost)).sum →
          (segments.map (fun r => r.totalCost)).sum ≤ INT_MAX →
          res.totalCost = (segments.map (fun r => r.totalCost)).sum)) := by
  by_cases hknown : ∀ p ∈ origin :: (intermediatePorts ++ [destination]), g.hasPort p = true
  · obtain ⟨segments, hseg, hfail, hok⟩ :=
      findMultiLegRoute_spec hwf origin intermediatePorts destination date hknown
    have hsum := (intSum_eq (isInt_segment_totals hint hseg)).1
    by_cases hall : ∀ r ∈ segments, r.found = true
    · refine ⟨_, hok hall, rfl, rfl, fun _ => ⟨segments, hseg, hsum, fun hlo hhi => ?_⟩⟩
      show intSum (segments.map (fun r => r.totalCost)) = _
      rw [hsum]
      apply wrapInt_of_isInt
      simp only [isInt, Bool.and_eq_true, decide_eq_true_eq]
      exact ⟨hlo, hhi⟩
    · have hex : ∃ r ∈ segments, r.found = false := by
        by_contra hne
        apply hall
        intro r hr
        by_contra hrf
        exact hne ⟨r, hr, by simpa using hrf⟩
      refine ⟨_, hfail hex, rfl, rfl, ?_⟩
      intro h
      cases h
  · have hunknown : g.hasPort origin = false ∨ g.hasPort destination = false ∨
        ∃ m ∈ intermediatePorts, g.hasPort m = false := by
      by_contra hne
      simp only [not_or, not_exists, not_and, Bool.not_eq_false] at hne
      apply hknown
      intro p hp
      rcases List.mem_cons.mp hp with h | h
      · rw [h]; exact hne.1
      · rcases List.mem_append.mp h with h | h
        · exact hne.2.2 p h
        · rw [List.mem_singleton.mp h]; exact hne.2.1
    refine ⟨_, findMultiLegRoute_unknown g origin intermediatePorts destination date hunknown,
      rfl, rfl, ?_⟩
    intro h
    cases h

/-- C16 as amended, on `viaM`: the found result from `A` through `M` to `C`
has no layover and travel time 0, and costs 200 + 300. -/
theorem c16_multi_leg_totals_witness :
    viaM.WF ∧ IntFares viaM ∧
    (findMultiLegRoute viaM "A" ["M"] "C" "01/05/2025").map
      (fun r => (r.found, r.totalCost, r.layovers.length, r.totalTravelTime)) =
      some (true, 500, 0, 0) ∧
    ∃ res, findMultiLegRoute viaM "A" ["M"] "C" "01/05/2025" = some res ∧
      res.layovers = [] ∧ res.totalTravelTime = 0 ∧
      (res.found = true → ∃ segments : List PathResult,
        List.Forall₂ (SegmentResult viaM "01/05/2025")
          (consecutivePairs ("A" :: (["M"] ++ ["C"]))) segments ∧
        res.totalCost = wrapInt (segments.map (fun r => r.totalCost)).sum ∧
        (INT_MIN ≤ (segments.map (fun r => r.totalCost)).sum →
          (segments.map (fun r => r.totalCost)).sum ≤ INT_MAX →
          res.totalCost = (segments.map (fun r => r.totalCost)).sum)) :=
  ⟨wf_mkGraph _ _, by unfold IntFares; decide, by decide,
    c16_multi_leg_totals viaM (wf_mkGraph _ _) (by unfold IntFares; decide)
      "A" ["M"] "C" "01/05/2025"⟩

/-! ## C22: the number of days between two dates -/

theorem calculateDaysDifferenceLoop_spec (toDate : String) :
    ∀ (fuel : Nat) (current : String) (n : Nat), n + fuel = 366 →
      ((n : Int) ≤ calculateDaysDifferenceLoop fuel current toDate n ∧
        calculateDaysDifferenceLoop fuel current toDate n ≤ 366) ∧
      (∀ k : Nat, n + k ≤ 365 → getNextDay^[k] current = toDate →
        (∀ j, j < k → getNextDay^[j] current ≠ toDate) →
        calculateDaysDifferenceLoop fuel current toDate n = ((n + k : Nat) : Int)) ∧
      ((∀ k : Nat, n + k ≤ 365 → getNextDay^[k] current ≠ toDate) →
        calculateDaysDifferenceLoop fuel current toDate n = 366) := by
  intro fuel
  induction fuel with
  | zero =>
    intro current n hn
    have hn366 : n = 366 := by omega
    subst hn366
    refine ⟨⟨by simp [calculateDaysDifferenceLoop], by simp [calculateDaysDifferenceLoop]⟩, ?_, ?_⟩
    · intro k hk
      omega
    · intro _
      simp [calculateDaysDifferenceLoop]
  | succ fuel ih =>
    intro current n hn
    rw [calculateDaysDifferenceLoop]
    by_cases hcur : current = toDate
    · simp only [hcur, if_true]
      refine ⟨⟨le_refl _, by omega⟩, ?_, ?_⟩
      · intro k _ _ hleast
        have hk0 : k = 0 := by
          by_contra hk
          exact hleast 0 (Nat.pos_of_ne_zero hk) (by simp [hcur])
        simp [hk0]
      · intro hnever
        exact absurd (by simp [hcur]) (hnever 0 (by omega))
    · simp only [hcur, if_false]
      by_cases hcap : (n : Int) + 1 > 365
      · simp only [hcap, if_true]
        have hn365 : n = 365 := by omega
        subst hn365
        refine ⟨⟨by omega, by omega⟩, ?_, ?_⟩
        · intro k hk hreach _
          have hk0 : k = 0 := by omega
          subst hk0
          exact absurd hreach hcur
        · intro _
          norm_num
      · simp only [hcap, if_false]
        have hih := ih (getNextDay current) (n + 1) (by omega)
        have hcast : ((n : Int) + 1) = ((n + 1 : Nat) : Int) := by push_cast; ring
        rw [hcast]
        refine ⟨⟨by omega, hih.1.2⟩, ?_, ?_⟩
        · intro k hk hreach hleast
          cases k with
          | zero => exact absurd hreach hcur
          | succ k =>
            have := hih.2.1 k (by omega) (by simpa [Function.iterate_succ_apply] using hreach)
              (fun j hj => by
                have := hleast (j + 1) (by omega)
                simpa [Function.iterate_succ_apply] using this)
            rw [this]
            congr 1
            omega
        · intro hnever
          apply hih.2.2
          intro k hk
          have := hnever (k + 1) (by omega)
          simpa [Function.iterate_succ_apply] using this

theorem calculateDaysDifference_spec (fromDate toDate : String) :
    (0 ≤ calculateDaysDifference fromDate toDate ∧
      calculateDaysDifference fromDate toDate ≤ 366) ∧
    (∀ k : Nat, k ≤ 365 → getNextDay^[k] fromDate = toDate →
      (∀ j, j < k → getNextDay^[j] fromDate ≠ toDate) →
      calculateDaysDifference fromDate toDate = (k : Int)) ∧
    ((∀ k : Nat, k ≤ 365 → getNextDay^[k] fromDate ≠ toDate) →
      calculateDaysDifference fromDate toDate = 366) := by
  have h := calculateDaysDifferenceLoop_spec toDate 366 fromDate 0 (by norm_num)
  unfold calculateDaysDifference
  refine ⟨⟨by simpa using h.1.1, h.1.2⟩, ?_, ?_⟩
  · intro k hk hreach hleast
    have := h.2.1 k (by omega) hreach hleast
    simpa using this
  · intro hnever
    exact h.2.2 (fun k hk => hnever k (by omega))

theorem not_reached_of_not_mem_iterate {fromDate toDate : String}
    (h : toDate ∉ List.iterate getNextDay fromDate 366) :
    ∀ k : Nat, k ≤ 365 → getNextDay^[k] fromDate ≠ toDate := by
  intro k hk heq
  apply h
  rw [List.mem_iterate]
  exact ⟨k, by omega, heq.symm⟩


set_option maxRecDepth 100000 in
theorem earlier_date_not_reached :
    "01/05/2025" ∉ List.iterate getNextDay "02/05/2025" 366 := by
  decide

/-- C22 fails for a date that is not reached: from 02/05/2025 to the day
before, `calculateDaysDifference` returns 366, which is above 365. -/
theorem c22_counterexample :
    calculateDaysDifference "02/05/2025" "01/05/2025" = 366 :=
  (calculateDaysDifference_spec "02/05/2025" "01/05/2025").2.2
    (not_reached_of_not_mem_iterate earlier_date_not_reached)

/-- C22, amended: `calculateDaysDifference` lies between 0 and 366; it is the
least `k` with `getNextDay` applied `k` times to the first date giving the
second one when such a `k` up to 365 exists, and 366 when the second date is
not reached within 365 steps. -/
theorem c22_days_difference_capped_at_366 (fromDate toDate : String) :
    (0 ≤ calculateDaysDifference fromDate toDate ∧
      calculateDaysDifference fromDate toDate ≤ 366) ∧
    (∀ k : Nat, k ≤ 365 → getNextDay^[k] fromDate = toDate →
      (∀ j, j < k → getNextDay^[j] fromDate ≠ toDate) →
      calculateDaysDifference fromDate toDate = (k : Int)) ∧
    ((∀ k : Nat, k ≤ 365 → getNextDay^[k] fromDate ≠ toDate) →
      calculateDaysDifference fromDate toDate = 366) :=
  calculateDaysDifference_spec fromDate toDate

theorem c22_days_difference_capped_at_366_witness :
    calculateDaysDifference "30/04/2025" "02/05/2025" = 2 ∧
    calculateDaysDifference "02/05/2025" "30/04/2025" = 366 :=
  ⟨(c22_days_difference_capped_at_366 "30/04/2025" "02/05/2025").2.1 2 (by decide) (by decide)
      (by decide),
    (c22_days_difference_capped_at_366 "02/05/2025" "30/04/2025").2.2
      (not_reached_of_not_mem_iterate (by decide))⟩

/-! ## C21: layover hours of two legs on different dates -/

/-- C21 fails for an arrival with minutes: arriving at 16:30 on 01/05/2025
and leaving at 06:00 on 03/05/2025 gives 7 + 24 + 6 = 37 hours, where the
hours to midnight rounded up would give 8 + 24 + 6 = 38. -/
theorem c21_counterexample :
    calculateLayoverHours ⟨"A", "B", "01/05/2025", "06:00", "16:30", 1, "X"⟩
      ⟨"B", "C", "03/05/2025", "06:00", "14:00", 1, "X"⟩ = 37 ∧
    calculateDaysDifference "01/05/2025" "03/05/2025" = 2 ∧
    ceilDiv (1440 - minutesFromMidnight "16:30") 60 + (2 - 1) * 24 +
      Int.fdiv (minutesFromMidnight "06:00") 60 = 38 := by
  decide

/-- C21, amended: for two legs with different dates, an arrival time of at
most 1440 minutes and a departure time that is not negative,
`calculateLayoverHours` is `floor((1440 - arrMinute) / 60) + (D - 1) * 24 +
floor(depMinute / 60)` with `D = calculateDaysDifference` of the two dates;
the first term is the rounded-up quotient when the arrival is on a full
hour. -/
theorem c21_different_date_layover_hours (arrivingRoute departingRoute : Route)
    (hdate : arrivingRoute.date ≠ departingRoute.date)
    (harr : minutesFromMidnight arrivingRoute.arrivalTime ≤ 1440)
    (hdep : 0 ≤ minutesFromMidnight departingRoute.departureTime) :
    calculateLayoverHours arrivingRoute departingRoute =
      Int.fdiv (1440 - minutesFromMidnight arrivingRoute.arrivalTime) 60 +
        (calculateDaysDifference arrivingRoute.date departingRoute.date - 1) * 24 +
        Int.fdiv (minutesFromMidnight departingRoute.departureTime) 60 ∧
    (minutesFromMidnight arrivingRoute.arrivalTime % 60 = 0 →
      calculateLayoverHours arrivingRoute departingRoute =
        ceilDiv (1440 - minutesFromMidnight arrivingRoute.arrivalTime) 60 +
          (calculateDaysDifference arrivingRoute.date departingRoute.date - 1) * 24 +
          Int.fdiv (minutesFromMidnight departingRoute.departureTime) 60) := by
  have hmain : calculateLayoverHours arrivingRoute departingRoute =
      Int.fdiv (1440 - minutesFromMidnight arrivingRoute.arrivalTime) 60 +
        (calculateDaysDifference arrivingRoute.date departingRoute.date - 1) * 24 +
        Int.fdiv (minutesFromMidnight departingRoute.departureTime) 60 := by
    unfold calculateLayoverHours
    simp only [hdate, if_false]
    unfold minutesFromMidnight at harr hdep ⊢
    rw [Int.fdiv_eq_tdiv (by omega) (by decide), Int.fdiv_eq_tdiv hdep (by decide)]
    norm_num
  refine ⟨hmain, fun hfull => ?_⟩
  rw [hmain]
  have hceil : ceilDiv (1440 - minutesFromMidnight arrivingRoute.arrivalTime) 60 =
      Int.fdiv (1440 - minutesFromMidnight arrivingRoute.arrivalTime) 60 := by
    unfold ceilDiv
    rw [Int.fdiv_eq_ediv _ (by decide), Int.fdiv_eq_ediv _ (by decide)]
    omega
  rw [hceil]

theorem c21_different_date_layover_hours_witness :
    calculateLayoverHours ⟨"A", "B", "01/05/2025", "06:00", "16:30", 1, "X"⟩
        ⟨"B", "C", "03/05/2025", "06:45", "14:00", 1, "X"⟩ = 7 + (2 - 1) * 24 + 6 ∧
    calculateLayoverHours ⟨"A", "B", "01/05/2025", "08:00", "16:00", 1, "X"⟩
        ⟨"B", "C", "03/05/2025", "06:00", "12:00", 1, "X"⟩ = 38 :=
  ⟨(c21_different_date_layover_hours ⟨"A", "B", "01/05/2025", "06:00", "16:30", 1, "X"⟩
      ⟨"B", "C", "03/05/2025", "06:45", "14:00", 1, "X"⟩ (by decide) (by decide)
      (by decide)).1.trans (by decide),
    ((c21_different_date_layover_hours ⟨"A", "B", "01/05/2025", "08:00", "16:00", 1, "X"⟩
      ⟨"B", "C", "03/05/2025", "06:00", "12:00", 1, "X"⟩ (by decide) (by decide)
      (by decide)).2 (by decide)).trans (by decide)⟩

/-! ## C23: the next day -/

theorem digitChar_toNat {k : Nat} (hk : k < 10) : ((Nat.digitChar k).toNat : Int) - 48 = k := by
  interval_cases k <;> decide

theorem parseDate_dateString {d1 d2 m1 m2 y1 y2 y3 y4 : Nat}
    (hd1 : d1 < 10) (hd2 : d2 < 10) (hm1 : m1 < 10) (hm2 : m2 < 10)
    (hy1 : y1 < 10) (hy2 : y2 < 10) (hy3 : y3 < 10) (hy4 : y4 < 10) :
    parseDate (dateString d1 d2 m1 m2 y1 y2 y3 y4) =
      ((d1 : Int) * 10 + d2, (m1 : Int) * 10 + m2,
        (y1 : Int) * 1000 + (y2 : Int) * 100 + (y3 : Int) * 10 + y4) := by
  simp only [parseDate, twoDigits, digitAt, dateString, List.getD_cons_zero, List.getD_cons_succ,
    digitChar_toNat hd1, digitChar_toNat hd2, digitChar_toNat hm1, digitChar_toNat hm2,
    digitChar_toNat hy1, digitChar_toNat hy2, digitChar_toNat hy3, digitChar_toNat hy4]

theorem getNextDay_of_parse {dateStr : String} {day month year : Int}
    (hparse : parseDate dateStr = (day, month, year))
    (hmonth : 1 ≤ month ∧ month ≤ 12) :
    getNextDay dateStr =
      dateToString (nextDate day month year).1 (nextDate day month year).2.1
        (nextDate day month year).2.2 := by
  unfold getNextDay
  rw [hparse]
  obtain ⟨h1, h12⟩ := hmonth
  simp only []
  interval_cases month <;> simp [daysInMonth, nextDate, monthLength] <;>
    split <;> first | rw [if_neg (by omega)] | rw [if_pos (by omega)]

theorem toDigitsCore_succ (b fuel n : Nat) (ds : List Char) :
    Nat.toDigitsCore b (fuel + 1) n ds =
      if n / b = 0 then Nat.digitChar (n % b) :: ds
      else Nat.toDigitsCore b fuel (n / b) (Nat.digitChar (n % b) :: ds) := by
  rw [Nat.toDigitsCore]

theorem repr_four_digits (n : Nat) (hlo : 1000 ≤ n) (hhi : n ≤ 9999) :
    Nat.repr n = String.mk [Nat.digitChar (n / 1000), Nat.digitChar (n / 100 % 10),
      Nat.digitChar (n / 10 % 10), Nat.digitChar (n % 10)] := by
  obtain ⟨k, rfl⟩ : ∃ k, n = k + 1000 := ⟨n - 1000, by omega⟩
  have h1 : (k + 1000) / 10 ≠ 0 := by omega
  have h2 : (k + 1000) / 10 / 10 ≠ 0 := by omega
  have h3 : (k + 1000) / 10 / 10 / 10 ≠ 0 := by omega
  have h4 : (k + 1000) / 10 / 10 / 10 / 10 = 0 := by omega
  have e1 : (k + 1000) / 10 / 10 / 10 % 10 = (k + 1000) / 1000 := by omega
  have e2 : (k + 1000) / 10 / 10 % 10 = (k + 1000) / 100 % 10 := by omega
  have hfuel : k + 1000 + 1 = (k + 997) + 1 + 1 + 1 + 1 := by omega
  show (Nat.toDigits 10 (k + 1000)).asString = _
  unfold Nat.toDigits
  rw [hfuel, toDigitsCore_succ, if_neg h1, toDigitsCore_succ, if_neg h2, toDigitsCore_succ,
    if_neg h3, toDigitsCore_succ, if_pos h4, e1, e2]
  rfl

theorem pad_two_digits (d : Nat) (hd : d ≤ 31) :
    (if (d : Int) < 10 then "0" else "") ++ Int.repr (d : Int) =
      String.mk [Nat.digitChar (d / 10), Nat.digitChar (d % 10)] := by
  interval_cases d <;> decide

theorem dateToString_digits (d m y : Nat) (hd : d ≤ 31) (hm : m ≤ 31)
    (hlo : 1000 ≤ y) (hhi : y ≤ 9999) :
    dateToString (d : Int) (m : Int) (y : Int) =
      dateString (d / 10) (d % 10) (m / 10) (m % 10) (y / 1000) (y / 100 % 10) (y / 10 % 10)
        (y % 10) := by
  unfold dateToString
  have key : ∀ a b c e f : String, a ++ b ++ "/" ++ c ++ e ++ "/" ++ f =
      (a ++ b) ++ ("/" ++ ((c ++ e) ++ ("/" ++ f))) := by
    intros
    simp only [String.append_assoc]
  have hy : Int.repr (y : Int) = Nat.repr y := rfl
  rw [key, pad_two_digits d hd, pad_two_digits m hm, hy, repr_four_digits y hlo hhi]
  rfl

theorem monthLength_le (month : Int) : monthLength month ≤ 31 := by
  unfold monthLength
  split
  · omega
  · split <;> omega

/-- The date 15/03/0999 is well formed and its next day is printed `16/03/999`:
the year is printed by `std::to_string`, without padding, so the result has
three year digits and is not the text `16/03/0999`. -/
theorem c23_counterexample :
    dateString 1 5 0 3 0 9 9 9 = "15/03/0999" ∧
    nextDate 15 3 999 = (16, 3, 999) ∧
    getNextDay "15/03/0999" = "16/03/999" ∧
    getNextDay "15/03/0999" ≠ dateString 1 6 0 3 0 9 9 9 := by
  decide

/-- C23 as amended: for a date text `DD/MM/YYYY` made of decimal digits with a
month from 1 to 12 and a year from 1000 on, whose next day has a year of at
most 9999, `getNextDay` is the text `DD/MM/YYYY` of the next day on the
calendar with the month lengths 31, 28, 31, 30, 31, 30, 31, 31, 30, 31, 30,
31 (the day after within the month, else the first day of the next month, else
the first of January of the next year), with two digits for the day, two for
the month and four for the year. -/
theorem c23_next_day_on_fixed_calendar (d1 d2 m1 m2 y1 y2 y3 y4 : Nat)
    (hdigits : ∀ k ∈ [d1, d2, m1, m2, y1, y2, y3, y4], k < 10)
    (hmonth : 1 ≤ m1 * 10 + m2 ∧ m1 * 10 + m2 ≤ 12)
    (hyear : 1 ≤ y1)
    (hnext : (nextDate (d1 * 10 + d2 : Nat) (m1 * 10 + m2 : Nat)
      (y1 * 1000 + y2 * 100 + y3 * 10 + y4 : Nat)).2.2 ≤ 9999) :
    ∃ nd nm ny : Nat,
      nextDate (d1 * 10 + d2 : Nat) (m1 * 10 + m2 : Nat)
        (y1 * 1000 + y2 * 100 + y3 * 10 + y4 : Nat) = ((nd : Int), (nm : Int), (ny : Int)) ∧
      getNextDay (dateString d1 d2 m1 m2 y1 y2 y3 y4) =
        dateString (nd / 10) (nd % 10) (nm / 10) (nm % 10)
          (ny / 1000) (ny / 100 % 10) (ny / 10 % 10) (ny % 10) := by
  have hparse := @parseDate_dateString d1 d2 m1 m2 y1 y2 y3 y4
    (hdigits _ (by simp)) (hdigits _ (by simp)) (hdigits _ (by simp)) (hdigits _ (by simp))
    (hdigits _ (by simp)) (hdigits _ (by simp)) (hdigits _ (by simp)) (hdigits _ (by simp))
  have hcast : parseDate (dateString d1 d2 m1 m2 y1 y2 y3 y4) =
      (((d1 * 10 + d2 : Nat) : Int), ((m1 * 10 + m2 : Nat) : Int),
        ((y1 * 1000 + y2 * 100 + y3 * 10 + y4 : Nat) : Int)) := by
    rw [hparse]
    push_cast
    rfl
  have hnextDay := getNextDay_of_parse hcast
    ⟨by exact_mod_cast hmonth.1, by exact_mod_cast hmonth.2⟩
  have hy4 : y4 < 10 := hdigits _ (by simp)
  have hy3 : y3 < 10 := hdigits _ (by simp)
  have hy2 : y2 < 10 := hdigits _ (by simp)
  have hy1 : y1 < 10 := hdigits _ (by simp)
  have hlen := monthLength_le ((m1 * 10 + m2 : Nat) : Int)
  generalize hD : d1 * 10 + d2 = D at hnextDay hnext ⊢
  generalize hM : m1 * 10 + m2 = M at hnextDay hnext hmonth hlen ⊢
  generalize hY : y1 * 1000 + y2 * 100 + y3 * 10 + y4 = Y at hnextDay hnext ⊢
  have hYlo : 1000 ≤ Y := by omega
  have hYhi : Y ≤ 9999 := by omega
  rw [hnextDay]
  unfold nextDate at hnext ⊢
  by_cases hday : (D : Int) < monthLength (M : Int)
  · rw [if_pos hday]
    refine ⟨D + 1, M, Y, by push_cast; rfl, ?_⟩
    have h := dateToString_digits (D + 1) M Y (by omega) (by omega) hYlo hYhi
    push_cast at h
    exact h
  · rw [if_neg hday] at hnext ⊢
    by_cases hmon : (M : Int) < 12
    · rw [if_pos hmon]
      refine ⟨1, M + 1, Y, by push_cast; rfl, ?_⟩
      have h := dateToString_digits 1 (M + 1) Y (by omega) (by omega) hYlo hYhi
      push_cast at h
      exact h
    · rw [if_neg hmon] at hnext ⊢
      have hY1 : Y + 1 ≤ 9999 := by
        have : (Y : Int) + 1 ≤ 9999 := hnext
        omega
      refine ⟨1, 1, Y + 1, by push_cast; rfl, ?_⟩
      have h := dateToString_digits 1 1 (Y + 1) (by omega) (by omega) (by omega) hY1
      push_cast at h
      exact h

theorem c23_next_day_on_fixed_calendar_witness :
    (dateString 3 1 1 2 2 0 2 4 = "31/12/2024" ∧
      ∃ nd nm ny : Nat, nextDate (3 * 10 + 1 : Nat) (1 * 10 + 2 : Nat)
          (2 * 1000 + 0 * 100 + 2 * 10 + 4 : Nat) = ((nd : Int), (nm : Int), (ny : Int)) ∧
        getNextDay (dateString 3 1 1 2 2 0 2 4) =
          dateString (nd / 10) (nd % 10) (nm / 10) (nm % 10)
            (ny / 1000) (ny / 100 % 10) (ny / 10 % 10) (ny % 10)) ∧
    getNextDay "31/12/2024" = "01/01/2025" ∧
    getNextDay "28/02/2024" = "01/03/2024" ∧
    getNextDay "09/04/2025" = "10/04/2025" :=
  ⟨⟨by decide, c23_next_day_on_fixed_calendar 3 1 1 2 2 0 2 4 (by decide) (by decide)
      (by decide) (by decide)⟩,
    by decide, by decide, by decide⟩

/-! ## C24: the connecting legs of a port -/

/-- C24: a leg is in `getConnectingRoutes` of a port, a date and a time exactly
when it is an outbound leg of the port and either its date compares later
than the given date, or its date is the given date and the given time is
before or equal to its departure time.  No returned leg compares earlier than
the given date, and the returned legs are a sublist of `getRoutesFrom`, in the
same order. -/
theorem c24_connecting_routes_membership (g : Graph) (portName arrivalDate arrivalTime : String) :
    (∀ l : Route, l ∈ g.getConnectingRoutes portName arrivalDate arrivalTime ↔
      l ∈ g.getRoutesFrom portName ∧
        (compareDates l.date arrivalDate > 0 ∨
          (l.date = arrivalDate ∧
            (isTimeBefore arrivalTime l.departureTime = true ∨
              arrivalTime = l.departureTime)))) ∧
    (∀ l ∈ g.getConnectingRoutes portName arrivalDate arrivalTime,
      ¬ compareDates l.date arrivalDate < 0) ∧
    List.Sublist (g.getConnectingRoutes portName arrivalDate arrivalTime)
      (g.getRoutesFrom portName) := by
  have hiff : ∀ l : Route, l ∈ g.getConnectingRoutes portName arrivalDate arrivalTime ↔
      l ∈ g.getRoutesFrom portName ∧
        (compareDates l.date arrivalDate > 0 ∨
          (l.date = arrivalDate ∧
            (isTimeBefore arrivalTime l.departureTime = true ∨
              arrivalTime = l.departureTime))) := by
    intro l
    unfold Graph.getConnectingRoutes
    rw [List.mem_filter]
    apply and_congr_right
    intro _
    unfold connectsAfter
    by_cases h1 : compareDates l.date arrivalDate > 0
    · simp [h1]
    · by_cases h2 : l.date = arrivalDate
      · simp [h1, h2]
      · simp [h1, h2]
  refine ⟨hiff, ?_, List.filter_sublist _⟩
  intro l hl
  rcases ((hiff l).mp hl).2 with h | ⟨h, _⟩
  · omega
  · rw [h, compareDates_self]
    decide

theorem c24_connecting_routes_membership_witness :
    fourDepartures.getRoutesFrom "A" =
      [⟨"A", "B", "02/05/2025", "06:00", "08:00", 4, "X"⟩,
       ⟨"A", "B", "01/05/2025", "10:00", "12:00", 3, "X"⟩,
       ⟨"A", "B", "01/05/2025", "08:00", "10:00", 2, "X"⟩,
       ⟨"A", "B", "30/04/2025", "12:00", "14:00", 1, "X"⟩] ∧
    fourDepartures.getConnectingRoutes "A" "01/05/2025" "09:00" =
      [⟨"A", "B", "02/05/2025", "06:00", "08:00", 4, "X"⟩,
       ⟨"A", "B", "01/05/2025", "10:00", "12:00", 3, "X"⟩] ∧
    ((∀ l : Route, l ∈ fourDepartures.getConnectingRoutes "A" "01/05/2025" "09:00" ↔
      l ∈ fourDepartures.getRoutesFrom "A" ∧
        (compareDates l.date "01/05/2025" > 0 ∨
          (l.date = "01/05/2025" ∧
            (isTimeBefore "09:00" l.departureTime = true ∨
              "09:00" = l.departureTime)))) ∧
    (∀ l ∈ fourDepartures.getConnectingRoutes "A" "01/05/2025" "09:00",
      ¬ compareDates l.date "01/05/2025" < 0) ∧
    List.Sublist (fourDepartures.getConnectingRoutes "A" "01/05/2025" "09:00")
      (fourDepartures.getRoutesFrom "A")) :=
  ⟨by decide, by decide,
    c24_connecting_routes_membership fourDepartures "A" "01/05/2025" "09:00"⟩

/-! ## C25, C27: what `addRoute` does to the edge lists -/

theorem names_pushEdgeAt (route : Route) :
    ∀ (vs : List VertexNode) (idx : Nat),
      (pushEdgeAt vs idx route).map (fun v => v.port.name) = vs.map (fun v => v.port.name)
  | [], _ => by simp [pushEdgeAt]
  | w :: ws, 0 => by simp [pushEdgeAt]
  | w :: ws, idx + 1 => by simp [pushEdgeAt, names_pushEdgeAt route ws idx]

theorem getElem?_pushEdgeAt_same (route : Route) :
    ∀ (vs : List VertexNode) (idx : Nat) (v : VertexNode), vs[idx]? = some v →
      (pushEdgeAt vs idx route)[idx]? = some ⟨v.port, route :: v.edges⟩
  | [], _, _, h => by simp at h
  | w :: ws, 0, v, h => by
    simp only [List.getElem?_cons_zero, Option.some.injEq] at h
    subst h
    simp [pushEdgeAt]
  | w :: ws, idx + 1, v, h => by
    simp only [List.getElem?_cons_succ] at h
    simp [pushEdgeAt, getElem?_pushEdgeAt_same route ws idx v h]

theorem getElem?_pushEdgeAt_other (route : Route) :
    ∀ (vs : List VertexNode) (idx j : Nat), j ≠ idx →
      (pushEdgeAt vs idx route)[j]? = vs[j]?
  | [], _, _, _ => by simp [pushEdgeAt]
  | w :: ws, 0, j, h => by
    cases j with
    | zero => exact absurd rfl h
    | succ j => simp [pushEdgeAt]
  | w :: ws, idx + 1, j, h => by
    cases j with
    | zero => simp [pushEdgeAt]
    | succ j =>
      simp [pushEdgeAt, getElem?_pushEdgeAt_other route ws idx j (fun hj => h (by rw [hj]))]

theorem findPortIndex_addRoute (g : Graph) (route : Route) (x : String) :
    (g.addRoute route).findPortIndex x = g.findPortIndex x := by
  unfold Graph.addRoute
  cases hidx : g.findPortIndex route.origin with
  | none => rfl
  | some idx =>
    simp only [Graph.findPortIndex, names_pushEdgeAt]

theorem hasPort_addRoute (g : Graph) (route : Route) (x : String) :
    (g.addRoute route).hasPort x = g.hasPort x := by
  simp [Graph.hasPort, findPortIndex_addRoute]

theorem addRoute_unknown_origin {g : Graph} {route : Route}
    (h : g.hasPort route.origin = false) : g.addRoute route = g := by
  unfold Graph.hasPort at h
  unfold Graph.addRoute
  cases hidx : g.findPortIndex route.origin with
  | none => rfl
  | some idx => simp [hidx] at h

theorem getRoutesFrom_addRoute_same {g : Graph} {route : Route}
    (h : g.hasPort route.origin = true) :
    (g.addRoute route).getRoutesFrom route.origin = route :: g.getRoutesFrom route.origin := by
  unfold Graph.hasPort at h
  obtain ⟨idx, hidx⟩ := Option.isSome_iff_exists.mp h
  have hlt : idx < g.vertices.length := by
    have := (List.getElem?_eq_some.mp (indexOfName_some hidx)).1
    simpa using this
  have hv : g.vertices[idx]? = some g.vertices[idx] := List.getElem?_eq_getElem hlt
  have hnew : (g.addRoute route).vertices[idx]? =
      some ⟨g.vertices[idx].port, route :: g.vertices[idx].edges⟩ := by
    unfold Graph.addRoute
    simp only [hidx]
    exact getElem?_pushEdgeAt_same route g.vertices idx _ hv
  unfold Graph.getRoutesFrom
  rw [findPortIndex_addRoute]
  simp only [hidx, hnew, hv]

theorem getRoutesFrom_addRoute_other {g : Graph} {route : Route} {x : String}
    (h : x ≠ route.origin) :
    (g.addRoute route).getRoutesFrom x = g.getRoutesFrom x := by
  unfold Graph.getRoutesFrom
  rw [findPortIndex_addRoute]
  cases hx : g.findPortIndex x with
  | none => rfl
  | some j =>
    simp only []
    have hsame : (g.addRoute route).vertices[j]? = g.vertices[j]? := by
      unfold Graph.addRoute
      cases hidx : g.findPortIndex route.origin with
      | none => rfl
      | some idx =>
        simp only []
        apply getElem?_pushEdgeAt_other
        intro hj
        subst hj
        have h1 := indexOfName_some hx
        have h2 := indexOfName_some hidx
        rw [h1] at h2
        exact h (Option.some.inj h2)
    rw [hsame]

theorem getRoutesFrom_foldl_addRoute (p : String) :
    ∀ (routes : List Route) (g : Graph), g.hasPort p = true →
      (routes.foldl Graph.addRoute g).getRoutesFrom p =
        (routes.filter (fun r => decide (r.origin = p))).reverse ++ g.getRoutesFrom p := by
  intro routes
  induction routes with
  | nil => intro g _; simp
  | cons r rs ih =>
    intro g hp
    simp only [List.foldl_cons]
    rw [ih (g.addRoute r) (by rw [hasPort_addRoute]; exact hp)]
    by_cases hr : r.origin = p
    · subst hr
      rw [getRoutesFrom_addRoute_same hp]
      simp
    · rw [getRoutesFrom_addRoute_other (fun h => hr h.symm)]
      simp [hr]

/-- C25 fails at `twoFares`: the leg of fare 80 is added before the leg of
fare 100, and `getRoutesFrom` lists the leg of fare 100 first. -/
theorem c25_counterexample :
    twoFares =
      (((Graph.mk []).addPort ⟨"A", 0⟩).addPort ⟨"B", 0⟩
        |>.addRoute ⟨"A", "B", "01/05/2025", "10:00", "12:00", 80, "Y"⟩
        |>.addRoute ⟨"A", "B", "01/05/2025", "08:00", "16:00", 100, "X"⟩) ∧
    twoFares.getRoutesFrom "A" =
      [⟨"A", "B", "01/05/2025", "08:00", "16:00", 100, "X"⟩,
       ⟨"A", "B", "01/05/2025", "10:00", "12:00", 80, "Y"⟩] := by
  decide

/-- C25, amended: after a sequence of `addRoute` calls on a graph that has
the port `p`, `getRoutesFrom p` lists the added legs of origin `p` in reverse
order of insertion (the leg added last comes first), followed by the legs
that `p` had before. -/
theorem c25_routes_in_reverse_insertion_order (g : Graph) (p : String) (routes : List Route)
    (hp : g.hasPort p = true) :
    (routes.foldl Graph.addRoute g).getRoutesFrom p =
      (routes.filter (fun r => decide (r.origin = p))).reverse ++ g.getRoutesFrom p :=
  getRoutesFrom_foldl_addRoute p routes g hp

theorem c25_routes_in_reverse_insertion_order_witness :
    lone.hasPort "P" = true ∧
    ([⟨"P", "Q", "01/05/2025", "08:00", "09:00", 1, "X"⟩,
        ⟨"P", "R", "01/05/2025", "10:00", "11:00", 2, "X"⟩,
        ⟨"P", "S", "01/05/2025", "12:00", "13:00", 3, "X"⟩].foldl Graph.addRoute
      lone).getRoutesFrom "P" =
      [⟨"P", "S", "01/05/2025", "12:00", "13:00", 3, "X"⟩,
       ⟨"P", "R", "01/05/2025", "10:00", "11:00", 2, "X"⟩,
       ⟨"P", "Q", "01/05/2025", "08:00", "09:00", 1, "X"⟩] :=
  ⟨by decide,
    (c25_routes_in_reverse_insertion_order lone "P"
      [⟨"P", "Q", "01/05/2025", "08:00", "09:00", 1, "X"⟩,
        ⟨"P", "R", "01/05/2025", "10:00", "11:00", 2, "X"⟩,
        ⟨"P", "S", "01/05/2025", "12:00", "13:00", 3, "X"⟩] (by decide)).trans (by decide)⟩

/-- C27: `addRoute` of a leg whose origin is not a port of the graph leaves
the graph as it is, so every `getRoutesFrom` and `getAllRoutes` is unchanged.
When the origin is a port, the leg is put into `getRoutesFrom` of its origin,
whatever its destination, and `getRoutesFrom` of every other port is
unchanged. -/
theorem c27_add_route_frame (g : Graph) (l : Route) :
    (g.hasPort l.origin = false →
      (∀ q, (g.addRoute l).getRoutesFrom q = g.getRoutesFrom q) ∧
      (g.addRoute l).getAllRoutes = g.getAllRoutes) ∧
    (g.hasPort l.origin = true →
      (g.addRoute l).getRoutesFrom l.origin = l :: g.getRoutesFrom l.origin ∧
      ∀ q, q ≠ l.origin → (g.addRoute l).getRoutesFrom q = g.getRoutesFrom q) := by
  constructor
  · intro h
    rw [addRoute_unknown_origin h]
    exact ⟨fun _ => rfl, rfl⟩
  · intro h
    exact ⟨getRoutesFrom_addRoute_same h, fun q hq => getRoutesFrom_addRoute_other hq⟩

theorem c27_add_route_frame_witness :
    (chainSameDay.hasPort "Z" = false ∧
      (chainSameDay.addRoute ⟨"Z", "A", "01/05/2025", "08:00", "09:00", 1, "X"⟩).getAllRoutes =
        chainSameDay.getAllRoutes) ∧
    (chainSameDay.hasPort "C" = true ∧ chainSameDay.hasPort "Z" = false ∧
      chainSameDay.getRoutesFrom "C" = [] ∧
      (chainSameDay.addRoute ⟨"C", "Z", "01/05/2025", "08:00", "09:00", 1, "X"⟩).getRoutesFrom
        "C" = [⟨"C", "Z", "01/05/2025", "08:00", "09:00", 1, "X"⟩] ∧
      (chainSameDay.addRoute ⟨"C", "Z", "01/05/2025", "08:00", "09:00", 1, "X"⟩).getRoutesFrom
        "A" = chainSameDay.getRoutesFrom "A") :=
  ⟨⟨by decide,
      ((c27_add_route_frame chainSameDay
        ⟨"Z", "A", "01/05/2025", "08:00", "09:00", 1, "X"⟩).1 (by decide)).2⟩,
    ⟨by decide, by decide, by decide,
      ((c27_add_route_frame chainSameDay
        ⟨"C", "Z", "01/05/2025", "08:00", "09:00", 1, "X"⟩).2 (by decide)).1,
      ((c27_add_route_frame chainSameDay
        ⟨"C", "Z", "01/05/2025", "08:00", "09:00", 1, "X"⟩).2 (by decide)).2 "A" (by decide)⟩⟩

/-! ## C26: `addPort` of a known name -/

/-- C26: on the whole state of the graph (ports with their daily charge and
coordinates, edge lists, docking queues and `vertexCount`), `addPort` acts on
the part read by the searches as `Graph.addPort` does, and when the name of
the port is already in the graph it returns the state unchanged. -/
theorem c26_add_existing_port_is_noop {Coord : Type} (s : GraphState Coord) (port : Port)
    (x y : Coord) :
    (s.addPort port x y).graph = s.graph.addPort port ∧
    (s.graph.hasPort port.name = true →
      s.addPort port x y = s ∧ s.graph.addPort port = s.graph) := by
  constructor
  · unfold GraphState.addPort Graph.addPort
    split
    · rfl
    · simp [GraphState.graph]
  · intro h
    constructor
    · unfold GraphState.addPort
      simp [h]
    · unfold Graph.addPort
      simp [h]

theorem c26_add_existing_port_is_noop_witness :
    dockedAtA.graph.hasPort "A" = true ∧
    (dockedAtA.addPort ⟨"A", 99⟩ 7 8 = dockedAtA ∧
      dockedAtA.graph.addPort ⟨"A", 99⟩ = dockedAtA.graph) :=
  ⟨by decide, (c26_add_existing_port_is_noop dockedAtA ⟨"A", 99⟩ 7 8).2 (by decide)⟩

/-! ## C28, C29: what the searches read of the preferences -/

theorem matchesRoute_congr {p1 p2 : PreferenceFilter}
    (hc : p1.hasCompanyPreference = p2.hasCompanyPreference)
    (hcs : p1.preferredCompanies = p2.preferredCompanies)
    (hp : p1.hasPortPreference = p2.hasPortPreference)
    (hex : p1.excludedPorts = p2.excludedPorts) :
    p1.matchesRoute = p2.matchesRoute := by
  funext r
  simp only [PreferenceFilter.matchesRoute, hc, hcs, hp, hex]

theorem relaxCheapestPref_congr (g : Graph) (pm : PortMapper) {p1 p2 : PreferenceFilter}
    (hc : p1.hasCompanyPreference = p2.hasCompanyPreference)
    (hcs : p1.preferredCompanies = p2.preferredCompanies)
    (hp : p1.hasPortPreference = p2.hasPortPreference)
    (hex : p1.excludedPorts = p2.excludedPorts) :
    relaxCheapestPref g pm p1 = relaxCheapestPref g pm p2 := by
  funext m s r
  simp only [relaxCheapestPref, matchesRoute_congr hc hcs hp hex, hp, hex]

theorem cheapestPrefLoop_congr (g : Graph) (pm : PortMapper) {p1 p2 : PreferenceFilter}
    (hrelax : relaxCheapestPref g pm p1 = relaxCheapestPref g pm p2) (numPorts destIdx : Nat) :
    ∀ (count : Nat) (s : DijkstraState),
      cheapestPrefLoop g pm p1 numPorts destIdx count s =
        cheapestPrefLoop g pm p2 numPorts destIdx count s := by
  intro count
  induction count with
  | zero => intro s; rfl
  | succ n ih =>
    intro s
    rw [cheapestPrefLoop, cheapestPrefLoop]
    simp only [hrelax, ih]

theorem findCheapestPathWithPreferences_congr (g : Graph) (origin destination date : String)
    {p1 p2 : PreferenceFilter}
    (hc : p1.hasCompanyPreference = p2.hasCompanyPreference)
    (hcs : p1.preferredCompanies = p2.preferredCompanies)
    (hp : p1.hasPortPreference = p2.hasPortPreference)
    (hex : p1.excludedPorts = p2.excludedPorts) :
    findCheapestPathWithPreferences g origin destination date p1 =
      findCheapestPathWithPreferences g origin destination date p2 := by
  unfold findCheapestPathWithPreferences
  simp only [cheapestPrefLoop_congr g (buildPortMapper g)
    (relaxCheapestPref_congr g (buildPortMapper g) hc hcs hp hex)]

theorem matchesRoute_inactive {p : PreferenceFilter}
    (hc : p.hasCompanyPreference = false) (hp : p.hasPortPreference = false) (r : Route) :
    p.matchesRoute r = true := by
  simp [PreferenceFilter.matchesRoute, hc, hp]

theorem relaxCheapestPref_inactive (g : Graph) (pm : PortMapper) {p : PreferenceFilter}
    (hc : p.hasCompanyPreference = false) (hp : p.hasPortPreference = false) :
    relaxCheapestPref g pm p = relaxCheapest g pm := by
  funext m s r
  simp only [relaxCheapestPref, relaxCheapest, matchesRoute_inactive hc hp, hp, Bool.not_true,
    Bool.false_and, Bool.false_eq_true, if_false]

theorem cheapestPrefLoop_inactive (g : Graph) (pm : PortMapper) {p : PreferenceFilter}
    (hrelax : relaxCheapestPref g pm p = relaxCheapest g pm) (numPorts destIdx : Nat) :
    ∀ (count : Nat) (s : DijkstraState),
      cheapestPrefLoop g pm p numPorts destIdx count s =
        cheapestLoop g pm numPorts destIdx count s := by
  intro count
  induction count with
  | zero => intro s; rfl
  | succ n ih =>
    intro s
    rw [cheapestPrefLoop, cheapestLoop]
    simp only [hrelax, ih]

theorem relaxShortestPref_inactive (g : Graph) (pm : PortMapper) {p : PreferenceFilter}
    (hc : p.hasCompanyPreference = false) (hp : p.hasPortPreference = false) :
    relaxShortestPref g pm p = relaxShortest g pm := by
  funext m s r
  simp only [relaxShortestPref, relaxShortest, matchesRoute_inactive hc hp, hp, Bool.not_true,
    Bool.false_and, Bool.false_eq_true, if_false]

theorem shortestPrefLoop_inactive (g : Graph) (pm : PortMapper) {p : PreferenceFilter}
    (hrelax : relaxShortestPref g pm p = relaxShortest g pm) (numPorts destIdx : Nat) :
    ∀ (fuel : Nat) (s : HopState),
      shortestPrefLoop g pm p numPorts destIdx fuel s =
        shortestLoop g pm numPorts destIdx fuel s := by
  intro fuel
  induction fuel with
  | zero => intro s; rfl
  | succ n ih =>
    intro s
    rw [shortestPrefLoop, shortestLoop]
    simp only [hrelax, ih]

/-- C28: two preference filters that agree on `hasCompanyPreference`,
`preferredCompanies`, `hasPortPreference` and `excludedPorts` give the same
result of `findCheapestPathWithPreferences`, field for field: `requiredPorts`,
`hasTimeLimit` and `maxVoyageTime` are not read by the search. -/
theorem c28_required_ports_and_time_limit_ignored (g : Graph)
    (origin destination date : String) (p1 p2 : PreferenceFilter)
    (hc : p1.hasCompanyPreference = p2.hasCompanyPreference)
    (hcs : p1.preferredCompanies = p2.preferredCompanies)
    (hp : p1.hasPortPreference = p2.hasPortPreference)
    (hex : p1.excludedPorts = p2.excludedPorts) :
    findCheapestPathWithPreferences g origin destination date p1 =
      findCheapestPathWithPreferences g origin destination date p2 :=
  findCheapestPathWithPreferences_congr g origin destination date hc hcs hp hex

/-- C28 on the three-port chain: the way found does not pass the required
port `Z` and lasts 15 hours against the limit of 1 hour, so both warnings are
due, and the result is the one of the filter without these two demands. -/
theorem c28_required_ports_and_time_limit_ignored_witness :
    (findCheapestPathWithPreferences chainSameDay "A" "C" "01/05/2025" demanding).map
      (fun r => (r.found, r.totalCost, r.path)) = some (true, 250, ["A", "B", "C"]) ∧
    demanding.pathMatchesPorts ["A", "B", "C"] = false ∧
    demanding.isVoyageTimeValid
      [⟨"A", "B", "01/05/2025", "08:00", "16:00", 100, "X"⟩,
       ⟨"B", "C", "01/05/2025", "18:00", "23:00", 150, "X"⟩] = false ∧
    findCheapestPathWithPreferences chainSameDay "A" "C" "01/05/2025" demanding =
      findCheapestPathWithPreferences chainSameDay "A" "C" "01/05/2025" lenient :=
  ⟨by decide, by decide, by decide,
    c28_required_ports_and_time_limit_ignored chainSameDay "A" "C" "01/05/2025"
      demanding lenient rfl rfl rfl rfl⟩

/-- C29: with `hasCompanyPreference` and `hasPortPreference` both false,
`findCheapestPathWithPreferences` returns what `findCheapestPath` returns and
`findShortestPathWithPreferences` what `findShortestPath` returns, field for
field. -/
theorem c29_inactive_preferences_change_nothing (g : Graph)
    (origin destination date : String) (preferences : PreferenceFilter)
    (hc : preferences.hasCompanyPreference = false)
    (hp : preferences.hasPortPreference = false) :
    findCheapestPathWithPreferences g origin destination date preferences =
      findCheapestPath g origin destination date ∧
    findShortestPathWithPreferences g origin destination date preferences =
      findShortestPath g origin destination date := by
  constructor
  · unfold findCheapestPathWithPreferences findCheapestPath
    simp only [cheapestPrefLoop_inactive g (buildPortMapper g)
      (relaxCheapestPref_inactive g (buildPortMapper g) hc hp)]
  · unfold findShortestPathWithPreferences findShortestPath
    simp only [shortestPrefLoop_inactive g (buildPortMapper g)
      (relaxShortestPref_inactive g (buildPortMapper g) hc hp)]

theorem c29_inactive_preferences_change_nothing_witness :
    (findCheapestPath chainTwoDays "A" "C" "01/05/2025").map
      (fun r => (r.found, r.totalCost, r.path)) = some (true, 330, ["A", "B", "C"]) ∧
    (findShortestPath chainTwoDays "A" "C" "01/05/2025").map
      (fun r => (r.found, r.totalCost, r.path)) = some (true, 330, ["A", "B", "C"]) ∧
    (findCheapestPathWithPreferences chainTwoDays "A" "C" "01/05/2025" noPreferences =
        findCheapestPath chainTwoDays "A" "C" "01/05/2025" ∧
      findShortestPathWithPreferences chainTwoDays "A" "C" "01/05/2025" noPreferences =
        findShortestPath chainTwoDays "A" "C" "01/05/2025") :=
  ⟨by decide, by decide,
    c29_inactive_preferences_change_nothing chainTwoDays "A" "C" "01/05/2025" noPreferences
      rfl rfl⟩

/-! ## C30: the enumeration of all paths -/

theorem findAllPathsDFS_fuel (g : Graph) (destination date : String) (maxDepth : Nat) :
    ∀ (fuel1 fuel2 : Nat) (current : String) (currentPath : List String)
      (allPaths : List (List String)),
      maxDepth ≤ fuel1 + currentPath.length → maxDepth ≤ fuel2 + currentPath.length →
      findAllPathsDFS g destination date maxDepth fuel1 current currentPath allPaths =
        findAllPathsDFS g destination date maxDepth fuel2 current currentPath allPaths := by
  have hdeep : ∀ (fuel : Nat) (current : String) (currentPath : List String)
      (allPaths : List (List String)), maxDepth ≤ currentPath.length →
      findAllPathsDFS g destination date maxDepth fuel current currentPath allPaths =
        allPaths := by
    intro fuel current currentPath allPaths hlen
    cases fuel with
    | zero => rfl
    | succ k =>
      rw [findAllPathsDFS]
      have : (currentPath ++ [current]).length > maxDepth := by
        simp only [List.length_append, List.length_singleton]
        omega
      simp only [this, if_true]
  intro fuel1
  induction fuel1 with
  | zero =>
    intro fuel2 current currentPath allPaths h1 _
    rw [hdeep 0 _ _ _ (by omega), hdeep fuel2 _ _ _ (by omega)]
  | succ n ih =>
    intro fuel2 current currentPath allPaths h1 h2
    cases fuel2 with
    | zero => rw [hdeep (n + 1) _ _ _ (by omega), hdeep 0 _ _ _ (by omega)]
    | succ k =>
      rw [findAllPathsDFS, findAllPathsDFS]
      have hfun : (fun (acc : List (List String)) (route : Route) =>
            if isPortInPath (currentPath ++ [current]) route.destination then acc
            else findAllPathsDFS g destination date maxDepth n route.destination
              (currentPath ++ [current]) acc) =
          (fun (acc : List (List String)) (route : Route) =>
            if isPortInPath (currentPath ++ [current]) route.destination then acc
            else findAllPathsDFS g destination date maxDepth k route.destination
              (currentPath ++ [current]) acc) := by
        funext acc route
        rw [ih k route.destination (currentPath ++ [current]) acc
          (by simp only [List.length_append, List.length_singleton]; omega)
          (by simp only [List.length_append, List.length_singleton]; omega)]
      simp only [hfun]

theorem not_mem_of_isPortInPath {path : List String} {port : String}
    (h : isPortInPath path port = false) : port ∉ path := by
  intro hmem
  have : isPortInPath path port = true := by
    unfold isPortInPath
    exact List.any_eq_true.mpr ⟨port, hmem, by simp⟩
  rw [h] at this
  cases this

theorem findAllPathsDFS_paths {g : Graph} (hwf : g.WF) (origin destination date : String)
    (maxDepth : Nat) :
    ∀ (fuel : Nat) (current : String) (currentPath : List String)
      (allPaths : List (List String)),
      (∀ p ∈ allPaths, p.head? = some origin ∧ p.getLast? = some destination ∧ p.Nodup ∧
        p.length ≤ maxDepth ∧ List.Chain' (PathLink g date) p) →
      (currentPath ++ [current]).head? = some origin →
      (currentPath ++ [current]).Nodup →
      List.Chain' (PathLink g date) (currentPath ++ [current]) →
      ∀ p ∈ findAllPathsDFS g destination date maxDepth fuel current currentPath allPaths,
        p.head? = some origin ∧ p.getLast? = some destination ∧ p.Nodup ∧
          p.length ≤ maxDepth ∧ List.Chain' (PathLink g date) p := by
  intro fuel
  induction fuel with
  | zero =>
    intro current currentPath allPaths hall _ _ _ p hp
    exact hall p hp
  | succ n ih =>
    intro current currentPath allPaths hall hhead hnodup hchain
    rw [findAllPathsDFS]
    split
    · exact hall
    · rename_i hlen
      split
      · rename_i hdest
        intro p hp
        rcases List.mem_append.mp hp with hp | hp
        · exact hall p hp
        · rw [List.mem_singleton.mp hp]
          refine ⟨hhead, ?_, hnodup, by omega, hchain⟩
          rw [List.getLast?_append, hdest]
          rfl
      · apply foldl_invariant
          (fun acc : List (List String) => ∀ p ∈ acc, p.head? = some origin ∧
            p.getLast? = some destination ∧ p.Nodup ∧ p.length ≤ maxDepth ∧
            List.Chain' (PathLink g date) p)
        · intro acc route hroute hacc
          by_cases hin : isPortInPath (currentPath ++ [current]) route.destination = true
          · simp only [hin, if_true]
            exact hacc
          · simp only [hin, if_false]
            have hin2 : isPortInPath (currentPath ++ [current]) route.destination = false := by
              simpa using hin
            have hnot := not_mem_of_isPortInPath hin2
            have hmem := List.mem_filter.mp hroute
            have hdate : route.date = date := by simpa using hmem.2
            apply ih route.destination (currentPath ++ [current]) acc hacc
            · rw [List.head?_append_of_ne_nil _ (by simp)]
              exact hhead
            · rw [List.nodup_append]
              refine ⟨hnodup, List.nodup_singleton _, ?_⟩
              intro a ha hb
              rw [List.mem_singleton.mp hb] at ha
              exact hnot ha
            · apply List.Chain'.append hchain (List.chain'_singleton _)
              intro x hx y hy
              rw [List.getLast?_append] at hx
              simp only [List.getLast?_singleton, Option.or, Option.mem_def,
                Option.some.injEq] at hx
              simp only [List.head?_cons, Option.mem_def, Option.some.injEq] at hy
              subst hx
              subst hy
              exact ⟨route, hmem.1, origin_of_mem_getRoutesFrom hwf hmem.1, rfl, hdate⟩
        · exact hall

/-- C30: on a graph built by `addPort` and `addRoute`, every sequence returned
by `findAllPaths` starts with the origin, ends with the destination, has no
port twice and at most 10 ports, and each port of it is joined to the next one
by a leg of the graph between these two ports dated on the query date.  The
recursion ends within the depth limit: any bound of at least 11 nested calls
gives the same enumeration, cycles in the graph or not. -/
theorem c30_all_paths_simple_and_dated (g : Graph) (hwf : g.WF)
    (origin destination date : String) :
    (∀ path ∈ findAllPaths g origin destination date,
      path.head? = some origin ∧ path.getLast? = some destination ∧ path.Nodup ∧
        path.length ≤ 10 ∧ List.Chain' (PathLink g date) path) ∧
    (∀ fuel : Nat, 11 ≤ fuel →
      findAllPathsDFS g destination date 10 fuel origin [] [] =
        findAllPaths g origin destination date) := by
  constructor
  · unfold findAllPaths
    apply findAllPathsDFS_paths hwf origin destination date 10 11 origin [] []
    · intro p hp
      simp at hp
    · rfl
    · simp
    · simp
  · intro fuel hfuel
    unfold findAllPaths
    exact findAllPathsDFS_fuel g destination date 10 fuel 11 origin [] []
      (by simp only [List.length_nil]; omega) (by simp)

theorem c30_all_paths_simple_and_dated_witness :
    roundTrip.WF ∧
    findAllPaths roundTrip "A" "C" "01/05/2025" = [["A", "C"], ["A", "B", "C"]] ∧
    ((∀ path ∈ findAllPaths roundTrip "A" "C" "01/05/2025",
      path.head? = some "A" ∧ path.getLast? = some "C" ∧ path.Nodup ∧
        path.length ≤ 10 ∧ List.Chain' (PathLink roundTrip "01/05/2025") path) ∧
    (∀ fuel : Nat, 11 ≤ fuel →
      findAllPathsDFS roundTrip "C" "01/05/2025" 10 fuel "A" [] [] =
        findAllPaths roundTrip "A" "C" "01/05/2025")) :=
  ⟨wf_mkGraph _ _, by decide,
    c30_all_paths_simple_and_dated roundTrip (wf_mkGraph _ _) "A" "C" "01/05/2025"⟩

/-! ## C38: the voyage time of the time limit -/

theorem tdiv_sixty_range {x : Int} (h0 : 0 ≤ x) (h1 : x < 1440) :
    0 ≤ Int.tdiv x 60 ∧ Int.tdiv x 60 ≤ 23 := by
  rw [Int.tdiv_eq_ediv h0 (by decide)]
  omega

theorem calculateVoyageTime_range (p : PreferenceFilter) (routes : List Route)
    (hdep : clockInRange (routes.getD 0 Route.dummy).departureTime = true)
    (harr : clockInRange (routes.getD (routes.length - 1) Route.dummy).arrivalTime = true) :
    0 ≤ p.calculateVoyageTime routes ∧ p.calculateVoyageTime routes ≤ 23 := by
  unfold PreferenceFilter.calculateVoyageTime
  split
  · exact ⟨le_refl _, by decide⟩
  · simp only [clockInRange, Bool.and_eq_true, decide_eq_true_eq] at hdep harr
    obtain ⟨⟨⟨d1, d2⟩, d3⟩, d4⟩ := hdep
    obtain ⟨⟨⟨a1, a2⟩, a3⟩, a4⟩ := harr
    dsimp only
    split
    · exact tdiv_sixty_range (by omega) (by omega)
    · exact tdiv_sixty_range (by omega) (by omega)

theorem getD_of_mem_range {routes : List Route} {i : Nat} (hi : i < routes.length) :
    routes.getD i Route.dummy ∈ routes := by
  rw [List.getD_eq_getElem _ _ hi]
  exact List.getElem_mem hi

theorem isVoyageTimeValid_of_limit (p : PreferenceFilter) (routes : List Route)
    (hclock : ∀ r ∈ routes, clockInRange r.departureTime = true ∧
      clockInRange r.arrivalTime = true)
    (hmax : 23 ≤ p.maxVoyageTime) : p.isVoyageTimeValid routes = true := by
  unfold PreferenceFilter.isVoyageTimeValid
  split
  · rfl
  · simp only [decide_eq_true_eq]
    by_cases hlen : routes.length = 0
    · simp only [PreferenceFilter.calculateVoyageTime, hlen, if_true]
      omega
    · have h1 := (hclock _ (getD_of_mem_range (Nat.pos_of_ne_zero hlen))).1
      have h2 := (hclock _ (@getD_of_mem_range routes (routes.length - 1) (by omega))).2
      have := (calculateVoyageTime_range p routes h1 h2).2
      omega

theorem calculateVoyageTime_congr (p1 p2 : PreferenceFilter) (routes1 routes2 : List Route)
    (hne1 : routes1 ≠ []) (hne2 : routes2 ≠ [])
    (hdep : (routes1.head hne1).departureTime = (routes2.head hne2).departureTime)
    (harr : (routes1.getLast hne1).arrivalTime = (routes2.getLast hne2).arrivalTime) :
    p1.calculateVoyageTime routes1 = p2.calculateVoyageTime routes2 := by
  have hl1 : routes1.length ≠ 0 := by simpa using hne1
  have hl2 : routes2.length ≠ 0 := by simpa using hne2
  have hf1 : routes1.getD 0 Route.dummy = routes1.head hne1 := by
    cases routes1 with
    | nil => exact absurd rfl hne1
    | cons x xs => rfl
  have hf2 : routes2.getD 0 Route.dummy = routes2.head hne2 := by
    cases routes2 with
    | nil => exact absurd rfl hne2
    | cons x xs => rfl
  have hg1 : routes1.getD (routes1.length - 1) Route.dummy = routes1.getLast hne1 := by
    rw [List.getD_eq_getElem _ _ (by omega), List.getLast_eq_getElem]
  have hg2 : routes2.getD (routes2.length - 1) Route.dummy = routes2.getLast hne2 := by
    rw [List.getD_eq_getElem _ _ (by omega), List.getLast_eq_getElem]
  simp only [PreferenceFilter.calculateVoyageTime, hl1, hl2, if_false, hf1, hf2, hg1, hg2,
    hdep, harr]

/-- C38: for a non-empty list of legs whose clock times have hours 0..23 and
minutes 0..59, `calculateVoyageTime` is between 0 and 23; it is the same for
any other non-empty list with the same departure time of the first leg and
the same arrival time of the last leg (and for any filter), so dates, number
of legs and layovers do not enter it; and `isVoyageTimeValid` is true whenever
`maxVoyageTime` is at least 23. -/
theorem c38_voyage_time_is_clock_difference (p : PreferenceFilter) (routes : List Route)
    (hne : routes ≠ [])
    (hclock : ∀ r ∈ routes, clockInRange r.departureTime = true ∧
      clockInRange r.arrivalTime = true) :
    (0 ≤ p.calculateVoyageTime routes ∧ p.calculateVoyageTime routes ≤ 23) ∧
    (∀ (p2 : PreferenceFilter) (routes2 : List Route) (hne2 : routes2 ≠ []),
      (routes.head hne).departureTime = (routes2.head hne2).departureTime →
      (routes.getLast hne).arrivalTime = (routes2.getLast hne2).arrivalTime →
      p.calculateVoyageTime routes = p2.calculateVoyageTime routes2) ∧
    (23 ≤ p.maxVoyageTime → p.isVoyageTimeValid routes = true) := by
  have hlen : 0 < routes.length := List.length_pos.mpr hne
  refine ⟨calculateVoyageTime_range p routes
      (hclock _ (getD_of_mem_range hlen)).1
      (hclock _ (@getD_of_mem_range routes (routes.length - 1) (by omega))).2, ?_, ?_⟩
  · intro p2 routes2 hne2 hdep harr
    exact calculateVoyageTime_congr p p2 routes routes2 hne hne2 hdep harr
  · intro hmax
    exact isVoyageTimeValid_of_limit p routes hclock hmax

/-- C38 on the way from `A` to `C` in `chainTwoDays`: the legs leave at 08:00
and arrive at 12:00 two days later, the voyage time is 4 hours, and the limit
of 23 hours is kept although the total travel time is 86 hours. -/
theorem c38_voyage_time_is_clock_difference_witness :
    chainTwoDaysResult.totalTravelTime = 86 ∧
    within23Hours.calculateVoyageTime chainTwoDaysResult.routes = 4 ∧
    within23Hours.isVoyageTimeValid chainTwoDaysResult.routes = true ∧
    (0 ≤ within23Hours.calculateVoyageTime chainTwoDaysResult.routes ∧
      within23Hours.calculateVoyageTime chainTwoDaysResult.routes ≤ 23) :=
  ⟨rfl, by decide,
    (c38_voyage_time_is_clock_difference within23Hours chainTwoDaysResult.routes (by decide)
      (by decide)).2.2 (by decide),
    (c38_voyage_time_is_clock_difference within23Hours chainTwoDaysResult.routes (by decide)
      (by decide)).1⟩

/-! ## C39: the connection check of the searches -/

theorem canConnectTo_of_previousRoute {g : Graph} {pm : PortMapper}
    {parent : Nat → Option Nat} {arrivalDates arrivalTimes : Nat → String} {minIdx : Nat}
    {previousRoute route : Route}
    (hprev : previousRouteOf g pm parent arrivalDates arrivalTimes minIdx = some previousRoute)
    (hroute : route ∈ g.getConnectingRoutes (pm.getName minIdx) (arrivalDates minIdx)
      (arrivalTimes minIdx)) :
    previousRoute.canConnectTo route = true := by
  unfold previousRouteOf at hprev
  split at hprev
  · cases hprev
  · have hdate := (findRouteTo_some hprev).2.2
    have hconn : connectsAfter (arrivalDates minIdx) (arrivalTimes minIdx) route = true :=
      (List.mem_filter.mp hroute).2
    rw [← hdate] at hconn
    exact canConnectTo_of_connectsAfter hconn

/-- C39: in `findCheapestPath` and `findShortestPath`, for any contents of the
arrays, when the lookup of the previous leg of the port being expanded finds
a leg, that leg can connect to every candidate leg taken from
`getConnectingRoutes` of the port at its stored arrival date and time: the
date of the candidate is not before the date of the previous leg, so the
connection check never rejects a candidate. -/
theorem c39_connection_check_never_rejects (g : Graph) (pm : PortMapper)
    (parent : Nat → Option Nat) (arrivalDates arrivalTimes : Nat → String) (minIdx : Nat)
    (previousRoute route : Route)
    (hprev : previousRouteOf g pm parent arrivalDates arrivalTimes minIdx = some previousRoute)
    (hroute : route ∈ g.getConnectingRoutes (pm.getName minIdx) (arrivalDates minIdx)
      (arrivalTimes minIdx)) :
    previousRoute.canConnectTo route = true ∧
      compareDates route.date previousRoute.date ≥ 0 := by
  have h := canConnectTo_of_previousRoute hprev hroute
  refine ⟨h, ?_⟩
  unfold Route.canConnectTo at h
  simpa using h

theorem c39_connection_check_never_rejects_witness :
    previousRouteOf chainSameDay (buildPortMapper chainSameDay)
        (setAt (fun _ => none) 1 (some 0)) (fun _ => "01/05/2025")
        (setAt (fun _ => "00:00") 1 "16:00") 1 =
      some ⟨"A", "B", "01/05/2025", "08:00", "16:00", 100, "X"⟩ ∧
    (⟨"A", "B", "01/05/2025", "08:00", "16:00", 100, "X"⟩ : Route).canConnectTo
      ⟨"B", "C", "01/05/2025", "18:00", "23:00", 150, "X"⟩ = true :=
  ⟨by decide,
    (c39_connection_check_never_rejects chainSameDay (buildPortMapper chainSameDay)
      (setAt (fun _ => none) 1 (some 0)) (fun _ => "01/05/2025")
      (setAt (fun _ => "00:00") 1 "16:00") 1
      ⟨"A", "B", "01/05/2025", "08:00", "16:00", 100, "X"⟩
      ⟨"B", "C", "01/05/2025", "18:00", "23:00", 150, "X"⟩ (by decide) (by decide)).1⟩

/-! ## C35: the port mapper -/

theorem indexOfName_eq_none {l : List String} {x : String} :
    indexOfName l x = none ↔ x ∉ l := by
  constructor
  · intro h hmem
    obtain ⟨i, hi⟩ := indexOfName_of_mem hmem
    rw [h] at hi
    cases hi
  · intro h
    cases hidx : indexOfName l x with
    | none => rfl
    | some i => exact absurd (mem_of_indexOfName hidx) h

theorem indexOfName_of_nodup :
    ∀ {l : List String} {i : Nat} {x : String}, l.Nodup → l[i]? = some x →
      indexOfName l x = some i
  | [], i, x, _, h => by simp at h
  | y :: ys, 0, x, _, h => by
    simp only [List.getElem?_cons_zero, Option.some.injEq] at h
    simp [indexOfName, h]
  | y :: ys, i + 1, x, hnd, h => by
    simp only [List.getElem?_cons_succ] at h
    have hmem : x ∈ ys := by
      obtain ⟨hlt, heq⟩ := List.getElem?_eq_some.mp h
      exact heq ▸ List.getElem_mem hlt
    have hne : y ≠ x := by
      intro e
      rw [e] at hnd
      exact (List.nodup_cons.mp hnd).1 hmem
    have ih := indexOfName_of_nodup (List.nodup_cons.mp hnd).2 h
    simp [indexOfName, hne, ih]

theorem portMapper_addPort_inv (pm : PortMapper) (x : String) (hnd : pm.portNames.Nodup) :
    (pm.addPort x).portNames.Nodup ∧
      ∀ y, y ∈ (pm.addPort x).portNames ↔ (y ∈ pm.portNames ∨ y = x) := by
  unfold PortMapper.addPort
  cases hidx : pm.findIndex x with
  | some i =>
    have hmem : x ∈ pm.portNames := mem_of_indexOfName hidx
    refine ⟨hnd, fun y => ⟨Or.inl, fun h => ?_⟩⟩
    rcases h with h | h
    · exact h
    · rw [h]; exact hmem
  | none =>
    have hnot : x ∉ pm.portNames := indexOfName_eq_none.mp hidx
    constructor
    · show (pm.portNames ++ [x]).Nodup
      rw [List.nodup_append]
      refine ⟨hnd, List.nodup_singleton _, ?_⟩
      intro a ha hb
      rw [List.mem_singleton.mp hb] at ha
      exact hnot ha
    · intro y
      show y ∈ pm.portNames ++ [x] ↔ _
      simp

theorem portMapper_foldl_inv :
    ∀ (names : List String) (pm : PortMapper), pm.portNames.Nodup →
      (names.foldl PortMapper.addPort pm).portNames.Nodup ∧
        ∀ y, y ∈ (names.foldl PortMapper.addPort pm).portNames ↔
          (y ∈ pm.portNames ∨ y ∈ names) := by
  intro names
  induction names with
  | nil => intro pm h; exact ⟨h, fun y => by simp⟩
  | cons x xs ih =>
    intro pm h
    obtain ⟨h1, h2⟩ := portMapper_addPort_inv pm x h
    obtain ⟨h3, h4⟩ := ih (pm.addPort x) h1
    refine ⟨h3, fun y => ?_⟩
    simp only [List.foldl_cons]
    rw [h4 y, h2 y]
    simp only [List.mem_cons]
    tauto

/-- C35: for the mapper built from the empty one by `addPort` of a sequence of
names, the size is the number of distinct names of the sequence; `findIndex`
of the name at an index below the size is that index; every added name has an
index whose name it is; `findIndex` finds nothing exactly for the names that
were never added; and `addPort` of an added name leaves the mapper unchanged
and returns the index that `findIndex` gives. -/
theorem c35_port_mapper_bijection (names : List String) (pm : PortMapper)
    (hpm : pm = names.foldl PortMapper.addPort ⟨[]⟩) :
    pm.getSize = names.dedup.length ∧
    (∀ i, i < pm.getSize → pm.findIndex (pm.getName i) = some i) ∧
    (∀ n ∈ names, ∃ i, i < pm.getSize ∧ pm.findIndex n = some i ∧ pm.getName i = n) ∧
    (∀ n, pm.findIndex n = none ↔ n ∉ names) ∧
    (∀ n ∈ names, pm.addPort n = pm ∧ pm.findIndex n = some (pm.addPortIndex n)) := by
  obtain ⟨hnd, hmem⟩ := portMapper_foldl_inv names ⟨[]⟩ List.nodup_nil
  rw [← hpm] at hnd hmem
  have hmem2 : ∀ y, y ∈ pm.portNames ↔ y ∈ names := by
    intro y
    rw [hmem y]
    simp
  refine ⟨?_, ?_, ?_, ?_, ?_⟩
  · have hperm : List.Perm pm.portNames names.dedup :=
      (List.perm_ext_iff_of_nodup hnd (List.nodup_dedup names)).mpr
        (fun a => by rw [hmem2 a, List.mem_dedup])
    exact hperm.length_eq
  · intro i hi
    have hget : pm.portNames[i]? = some (pm.getName i) := by
      unfold PortMapper.getName
      rw [List.getD_eq_getElem _ _ hi, List.getElem?_eq_getElem hi]
    exact indexOfName_of_nodup hnd hget
  · intro n hn
    obtain ⟨i, hi⟩ := indexOfName_of_mem ((hmem2 n).mpr hn)
    exact ⟨i, lt_size_of_findIndex hi, hi, getName_of_findIndex hi⟩
  · intro n
    unfold PortMapper.findIndex
    rw [indexOfName_eq_none, hmem2 n]
  · intro n hn
    obtain ⟨i, hi⟩ := indexOfName_of_mem ((hmem2 n).mpr hn)
    have hi2 : pm.findIndex n = some i := hi
    constructor
    · unfold PortMapper.addPort
      rw [hi2]
    · unfold PortMapper.addPortIndex
      rw [hi2]

theorem c35_port_mapper_bijection_witness :
    (["A", "B", "A", "C", "B"].foldl PortMapper.addPort ⟨[]⟩).portNames = ["A", "B", "C"] ∧
    (["A", "B", "A", "C", "B"].foldl PortMapper.addPort ⟨[]⟩).getSize =
      ["A", "B", "A", "C", "B"].dedup.length ∧
    (["A", "B", "A", "C", "B"].foldl PortMapper.addPort ⟨[]⟩).findIndex "B" = some 1 ∧
    ((["A", "B", "A", "C", "B"].foldl PortMapper.addPort ⟨[]⟩).findIndex "Z" = none ↔
      "Z" ∉ ["A", "B", "A", "C", "B"]) :=
  ⟨by decide,
    (c35_port_mapper_bijection ["A", "B", "A", "C", "B"] _ rfl).1, by decide,
    (c35_port_mapper_bijection ["A", "B", "A", "C", "B"] _ rfl).2.2.2.1 "Z"⟩

/-! ## C31: the enumeration yields every path -/

theorem foldl_mono {α β : Type} (f : List β → α → List β)
    (hf : ∀ acc x, ∀ p ∈ acc, p ∈ f acc x) :
    ∀ (l : List α) (acc : List β), ∀ p ∈ acc, p ∈ l.foldl f acc := by
  intro l
  induction l with
  | nil => intro acc p hp; exact hp
  | cons x xs ih =>
    intro acc p hp
    simp only [List.foldl_cons]
    exact ih _ p (hf acc x p hp)

theorem foldl_reach {α β : Type} (f : List β → α → List β)
    (hf : ∀ acc x, ∀ p ∈ acc, p ∈ f acc x) (p : β) (x : α)
    (hx : ∀ acc, p ∈ f acc x) :
    ∀ (l : List α) (acc : List β), x ∈ l → p ∈ l.foldl f acc := by
  intro l
  induction l with
  | nil => intro acc h; simp at h
  | cons y ys ih =>
    intro acc h
    simp only [List.foldl_cons]
    rcases List.mem_cons.mp h with h | h
    · subst h
      exact foldl_mono f hf ys _ p (hx acc)
    · exact ih _ h

theorem findAllPathsDFS_mono (g : Graph) (destination date : String) (maxDepth : Nat) :
    ∀ (fuel : Nat) (current : String) (currentPath : List String)
      (allPaths : List (List String)),
      ∀ p ∈ allPaths,
        p ∈ findAllPathsDFS g destination date maxDepth fuel current currentPath allPaths := by
  intro fuel
  induction fuel with
  | zero => intro current currentPath allPaths p hp; exact hp
  | succ n ih =>
    intro current currentPath allPaths p hp
    rw [findAllPathsDFS]
    split
    · exact hp
    · split
      · exact List.mem_append_left _ hp
      · apply foldl_mono _ _ _ _ p hp
        intro acc route q hq
        dsimp only
        split
        · exact hq
        · exact ih _ _ _ q hq

theorem isPortInPath_of_not_mem {path : List String} {port : String} (h : port ∉ path) :
    isPortInPath path port = false := by
  unfold isPortInPath
  rw [Bool.eq_false_iff]
  intro hany
  obtain ⟨x, hx, hxe⟩ := List.any_eq_true.mp hany
  simp only [decide_eq_true_eq] at hxe
  exact h (hxe ▸ hx)

theorem findAllPathsDFS_complete (g : Graph) (destination date : String) (maxDepth : Nat) :
    ∀ (fuel : Nat) (rest : List String) (current : String) (currentPath : List String)
      (allPaths : List (List String)),
      rest.length < fuel →
      (currentPath ++ current :: rest).Nodup →
      (currentPath ++ current :: rest).length ≤ maxDepth →
      List.Chain' (PathLink g date) (current :: rest) →
      (current :: rest).getLast? = some destination →
      currentPath ++ current :: rest ∈
        findAllPathsDFS g destination date maxDepth fuel current currentPath allPaths := by
  intro fuel
  induction fuel with
  | zero => intro rest _ _ _ h; omega
  | succ n ih =>
    intro rest current currentPath allPaths hfuel hnodup hlen hchain hlast
    rw [findAllPathsDFS]
    have hlen1 : ¬ (currentPath ++ [current]).length > maxDepth := by
      simp only [List.length_append, List.length_cons, List.length_singleton,
        List.length_nil] at hlen ⊢
      omega
    simp only [hlen1, if_false]
    cases rest with
    | nil =>
      have hcur : current = destination := by simpa using hlast
      simp only [hcur, if_true]
      exact List.mem_append_right _ (List.mem_singleton.mpr rfl)
    | cons next rest2 =>
      have hne : current ≠ destination := by
        intro hcur
        have hl : (next :: rest2).getLast? = some destination := by
          simpa [List.getLast?_cons_cons] using hlast
        have hmem : destination ∈ next :: rest2 := List.mem_of_getLast?_eq_some hl
        have hnd2 : (current :: next :: rest2).Nodup := (List.nodup_append.mp hnodup).2.1
        rw [hcur] at hnd2
        exact (List.nodup_cons.mp hnd2).1 hmem
      simp only [hne, if_false]
      obtain ⟨hlink, hchain2⟩ := List.chain'_cons.mp hchain
      obtain ⟨r, hr, _, hrd, hrdate⟩ := hlink
      have hrmem : r ∈ g.getRoutesFromOnDate current date := by
        unfold Graph.getRoutesFromOnDate
        exact List.mem_filter.mpr ⟨hr, by simpa using hrdate⟩
      have hassoc : currentPath ++ current :: next :: rest2 =
          (currentPath ++ [current]) ++ next :: rest2 := by simp
      have hnotin : next ∉ currentPath ++ [current] := by
        intro hin
        rw [hassoc] at hnodup
        exact (List.nodup_append.mp hnodup).2.2 hin (List.mem_cons_self _ _)
      apply foldl_reach _ _ _ r _ _ _ hrmem
      · intro acc route q hq
        dsimp only
        split
        · exact hq
        · exact findAllPathsDFS_mono g destination date maxDepth n _ _ acc q hq
      · intro acc
        dsimp only
        rw [hrd, isPortInPath_of_not_mem hnotin]
        simp only [Bool.false_eq_true, if_false]
        rw [hassoc]
        apply ih rest2 next (currentPath ++ [current]) acc
        · simp only [List.length_cons] at hfuel
          omega
        · rw [← hassoc]; exact hnodup
        · rw [← hassoc]; exact hlen
        · exact hchain2
        · simpa [List.getLast?_cons_cons] using hlast

/-- C31: every sequence of at most 10 ports without repetition that starts
with the origin, ends with the destination and whose consecutive ports are
joined by a leg of the graph dated on the query date is in the list returned
by `findAllPaths`. -/
theorem c31_every_simple_dated_path_enumerated (g : Graph)
    (origin destination date : String) (path : List String)
    (hhead : path.head? = some origin) (hlast : path.getLast? = some destination)
    (hnodup : path.Nodup) (hlen : path.length ≤ 10)
    (hchain : List.Chain' (PathLink g date) path) :
    path ∈ findAllPaths g origin destination date := by
  cases path with
  | nil => simp at hhead
  | cons first rest =>
    have hfirst : first = origin := by simpa using hhead
    subst hfirst
    unfold findAllPaths
    have := findAllPathsDFS_complete g destination date 10 11 rest first [] []
      (by simp only [List.length_cons] at hlen; omega) (by simpa using hnodup)
      (by simpa using hlen) hchain hlast
    simpa using this

theorem pathLink_of_mem {g : Graph} {date p q : String} (r : Route)
    (hr : r ∈ g.getRoutesFrom p) (ho : r.origin = p) (hd : r.destination = q)
    (hdate : r.date = date) : PathLink g date p q :=
  ⟨r, hr, ho, hd, hdate⟩

theorem c31_every_simple_dated_path_enumerated_witness :
    ["A", "B", "C"] ∈ findAllPaths roundTrip "A" "C" "01/05/2025" :=
  c31_every_simple_dated_path_enumerated roundTrip "A" "C" "01/05/2025" ["A", "B", "C"]
    rfl rfl (by decide) (by decide)
    (List.chain'_cons.mpr
      ⟨pathLink_of_mem ⟨"A", "B", "01/05/2025", "08:00", "09:00", 1, "X"⟩ (by decide) rfl rfl rfl,
        List.chain'_cons.mpr
          ⟨pathLink_of_mem ⟨"B", "C", "01/05/2025", "10:00", "11:00", 1, "X"⟩ (by decide) rfl
            rfl rfl, List.chain'_singleton _⟩⟩)

/-! ## C34: the docking queues -/

theorem drainQueue_eq :
    ∀ (queue ships tempQueue : List String),
      drainQueue queue ships tempQueue = ([], ships ++ queue, tempQueue ++ queue)
  | [], ships, tempQueue => by simp [drainQueue]
  | ship :: queue, ships, tempQueue => by
    simp [drainQueue, Queue.enqueue, drainQueue_eq queue]

theorem restoreQueue_eq :
    ∀ (tempQueue queue : List String), restoreQueue tempQueue queue = queue ++ tempQueue
  | [], queue => by simp [restoreQueue]
  | ship :: tempQueue, queue => by
    simp [restoreQueue, Queue.enqueue, restoreQueue_eq tempQueue]

theorem modifyQueueAt_vertex {Coord : Type} (f : List String → List String) :
    ∀ (vs : List (VertexState Coord)) (index : Nat),
      (modifyQueueAt vs index f).map (fun v => v.vertex) = vs.map (fun v => v.vertex)
  | [], _ => by simp [modifyQueueAt]
  | v :: vs, 0 => by simp [modifyQueueAt]
  | v :: vs, index + 1 => by simp [modifyQueueAt, modifyQueueAt_vertex f vs index]

theorem modifyQueueAt_same {Coord : Type} (f : List String → List String) :
    ∀ (vs : List (VertexState Coord)) (index : Nat) (v : VertexState Coord),
      vs[index]? = some v →
      (modifyQueueAt vs index f)[index]? = some { v with dockingQueue := f v.dockingQueue }
  | [], _, _, h => by simp at h
  | w :: ws, 0, v, h => by
    simp only [List.getElem?_cons_zero, Option.some.injEq] at h
    subst h
    simp [modifyQueueAt]
  | w :: ws, index + 1, v, h => by
    simp only [List.getElem?_cons_succ] at h
    simp [modifyQueueAt, modifyQueueAt_same f ws index v h]

theorem modifyQueueAt_other {Coord : Type} (f : List String → List String) :
    ∀ (vs : List (VertexState Coord)) (index j : Nat), j ≠ index →
      (modifyQueueAt vs index f)[j]? = vs[j]?
  | [], _, _, _ => by simp [modifyQueueAt]
  | w :: ws, 0, j, h => by
    cases j with
    | zero => exact absurd rfl h
    | succ j => simp [modifyQueueAt]
  | w :: ws, index + 1, j, h => by
    cases j with
    | zero => simp [modifyQueueAt]
    | succ j =>
      simp [modifyQueueAt, modifyQueueAt_other f ws index j (fun hj => h (by rw [hj]))]

theorem modifyQueueAt_id {Coord : Type} (f : List String → List String) :
    ∀ (vs : List (VertexState Coord)) (index : Nat) (v : VertexState Coord),
      vs[index]? = some v → f v.dockingQueue = v.dockingQueue →
      modifyQueueAt vs index f = vs
  | [], _, _, h, _ => by simp at h
  | w :: ws, 0, v, h, hf => by
    simp only [List.getElem?_cons_zero, Option.some.injEq] at h
    subst h
    simp [modifyQueueAt, hf]
  | w :: ws, index + 1, v, h, hf => by
    simp only [List.getElem?_cons_succ] at h
    simp [modifyQueueAt, modifyQueueAt_id f ws index v h hf]

theorem graph_modifyQueueAt {Coord : Type} (s : GraphState Coord) (index : Nat)
    (f : List String → List String) :
    ({ s with vertices := modifyQueueAt s.vertices index f } : GraphState Coord).graph =
      s.graph := by
  simp [GraphState.graph, modifyQueueAt_vertex]

theorem vertex_of_findPortIndex {Coord : Type} {s : GraphState Coord} {p : String}
    {index : Nat} (h : s.graph.findPortIndex p = some index) :
    ∃ v, s.vertices[index]? = some v ∧ v.vertex.port.name = p := by
  have h1 := indexOfName_some h
  simp only [GraphState.graph, List.map_map, List.getElem?_map] at h1
  cases hv : s.vertices[index]? with
  | none => simp [hv] at h1
  | some v =>
    simp [hv] at h1
    exact ⟨v, rfl, h1⟩

theorem dockingQueueOf_modify_same {Coord : Type} {s : GraphState Coord} {p : String}
    {index : Nat} (h : s.graph.findPortIndex p = some index)
    (f : List String → List String) :
    ({ s with vertices := modifyQueueAt s.vertices index f } : GraphState Coord).dockingQueueOf
      p = f (s.dockingQueueOf p) := by
  obtain ⟨v, hv, _⟩ := vertex_of_findPortIndex h
  unfold GraphState.dockingQueueOf
  rw [graph_modifyQueueAt, h]
  simp only [modifyQueueAt_same f s.vertices index v hv, hv]

theorem dockingQueueOf_modify_other {Coord : Type} {s : GraphState Coord} {p q : String}
    {index : Nat} (h : s.graph.findPortIndex p = some index) (hq : q ≠ p)
    (f : List String → List String) :
    ({ s with vertices := modifyQueueAt s.vertices index f } : GraphState Coord).dockingQueueOf
      q = s.dockingQueueOf q := by
  unfold GraphState.dockingQueueOf
  rw [graph_modifyQueueAt]
  cases hidx : s.graph.findPortIndex q with
  | none => rfl
  | some j =>
    have hj : j ≠ index := by
      intro e
      subst e
      obtain ⟨v1, hv1, hn1⟩ := vertex_of_findPortIndex h
      obtain ⟨v2, hv2, hn2⟩ := vertex_of_findPortIndex hidx
      rw [hv1] at hv2
      cases hv2
      exact hq (hn2.symm.trans hn1)
    simp only [modifyQueueAt_other f s.vertices index j hj]

/-- C34: for a known port, `getQueueShips` returns the docking queue of the
port from front to rear and leaves the whole state unchanged;
`addShipToQueue` puts the ship at the rear of the queue of the port and
`removeShipFromQueue` returns true and removes the front, both without
touching the queue of any other port, the ports and the edge lists.
`removeShipFromQueue` returns false and leaves the state unchanged when the
port is unknown or its queue is empty. -/
theorem c34_docking_queue_is_fifo {Coord : Type} (s : GraphState Coord) (p : String) :
    (s.graph.hasPort p = true →
      ((s.getQueueShips p).1 = s.dockingQueueOf p ∧ (s.getQueueShips p).2 = s ∧
        s.getQueueSize p = (s.dockingQueueOf p).length) ∧
      (∀ ship, (s.addShipToQueue p ship).dockingQueueOf p = s.dockingQueueOf p ++ [ship] ∧
        (∀ q, q ≠ p → (s.addShipToQueue p ship).dockingQueueOf q = s.dockingQueueOf q) ∧
        (s.addShipToQueue p ship).graph = s.graph ∧
        (s.addShipToQueue p ship).vertexCount = s.vertexCount) ∧
      (∀ front rest, s.dockingQueueOf p = front :: rest →
        (s.removeShipFromQueue p).1 = true ∧
        (s.removeShipFromQueue p).2.dockingQueueOf p = rest ∧
        (∀ q, q ≠ p → (s.removeShipFromQueue p).2.dockingQueueOf q = s.dockingQueueOf q) ∧
        (s.removeShipFromQueue p).2.graph = s.graph ∧
        (s.removeShipFromQueue p).2.vertexCount = s.vertexCount)) ∧
    ((s.graph.hasPort p = false ∨ s.dockingQueueOf p = []) →
      s.removeShipFromQueue p = (false, s)) := by
  constructor
  · intro hp
    unfold Graph.hasPort at hp
    obtain ⟨index, hidx⟩ := Option.isSome_iff_exists.mp hp
    obtain ⟨v, hv, _⟩ := vertex_of_findPortIndex hidx
    have hq : s.dockingQueueOf p = v.dockingQueue := by
      simp only [GraphState.dockingQueueOf, hidx, hv]
    refine ⟨⟨?_, ?_, ?_⟩, ?_, ?_⟩
    · simp only [GraphState.getQueueShips, hidx, hv, drainQueue_eq, hq]
      simp
    · simp only [GraphState.getQueueShips, hidx, hv, drainQueue_eq, restoreQueue_eq]
      rw [modifyQueueAt_id _ s.vertices index v hv (by simp)]
    · simp only [GraphState.getQueueSize, hidx, hv, hq]
    · intro ship
      simp only [GraphState.addShipToQueue, hidx]
      refine ⟨?_, ?_, graph_modifyQueueAt s index _, trivial⟩
      · rw [dockingQueueOf_modify_same hidx]
        rfl
      · intro q hqp
        exact dockingQueueOf_modify_other hidx hqp _
    · intro front rest hfront
      have hvq : v.dockingQueue = front :: rest := by rw [← hq]; exact hfront
      simp only [GraphState.removeShipFromQueue, hidx, hv]
      refine ⟨by simp [Queue.dequeue, hvq], ?_, ?_, graph_modifyQueueAt s index _, trivial⟩
      · rw [dockingQueueOf_modify_same hidx, hfront]
        rfl
      · intro q hqp
        exact dockingQueueOf_modify_other hidx hqp _
  · intro h
    unfold GraphState.removeShipFromQueue
    cases hidx : s.graph.findPortIndex p with
    | none => rfl
    | some index =>
      obtain ⟨v, hv, _⟩ := vertex_of_findPortIndex hidx
      have hq : s.dockingQueueOf p = v.dockingQueue := by
        simp only [GraphState.dockingQueueOf, hidx, hv]
      have hempty : v.dockingQueue = [] := by
        rcases h with h | h
        · simp [Graph.hasPort, hidx] at h
        · rw [← hq]; exact h
      simp only [hv]
      rw [modifyQueueAt_id _ s.vertices index v hv (by simp [hempty, Queue.dequeue])]
      simp [hempty, Queue.dequeue]

theorem c34_docking_queue_is_fifo_witness :
    twoQueues.dockingQueueOf "A" = ["Evergreen", "Maersk"] ∧
    ((twoQueues.getQueueShips "A").1 = twoQueues.dockingQueueOf "A" ∧
      (twoQueues.getQueueShips "A").2 = twoQueues ∧
      twoQueues.getQueueSize "A" = (twoQueues.dockingQueueOf "A").length) ∧
    (twoQueues.addShipToQueue "A" "Hapag").dockingQueueOf "A" =
      ["Evergreen", "Maersk", "Hapag"] ∧
    ((twoQueues.removeShipFromQueue "A").1 = true ∧
      (twoQueues.removeShipFromQueue "A").2.dockingQueueOf "A" = ["Maersk"] ∧
      (twoQueues.removeShipFromQueue "A").2.dockingQueueOf "B" = ["Cosco"]) ∧
    twoQueues.removeShipFromQueue "Z" = (false, twoQueues) :=
  ⟨by decide,
    ((c34_docking_queue_is_fifo twoQueues "A").1 (by decide)).1,
    (((c34_docking_queue_is_fifo twoQueues "A").1 (by decide)).2.1 "Hapag").1,
    ⟨(((c34_docking_queue_is_fifo twoQueues "A").1 (by decide)).2.2 "Evergreen" ["Maersk"]
        (by decide)).1,
      (((c34_docking_queue_is_fifo twoQueues "A").1 (by decide)).2.2 "Evergreen" ["Maersk"]
        (by decide)).2.1,
      ((((c34_docking_queue_is_fifo twoQueues "A").1 (by decide)).2.2 "Evergreen" ["Maersk"]
        (by decide)).2.2.1 "B" (by decide)).trans (by decide)⟩,
    (c34_docking_queue_is_fifo twoQueues "Z").2 (Or.inl (by decide))⟩

/-! ## C40: the parents form no cycle -/

theorem ParentChain.unique {parent : Nat → Option Nat} {o v : Nat} {l1 l2 : List Nat}
    (h1 : ParentChain parent o v l1) (h2 : ParentChain parent o v l2) : l1 = l2 := by
  induction h1 generalizing l2 with
  | root h0 =>
    cases h2 with
    | root _ => rfl
    | link hp _ => rw [h0] at hp; cases hp
  | link hp _ ih =>
    cases h2 with
    | root h0 => rw [h0] at hp; cases hp
    | link hq hc2 =>
      rw [hp] at hq
      cases hq
      rw [ih hc2]

theorem ParentChain.suffix {parent : Nat → Option Nat} {o v : Nat} {l : List Nat}
    (h : ParentChain parent o v l) :
    ∀ x ∈ l, ∃ l2, ParentChain parent o x l2 ∧ l2.length ≤ l.length := by
  induction h with
  | root h0 =>
    intro x hx
    rw [List.mem_singleton.mp hx]
    exact ⟨[o], ParentChain.root h0, le_refl _⟩
  | @link v p l hp hc ih =>
    intro x hx
    rcases List.mem_cons.mp hx with hx | hx
    · rw [hx]
      exact ⟨v :: l, ParentChain.link hp hc, le_refl _⟩
    · obtain ⟨l2, hl2, hlen⟩ := ih x hx
      exact ⟨l2, hl2, by simp only [List.length_cons]; omega⟩

theorem ParentChain.nodup {parent : Nat → Option Nat} {o v : Nat} {l : List Nat}
    (h : ParentChain parent o v l) : l.Nodup := by
  induction h with
  | root _ => exact List.nodup_singleton _
  | @link v p l hp hc ih =>
    refine List.nodup_cons.mpr ⟨?_, ih⟩
    intro hv
    obtain ⟨l2, hl2, hlen⟩ := hc.suffix v hv
    have := ParentChain.unique hl2 (ParentChain.link hp hc)
    rw [this] at hlen
    simp only [List.length_cons] at hlen
    omega

theorem ParentChain.parent_or_root {parent : Nat → Option Nat} {o v : Nat} {l : List Nat}
    (h : ParentChain parent o v l) : ∀ x ∈ l, x = o ∨ ∃ p, parent x = some p := by
  induction h with
  | root _ =>
    intro x hx
    exact Or.inl (List.mem_singleton.mp hx)
  | @link v p l hp _ ih =>
    intro x hx
    rcases List.mem_cons.mp hx with hx | hx
    · rw [hx]; exact Or.inr ⟨p, hp⟩
    · exact ih x hx

theorem found_path_of_inv {g : Graph} {pm : PortMapper} {adm : Route → Bool}
    {originIdx destIdx : Nat} {date : String} (s : DijkstraState)
    (h : SearchInv g pm adm originIdx date s) (hdest : s.visited destIdx = true)
    {origin destination : String} (ho : pm.findIndex origin = some originIdx)
    (hd : pm.findIndex destination = some destIdx) (totalCost : Int) :
    ∃ res, reconstructResult g pm s.parent s.arrivalDates s.arrivalTimes destIdx totalCost
        = some res ∧
      res.found = true ∧ res.totalCost = totalCost ∧
      res.path.Nodup ∧ res.path.length ≤ pm.getSize ∧
      res.path.head? = some origin ∧ res.path.getLast? = some destination := by
  obtain ⟨l, hc, hlen, _⟩ := h.chain destIdx hdest
  have hlenN : l.length ≤ pm.getSize := le_trans hlen (visitedCount_le _ _)
  have hwalk := hc.walk pm.getSize hlenN
  have hnamed : ∀ x ∈ l, ∃ name, pm.findIndex name = some x := by
    intro x hx
    rcases hc.parent_or_root x hx with hx | ⟨p, hp⟩
    · rw [hx]; exact ⟨origin, ho⟩
    · obtain ⟨_, r, _, hidx, _, _⟩ := h.parentOk x p hp
      exact ⟨r.destination, hidx⟩
  have hinj : ∀ x ∈ l, ∀ y ∈ l, pm.getName x = pm.getName y → x = y := by
    intro x hx y hy hxy
    obtain ⟨nx, hnx⟩ := hnamed x hx
    obtain ⟨ny, hny⟩ := hnamed y hy
    rw [getName_of_findIndex hnx, getName_of_findIndex hny] at hxy
    rw [hxy, hny] at hnx
    exact (Option.some.inj hnx).symm
  have hres : reconstructResult g pm s.parent s.arrivalDates s.arrivalTimes destIdx totalCost
      = some
        { found := true
          totalCost := totalCost
          totalTravelTime :=
            totalTravelHours (reconstructRoutes g pm s.arrivalDates s.arrivalTimes l.reverse)
              (buildLayovers g
                (reconstructRoutes g pm s.arrivalDates s.arrivalTimes l.reverse))
          path := l.reverse.map pm.getName
          routes := reconstructRoutes g pm s.arrivalDates s.arrivalTimes l.reverse
          layovers := buildLayovers g
            (reconstructRoutes g pm s.arrivalDates s.arrivalTimes l.reverse) } := by
    simp only [reconstructResult, hwalk]
  refine ⟨_, hres, rfl, rfl, ?_, ?_, ?_, ?_⟩
  · show (l.reverse.map pm.getName).Nodup
    apply List.Nodup.map_on
    · intro x hx y hy hxy
      exact hinj x (List.mem_reverse.mp hx) y (List.mem_reverse.mp hy) hxy
    · exact List.nodup_reverse.mpr hc.nodup
  · show (l.reverse.map pm.getName).length ≤ pm.getSize
    simpa using hlenN
  · show (l.reverse.map pm.getName).head? = some origin
    rw [List.head?_map, List.head?_reverse, hc.getLast_eq]
    simp [getName_of_findIndex ho]
  · show (l.reverse.map pm.getName).getLast? = some destination
    rw [List.getLast?_map, List.getLast?_reverse, hc.head_eq]
    simp [getName_of_findIndex hd]

/-- C40: `findCheapestPath` and `findShortestPath` return a result (the main
loop ends and the walk over the parents from the destination reaches the
origin within `N` steps, `N` the number of ports of the mapper), and in a found
result the path starts at the origin, ends at the destination, has at most `N`
ports and no port twice. -/
theorem c40_parent_walk_terminates (g : Graph) (origin destination date : String) :
    (∃ res, findCheapestPath g origin destination date = some res ∧
      (res.found = true → res.path.Nodup ∧ res.path.length ≤ (buildPortMapper g).getSize ∧
        res.path.head? = some origin ∧ res.path.getLast? = some destination)) ∧
    (∃ res, findShortestPath g origin destination date = some res ∧
      (res.found = true → res.path.Nodup ∧ res.path.length ≤ (buildPortMapper g).getSize ∧
        res.path.head? = some origin ∧ res.path.getLast? = some destination)) := by
  constructor
  · unfold findCheapestPath
    split
    · exact ⟨_, rfl, by simp [PathResult.empty]⟩
    split
    · exact ⟨_, rfl, by simp [PathResult.empty]⟩
    dsimp only
    split
    · next originIdx destIdx ho hd =>
      obtain ⟨hinv, hvis⟩ := cheapestLoop_inv g (buildPortMapper g) originIdx destIdx date
        (buildPortMapper g).getSize (DijkstraState.init originIdx date)
        (searchInv_init g _ _ originIdx date)
      split
      · next hfound =>
        obtain ⟨res, hres, _, _, h1, h2, h3, h4⟩ :=
          found_path_of_inv _ hinv (hvis hfound) ho hd
            (cheapestLoop g (buildPortMapper g) (buildPortMapper g).getSize destIdx
              (buildPortMapper g).getSize (DijkstraState.init originIdx date)).2.1
        exact ⟨res, hres, fun _ => ⟨h1, h2, h3, h4⟩⟩
      · exact ⟨_, rfl, by simp [PathResult.empty]⟩
    · exact ⟨_, rfl, by simp [PathResult.empty]⟩
  · unfold findShortestPath
    split
    · exact ⟨_, rfl, by simp [PathResult.empty]⟩
    split
    · exact ⟨_, rfl, by simp [PathResult.empty]⟩
    dsimp only
    split
    · next originIdx destIdx ho hd =>
      obtain ⟨out, hout, hinv, hvis⟩ := shortestLoop_inv g (buildPortMapper g) originIdx
        destIdx date ((buildPortMapper g).getSize + 1) (HopState.init originIdx date)
        (searchInv_init g _ _ originIdx date) (by omega)
      rw [hout]
      dsimp only
      split
      · next hfound =>
        obtain ⟨res, hres, _, _, h1, h2, h3, h4⟩ :=
          found_path_of_inv out.2.2.view hinv (hvis hfound) ho hd out.2.1
        exact ⟨res, hres, fun _ => ⟨h1, h2, h3, h4⟩⟩
      · exact ⟨_, rfl, by simp [PathResult.empty]⟩
    · exact ⟨_, rfl, by simp [PathResult.empty]⟩

/-- C40 on the cyclic graph `roundTrip`: both searches find a way from `B` to
`A`, which goes round through `C`. -/
theorem c40_parent_walk_terminates_witness :
    (findCheapestPath roundTrip "B" "A" "01/05/2025").map (fun r => (r.found, r.path)) =
      some (true, ["B", "C", "A"]) ∧
    (findShortestPath roundTrip "B" "A" "01/05/2025").map (fun r => (r.found, r.path)) =
      some (true, ["B", "C", "A"]) ∧
    ((∃ res, findCheapestPath roundTrip "B" "A" "01/05/2025" = some res ∧
      (res.found = true → res.path.Nodup ∧
        res.path.length ≤ (buildPortMapper roundTrip).getSize ∧
        res.path.head? = some "B" ∧ res.path.getLast? = some "A")) ∧
    (∃ res, findShortestPath roundTrip "B" "A" "01/05/2025" = some res ∧
      (res.found = true → res.path.Nodup ∧
        res.path.length ≤ (buildPortMapper roundTrip).getSize ∧
        res.path.head? = some "B" ∧ res.path.getLast? = some "A"))) :=
  ⟨by decide, by decide, c40_parent_walk_terminates roundTrip "B" "A" "01/05/2025"⟩

/-! ## C36: the hop search with a direct leg -/

theorem selectMin_fold_none_inv (visited : Nat → Bool) (key : Nat → Int) :
    ∀ (l : List Nat) (acc : Int × Option Nat),
      (l.foldl
        (fun (acc : Int × Option Nat) j =>
          if !visited j && decide (key j < acc.1) then (key j, some j) else acc) acc).2 = none →
      acc.2 = none ∧ ∀ j ∈ l, visited j = true ∨ acc.1 ≤ key j := by
  intro l
  induction l with
  | nil => intro acc h; exact ⟨h, by simp⟩
  | cons j js ih =>
    intro acc h
    simp only [List.foldl_cons] at h
    obtain ⟨h1, h2⟩ := ih _ h
    by_cases hc : (!visited j && decide (key j < acc.1)) = true
    · simp only [hc, if_true] at h1
      cases h1
    · simp only [hc] at h1 h2
      refine ⟨h1, ?_⟩
      intro x hx
      rcases List.mem_cons.mp hx with hx | hx
      · subst hx
        simp only [Bool.and_eq_true, Bool.not_eq_true', decide_eq_true_eq, not_and,
          not_lt] at hc
        cases hv : visited x with
        | true => exact Or.inl rfl
        | false => exact Or.inr (hc hv)
      · exact h2 x hx

theorem selectMin_eq_none {visited : Nat → Bool} {key : Nat → Int} {n : Nat}
    (h : selectMin visited key n = none) :
    ∀ j, j < n → visited j = true ∨ INT_MAX ≤ key j := by
  intro j hj
  exact (selectMin_fold_none_inv visited key (List.range n) (INT_MAX, none) h).2 j
    (List.mem_range.mpr hj)

theorem updateShortest_origin (g : Graph) (pm : PortMapper) (o : Nat) (s : HopState)
    (route : Route) (n : Nat) (hpar : s.parent o = none) (hh : s.hops o = 0)
    (hc : s.totalCost o = 0) :
    updateShortest g pm o s route n =
      if 1 < s.hops n then
        { s with
          hops := setAt s.hops n 1
          totalCost := setAt s.totalCost n route.cost
          parent := setAt s.parent n (some o)
          arrivalDates := setAt s.arrivalDates n route.date
          arrivalTimes := setAt s.arrivalTimes n route.arrivalTime }
      else if 1 = s.hops n ∧ route.cost < s.totalCost n then
        { s with
          totalCost := setAt s.totalCost n route.cost
          parent := setAt s.parent n (some o)
          arrivalDates := setAt s.arrivalDates n route.date
          arrivalTimes := setAt s.arrivalTimes n route.arrivalTime }
      else s := by
  unfold updateShortest
  simp only [previousRouteOf, hpar, portChargeFor_zero, hh, hc, Bool.not_true,
    Bool.false_eq_true, if_false, zero_add, intAdd_zero_left, intAdd_zero_right]

theorem relaxShortest_change (g : Graph) (pm : PortMapper) (m : Nat) (s : HopState)
    (route : Route) :
    (relaxShortest g pm m s route).visited = s.visited ∧
    (relaxShortest g pm m s route = s ∨
      ∃ n, s.visited n = false ∧ pm.findIndex route.destination = some n ∧
        s.hops m + 1 ≤ s.hops n ∧
        ∀ v, v ≠ n → (relaxShortest g pm m s route).hops v = s.hops v ∧
          (relaxShortest g pm m s route).totalCost v = s.totalCost v ∧
          (relaxShortest g pm m s route).parent v = s.parent v) := by
  unfold relaxShortest
  split
  · exact ⟨rfl, Or.inl rfl⟩
  · next n hidx =>
    split
    · exact ⟨rfl, Or.inl rfl⟩
    · next hv =>
      have hv2 : s.visited n = false := by simpa using hv
      unfold updateShortest
      dsimp only
      split
      · exact ⟨rfl, Or.inl rfl⟩
      · split
        · next hlt =>
          refine ⟨rfl, Or.inr ⟨n, hv2, hidx, le_of_lt hlt, fun v hvn => ?_⟩⟩
          simp [setAt, hvn]
        · split
          · next htie =>
            refine ⟨rfl, Or.inr ⟨n, hv2, hidx, le_of_eq htie.1, fun v hvn => ?_⟩⟩
            simp [setAt, hvn]
          · exact ⟨rfl, Or.inl rfl⟩

theorem relaxShortest_origin_step (g : Graph) (pm : PortMapper) (o d : Nat) (s : HopState)
    (x : Route) (hvo : s.visited o = true) (hvd : s.visited d = false)
    (hpar : s.parent o = none) (hh : s.hops o = 0) (hc : s.totalCost o = 0)
    (hd : s.hops d = INT_MAX ∨ (s.hops d = 1 ∧ s.parent d = some o)) :
    ((relaxShortest g pm o s x).visited = s.visited ∧
      (relaxShortest g pm o s x).parent o = none ∧
      (relaxShortest g pm o s x).hops o = 0 ∧
      (relaxShortest g pm o s x).totalCost o = 0) ∧
    (pm.findIndex x.destination ≠ some d →
      (relaxShortest g pm o s x).hops d = s.hops d ∧
      (relaxShortest g pm o s x).parent d = s.parent d ∧
      (relaxShortest g pm o s x).totalCost d = s.totalCost d) ∧
    (pm.findIndex x.destination = some d →
      (relaxShortest g pm o s x).hops d = 1 ∧
      (relaxShortest g pm o s x).parent d = some o ∧
      (s.hops d = INT_MAX → (relaxShortest g pm o s x).totalCost d = x.cost) ∧
      (s.hops d = 1 → (relaxShortest g pm o s x).totalCost d = min (s.totalCost d) x.cost)) := by
  have hod : o ≠ d := by
    intro e
    rw [e, hvd] at hvo
    exact absurd hvo (by simp)
  cases hidx : pm.findIndex x.destination with
  | none =>
    have hval : relaxShortest g pm o s x = s := by simp only [relaxShortest, hidx]
    rw [hval]
    exact ⟨⟨rfl, hpar, hh, hc⟩, fun _ => ⟨rfl, rfl, rfl⟩, fun e => by cases e⟩
  | some n =>
    by_cases hvn : s.visited n = true
    · have hval : relaxShortest g pm o s x = s := by
        simp only [relaxShortest, hidx, hvn, if_true]
      rw [hval]
      refine ⟨⟨rfl, hpar, hh, hc⟩, fun _ => ⟨rfl, rfl, rfl⟩, fun e => ?_⟩
      have e2 : n = d := Option.some.inj e
      rw [e2, hvd] at hvn
      exact absurd hvn (by simp)
    · have hno : n ≠ o := by
        intro e
        rw [e] at hvn
        exact hvn hvo
      have hon : o ≠ n := fun e => hno e.symm
      have hval : relaxShortest g pm o s x = updateShortest g pm o s x n := by
        simp only [relaxShortest, hidx, hvn, Bool.false_eq_true, if_false]
      rw [hval, updateShortest_origin g pm o s x n hpar hh hc]
      by_cases h1 : 1 < s.hops n
      · rw [if_pos h1]
        refine ⟨⟨rfl, by simp [setAt, hon, hpar], by simp [setAt, hon, hh],
          by simp [setAt, hon, hc]⟩, fun hne => ?_, fun e => ?_⟩
        · have hdn : d ≠ n := fun e => hne (by rw [e])
          simp [setAt, hdn]
        · have e2 : n = d := Option.some.inj e
          subst e2
          refine ⟨by simp [setAt], by simp [setAt], fun _ => by simp [setAt], fun h => ?_⟩
          rw [h] at h1
          exact absurd h1 (by decide)
      · rw [if_neg h1]
        by_cases h2 : 1 = s.hops n ∧ x.cost < s.totalCost n
        · rw [if_pos h2]
          refine ⟨⟨rfl, by simp [setAt, hon, hpar], hh, by simp [setAt, hon, hc]⟩,
            fun hne => ?_, fun e => ?_⟩
          · have hdn : d ≠ n := fun e => hne (by rw [e])
            simp [setAt, hdn]
          · have e2 : n = d := Option.some.inj e
            subst e2
            refine ⟨h2.1.symm, by simp [setAt], fun h => ?_, fun _ => ?_⟩
            · rw [h] at h1
              exact absurd (by decide) h1
            · simp only [setAt, if_true]
              exact (min_eq_right (le_of_lt h2.2)).symm
        · rw [if_neg h2]
          refine ⟨⟨rfl, hpar, hh, hc⟩, fun _ => ⟨rfl, rfl, rfl⟩, fun e => ?_⟩
          have e2 : n = d := Option.some.inj e
          subst e2
          rcases hd with hd | hd
          · rw [hd] at h1
            exact absurd (by decide) h1
          · refine ⟨hd.1, hd.2, fun h => ?_, fun _ => ?_⟩
            · rw [hd.1] at h
              exact absurd h (by decide)
            · have : s.totalCost n ≤ x.cost := by
                by_contra hlt
                exact h2 ⟨hd.1.symm, lt_of_not_le hlt⟩
              exact (min_eq_left this).symm

theorem foldl_relaxShortest_origin_tie (g : Graph) (pm : PortMapper) (o d : Nat) :
    ∀ (l : List Route) (s : HopState), s.visited o = true → s.visited d = false →
      s.parent o = none → s.hops o = 0 → s.totalCost o = 0 →
      s.hops d = 1 → s.parent d = some o →
      (l.foldl (relaxShortest g pm o) s).hops d = 1 ∧
      (l.foldl (relaxShortest g pm o) s).parent d = some o ∧
      (l.foldl (relaxShortest g pm o) s).totalCost d ≤ s.totalCost d ∧
      (∀ r ∈ l, pm.findIndex r.destination = some d →
        (l.foldl (relaxShortest g pm o) s).totalCost d ≤ r.cost) ∧
      ((l.foldl (relaxShortest g pm o) s).totalCost d = s.totalCost d ∨
        ∃ r ∈ l, pm.findIndex r.destination = some d ∧
          (l.foldl (relaxShortest g pm o) s).totalCost d = r.cost) := by
  intro l
  induction l with
  | nil => intro s _ _ _ _ _ h1 h2; exact ⟨h1, h2, le_refl _, by simp, Or.inl rfl⟩
  | cons x xs ih =>
    intro s hvo hvd hpar hh hc h1 h2
    obtain ⟨⟨k1, k2, k3, k4⟩, kne, keq⟩ :=
      relaxShortest_origin_step g pm o d s x hvo hvd hpar hh hc (Or.inr ⟨h1, h2⟩)
    simp only [List.foldl_cons]
    by_cases hx : pm.findIndex x.destination = some d
    · obtain ⟨e1, e2, _, e4⟩ := keq hx
      have e5 := e4 h1
      obtain ⟨j1, j2, j3, j4, j5⟩ := ih (relaxShortest g pm o s x) (by rw [k1]; exact hvo)
        (by rw [k1]; exact hvd) k2 k3 k4 e1 e2
      refine ⟨j1, j2, ?_, ?_, ?_⟩
      · exact le_trans j3 (by rw [e5]; exact min_le_left _ _)
      · intro r hr hrd
        rcases List.mem_cons.mp hr with hr | hr
        · rw [hr]
          exact le_trans j3 (by rw [e5]; exact min_le_right _ _)
        · exact j4 r hr hrd
      · rcases j5 with j5 | ⟨r, hr, hrd, hrc⟩
        · rcases min_choice (s.totalCost d) x.cost with hm | hm
          · left
            rw [j5, e5, hm]
          · right
            exact ⟨x, List.mem_cons_self _ _, hx, by rw [j5, e5, hm]⟩
        · exact Or.inr ⟨r, List.mem_cons_of_mem _ hr, hrd, hrc⟩
    · obtain ⟨e1, e2, e3⟩ := kne hx
      obtain ⟨j1, j2, j3, j4, j5⟩ := ih (relaxShortest g pm o s x) (by rw [k1]; exact hvo)
        (by rw [k1]; exact hvd) k2 k3 k4 (by rw [e1]; exact h1) (by rw [e2]; exact h2)
      rw [e3] at j3 j5
      refine ⟨j1, j2, j3, ?_, ?_⟩
      · intro r hr hrd
        rcases List.mem_cons.mp hr with hr | hr
        · rw [hr] at hrd
          exact absurd hrd hx
        · exact j4 r hr hrd
      · rcases j5 with j5 | ⟨r, hr, hrd, hrc⟩
        · exact Or.inl j5
        · exact Or.inr ⟨r, List.mem_cons_of_mem _ hr, hrd, hrc⟩

theorem foldl_relaxShortest_origin_cost (g : Graph) (pm : PortMapper) (o d : Nat) :
    ∀ (l : List Route) (s : HopState), s.visited o = true → s.visited d = false →
      s.parent o = none → s.hops o = 0 → s.totalCost o = 0 →
      s.hops d = INT_MAX → (∃ r ∈ l, pm.findIndex r.destination = some d) →
      (l.foldl (relaxShortest g pm o) s).hops d = 1 ∧
      (l.foldl (relaxShortest g pm o) s).parent d = some o ∧
      (∀ r ∈ l, pm.findIndex r.destination = some d →
        (l.foldl (relaxShortest g pm o) s).totalCost d ≤ r.cost) ∧
      ∃ r ∈ l, pm.findIndex r.destination = some d ∧
        (l.foldl (relaxShortest g pm o) s).totalCost d = r.cost := by
  intro l
  induction l with
  | nil => intro s _ _ _ _ _ _ hex; simp at hex
  | cons x xs ih =>
    intro s hvo hvd hpar hh hc h1 hex
    obtain ⟨⟨k1, k2, k3, k4⟩, kne, keq⟩ :=
      relaxShortest_origin_step g pm o d s x hvo hvd hpar hh hc (Or.inl h1)
    simp only [List.foldl_cons]
    by_cases hx : pm.findIndex x.destination = some d
    · obtain ⟨e1, e2, e3, _⟩ := keq hx
      have e5 := e3 h1
      obtain ⟨j1, j2, j3, j4, j5⟩ := foldl_relaxShortest_origin_tie g pm o d xs
        (relaxShortest g pm o s x) (by rw [k1]; exact hvo) (by rw [k1]; exact hvd) k2 k3 k4 e1 e2
      rw [e5] at j3 j5
      refine ⟨j1, j2, ?_, ?_⟩
      · intro r hr hrd
        rcases List.mem_cons.mp hr with hr | hr
        · rw [hr]; exact j3
        · exact j4 r hr hrd
      · rcases j5 with j5 | ⟨r, hr, hrd, hrc⟩
        · exact ⟨x, List.mem_cons_self _ _, hx, j5⟩
        · exact ⟨r, List.mem_cons_of_mem _ hr, hrd, hrc⟩
    · obtain ⟨e1, e2, e3⟩ := kne hx
      have hex2 : ∃ r ∈ xs, pm.findIndex r.destination = some d := by
        obtain ⟨r, hr, hrd⟩ := hex
        rcases List.mem_cons.mp hr with hr | hr
        · rw [hr] at hrd
          exact absurd hrd hx
        · exact ⟨r, hr, hrd⟩
      obtain ⟨j1, j2, j3, j4⟩ := ih (relaxShortest g pm o s x) (by rw [k1]; exact hvo)
        (by rw [k1]; exact hvd) k2 k3 k4 (by rw [e1]; exact h1) hex2
      refine ⟨j1, j2, ?_, ?_⟩
      · intro r hr hrd
        rcases List.mem_cons.mp hr with hr | hr
        · rw [hr] at hrd
          exact absurd hrd hx
        · exact j3 r hr hrd
      · obtain ⟨r, hr, hrd, hrc⟩ := j4
        exact ⟨r, List.mem_cons_of_mem _ hr, hrd, hrc⟩

theorem foldl_relaxShortest_keep_cost (g : Graph) (pm : PortMapper) (m destIdx : Nat) :
    ∀ (l : List Route) (s : HopState), s.visited m = true → 1 ≤ s.hops m →
      s.hops destIdx = 1 →
      (l.foldl (relaxShortest g pm m) s).totalCost destIdx = s.totalCost destIdx := by
  intro l
  induction l with
  | nil => intro s _ _ _; rfl
  | cons x xs ih =>
    intro s hm hhm h3
    obtain ⟨hvis, heff⟩ := relaxShortest_change g pm m s x
    simp only [List.foldl_cons]
    rcases heff with heq | ⟨n, hn, _, hle, hrest⟩
    · rw [heq]
      exact ih s hm hhm h3
    · have hnm : m ≠ n := by
        intro e
        rw [e, hn] at hm
        exact absurd hm (by simp)
      have hnd : destIdx ≠ n := by
        intro e
        rw [← e, h3] at hle
        omega
      rw [ih _ (by rw [hvis]; exact hm) (by rw [(hrest m hnm).1]; exact hhm)
        (by rw [(hrest destIdx hnd).1]; exact h3)]
      exact (hrest destIdx hnd).2.1

theorem shortestLoop_direct_cost (g : Graph) (pm : PortMapper) (originIdx destIdx : Nat)
    (date : String) (c : Int) (hne : originIdx ≠ destIdx)
    (holt : originIdx < pm.getSize) (hdlt : destIdx < pm.getSize)
    (hmin : ∃ r ∈ g.getConnectingRoutes (pm.getName originIdx) date "00:00",
      pm.findIndex r.destination = some destIdx ∧ r.cost = c)
    (hle : ∀ r ∈ g.getConnectingRoutes (pm.getName originIdx) date "00:00",
      pm.findIndex r.destination = some destIdx → c ≤ r.cost) :
    ∀ (fuel : Nat) (s : HopState) (out : Bool × Int × HopState),
      SearchInv g pm (fun _ => true) originIdx date s.view →
      s.visited destIdx = false →
      (∀ v, v ≠ originIdx → 1 ≤ s.hops v) →
      (s.visited originIdx = false →
        (∀ v, v ≠ originIdx → s.hops v = INT_MAX) ∧ s.totalCost originIdx = 0) →
      (s.visited originIdx = true →
        s.parent destIdx = some originIdx ∧ s.hops destIdx = 1 ∧ s.totalCost destIdx = c) →
      shortestLoop g pm pm.getSize destIdx fuel s = some out →
      out.1 = true ∧ out.2.1 = c ∧ out.2.2.parent destIdx = some originIdx ∧
        out.2.2.parent originIdx = none := by
  intro fuel
  induction fuel with
  | zero => intro s out _ _ _ _ _ hout; simp [shortestLoop] at hout
  | succ k ih =>
    intro s out h hvd hpos hinit hdone hout
    unfold shortestLoop at hout
    cases hsel : selectMin s.visited s.hops pm.getSize with
    | none =>
      exfalso
      rcases selectMin_eq_none hsel destIdx hdlt with hd | hd
      · rw [hvd] at hd
        exact absurd hd (by simp)
      · cases hov : s.visited originIdx with
        | true =>
          rw [(hdone hov).2.1] at hd
          exact absurd hd (by decide)
        | false =>
          rcases selectMin_eq_none hsel originIdx holt with ho | ho
          · rw [hov] at ho
            exact absurd ho (by simp)
          · have hk : s.hops originIdx = 0 := h.originKey
            rw [hk] at ho
            exact absurd ho (by decide)
    | some m =>
      have hsel2 : selectMin s.view.visited s.view.distances pm.getSize = some m := hsel
      obtain ⟨h1, ho0⟩ := searchInv_visit h hsel2
      have ho1 : setAt s.visited m true originIdx = true := ho0
      obtain ⟨_, hunv, hkey⟩ := selectMin_some hsel
      simp only [hsel] at hout
      by_cases hmd : m = destIdx
      · simp only [hmd, if_true, Option.some.injEq] at hout
        subst hmd
        obtain ⟨p, hp⟩ := h.reached m (fun e => hne e.symm) hkey
        have hov := searchInv_origin_visited h (h.parentOk m p hp).1
        rw [← hout]
        exact ⟨rfl, (hdone hov).2.2, (hdone hov).1, h.rootless⟩
      · simp only [hmd, if_false] at hout
        have hfold := searchInv_fold g pm (fun _ => true) originIdx m date HopState.view
          (relaxShortest g pm m) (relaxStep_relaxShortest g pm m)
          (g.getConnectingRoutes (pm.getName m) (s.arrivalDates m) (s.arrivalTimes m))
          { s with visited := setAt s.visited m true } (fun r hr => hr) h1
          (setAt_same _ _ _) ho1
        have hvisF : (List.foldl (relaxShortest g pm m)
            { s with visited := setAt s.visited m true }
            (g.getConnectingRoutes (pm.getName m) (s.arrivalDates m)
              (s.arrivalTimes m))).visited originIdx = true := by
          have := congrFun hfold.2 originIdx
          exact this.trans ho1
        have hvd1 : setAt s.visited m true destIdx = false := by
          rw [setAt_other _ _ (fun e => hmd e.symm)]; exact hvd
        have hvdF : (List.foldl (relaxShortest g pm m)
            { s with visited := setAt s.visited m true }
            (g.getConnectingRoutes (pm.getName m) (s.arrivalDates m)
              (s.arrivalTimes m))).visited destIdx = false := by
          have := congrFun hfold.2 destIdx
          exact this.trans hvd1
        by_cases hov : s.visited originIdx = true
        · have hmo : m ≠ originIdx := by
            intro e
            rw [e, hov] at hunv
            exact absurd hunv (by simp)
          obtain ⟨hparent, hhops, hcost⟩ := hdone hov
          obtain ⟨k1, k2, k3⟩ := foldl_relaxShortest_keep g pm m originIdx destIdx
            (g.getConnectingRoutes (pm.getName m) (s.arrivalDates m) (s.arrivalTimes m))
            { s with visited := setAt s.visited m true } (setAt_same _ _ _) (hpos m hmo)
            hpos hparent hhops
          have k4 := foldl_relaxShortest_keep_cost g pm m destIdx
            (g.getConnectingRoutes (pm.getName m) (s.arrivalDates m) (s.arrivalTimes m))
            { s with visited := setAt s.visited m true } (setAt_same _ _ _) (hpos m hmo) hhops
          exact ih _ out hfold.1 hvdF k1 (fun hf => absurd hvisF (by rw [hf]; simp))
            (fun _ => ⟨k2, k3, k4.trans hcost⟩) hout
        · have hov2 : s.visited originIdx = false := by
            cases hc : s.visited originIdx with
            | false => rfl
            | true => exact absurd hc hov
          have hmo : m = originIdx := by
            by_contra hmo
            have : setAt s.visited m true originIdx = s.visited originIdx :=
              setAt_other _ _ (fun e => hmo e.symm)
            rw [this] at ho1
            exact hov ho1
          subst hmo
          have hL : g.getConnectingRoutes (pm.getName m) (s.arrivalDates m) (s.arrivalTimes m)
              = g.getConnectingRoutes (pm.getName m) date "00:00" := by
            rw [show s.arrivalDates m = date from h.originDate,
              show s.arrivalTimes m = "00:00" from h.originTime]
          obtain ⟨r0, hr0, hr0d, _⟩ := hmin
          obtain ⟨k1, _, _⟩ := foldl_relaxShortest_first g pm m destIdx r0
            (fun e => hmd e.symm) hr0d
            (g.getConnectingRoutes (pm.getName m) (s.arrivalDates m) (s.arrivalTimes m))
            { s with visited := setAt s.visited m true } (setAt_same _ _ _) hvd1
            h.rootless h.originKey (fun v hv => Or.inl ((hinit hov2).1 v hv))
            (Or.inr (by rw [hL]; exact hr0))
          obtain ⟨j1, j2, j3, r1, hr1, hr1d, hr1c⟩ := foldl_relaxShortest_origin_cost g pm m destIdx
            (g.getConnectingRoutes (pm.getName m) (s.arrivalDates m) (s.arrivalTimes m))
            { s with visited := setAt s.visited m true } (setAt_same _ _ _) hvd1
            h.rootless h.originKey (hinit hov2).2 ((hinit hov2).1 destIdx (fun e => hmd e.symm))
            ⟨r0, by rw [hL]; exact hr0, hr0d⟩
          have hcF : (List.foldl (relaxShortest g pm m)
              { s with visited := setAt s.visited m true }
              (g.getConnectingRoutes (pm.getName m) (s.arrivalDates m)
                (s.arrivalTimes m))).totalCost destIdx = c := by
            apply le_antisymm
            · obtain ⟨r2, hr2, hr2d, hr2c⟩ :
                  ∃ r ∈ g.getConnectingRoutes (pm.getName m) date "00:00",
                    pm.findIndex r.destination = some destIdx ∧ r.cost = c :=
                ⟨r0, hr0, hr0d, by assumption⟩
              rw [← hr2c]
              exact j3 r2 (by rw [hL]; exact hr2) hr2d
            · rw [hr1c]
              exact hle r1 (by rw [← hL]; exact hr1) hr1d
          exact ih _ out hfold.1 hvdF k1 (fun hf => absurd hvisF (by rw [hf]; simp))
            (fun _ => ⟨j2, j1, hcF⟩) hout

theorem exists_cheapest_leg (p : Route → Prop) :
    ∀ (l : List Route), (∃ r ∈ l, p r) →
      ∃ r ∈ l, p r ∧ ∀ r2 ∈ l, p r2 → r.cost ≤ r2.cost := by
  intro l
  induction l with
  | nil => intro h; simp at h
  | cons x xs ih =>
    intro h
    by_cases hxs : ∃ r ∈ xs, p r
    · obtain ⟨r, hr, hpr, hmin⟩ := ih hxs
      by_cases hx : p x ∧ x.cost < r.cost
      · refine ⟨x, List.mem_cons_self _ _, hx.1, fun r2 hr2 hp2 => ?_⟩
        rcases List.mem_cons.mp hr2 with e | hr2
        · rw [e]
        · exact le_trans (le_of_lt hx.2) (hmin r2 hr2 hp2)
      · refine ⟨r, List.mem_cons_of_mem _ hr, hpr, fun r2 hr2 hp2 => ?_⟩
        rcases List.mem_cons.mp hr2 with e | hr2
        · rw [e] at hp2 ⊢
          by_contra hlt
          exact hx ⟨hp2, lt_of_not_le hlt⟩
        · exact hmin r2 hr2 hp2
    · obtain ⟨r, hr, hpr⟩ := h
      rcases List.mem_cons.mp hr with e | hr
      · rw [e] at hpr
        refine ⟨x, List.mem_cons_self _ _, hpr, fun r2 hr2 hp2 => ?_⟩
        rcases List.mem_cons.mp hr2 with e2 | hr2
        · rw [e2]
        · exact absurd ⟨r2, hr2, hp2⟩ hxs
      · exact absurd ⟨r, hr, hpr⟩ hxs

/-- C36 fails on `strayLeg`: the leg from `A` to `Z` connects at the query
date and `A` differs from `Z`, but `Z` is not a port of the graph (`addRoute`
files a leg under its origin without a look at its destination), and
`findShortestPath` returns the result that is not found. -/
theorem c36_counterexample :
    strayLeg.getConnectingRoutes "A" "01/05/2025" "00:00" =
      [⟨"A", "Z", "01/05/2025", "08:00", "20:00", 1000, "X"⟩] ∧
    strayLeg.hasPort "A" = true ∧ strayLeg.hasPort "Z" = false ∧
    (findShortestPath strayLeg "A" "Z" "01/05/2025").map
        (fun r => (r.found, r.path, r.routes.length)) =
      some (false, [], 0) := by
  decide

/-- C36 as amended: when the destination is a port of the graph other than the
origin and some leg from the origin to it connects at the query date (from
00:00), `findShortestPath` returns a found result whose path is the origin
followed by the destination, with exactly one leg, and whose total cost is the
least fare among the direct legs that connect at the query date. -/
theorem c36_direct_leg_wins_at_least_fare (g : Graph) (origin destination date : String)
    (hne : origin ≠ destination) (hport : g.hasPort destination = true)
    (leg0 : Route) (hleg0 : leg0 ∈ g.getConnectingRoutes origin date "00:00")
    (hdest0 : leg0.destination = destination) :
    ∃ res, findShortestPath g origin destination date = some res ∧
      res.found = true ∧ res.path = [origin, destination] ∧ res.routes.length = 1 ∧
      (∃ leg ∈ g.getConnectingRoutes origin date "00:00",
        leg.destination = destination ∧ res.totalCost = leg.cost) ∧
      ∀ leg ∈ g.getConnectingRoutes origin date "00:00",
        leg.destination = destination → res.totalCost ≤ leg.cost := by
  have hporig : g.hasPort origin = true := by
    have hm : leg0 ∈ g.getRoutesFrom origin := (List.mem_filter.mp hleg0).1
    cases hl : g.getRoutesFrom origin with
    | nil => rw [hl] at hm; simp at hm
    | cons r rs => exact hasPort_of_getRoutesFrom hl
  obtain ⟨o, ho⟩ := findIndex_of_hasPort hporig
  obtain ⟨d, hd⟩ := findIndex_of_hasPort hport
  have hidxne : o ≠ d := by
    intro e
    apply hne
    rw [← getName_of_findIndex ho, ← getName_of_findIndex hd, e]
  have hno : (buildPortMapper g).getName o = origin := getName_of_findIndex ho
  have hnd : (buildPortMapper g).getName d = destination := getName_of_findIndex hd
  have hiff : ∀ r : Route, (buildPortMapper g).findIndex r.destination = some d ↔
      r.destination = destination := by
    intro r
    constructor
    · intro h
      rw [← getName_of_findIndex h, hnd]
    · intro h
      rw [h]; exact hd
  obtain ⟨best, hbest, hbd, hbmin⟩ := exists_cheapest_leg
    (fun r => r.destination = destination) (g.getConnectingRoutes origin date "00:00")
    ⟨leg0, hleg0, hdest0⟩
  obtain ⟨out, hout, hinv, hvis⟩ := shortestLoop_inv g (buildPortMapper g) o d date
    ((buildPortMapper g).getSize + 1) (HopState.init o date)
    (searchInv_init g _ _ o date) (by omega)
  obtain ⟨hf, hc, hp, hroot⟩ := shortestLoop_direct_cost g (buildPortMapper g) o d date
    best.cost hidxne (lt_size_of_findIndex ho) (lt_size_of_findIndex hd)
    ⟨best, by rw [hno]; exact hbest, (hiff best).mpr hbd, rfl⟩
    (fun r hr hrd => hbmin r (by rw [← hno]; exact hr) ((hiff r).mp hrd))
    ((buildPortMapper g).getSize + 1) (HopState.init o date) out
    (searchInv_init g _ _ o date)
    (by simp [HopState.init])
    (by intro v hv; simp [HopState.init, setAt, hv, INT_MAX])
    (by intro _; exact ⟨fun v hv => by simp [HopState.init, setAt, hv],
          by simp [HopState.init, setAt]⟩)
    (by simp [HopState.init]) hout
  have hsize : 2 ≤ (buildPortMapper g).getSize := by
    have h1 := lt_size_of_findIndex ho
    have h2 := lt_size_of_findIndex hd
    omega
  obtain ⟨k, hk⟩ : ∃ k, (buildPortMapper g).getSize = k + 2 :=
    ⟨_, (Nat.sub_add_cancel hsize).symm⟩
  have hwalk : pathIndicesFrom out.2.2.parent (buildPortMapper g).getSize (some d)
      = some [d, o] := by
    rw [hk]
    simp [pathIndicesFrom, hp, hroot]
  obtain ⟨_, r1, hr1, hr1d, hr1date, _⟩ := hinv.parentOk d o hp
  obtain ⟨r2, hr2⟩ := findRouteTo_of_mem hr1
    (show r1.destination = (buildPortMapper g).getName d from
      (getName_of_findIndex hr1d).symm) hr1date
  have hr2b : findRouteTo
      (g.getConnectingRoutes ((buildPortMapper g).getName o) (out.2.2.arrivalDates o)
        (out.2.2.arrivalTimes o))
      ((buildPortMapper g).getName d) (out.2.2.arrivalDates d) = some r2 := hr2
  have hres : findShortestPath g origin destination date =
      reconstructResult g (buildPortMapper g) out.2.2.parent out.2.2.arrivalDates
        out.2.2.arrivalTimes d out.2.1 := by
    unfold findShortestPath
    simp only [hporig, hport, Bool.not_true, Bool.false_eq_true, if_false, ho, hd, hout, hf,
      if_true]
  have hrr : reconstructResult g (buildPortMapper g) out.2.2.parent out.2.2.arrivalDates
      out.2.2.arrivalTimes d out.2.1 =
      some
        { found := true
          totalCost := out.2.1
          totalTravelTime := totalTravelHours [r2] (buildLayovers g [r2])
          path := [origin, destination]
          routes := [r2]
          layovers := buildLayovers g [r2] } := by
    rw [hno, hnd] at hr2b
    simp only [reconstructResult, hwalk, List.reverse_cons, List.reverse_nil, List.nil_append,
      List.singleton_append, reconstructRoutes, hr2b, List.map_cons, List.map_nil, hno, hnd,
      List.append_nil]
  rw [hres, hrr]
  refine ⟨_, rfl, rfl, rfl, rfl, ?_, ?_⟩
  · exact ⟨best, hbest, hbd, hc⟩
  · intro leg hleg hld
    show out.2.1 ≤ leg.cost
    rw [hc]
    exact hbmin leg hleg hld

/-- C36 as amended, on `dearDirect`: the direct leg of fare 1000 is returned although the
three legs through `B` and `C` cost 600 in total (which is what the cost
search returns). -/
theorem c36_direct_leg_wins_at_least_fare_witness :
    (findShortestPath dearDirect "A" "Z" "01/05/2025").map
        (fun r => (r.found, r.path, r.totalCost, r.routes.length)) =
      some (true, ["A", "Z"], 1000, 1) ∧
    (findCheapestPath dearDirect "A" "Z" "01/05/2025").map
        (fun r => (r.found, r.path, r.totalCost)) =
      some (true, ["A", "B", "C", "Z"], 600) ∧
    ∃ res, findShortestPath dearDirect "A" "Z" "01/05/2025" = some res ∧
      res.found = true ∧ res.path = ["A", "Z"] ∧ res.routes.length = 1 ∧
      (∃ leg ∈ dearDirect.getConnectingRoutes "A" "01/05/2025" "00:00",
        leg.destination = "Z" ∧ res.totalCost = leg.cost) ∧
      ∀ leg ∈ dearDirect.getConnectingRoutes "A" "01/05/2025" "00:00",
        leg.destination = "Z" → res.totalCost ≤ leg.cost :=
  ⟨by decide, by decide,
    c36_direct_leg_wins_at_least_fare dearDirect "A" "Z" "01/05/2025" (by decide) (by decide)
      ⟨"A", "Z", "01/05/2025", "08:00", "20:00", 1000, "X"⟩ (by decide) rfl⟩

/-! ## C32 and C33: the legs that can contribute to a path -/

theorem mem_portNames_buildPortMapper {g : Graph} {x : String} :
    x ∈ (buildPortMapper g).portNames ↔ x ∈ g.getAllPorts.map (fun p => p.name) := by
  have h : buildPortMapper g =
      (g.getAllPorts.map (fun p => p.name)).foldl PortMapper.addPort ⟨[]⟩ := by
    unfold buildPortMapper
    rw [List.foldl_map]
  rw [h]
  have := (portMapper_foldl_inv (g.getAllPorts.map (fun p => p.name)) ⟨[]⟩ List.nodup_nil).2 x
  rw [this]
  simp

theorem port_of_findIndex {g : Graph} {x : String} {i : Nat}
    (h : (buildPortMapper g).findIndex x = some i) :
    g.hasPort x = true ∧ ∃ p ∈ g.getAllPorts, p.name = x := by
  have hmem : x ∈ (buildPortMapper g).portNames := mem_of_indexOfName h
  rw [mem_portNames_buildPortMapper] at hmem
  refine ⟨?_, ?_⟩
  · unfold Graph.hasPort Graph.findPortIndex
    have h2 : x ∈ g.vertices.map (fun v => v.port.name) := by
      simpa [Graph.getAllPorts] using hmem
    obtain ⟨j, hj⟩ := indexOfName_of_mem h2
    rw [hj]
    rfl
  · obtain ⟨p, hp, hpx⟩ := List.mem_map.mp hmem
    exact ⟨p, hp, hpx⟩

theorem foldl_achieve {α β : Type} (P : β → Prop) (f : β → α → β) (x0 : α)
    (hmono : ∀ s x, P s → P (f s x)) (hx : ∀ s, P (f s x0)) :
    ∀ (l : List α) (s : β), x0 ∈ l → P (l.foldl f s) := by
  intro l
  induction l with
  | nil => intro s h; simp at h
  | cons y ys ih =>
    intro s h
    simp only [List.foldl_cons]
    rcases List.mem_cons.mp h with h | h
    · subst h
      exact foldl_invariant P f ys _ (fun s x _ hs => hmono s x hs) (hx s)
    · exact ih _ h

theorem markIfLeadsTo_effect (pm : PortMapper) (keep : Route → Bool)
    (currentPort potentialPort : String) (s : BackwardState) (route : Route) :
    markIfLeadsTo pm keep currentPort potentialPort s route = s ∨
      (keep route = true ∧ route.destination = currentPort ∧
        ∃ pi, pm.findIndex potentialPort = some pi ∧ s.visited pi = false ∧
          markIfLeadsTo pm keep currentPort potentialPort s route =
            { visited := setAt s.visited pi true
              canReachDest := setAt s.canReachDest pi true
              queue := s.queue ++ [pi] }) := by
  unfold markIfLeadsTo
  by_cases hk : keep route = true
  · simp only [hk, Bool.not_true, Bool.false_eq_true, if_false]
    by_cases hd : route.destination = currentPort
    · simp only [hd, if_true]
      cases hi : pm.findIndex potentialPort with
      | none => exact Or.inl rfl
      | some pi =>
        dsimp only
        cases hv : s.visited pi with
        | true => exact Or.inl (by simp)
        | false => exact Or.inr ⟨trivial, trivial, pi, rfl, hv, by simp⟩
    · simp only [hd, if_false]
      exact Or.inl trivial
  · simp only [hk, Bool.not_false, if_true]
    exact Or.inl trivial

theorem markIfLeadsTo_visited_mono (pm : PortMapper) (keep : Route → Bool)
    (currentPort potentialPort : String) (s : BackwardState) (route : Route) (i : Nat)
    (h : s.visited i = true) :
    (markIfLeadsTo pm keep currentPort potentialPort s route).visited i = true := by
  rcases markIfLeadsTo_effect pm keep currentPort potentialPort s route with e | ⟨_, _, pi, _, _, e⟩
  · rw [e]; exact h
  · rw [e]
    show setAt s.visited pi true i = true
    unfold setAt
    split
    · rfl
    · exact h

theorem markIfLeadsTo_marks (pm : PortMapper) (keep : Route → Bool)
    (currentPort potentialPort : String) (s : BackwardState) (route : Route) (pi : Nat)
    (hk : keep route = true) (hd : route.destination = currentPort)
    (hi : pm.findIndex potentialPort = some pi) :
    (markIfLeadsTo pm keep currentPort potentialPort s route).visited pi = true := by
  unfold markIfLeadsTo
  simp only [hk, Bool.not_true, Bool.false_eq_true, if_false, hd, if_true, hi]
  cases hv : s.visited pi with
  | true => simp [hv]
  | false => simp [setAt]

theorem sourcesMarked_mono {g : Graph} {pm : PortMapper} {keep : Route → Bool}
    {v w : Nat → Bool} {i : Nat} (hvw : ∀ j, v j = true → w j = true)
    (h : SourcesMarked g pm keep v i) : SourcesMarked g pm keep w i :=
  fun p hp r hr hk hd pi hpi => hvw pi (h p hp r hr hk hd pi hpi)

theorem markIfLeadsTo_inv {g : Graph} {pm : PortMapper} {keep : Route → Bool}
    {destination currentPort potentialPort : String} {c fuel : Nat} {s : BackwardState}
    {route : Route} (hroute : route ∈ g.getRoutesFrom potentialPort)
    (hcur : Walk g keep currentPort destination) (hport : g.hasPort currentPort = true)
    (h : BackwardInv g pm keep destination (c :: s.queue) s ∧
      s.queue.length + pm.getSize < fuel + visitedCount pm.getSize s.visited) :
    BackwardInv g pm keep destination
        (c :: (markIfLeadsTo pm keep currentPort potentialPort s route).queue)
        (markIfLeadsTo pm keep currentPort potentialPort s route) ∧
      (markIfLeadsTo pm keep currentPort potentialPort s route).queue.length + pm.getSize <
        fuel + visitedCount pm.getSize
          (markIfLeadsTo pm keep currentPort potentialPort s route).visited := by
  rcases markIfLeadsTo_effect pm keep currentPort potentialPort s route with
    e | ⟨hk, hd, pi, hpi, hv, e⟩
  · rw [e]; exact h
  · rw [e]
    obtain ⟨hinv, hm⟩ := h
    have hname : pm.getName pi = potentialPort := getName_of_findIndex hpi
    have hmono : ∀ j, s.visited j = true → setAt s.visited pi true j = true := by
      intro j hj
      unfold setAt
      split
      · rfl
      · exact hj
    refine ⟨⟨?_, ?_, ?_, ?_⟩, ?_⟩
    · show setAt s.canReachDest pi true = setAt s.visited pi true
      rw [hinv.same]
    · intro i hi
      by_cases hip : i = pi
      · rw [hip, hname]
        refine ⟨hpi, ?_⟩
        exact Relation.ReflTransGen.head ⟨route, hroute, hk, hd, hport⟩ hcur
      · have : s.visited i = true := by
          have h2 : setAt s.visited pi true i = true := hi
          rw [setAt_other _ _ hip] at h2
          exact h2
        exact hinv.sound i this
    · intro i hi
      show setAt s.visited pi true i = true
      rcases List.mem_cons.mp hi with hi | hi
      · exact hmono i (hinv.queued i (by rw [hi]; exact List.mem_cons_self _ _))
      · rcases List.mem_append.mp hi with hi | hi
        · exact hmono i (hinv.queued i (List.mem_cons_of_mem _ hi))
        · rw [List.mem_singleton.mp hi]
          exact setAt_same _ _ _
    · intro i hi
      show i ∈ c :: (s.queue ++ [pi]) ∨ SourcesMarked g pm keep (setAt s.visited pi true) i
      by_cases hip : i = pi
      · left
        rw [hip]
        simp
      · have : s.visited i = true := by
          have h2 : setAt s.visited pi true i = true := hi
          rw [setAt_other _ _ hip] at h2
          exact h2
        rcases hinv.closed i this with h3 | h3
        · left
          rcases List.mem_cons.mp h3 with h3 | h3
          · rw [h3]; exact List.mem_cons_self _ _
          · exact List.mem_cons_of_mem _ (List.mem_append_left _ h3)
        · exact Or.inr (sourcesMarked_mono hmono h3)
    · show (s.queue ++ [pi]).length + pm.getSize <
        fuel + visitedCount pm.getSize (setAt s.visited pi true)
      rw [visitedCount_setAt (lt_size_of_findIndex hpi) hv, List.length_append]
      simp only [List.length_singleton]
      omega

theorem markSources_inv {g : Graph} {pm : PortMapper} {keep : Route → Bool}
    {destination currentPort : String} {c fuel : Nat} {s : BackwardState}
    (hcur : Walk g keep currentPort destination) (hport : g.hasPort currentPort = true)
    (h : BackwardInv g pm keep destination (c :: s.queue) s ∧
      s.queue.length + pm.getSize < fuel + visitedCount pm.getSize s.visited) :
    BackwardInv g pm keep destination (c :: (markSources g pm keep currentPort s).queue)
        (markSources g pm keep currentPort s) ∧
      (markSources g pm keep currentPort s).queue.length + pm.getSize <
        fuel + visitedCount pm.getSize (markSources g pm keep currentPort s).visited := by
  unfold markSources
  apply foldl_invariant
    (fun t : BackwardState => BackwardInv g pm keep destination (c :: t.queue) t ∧
      t.queue.length + pm.getSize < fuel + visitedCount pm.getSize t.visited)
  · intro t p _ ht
    apply foldl_invariant
      (fun t : BackwardState => BackwardInv g pm keep destination (c :: t.queue) t ∧
        t.queue.length + pm.getSize < fuel + visitedCount pm.getSize t.visited)
    · intro u r hr hu
      exact markIfLeadsTo_inv hr hcur hport hu
    · exact ht
  · exact h

theorem markSources_marks {g : Graph} {pm : PortMapper} {keep : Route → Bool}
    {currentPort : String} (s : BackwardState) (p : Port) (hp : p ∈ g.getAllPorts)
    (r : Route) (hr : r ∈ g.getRoutesFrom p.name) (hk : keep r = true)
    (hd : r.destination = currentPort) (pi : Nat) (hpi : pm.findIndex p.name = some pi) :
    (markSources g pm keep currentPort s).visited pi = true := by
  unfold markSources
  apply foldl_achieve (fun t : BackwardState => t.visited pi = true) _ p
  · intro t q ht
    apply foldl_invariant (fun t : BackwardState => t.visited pi = true)
    · intro u x _ hu
      exact markIfLeadsTo_visited_mono pm keep currentPort q.name u x pi hu
    · exact ht
  · intro t
    apply foldl_achieve (fun t : BackwardState => t.visited pi = true) _ r
    · intro u x hu
      exact markIfLeadsTo_visited_mono pm keep currentPort p.name u x pi hu
    · intro u
      exact markIfLeadsTo_marks pm keep currentPort p.name u r pi hk hd hpi
    · exact hr
  · exact hp

theorem markSources_visited_mono {g : Graph} {pm : PortMapper} {keep : Route → Bool}
    {currentPort : String} (s : BackwardState) (i : Nat) (h : s.visited i = true) :
    (markSources g pm keep currentPort s).visited i = true := by
  unfold markSources
  apply foldl_invariant (fun t : BackwardState => t.visited i = true)
  · intro t q _ ht
    apply foldl_invariant (fun t : BackwardState => t.visited i = true)
    · intro u x _ hu
      exact markIfLeadsTo_visited_mono pm keep currentPort q.name u x i hu
    · exact ht
  · exact h

theorem backwardLoop_spec {g : Graph} {keep : Route → Bool} {destination : String} :
    ∀ (fuel : Nat) (s : BackwardState),
      BackwardInv g (buildPortMapper g) keep destination s.queue s →
      s.queue.length + (buildPortMapper g).getSize <
        fuel + visitedCount (buildPortMapper g).getSize s.visited →
      ∃ t, backwardLoop g (buildPortMapper g) keep fuel s = some t ∧
        BackwardInv g (buildPortMapper g) keep destination [] t ∧
        ∀ i, s.visited i = true → t.visited i = true := by
  intro fuel
  induction fuel with
  | zero =>
    intro s _ hm
    have := visitedCount_le (buildPortMapper g).getSize s.visited
    omega
  | succ k ih =>
    intro s hinv hm
    unfold backwardLoop
    cases hq : s.queue with
    | nil =>
      refine ⟨s, rfl, ?_, fun _ h => h⟩
      rw [hq] at hinv
      exact hinv
    | cons c rest =>
      dsimp only
      rw [hq] at hinv hm
      have hcv : s.visited c = true := hinv.queued c (List.mem_cons_self _ _)
      obtain ⟨hidx, hwalk⟩ := hinv.sound c hcv
      have hport := (port_of_findIndex hidx).1
      have h1 : BackwardInv g (buildPortMapper g) keep destination
          (c :: ({ s with queue := rest } : BackwardState).queue) { s with queue := rest } :=
        ⟨hinv.same, hinv.sound, hinv.queued, hinv.closed⟩
      have hm1 : ({ s with queue := rest } : BackwardState).queue.length +
          (buildPortMapper g).getSize <
          k + visitedCount (buildPortMapper g).getSize
            ({ s with queue := rest } : BackwardState).visited := by
        simp only [List.length_cons] at hm
        show rest.length + (buildPortMapper g).getSize <
          k + visitedCount (buildPortMapper g).getSize s.visited
        omega
      obtain ⟨h2, hm2⟩ := markSources_inv hwalk hport ⟨h1, hm1⟩
      have hmarked : SourcesMarked g (buildPortMapper g) keep
          (markSources g (buildPortMapper g) keep ((buildPortMapper g).getName c)
            { s with queue := rest }).visited c :=
        fun p hp r hr hk hd pi hpi => markSources_marks _ p hp r hr hk hd pi hpi
      have h3 : BackwardInv g (buildPortMapper g) keep destination
          (markSources g (buildPortMapper g) keep ((buildPortMapper g).getName c)
            { s with queue := rest }).queue
          (markSources g (buildPortMapper g) keep ((buildPortMapper g).getName c)
            { s with queue := rest }) := by
        refine ⟨h2.same, h2.sound, fun i hi => h2.queued i (List.mem_cons_of_mem _ hi), ?_⟩
        intro i hi
        rcases h2.closed i hi with h4 | h4
        · rcases List.mem_cons.mp h4 with h4 | h4
          · rw [h4]; exact Or.inr hmarked
          · exact Or.inl h4
        · exact Or.inr h4
      obtain ⟨t, ht, htinv, htmono⟩ := ih _ h3 hm2
      exact ⟨t, ht, htinv, fun i hi => htmono i (markSources_visited_mono _ i hi)⟩

theorem backward_complete {g : Graph} {keep : Route → Bool} {destination : String}
    {destIdx : Nat} {t : BackwardState}
    (hinv : BackwardInv g (buildPortMapper g) keep destination [] t)
    (hd : (buildPortMapper g).findIndex destination = some destIdx)
    (hdv : t.visited destIdx = true) (p : String) (hw : Walk g keep p destination) :
    ∀ i, (buildPortMapper g).findIndex p = some i → t.visited i = true := by
  induction hw using Relation.ReflTransGen.head_induction_on with
  | refl =>
    intro i hi
    rw [hd] at hi
    rw [← Option.some.inj hi]
    exact hdv
  | @head a q hstep _ ih =>
    intro i hi
    obtain ⟨r, hr, hk, hrd, hq⟩ := hstep
    obtain ⟨j, hj⟩ := findIndex_of_hasPort hq
    have hjv := ih j hj
    obtain ⟨port, hport, hname⟩ := (port_of_findIndex hi).2
    rcases hinv.closed j hjv with h | h
    · simp at h
    · exact h port hport r (by rw [hname]; exact hr) hk
        (by rw [getName_of_findIndex hj]; exact hrd) i (by rw [hname]; exact hi)

theorem collectRoute_effect (pm : PortMapper) (keep : Route → Bool) (canReachDest : Nat → Bool)
    (s : ForwardState) (route : Route) :
    collectRoute pm keep canReachDest s route = s ∨
      (keep route = true ∧ ∃ j, pm.findIndex route.destination = some j ∧
        canReachDest j = true ∧
        ((collectRoute pm keep canReachDest s route).connectingRoutes = s.connectingRoutes ∨
          (collectRoute pm keep canReachDest s route).connectingRoutes =
            s.connectingRoutes ++ [route]) ∧
        (((collectRoute pm keep canReachDest s route).originVisited = s.originVisited ∧
            (collectRoute pm keep canReachDest s route).originQueue = s.originQueue) ∨
          (s.originVisited j = false ∧
            (collectRoute pm keep canReachDest s route).originVisited =
              setAt s.originVisited j true ∧
            (collectRoute pm keep canReachDest s route).originQueue = s.originQueue ++ [j]))) := by
  unfold collectRoute
  by_cases hk : keep route = true
  · simp only [hk, Bool.not_true, Bool.false_eq_true, if_false]
    cases hi : pm.findIndex route.destination with
    | none => exact Or.inl rfl
    | some j =>
      dsimp only
      cases hc : canReachDest j with
      | false => exact Or.inl (by simp)
      | true =>
        right
        refine ⟨trivial, j, rfl, hc, ?_, ?_⟩
        · cases hf : s.connectingRoutes.any (fun existing => sameDeparture existing route) <;>
            cases hv : s.originVisited j <;> simp
        · cases hv : s.originVisited j with
          | true => left; simp
          | false => right; simp
  · simp only [hk, Bool.not_false, if_true]
    exact Or.inl trivial

theorem collectRoute_collects (pm : PortMapper) (keep : Route → Bool)
    (canReachDest : Nat → Bool) (s : ForwardState) (route : Route) (j : Nat)
    (hk : keep route = true) (hj : pm.findIndex route.destination = some j)
    (hc : canReachDest j = true) :
    (collectRoute pm keep canReachDest s route).originVisited j = true ∧
      ∃ e ∈ (collectRoute pm keep canReachDest s route).connectingRoutes,
        sameDeparture e route = true := by
  have hself : sameDeparture route route = true := by simp [sameDeparture]
  unfold collectRoute
  simp only [hk, Bool.not_true, Bool.false_eq_true, if_false, hj, hc, if_true]
  cases hf : s.connectingRoutes.any (fun existing => sameDeparture existing route) with
  | true =>
    obtain ⟨e, he, hes⟩ := List.any_eq_true.mp hf
    cases hv : s.originVisited j with
    | true => simp only [Bool.not_true, Bool.false_eq_true, if_false]; exact ⟨hv, e, he, hes⟩
    | false =>
      simp only [Bool.not_true, Bool.false_eq_true, if_false, Bool.not_false, if_true]
      exact ⟨setAt_same _ _ _, e, he, hes⟩
  | false =>
    cases hv : s.originVisited j with
    | true =>
      simp only [Bool.not_true, Bool.false_eq_true, if_false, Bool.not_false, if_true]
      exact ⟨hv, route, by simp, hself⟩
    | false =>
      simp only [Bool.not_false, if_true]
      exact ⟨setAt_same _ _ _, route, by simp, hself⟩

theorem collectRoute_mono (pm : PortMapper) (keep : Route → Bool) (canReachDest : Nat → Bool)
    (s : ForwardState) (route : Route) :
    (∀ i, s.originVisited i = true →
      (collectRoute pm keep canReachDest s route).originVisited i = true) ∧
    (∀ e ∈ s.connectingRoutes, e ∈ (collectRoute pm keep canReachDest s route).connectingRoutes) := by
  rcases collectRoute_effect pm keep canReachDest s route with e | ⟨_, j, _, _, hc, hv⟩
  · rw [e]; exact ⟨fun _ h => h, fun _ h => h⟩
  · constructor
    · intro i hi
      rcases hv with ⟨hv, _⟩ | ⟨_, hv, _⟩
      · rw [hv]; exact hi
      · rw [hv]
        unfold setAt
        split
        · rfl
        · exact hi
    · intro e he
      rcases hc with hc | hc
      · rw [hc]; exact he
      · rw [hc]; exact List.mem_append_left _ he

theorem legsCollected_mono {g : Graph} {pm : PortMapper} {keep : Route → Bool}
    {canReachDest : Nat → Bool} {s t : ForwardState} {i : Nat}
    (hv : ∀ j, s.originVisited j = true → t.originVisited j = true)
    (hc : ∀ e ∈ s.connectingRoutes, e ∈ t.connectingRoutes)
    (h : LegsCollected g pm keep canReachDest s i) : LegsCollected g pm keep canReachDest t i := by
  intro r hr hk j hj hcr
  obtain ⟨h1, e, he, hes⟩ := h r hr hk j hj hcr
  exact ⟨hv j h1, e, hc e he, hes⟩

theorem collectRoute_inv {g : Graph} {keep : Route → Bool} {canReachDest : Nat → Bool}
    {origin : String} {c fuel : Nat} {s : ForwardState} {route : Route}
    (hroute : route ∈ g.getRoutesFrom ((buildPortMapper g).getName c))
    (h : ForwardInv g (buildPortMapper g) keep canReachDest origin (c :: s.originQueue) s ∧
      s.originQueue.length + (buildPortMapper g).getSize <
        fuel + visitedCount (buildPortMapper g).getSize s.originVisited) :
    ForwardInv g (buildPortMapper g) keep canReachDest origin
        (c :: (collectRoute (buildPortMapper g) keep canReachDest s route).originQueue)
        (collectRoute (buildPortMapper g) keep canReachDest s route) ∧
      (collectRoute (buildPortMapper g) keep canReachDest s route).originQueue.length +
          (buildPortMapper g).getSize <
        fuel + visitedCount (buildPortMapper g).getSize
          (collectRoute (buildPortMapper g) keep canReachDest s route).originVisited := by
  obtain ⟨hmv, hmc⟩ := collectRoute_mono (buildPortMapper g) keep canReachDest s route
  rcases collectRoute_effect (buildPortMapper g) keep canReachDest s route with
    e | ⟨hk, j, hj, hcj, hc, hv⟩
  · rw [e]; exact h
  · obtain ⟨hinv, hm⟩ := h
    have hcv : s.originVisited c = true := hinv.queued c (List.mem_cons_self _ _)
    have hname : (buildPortMapper g).getName j = route.destination := getName_of_findIndex hj
    have hport : g.hasPort route.destination = true := (port_of_findIndex hj).1
    have hwj : Walk g keep origin ((buildPortMapper g).getName j) := by
      rw [hname]
      exact Relation.ReflTransGen.tail (hinv.sound c hcv).2 ⟨route, hroute, hk, rfl, hport⟩
    have hsubq : ∀ i ∈ s.originQueue,
        i ∈ (collectRoute (buildPortMapper g) keep canReachDest s route).originQueue := by
      intro i hi
      rcases hv with ⟨_, hq⟩ | ⟨_, _, hq⟩
      · rw [hq]; exact hi
      · rw [hq]; exact List.mem_append_left _ hi
    refine ⟨⟨?_, ?_, ?_, ?_⟩, ?_⟩
    · intro i hi
      rcases hv with ⟨hv, _⟩ | ⟨_, hv, _⟩
      · rw [hv] at hi
        exact hinv.sound i hi
      · rw [hv] at hi
        by_cases hij : i = j
        · rw [hij]
          exact ⟨by rw [hname]; exact hj, hwj⟩
        · rw [setAt_other _ _ hij] at hi
          exact hinv.sound i hi
    · intro e he
      have hold : e ∈ s.connectingRoutes → keep e = true ∧
          ∃ i, (collectRoute (buildPortMapper g) keep canReachDest s route).originVisited i = true ∧
            e ∈ g.getRoutesFrom ((buildPortMapper g).getName i) ∧
            ∃ j, (buildPortMapper g).findIndex e.destination = some j ∧
              canReachDest j = true := by
        intro he
        obtain ⟨h1, i, h2, h3⟩ := hinv.legs e he
        exact ⟨h1, i, hmv i h2, h3⟩
      rcases hc with hc | hc
      · rw [hc] at he
        exact hold he
      · rw [hc] at he
        rcases List.mem_append.mp he with he | he
        · exact hold he
        · rw [List.mem_singleton.mp he]
          exact ⟨hk, c, hmv c hcv, hroute, j, hj, hcj⟩
    · intro i hi
      rcases List.mem_cons.mp hi with hi | hi
      · rw [hi]; exact hmv c hcv
      · rcases hv with ⟨hv, hq⟩ | ⟨_, hv, hq⟩
        · rw [hq] at hi
          rw [hv]
          exact hinv.queued i (List.mem_cons_of_mem _ hi)
        · rw [hq] at hi
          rcases List.mem_append.mp hi with hi | hi
          · exact hmv i (hinv.queued i (List.mem_cons_of_mem _ hi))
          · rw [List.mem_singleton.mp hi, hv]
            exact setAt_same _ _ _
    · intro i hi
      have hcase : s.originVisited i = true ∨
          i ∈ (collectRoute (buildPortMapper g) keep canReachDest s route).originQueue := by
        rcases hv with ⟨hv, _⟩ | ⟨_, hv, hq⟩
        · rw [hv] at hi
          exact Or.inl hi
        · rw [hv] at hi
          by_cases hij : i = j
          · right
            rw [hq, hij]
            simp
          · rw [setAt_other _ _ hij] at hi
            exact Or.inl hi
      rcases hcase with h1 | h1
      · rcases hinv.done i h1 with h2 | h2
        · left
          rcases List.mem_cons.mp h2 with h2 | h2
          · rw [h2]; exact List.mem_cons_self _ _
          · exact List.mem_cons_of_mem _ (hsubq i h2)
        · exact Or.inr (legsCollected_mono hmv hmc h2)
      · exact Or.inl (List.mem_cons_of_mem _ h1)
    · rcases hv with ⟨hv, hq⟩ | ⟨hvj, hv, hq⟩
      · rw [hv, hq]; exact hm
      · rw [hv, hq, visitedCount_setAt (lt_size_of_findIndex hj) hvj, List.length_append]
        simp only [List.length_singleton]
        omega

theorem forwardLoop_spec {g : Graph} {keep : Route → Bool} {canReachDest : Nat → Bool}
    {origin : String} :
    ∀ (fuel : Nat) (s : ForwardState),
      ForwardInv g (buildPortMapper g) keep canReachDest origin s.originQueue s →
      s.originQueue.length + (buildPortMapper g).getSize <
        fuel + visitedCount (buildPortMapper g).getSize s.originVisited →
      ∃ t, forwardLoop g (buildPortMapper g) keep canReachDest fuel s = some t ∧
        ForwardInv g (buildPortMapper g) keep canReachDest origin [] t ∧
        ∀ i, s.originVisited i = true → t.originVisited i = true := by
  intro fuel
  induction fuel with
  | zero =>
    intro s _ hm
    have := visitedCount_le (buildPortMapper g).getSize s.originVisited
    omega
  | succ k ih =>
    intro s hinv hm
    unfold forwardLoop
    cases hq : s.originQueue with
    | nil =>
      refine ⟨s, rfl, ?_, fun _ h => h⟩
      rw [hq] at hinv
      exact hinv
    | cons c rest =>
      dsimp only
      rw [hq] at hinv hm
      have h1 : ForwardInv g (buildPortMapper g) keep canReachDest origin
          (c :: ({ s with originQueue := rest } : ForwardState).originQueue)
          { s with originQueue := rest } :=
        ⟨hinv.sound, hinv.legs, hinv.queued, hinv.done⟩
      have hm1 : ({ s with originQueue := rest } : ForwardState).originQueue.length +
          (buildPortMapper g).getSize <
          k + visitedCount (buildPortMapper g).getSize
            ({ s with originQueue := rest } : ForwardState).originVisited := by
        simp only [List.length_cons] at hm
        show rest.length + (buildPortMapper g).getSize <
          k + visitedCount (buildPortMapper g).getSize s.originVisited
        omega
      have hfold := foldl_invariant
        (fun t : ForwardState =>
          ForwardInv g (buildPortMapper g) keep canReachDest origin (c :: t.originQueue) t ∧
            t.originQueue.length + (buildPortMapper g).getSize <
              k + visitedCount (buildPortMapper g).getSize t.originVisited)
        (collectRoute (buildPortMapper g) keep canReachDest)
        (g.getRoutesFrom ((buildPortMapper g).getName c)) { s with originQueue := rest }
        (fun t r hr ht => collectRoute_inv hr ht) ⟨h1, hm1⟩
      obtain ⟨h2, hm2⟩ := hfold
      have hmonoF : ∀ i, s.originVisited i = true →
          ((g.getRoutesFrom ((buildPortMapper g).getName c)).foldl
            (collectRoute (buildPortMapper g) keep canReachDest)
            { s with originQueue := rest }).originVisited i = true := by
        intro i hi
        exact foldl_invariant (fun t : ForwardState => t.originVisited i = true)
          (collectRoute (buildPortMapper g) keep canReachDest) _ _
          (fun t r _ ht => (collectRoute_mono _ keep canReachDest t r).1 i ht) hi
      have hcollected : LegsCollected g (buildPortMapper g) keep canReachDest
          ((g.getRoutesFrom ((buildPortMapper g).getName c)).foldl
            (collectRoute (buildPortMapper g) keep canReachDest)
            { s with originQueue := rest }) c := by
        intro r hr hk j hj hcj
        apply foldl_achieve
          (fun t : ForwardState => t.originVisited j = true ∧
            ∃ e ∈ t.connectingRoutes, sameDeparture e r = true) _ r
        · intro t x ht
          obtain ⟨m1, m2⟩ := collectRoute_mono (buildPortMapper g) keep canReachDest t x
          obtain ⟨ht1, e, he, hes⟩ := ht
          exact ⟨m1 j ht1, e, m2 e he, hes⟩
        · intro t
          exact collectRoute_collects _ keep canReachDest t r j hk hj hcj
        · exact hr
      have h3 : ForwardInv g (buildPortMapper g) keep canReachDest origin
          ((g.getRoutesFrom ((buildPortMapper g).getName c)).foldl
            (collectRoute (buildPortMapper g) keep canReachDest)
            { s with originQueue := rest }).originQueue
          ((g.getRoutesFrom ((buildPortMapper g).getName c)).foldl
            (collectRoute (buildPortMapper g) keep canReachDest)
            { s with originQueue := rest }) := by
        refine ⟨h2.sound, h2.legs, fun i hi => h2.queued i (List.mem_cons_of_mem _ hi), ?_⟩
        intro i hi
        rcases h2.done i hi with h4 | h4
        · rcases List.mem_cons.mp h4 with h4 | h4
          · rw [h4]; exact Or.inr hcollected
          · exact Or.inl h4
        · exact Or.inr h4
      obtain ⟨t, ht, htinv, htmono⟩ := ih _ h3 hm2
      exact ⟨t, ht, htinv, fun i hi => htmono i (hmonoF i hi)⟩

theorem forward_complete {g : Graph} {keep : Route → Bool} {canReachDest : Nat → Bool}
    {origin destination : String} {originIdx : Nat} {t : ForwardState}
    (hinv : ForwardInv g (buildPortMapper g) keep canReachDest origin [] t)
    (ho : (buildPortMapper g).findIndex origin = some originIdx)
    (hov : t.originVisited originIdx = true)
    (hcan : ∀ p, Walk g keep p destination →
      ∀ i, (buildPortMapper g).findIndex p = some i → canReachDest i = true)
    (p : String) (hw : Walk g keep origin p) :
    Walk g keep p destination →
      ∀ i, (buildPortMapper g).findIndex p = some i → t.originVisited i = true := by
  induction hw with
  | refl =>
    intro _ i hi
    rw [ho] at hi
    rw [← Option.some.inj hi]
    exact hov
  | @tail b q _ hstep ih =>
    intro hq i hi
    obtain ⟨r, hr, hk, hrd, hport⟩ := hstep
    have hb : g.hasPort b = true := by
      cases hl : g.getRoutesFrom b with
      | nil => rw [hl] at hr; simp at hr
      | cons x xs => exact hasPort_of_getRoutesFrom hl
    obtain ⟨j, hj⟩ := findIndex_of_hasPort hb
    have hbv := ih (Relation.ReflTransGen.head ⟨r, hr, hk, hrd, hport⟩ hq) j hj
    rcases hinv.done j hbv with h | h
    · simp at h
    · exact (h r (by rw [getName_of_findIndex hj]; exact hr) hk i (by rw [hrd]; exact hi)
        (hcan q hq i hi)).1

theorem sameDeparture_iff (e r : Route) :
    sameDeparture e r = true ↔
      (e.origin = r.origin ∧ e.destination = r.destination ∧ e.date = r.date ∧
        e.departureTime = r.departureTime) := by
  simp [sameDeparture, and_assoc]

theorem hasPort_of_mem_getRoutesFrom {g : Graph} {p : String} {r : Route}
    (h : r ∈ g.getRoutesFrom p) : g.hasPort p = true := by
  cases hl : g.getRoutesFrom p with
  | nil => rw [hl] at h; simp at h
  | cons x xs => exact hasPort_of_getRoutesFrom hl

theorem connectingRoutesWith_spec (g : Graph) (keep : Route → Bool)
    (origin destination : String)
    (ho : g.hasPort origin = true) (hd : g.hasPort destination = true) :
    ∃ legs, connectingRoutesWith g keep origin destination = some legs ∧
      (∀ e ∈ legs, keep e = true ∧
        ∃ p, Walk g keep origin p ∧ e ∈ g.getRoutesFrom p ∧
          g.hasPort e.destination = true ∧ Walk g keep e.destination destination) ∧
      (∀ p r, Walk g keep origin p → r ∈ g.getRoutesFrom p → keep r = true →
        g.hasPort r.destination = true → Walk g keep r.destination destination →
        ∃ e ∈ legs, sameDeparture e r = true) := by
  obtain ⟨o, hoi⟩ := findIndex_of_hasPort ho
  obtain ⟨d, hdi⟩ := findIndex_of_hasPort hd
  have hno := getName_of_findIndex hoi
  have hnd := getName_of_findIndex hdi
  -- the backward pass
  have hb0 : BackwardInv g (buildPortMapper g) keep destination [d]
      { visited := setAt (fun _ => false) d true
        canReachDest := setAt (fun _ => false) d true
        queue := [d] } := by
    have hone : ∀ i, setAt (fun _ => false) d true i = true → i = d := by
      intro i hi
      by_contra hne
      rw [setAt_other _ _ hne] at hi
      cases hi
    refine ⟨rfl, ?_, ?_, ?_⟩
    · intro i hi
      rw [hone i hi, hnd]
      exact ⟨hdi, Relation.ReflTransGen.refl⟩
    · intro i hi
      rw [List.mem_singleton.mp hi]
      show setAt (fun _ => false) d true d = true
      exact setAt_same _ _ _
    · intro i hi
      left
      rw [hone i hi]
      exact List.mem_singleton.mpr rfl
  have hbm : ([d] : List Nat).length + (buildPortMapper g).getSize <
      ((buildPortMapper g).getSize + 1) +
        visitedCount (buildPortMapper g).getSize (setAt (fun _ => false) d true) := by
    rw [visitedCount_setAt (lt_size_of_findIndex hdi) rfl]
    simp only [List.length_singleton]
    omega
  obtain ⟨back, hback, hbinv, hbmono⟩ := backwardLoop_spec ((buildPortMapper g).getSize + 1)
    { visited := setAt (fun _ => false) d true
      canReachDest := setAt (fun _ => false) d true
      queue := [d] } hb0 hbm
  have hbd : back.visited d = true :=
    hbmono d (by show setAt (fun _ => false) d true d = true; exact setAt_same _ _ _)
  have hcan : ∀ p, Walk g keep p destination →
      ∀ i, (buildPortMapper g).findIndex p = some i → back.canReachDest i = true := by
    intro p hw i hi
    rw [hbinv.same]
    exact backward_complete hbinv hdi hbd p hw i hi
  -- the forward pass
  have hf0 : ForwardInv g (buildPortMapper g) keep back.canReachDest origin [o]
      { originVisited := setAt (fun _ => false) o true
        originQueue := [o]
        connectingRoutes := [] } := by
    have hone : ∀ i, setAt (fun _ => false) o true i = true → i = o := by
      intro i hi
      by_contra hne
      rw [setAt_other _ _ hne] at hi
      cases hi
    refine ⟨?_, ?_, ?_, ?_⟩
    · intro i hi
      rw [hone i hi, hno]
      exact ⟨hoi, Relation.ReflTransGen.refl⟩
    · intro e he
      simp at he
    · intro i hi
      rw [List.mem_singleton.mp hi]
      show setAt (fun _ => false) o true o = true
      exact setAt_same _ _ _
    · intro i hi
      left
      rw [hone i hi]
      exact List.mem_singleton.mpr rfl
  have hfm : ([o] : List Nat).length + (buildPortMapper g).getSize <
      ((buildPortMapper g).getSize + 1) +
        visitedCount (buildPortMapper g).getSize (setAt (fun _ => false) o true) := by
    rw [visitedCount_setAt (lt_size_of_findIndex hoi) rfl]
    simp only [List.length_singleton]
    omega
  obtain ⟨fwd, hfwd, hfinv, hfmono⟩ := forwardLoop_spec ((buildPortMapper g).getSize + 1)
    { originVisited := setAt (fun _ => false) o true
      originQueue := [o]
      connectingRoutes := [] } hf0 hfm
  have hfo : fwd.originVisited o = true :=
    hfmono o (by show setAt (fun _ => false) o true o = true; exact setAt_same _ _ _)
  refine ⟨fwd.connectingRoutes, ?_, ?_, ?_⟩
  · unfold connectingRoutesWith
    simp only [hoi, hdi, hback, hfwd]
  · intro e he
    obtain ⟨hk, i, hi, hmem, j, hj, hcj⟩ := hfinv.legs e he
    refine ⟨hk, (buildPortMapper g).getName i, (hfinv.sound i hi).2, hmem,
      (port_of_findIndex hj).1, ?_⟩
    rw [hbinv.same] at hcj
    have := (hbinv.sound j hcj).2
    rw [getName_of_findIndex hj] at this
    exact this
  · intro p r hw hr hk hport hwd
    have hp := hasPort_of_mem_getRoutesFrom hr
    obtain ⟨i, hi⟩ := findIndex_of_hasPort hp
    obtain ⟨j, hj⟩ := findIndex_of_hasPort hport
    have hpd : Walk g keep p destination :=
      Relation.ReflTransGen.head ⟨r, hr, hk, rfl, hport⟩ hwd
    have hiv := forward_complete hfinv hoi hfo hcan p hw hpd i hi
    rcases hfinv.done i hiv with h | h
    · simp at h
    · exact (h r (by rw [getName_of_findIndex hi]; exact hr) hk j hj (hcan _ hwd j hj)).2

theorem legChain_append {g : Graph} :
    ∀ (xs ys : List Route) (p q t : String), LegChain g p q xs → LegChain g q t ys →
      LegChain g p t (xs ++ ys) := by
  intro xs
  induction xs with
  | nil =>
    intro ys p q t h1 h2
    have : p = q := h1
    rw [this]
    exact h2
  | cons x xs ih =>
    intro ys p q t h1 h2
    obtain ⟨a, b, c, d⟩ := h1
    exact ⟨a, b, c, ih ys _ q t d h2⟩

theorem legChain_of_walk {g : Graph} (hwf : g.WF) {p q : String}
    (h : Walk g (fun _ => true) p q) : ∃ legs, LegChain g p q legs := by
  induction h using Relation.ReflTransGen.head_induction_on with
  | refl => exact ⟨[], rfl⟩
  | @head a c hstep _ ih =>
    obtain ⟨legs, hl⟩ := ih
    obtain ⟨r, hr, _, hrd, hport⟩ := hstep
    refine ⟨r :: legs, hr, origin_of_mem_getRoutesFrom hwf hr, by rw [hrd]; exact hport, ?_⟩
    rw [hrd]
    exact hl

/-- C32: with origin and destination known (and every leg filed under its
origin), `getAllConnectingRoutes` returns a list in which a leg `r` of the
graph is represented (some returned leg has its origin, destination, date and
departure time) exactly when `r` lies on a walk from the origin to `r.origin`,
on to `r.destination` and from there to the destination, through legs between
ports of the graph; every returned leg is a leg of the graph whose destination
can reach the destination.  In `getAllConnectingRoutesWithPreferences` every
returned leg satisfies `matchesRoute` and lies on such a walk through legs that
all satisfy `matchesRoute`, and every such leg is represented. -/
theorem c32_connecting_legs_lie_on_walks (g : Graph) (origin destination date : String)
    (preferences : PreferenceFilter) (hwf : g.WF)
    (ho : g.hasPort origin = true) (hd : g.hasPort destination = true) :
    (∃ legs, getAllConnectingRoutes g origin destination date = some legs ∧
      (∀ r, r ∈ g.getRoutesFrom r.origin →
        (Represented legs r ↔
          (Walk g (fun _ => true) origin r.origin ∧ g.hasPort r.destination = true ∧
            Walk g (fun _ => true) r.destination destination))) ∧
      (∀ e ∈ legs, e ∈ g.getRoutesFrom e.origin ∧
        Walk g (fun _ => true) e.destination destination)) ∧
    (∃ legs, getAllConnectingRoutesWithPreferences g origin destination date preferences
        = some legs ∧
      (∀ e ∈ legs, preferences.matchesRoute e = true ∧ e ∈ g.getRoutesFrom e.origin ∧
        Walk g preferences.matchesRoute origin e.origin ∧
        Walk g preferences.matchesRoute e.destination destination) ∧
      (∀ r, r ∈ g.getRoutesFrom r.origin → preferences.matchesRoute r = true →
        Walk g preferences.matchesRoute origin r.origin → g.hasPort r.destination = true →
        Walk g preferences.matchesRoute r.destination destination → Represented legs r)) := by
  constructor
  · obtain ⟨legs, hlegs, hsound, hcomplete⟩ :=
      connectingRoutesWith_spec g (fun _ => true) origin destination ho hd
    refine ⟨legs, hlegs, ?_, ?_⟩
    · intro r hr
      constructor
      · rintro ⟨e, he, h1, h2, _, _⟩
        obtain ⟨_, p, hw, hmem, hport, hwd⟩ := hsound e he
        have hep := origin_of_mem_getRoutesFrom hwf hmem
        rw [← h1, ← h2, hep]
        exact ⟨hw, hport, hwd⟩
      · rintro ⟨hw, hport, hwd⟩
        obtain ⟨e, he, hes⟩ := hcomplete r.origin r hw hr rfl hport hwd
        exact ⟨e, he, (sameDeparture_iff e r).mp hes⟩
    · intro e he
      obtain ⟨_, p, _, hmem, _, hwd⟩ := hsound e he
      have hep := origin_of_mem_getRoutesFrom hwf hmem
      rw [hep]
      exact ⟨hmem, hwd⟩
  · obtain ⟨legs, hlegs, hsound, hcomplete⟩ :=
      connectingRoutesWith_spec g preferences.matchesRoute origin destination ho hd
    refine ⟨legs, hlegs, ?_, ?_⟩
    · intro e he
      obtain ⟨hk, p, hw, hmem, _, hwd⟩ := hsound e he
      have hep := origin_of_mem_getRoutesFrom hwf hmem
      rw [hep]
      exact ⟨hk, hmem, hw, hwd⟩
    · intro r hr hk hw hport hwd
      obtain ⟨e, he, hes⟩ := hcomplete r.origin r hw hr hk hport hwd
      exact ⟨e, he, (sameDeparture_iff e r).mp hes⟩

/-- C32 on `lateCheapArrival` with the query `A` to `B`: the legs `A → B`,
`A → D` and `D → B` are returned, whatever the date; the legs `B → C` and
`A → C` are not, as `C` has no leg out.  In `detourNetwork` with port `P`
excluded only the two legs through `Q` are returned. -/
theorem c32_connecting_legs_lie_on_walks_witness :
    lateCheapArrival.WF ∧ lateCheapArrival.hasPort "A" = true ∧
    lateCheapArrival.hasPort "B" = true ∧
    (getAllConnectingRoutes lateCheapArrival "A" "B" "01/05/2025").map
        (fun l => l.map (fun r => (r.origin, r.destination))) =
      some [("A", "D"), ("A", "B"), ("D", "B")] ∧
    getAllConnectingRoutes lateCheapArrival "A" "B" "31/12/2030" =
      getAllConnectingRoutes lateCheapArrival "A" "B" "01/05/2025" ∧
    (getAllConnectingRoutesWithPreferences detourNetwork "A" "C" "01/05/2025" avoidP).map
        (fun l => l.map (fun r => (r.origin, r.destination))) =
      some [("A", "Q"), ("Q", "C")] ∧
    ((∃ legs, getAllConnectingRoutes lateCheapArrival "A" "B" "01/05/2025" = some legs ∧
      (∀ r, r ∈ lateCheapArrival.getRoutesFrom r.origin →
        (Represented legs r ↔
          (Walk lateCheapArrival (fun _ => true) "A" r.origin ∧
            lateCheapArrival.hasPort r.destination = true ∧
            Walk lateCheapArrival (fun _ => true) r.destination "B"))) ∧
      (∀ e ∈ legs, e ∈ lateCheapArrival.getRoutesFrom e.origin ∧
        Walk lateCheapArrival (fun _ => true) e.destination "B")) ∧
    (∃ legs, getAllConnectingRoutesWithPreferences lateCheapArrival "A" "B" "01/05/2025" avoidP
        = some legs ∧
      (∀ e ∈ legs, avoidP.matchesRoute e = true ∧ e ∈ lateCheapArrival.getRoutesFrom e.origin ∧
        Walk lateCheapArrival avoidP.matchesRoute "A" e.origin ∧
        Walk lateCheapArrival avoidP.matchesRoute e.destination "B") ∧
      (∀ r, r ∈ lateCheapArrival.getRoutesFrom r.origin → avoidP.matchesRoute r = true →
        Walk lateCheapArrival avoidP.matchesRoute "A" r.origin →
        lateCheapArrival.hasPort r.destination = true →
        Walk lateCheapArrival avoidP.matchesRoute r.destination "B" → Represented legs r))) :=
  ⟨wf_mkGraph _ _, by decide, by decide, by decide, by decide, by decide,
    c32_connecting_legs_lie_on_walks lateCheapArrival "A" "B" "01/05/2025" avoidP
      (wf_mkGraph _ _) (by decide) (by decide)⟩

/-- C33 fails on `missed`: for the query `A` to `C` on 01/05/2025 both legs
are returned, but no sequence of legs is a feasible path, since the only leg
out of `B` leaves at 10:00, before the leg from `A` arrives at 20:00; and
`findCheapestPath` finds nothing. -/
theorem c33_counterexample :
    getAllConnectingRoutes missed "A" "C" "01/05/2025" =
      some [⟨"A", "B", "01/05/2025", "06:00", "20:00", 1, "X"⟩,
        ⟨"B", "C", "01/05/2025", "10:00", "12:00", 1, "X"⟩] ∧
    (¬ ∃ legs, FeasiblePath missed "A" "C" "01/05/2025" legs) ∧
    (findCheapestPath missed "A" "C" "01/05/2025").map (fun r => r.found) = some false := by
  refine ⟨by decide, ?_, by decide⟩
  rintro ⟨legs, hchain, htimes⟩
  have hA : missed.getRoutesFrom "A" = [⟨"A", "B", "01/05/2025", "06:00", "20:00", 1, "X"⟩] := by
    decide
  have hB : missed.getRoutesFrom "B" = [⟨"B", "C", "01/05/2025", "10:00", "12:00", 1, "X"⟩] := by
    decide
  cases legs with
  | nil =>
    have h : "A" = "C" := hchain
    exact absurd h (by decide)
  | cons r1 rest =>
    obtain ⟨h1, _, _, hrest⟩ := hchain
    obtain ⟨_, hturn⟩ := htimes
    rw [hA] at h1
    have e1 := List.mem_singleton.mp h1
    subst e1
    cases rest with
    | nil =>
      have h : "B" = "C" := hrest
      exact absurd h (by decide)
    | cons r2 rest2 =>
      obtain ⟨h2, _, _, _⟩ := hrest
      obtain ⟨hdep, _⟩ := hturn
      have h2b : r2 ∈ missed.getRoutesFrom "B" := h2
      rw [hB] at h2b
      have e2 := List.mem_singleton.mp h2b
      subst e2
      have hno : ¬ departsNoEarlier "01/05/2025" "20:00"
          ⟨"B", "C", "01/05/2025", "10:00", "12:00", 1, "X"⟩ := by
        unfold departsNoEarlier
        decide
      exact hno hdep

/-- C33 as the code has it: with origin and destination known (and every leg
filed under its origin), every leg returned by `getAllConnectingRoutes` is part
of a chain of legs of the graph that leads from the origin to the destination;
dates and times play no part, and the query date is not read. -/
theorem c33_returned_legs_lie_on_a_chain (g : Graph) (origin destination date : String)
    (hwf : g.WF) (ho : g.hasPort origin = true) (hd : g.hasPort destination = true) :
    ∃ legs, getAllConnectingRoutes g origin destination date = some legs ∧
      (∀ other, getAllConnectingRoutes g origin destination other = some legs) ∧
      ∀ e ∈ legs, ∃ before after,
        LegChain g origin destination (before ++ e :: after) := by
  obtain ⟨legs, hlegs, hsound, _⟩ :=
    connectingRoutesWith_spec g (fun _ => true) origin destination ho hd
  refine ⟨legs, hlegs, fun _ => hlegs, ?_⟩
  intro e he
  obtain ⟨_, p, hw, hmem, hport, hwd⟩ := hsound e he
  obtain ⟨before, hb⟩ := legChain_of_walk hwf hw
  obtain ⟨after, ha⟩ := legChain_of_walk hwf hwd
  refine ⟨before, after, legChain_append before (e :: after) origin p destination hb ?_⟩
  exact ⟨hmem, origin_of_mem_getRoutesFrom hwf hmem, hport, ha⟩

/-- C33 as the code has it, on `missed`: the two legs returned for the query
`A` to `C` form the chain `A → B → C`. -/
theorem c33_returned_legs_lie_on_a_chain_witness :
    missed.WF ∧ missed.hasPort "A" = true ∧ missed.hasPort "C" = true ∧
    ∃ legs, getAllConnectingRoutes missed "A" "C" "01/05/2025" = some legs ∧
      (∀ other, getAllConnectingRoutes missed "A" "C" other = some legs) ∧
      ∀ e ∈ legs, ∃ before after, LegChain missed "A" "C" (before ++ e :: after) :=
  ⟨wf_mkGraph _ _, by decide, by decide,
    c33_returned_legs_lie_on_a_chain missed "A" "C" "01/05/2025" (wf_mkGraph _ _) (by decide)
      (by decide)⟩

/-! ## C37: cost and feasibility when the legs are unique -/

theorem unique_of_getRoutesFrom {g : Graph} (hwf : g.WF) (huniq : UniqueLegs g) {p : String}
    {r1 r2 : Route} (h1 : r1 ∈ g.getRoutesFrom p) (h2 : r2 ∈ g.getRoutesFrom p)
    (hd : r1.destination = r2.destination) (hdate : r1.date = r2.date) : r1 = r2 :=
  huniq r1 (mem_getAllRoutes_of_getRoutesFrom h1) r2 (mem_getAllRoutes_of_getRoutesFrom h2)
    (by rw [origin_of_mem_getRoutesFrom hwf h1, origin_of_mem_getRoutesFrom hwf h2]) hd hdate

theorem previousRouteOf_congr (g : Graph) (pm : PortMapper)
    {parent1 parent2 : Nat → Option Nat} {ad1 ad2 at1 at2 : Nat → String} {v : Nat}
    (hp : parent2 v = parent1 v)
    (hpar : ∀ p, parent1 v = some p → ad2 p = ad1 p ∧ at2 p = at1 p)
    (hv : ad2 v = ad1 v) :
    previousRouteOf g pm parent2 ad2 at2 v = previousRouteOf g pm parent1 ad1 at1 v := by
  unfold previousRouteOf
  rw [hp]
  cases h : parent1 v with
  | none => rfl
  | some p =>
    dsimp only
    rw [(hpar p h).1, (hpar p h).2, hv]

theorem updateCheapest_value (g : Graph) (pm : PortMapper) (m : Nat) (s : DijkstraState)
    (route : Route) (n : Nat) :
    updateCheapest g pm m s route n = s ∨
      updateCheapest g pm m s route n =
        { s with
          distances := setAt s.distances n
            (intAdd (intAdd (s.distances m) route.cost) (chargeAt g pm s m route))
          parent := setAt s.parent n (some m)
          arrivalDates := setAt s.arrivalDates n route.date
          arrivalTimes := setAt s.arrivalTimes n route.arrivalTime } := by
  unfold updateCheapest chargeAt
  cases hprev : previousRouteOf g pm s.parent s.arrivalDates s.arrivalTimes m with
  | none =>
    simp only [Bool.not_true, Bool.false_eq_true, if_false, portChargeFor_zero]
    split
    · exact Or.inr rfl
    · exact Or.inl rfl
  | some prev =>
    dsimp only
    by_cases hc : prev.canConnectTo route = true
    · simp only [hc, Bool.not_true, Bool.false_eq_true, if_false]
      split
      · exact Or.inr rfl
      · exact Or.inl rfl
    · simp only [hc, Bool.not_false, if_true]
      exact Or.inl trivial

theorem relaxCheapest_costInv {g : Graph} (hwf : g.WF) (huniq : UniqueLegs g)
    {pm : PortMapper} {originIdx m : Nat} {date : String} {s : DijkstraState} {route : Route}
    (h : SearchInv g pm (fun _ => true) originIdx date s) (hm : s.visited m = true)
    (hr : route ∈ g.getConnectingRoutes (pm.getName m) (s.arrivalDates m) (s.arrivalTimes m))
    (hcost : CostInv g pm s) : CostInv g pm (relaxCheapest g pm m s route) := by
  unfold relaxCheapest
  cases hidx : pm.findIndex route.destination with
  | none => exact hcost
  | some n =>
    dsimp only
    cases hvn : s.visited n with
    | true => simp only [if_true]; exact hcost
    | false =>
      simp only [Bool.false_eq_true, if_false]
      rcases updateCheapest_value g pm m s route n with e | e
      · rw [e]; exact hcost
      · rw [e]
        have hmn : m ≠ n := by
          intro e2
          rw [e2, hvn] at hm
          cases hm
        have hvis_ne : ∀ x, s.visited x = true → x ≠ n := by
          intro x hx e2
          rw [e2, hvn] at hx
          cases hx
        have hname : pm.getName n = route.destination := getName_of_findIndex hidx
        -- the lookup at a port other than `n` is not changed
        have hsame : ∀ x, x ≠ n →
            previousRouteOf g pm (setAt s.parent n (some m)) (setAt s.arrivalDates n route.date)
              (setAt s.arrivalTimes n route.arrivalTime) x =
            previousRouteOf g pm s.parent s.arrivalDates s.arrivalTimes x := by
          intro x hx
          apply previousRouteOf_congr
          · exact setAt_other _ _ hx
          · intro p hp
            have hpn := hvis_ne p (h.parentOk x p hp).1
            exact ⟨setAt_other _ _ hpn, setAt_other _ _ hpn⟩
          · exact setAt_other _ _ hx
        have hcharge : ∀ x r, x ≠ n →
            chargeAt g pm
              { s with
                distances := setAt s.distances n
                  (intAdd (intAdd (s.distances m) route.cost) (chargeAt g pm s m route))
                parent := setAt s.parent n (some m)
                arrivalDates := setAt s.arrivalDates n route.date
                arrivalTimes := setAt s.arrivalTimes n route.arrivalTime } x r =
            chargeAt g pm s x r := by
          intro x r hx
          unfold chargeAt
          dsimp only
          rw [hsame x hx]
        intro v p hvp
        by_cases hv : v = n
        · subst hv
          have hpm : p = m := by
            have h2 : setAt s.parent v (some m) v = some p := hvp
            rw [setAt_same] at h2
            exact (Option.some.inj h2).symm
          subst hpm
          have hlook : previousRouteOf g pm (setAt s.parent v (some p))
              (setAt s.arrivalDates v route.date) (setAt s.arrivalTimes v route.arrivalTime) v =
              findRouteTo (g.getConnectingRoutes (pm.getName p) (s.arrivalDates p)
                (s.arrivalTimes p)) (pm.getName v) route.date := by
            unfold previousRouteOf
            rw [setAt_same, setAt_same]
            dsimp only
            rw [setAt_other _ _ hmn, setAt_other _ _ hmn]
          obtain ⟨r2, hr2⟩ := findRouteTo_of_mem hr hname.symm rfl
          obtain ⟨hmem2, hd2, hdate2⟩ := findRouteTo_some hr2
          have heq : r2 = route :=
            unique_of_getRoutesFrom hwf huniq (List.mem_filter.mp hmem2).1
              (List.mem_filter.mp hr).1 (by rw [hd2, hname]) hdate2
          refine ⟨route, ?_, ?_, ?_⟩
          · show previousRouteOf g pm (setAt s.parent v (some p))
              (setAt s.arrivalDates v route.date) (setAt s.arrivalTimes v route.arrivalTime) v =
              some route
            rw [hlook, hr2, heq]
          · show route.arrivalTime = setAt s.arrivalTimes v route.arrivalTime v
            rw [setAt_same]
          · show setAt s.distances v
                (intAdd (intAdd (s.distances p) route.cost) (chargeAt g pm s p route)) v =
              intAdd (intAdd (setAt s.distances v
                (intAdd (intAdd (s.distances p) route.cost) (chargeAt g pm s p route)) p)
                route.cost) (chargeAt g pm _ p route)
            rw [setAt_same, setAt_other _ _ hmn, hcharge p route hmn]
        · have hvp2 : s.parent v = some p := by
            have h2 : setAt s.parent n (some m) v = some p := hvp
            rw [setAt_other _ _ hv] at h2
            exact h2
          have hpn := hvis_ne p (h.parentOk v p hvp2).1
          obtain ⟨r, hr1, hr2, hr3⟩ := hcost v p hvp2
          refine ⟨r, ?_, ?_, ?_⟩
          · show previousRouteOf g pm (setAt s.parent n (some m))
              (setAt s.arrivalDates n route.date) (setAt s.arrivalTimes n route.arrivalTime) v =
              some r
            rw [hsame v hv]
            exact hr1
          · show r.arrivalTime = setAt s.arrivalTimes n route.arrivalTime v
            rw [setAt_other _ _ hv]
            exact hr2
          · show setAt s.distances n
                (intAdd (intAdd (s.distances m) route.cost) (chargeAt g pm s m route)) v =
              intAdd (intAdd (setAt s.distances n
                (intAdd (intAdd (s.distances m) route.cost) (chargeAt g pm s m route)) p)
                r.cost) (chargeAt g pm _ p r)
            rw [setAt_other _ _ hv, setAt_other _ _ hpn, hcharge p r hpn]
            exact hr3

theorem costInv_fold {g : Graph} (hwf : g.WF) (huniq : UniqueLegs g) {pm : PortMapper}
    {originIdx m : Nat} {date : String} :
    ∀ (l : List Route) (s : DijkstraState),
      (∀ r ∈ l, r ∈ g.getConnectingRoutes (pm.getName m) (s.arrivalDates m)
        (s.arrivalTimes m)) →
      SearchInv g pm (fun _ => true) originIdx date s → s.visited m = true →
      s.visited originIdx = true → CostInv g pm s →
      CostInv g pm (l.foldl (relaxCheapest g pm m) s) := by
  intro l
  induction l with
  | nil => intro s _ _ _ _ hc; exact hc
  | cons r rs ih =>
    intro s hl h hm ho hc
    obtain ⟨h1, hm1, ho1, hd1, ht1⟩ :=
      searchInv_relax h hm ho (hl r (List.mem_cons_self _ _)) (relaxStep_relaxCheapest g pm m s r)
    have hl1 : ∀ r2 ∈ rs, r2 ∈ g.getConnectingRoutes (pm.getName m)
        ((relaxCheapest g pm m s r).arrivalDates m) ((relaxCheapest g pm m s r).arrivalTimes m) := by
      intro r2 hr2
      rw [hd1, ht1]
      exact hl r2 (List.mem_cons_of_mem _ hr2)
    simp only [List.foldl_cons]
    exact ih _ hl1 h1 hm1 ho1
      (relaxCheapest_costInv hwf huniq h hm (hl r (List.mem_cons_self _ _)) hc)

theorem cheapestLoop_costInv {g : Graph} (hwf : g.WF) (huniq : UniqueLegs g) (pm : PortMapper)
    (originIdx destIdx : Nat) (date : String) :
    ∀ (count : Nat) (s : DijkstraState), SearchInv g pm (fun _ => true) originIdx date s →
      CostInv g pm s →
      CostInv g pm (cheapestLoop g pm pm.getSize destIdx count s).2.2 ∧
        ((cheapestLoop g pm pm.getSize destIdx count s).1 = true →
          (cheapestLoop g pm pm.getSize destIdx count s).2.1 =
            (cheapestLoop g pm pm.getSize destIdx count s).2.2.distances destIdx) := by
  intro count
  induction count with
  | zero => intro s _ hc; exact ⟨hc, by simp [cheapestLoop]⟩
  | succ k ih =>
    intro s h hc
    unfold cheapestLoop
    cases hsel : selectMin s.visited s.distances pm.getSize with
    | none => exact ⟨hc, by simp⟩
    | some m =>
      obtain ⟨h1, ho1⟩ := searchInv_visit h hsel
      dsimp only
      by_cases hmd : m = destIdx
      · simp only [hmd, if_true]
        exact ⟨hc, fun _ => trivial⟩
      · simp only [hmd, if_false]
        have hfold := searchInv_fold g pm (fun _ => true) originIdx m date (fun s => s)
          (relaxCheapest g pm m) (relaxStep_relaxCheapest g pm m)
          (g.getConnectingRoutes (pm.getName m) (s.arrivalDates m) (s.arrivalTimes m))
          { s with visited := setAt s.visited m true } (fun r hr => hr) h1
          (setAt_same _ _ _) ho1
        have hcfold := costInv_fold hwf huniq
          (g.getConnectingRoutes (pm.getName m) (s.arrivalDates m) (s.arrivalTimes m))
          { s with visited := setAt s.visited m true } (fun r hr => hr) h1
          (setAt_same _ _ _) ho1 hc
        exact ih _ hfold.1 hcfold

theorem reconstructRoutes_snoc (g : Graph) (pm : PortMapper)
    (arrivalDates arrivalTimes : Nat → String) (p v : Nat) :
    ∀ ys : List Nat,
      reconstructRoutes g pm arrivalDates arrivalTimes (ys ++ [p, v]) =
        reconstructRoutes g pm arrivalDates arrivalTimes (ys ++ [p]) ++
          reconstructRoutes g pm arrivalDates arrivalTimes [p, v]
  | [] => by simp [reconstructRoutes]
  | [y] => by simp [reconstructRoutes]
  | y :: y2 :: ys => by
    have ih := reconstructRoutes_snoc g pm arrivalDates arrivalTimes p v (y2 :: ys)
    simp only [List.cons_append] at ih ⊢
    simp only [reconstructRoutes, ih, List.append_assoc]

theorem buildLayovers_snoc (g : Graph) (r : Route) :
    ∀ rs : List Route,
      buildLayovers g (rs ++ [r]) =
        buildLayovers g rs ++
          (match rs.getLast? with
            | some a => [mkLayover g a r]
            | none => [])
  | [] => by simp [buildLayovers]
  | [a] => by simp [buildLayovers]
  | a :: b :: rs => by
    have ih := buildLayovers_snoc g r (b :: rs)
    simp only [List.cons_append] at ih ⊢
    simp only [buildLayovers, ih, List.getLast?_cons_cons, List.cons_append]

theorem legsCost_snoc (g : Graph) (r : Route) (rs : List Route) :
    legsCost g (rs ++ [r]) =
      legsCost g rs + r.cost +
        (match rs.getLast? with
          | some a => portChargeFor g a.destination (calculateLayoverHours a r)
          | none => 0) := by
  unfold legsCost
  rw [buildLayovers_snoc]
  cases rs.getLast? with
  | none => simp; ring
  | some a => simp [mkLayover]; ring

theorem previousRouteOf_some {g : Graph} {pm : PortMapper} {parent : Nat → Option Nat}
    {arrivalDates arrivalTimes : Nat → String} {v : Nat} {r : Route}
    (h : previousRouteOf g pm parent arrivalDates arrivalTimes v = some r) :
    ∃ p, parent v = some p ∧
      findRouteTo (g.getConnectingRoutes (pm.getName p) (arrivalDates p) (arrivalTimes p))
        (pm.getName v) (arrivalDates v) = some r ∧
      r ∈ g.getConnectingRoutes (pm.getName p) (arrivalDates p) (arrivalTimes p) ∧
      r.destination = pm.getName v ∧ r.date = arrivalDates v := by
  unfold previousRouteOf at h
  cases hp : parent v with
  | none => simp [hp] at h
  | some p =>
    simp only [hp] at h
    obtain ⟨h1, h2, h3⟩ := findRouteTo_some h
    exact ⟨p, rfl, h, h1, h2, h3⟩

theorem connectsAfter_spec {arrivalDate arrivalTime : String} {route : Route}
    (h : connectsAfter arrivalDate arrivalTime route = true) :
    compareDates route.date arrivalDate > 0 ∨
      (route.date = arrivalDate ∧
        (isTimeBefore arrivalTime route.departureTime = true ∨
          arrivalTime = route.departureTime)) := by
  unfold connectsAfter at h
  by_cases h1 : compareDates route.date arrivalDate > 0
  · exact Or.inl h1
  · right
    simp only [h1, if_false] at h
    by_cases h2 : route.date = arrivalDate
    · simp only [h2, if_true, Bool.or_eq_true, decide_eq_true_eq] at h
      exact ⟨h2, h⟩
    · simp [h2] at h

theorem isInt_chargeAt (g : Graph) (pm : PortMapper) (s : DijkstraState) (minIdx : Nat)
    (route : Route) : isInt (chargeAt g pm s minIdx route) = true := by
  unfold chargeAt
  split
  · rfl
  · exact isInt_portChargeFor _ _ _

theorem chain_cost {g : Graph} (hint : IntFares g) {pm : PortMapper} {originIdx : Nat}
    {date : String} {s : DijkstraState} (h : SearchInv g pm (fun _ => true) originIdx date s)
    (hc : CostInv g pm s) {v : Nat} {l : List Nat}
    (hch : ParentChain s.parent originIdx v l) :
    s.distances v =
        wrapInt (legsCost g (reconstructRoutes g pm s.arrivalDates s.arrivalTimes l.reverse)) ∧
      (reconstructRoutes g pm s.arrivalDates s.arrivalTimes l.reverse).getLast? =
        previousRouteOf g pm s.parent s.arrivalDates s.arrivalTimes v ∧
      List.Chain'
        (fun a d => compareDates d.date a.date > 0 ∨
          (d.date = a.date ∧
            (isTimeBefore a.arrivalTime d.departureTime = true ∨
              a.arrivalTime = d.departureTime)))
        (reconstructRoutes g pm s.arrivalDates s.arrivalTimes l.reverse) := by
  induction hch with
  | root h0 =>
    refine ⟨?_, ?_, ?_⟩
    · simp only [List.reverse_cons, List.reverse_nil, List.nil_append, reconstructRoutes]
      rw [h.originKey]
      simp [legsCost, buildLayovers, wrapInt]
    · simp [reconstructRoutes, previousRouteOf, h0]
    · simp [reconstructRoutes]
  | @link v p l2 hp hch2 ih =>
    obtain ⟨ih1, ih2, ih3⟩ := ih
    obtain ⟨l3, hl3⟩ : ∃ l3, l2 = p :: l3 := by
      have := hch2.head_eq
      cases l2 with
      | nil => simp at this
      | cons x xs =>
        simp only [List.head?_cons, Option.some.injEq] at this
        exact ⟨xs, by rw [this]⟩
    obtain ⟨r, hr1, hr2, hr3⟩ := hc v p hp
    obtain ⟨p2, hp2, hfind, hmem, hrd, hrdate⟩ := previousRouteOf_some hr1
    have hpp : p2 = p := by
      rw [hp] at hp2
      exact (Option.some.inj hp2).symm
    subst hpp
    have hrev : (v :: l2).reverse = l3.reverse ++ [p2, v] := by
      rw [hl3]
      simp
    have hrevp : l2.reverse = l3.reverse ++ [p2] := by
      rw [hl3]
      simp
    have hpair : reconstructRoutes g pm s.arrivalDates s.arrivalTimes [p2, v] = [r] := by
      simp only [reconstructRoutes, hfind, List.append_nil]
    have hroutes : reconstructRoutes g pm s.arrivalDates s.arrivalTimes (v :: l2).reverse =
        reconstructRoutes g pm s.arrivalDates s.arrivalTimes l2.reverse ++ [r] := by
      rw [hrev, reconstructRoutes_snoc, hpair, hrevp]
    rw [hroutes]
    have hcharge : (match (reconstructRoutes g pm s.arrivalDates s.arrivalTimes
          l2.reverse).getLast? with
        | some a => portChargeFor g a.destination (calculateLayoverHours a r)
        | none => 0) = chargeAt g pm s p2 r := by
      rw [ih2]
      unfold chargeAt
      cases hprev : previousRouteOf g pm s.parent s.arrivalDates s.arrivalTimes p2 with
      | none => rfl
      | some a =>
        obtain ⟨_, _, _, _, had, _⟩ := previousRouteOf_some hprev
        dsimp only
        rw [had]
    refine ⟨?_, ?_, ?_⟩
    · have hp_int : isInt (s.distances p2) = true := by
        rw [ih1]
        exact isInt_wrapInt _
      have hr_int : isInt r.cost = true :=
        hint r (mem_getAllRoutes_of_getRoutesFrom (List.mem_filter.mp hmem).1)
      have hc_int : isInt (chargeAt g pm s p2 r) = true := isInt_chargeAt g pm s p2 r
      rw [legsCost_snoc, hcharge, hr3, intAdd_of_isInt (isInt_intAdd hp_int hr_int) hc_int,
        intAdd_of_isInt hp_int hr_int, wrapInt_add_left, ih1, add_assoc, wrapInt_add_left,
        add_assoc]
    · rw [hr1]
      simp
    · rw [List.chain'_append]
      refine ⟨ih3, List.chain'_singleton _, ?_⟩
      intro a ha d hd
      simp only [List.head?_cons, Option.mem_def, Option.some.injEq] at hd
      subst hd
      have ha2 : previousRouteOf g pm s.parent s.arrivalDates s.arrivalTimes p2 = some a := by
        rw [← ih2]
        exact ha
      obtain ⟨pp, hpp, _, _, _, hadate⟩ := previousRouteOf_some ha2
      obtain ⟨a2, ha3, ha4, _⟩ := hc p2 pp hpp
      have haa : a2 = a := by
        rw [ha2] at ha3
        exact (Option.some.inj ha3).symm
      rw [haa] at ha4
      have hconn : connectsAfter (s.arrivalDates p2) (s.arrivalTimes p2) r = true :=
        (List.mem_filter.mp hmem).2
      rw [hadate, ha4]
      exact connectsAfter_spec hconn

/-- C37 fails on `bigFares`, where no two legs share origin, destination and
date: the search from `A` to `C` returns a found result with the legs of fares
2147483000 and 1000 and no port charge, whose total cost is -2147483296, not
the sum 2147484000: the distances are kept in an `int`. -/
theorem c37_counterexample :
    UniqueLegs bigFares ∧
    (findCheapestPath bigFares "A" "C" "01/05/2025").map
      (fun r => (r.found, r.totalCost,
        (r.routes.map (fun x => x.cost)).sum + (r.layovers.map (fun l => l.portCharge)).sum)) =
      some (true, -2147483296, 2147484000) := by
  refine ⟨?_, ?_⟩
  · unfold UniqueLegs
    decide
  · decide

/-- C37 as amended: in a graph where no two legs share origin, destination and
date, every leg is filed under its origin and every fare is a value of `int`,
`findCheapestPath` returns a result, and when it is found its total cost is the
sum of the fares of its legs plus the sum of the port charges of its layovers,
reduced modulo 2^32 to a value of `int` (it is that sum itself when the sum is
in the range of `int`), and every leg after the first departs on a later date
than the leg before it, or on the same date at or after the arrival time of
the leg before it. -/
theorem c37_unique_legs_cost_and_feasibility (g : Graph) (hwf : g.WF) (huniq : UniqueLegs g)
    (hint : IntFares g) (origin destination date : String) :
    ∃ res, findCheapestPath g origin destination date = some res ∧
      (res.found = true →
        res.totalCost = wrapInt ((res.routes.map (fun r => r.cost)).sum +
            (res.layovers.map (fun l => l.portCharge)).sum) ∧
          (INT_MIN ≤ (res.routes.map (fun r => r.cost)).sum +
              (res.layovers.map (fun l => l.portCharge)).sum →
            (res.routes.map (fun r => r.cost)).sum +
              (res.layovers.map (fun l => l.portCharge)).sum ≤ INT_MAX →
            res.totalCost = (res.routes.map (fun r => r.cost)).sum +
              (res.layovers.map (fun l => l.portCharge)).sum) ∧
          List.Chain'
            (fun a d => compareDates d.date a.date > 0 ∨
              (d.date = a.date ∧
                (isTimeBefore a.arrivalTime d.departureTime = true ∨
                  a.arrivalTime = d.departureTime)))
            res.routes) := by
  have hrange : ∀ x y : Int, x = wrapInt y → (INT_MIN ≤ y → y ≤ INT_MAX → x = y) := by
    intro x y hxy hlo hhi
    rw [hxy]
    apply wrapInt_of_isInt
    simp only [isInt, Bool.and_eq_true, decide_eq_true_eq]
    exact ⟨hlo, hhi⟩
  unfold findCheapestPath
  split
  · exact ⟨_, rfl, by simp [PathResult.empty]⟩
  split
  · exact ⟨_, rfl, by simp [PathResult.empty]⟩
  dsimp only
  split
  · next originIdx destIdx ho hd =>
    obtain ⟨hinv, hvis⟩ := cheapestLoop_inv g (buildPortMapper g) originIdx destIdx date
      (buildPortMapper g).getSize (DijkstraState.init originIdx date)
      (searchInv_init g _ _ originIdx date)
    obtain ⟨hcinv, hcost⟩ := cheapestLoop_costInv hwf huniq (buildPortMapper g) originIdx
      destIdx date (buildPortMapper g).getSize (DijkstraState.init originIdx date)
      (searchInv_init g _ _ originIdx date)
      (by intro v p hvp; simp [DijkstraState.init] at hvp)
    split
    · next hfound =>
      obtain ⟨l, hch, hlen, _⟩ := hinv.chain destIdx (hvis hfound)
      have hlenN : l.length ≤ (buildPortMapper g).getSize :=
        le_trans hlen (visitedCount_le _ _)
      have hwalk := hch.walk (buildPortMapper g).getSize hlenN
      obtain ⟨k1, _, k3⟩ := chain_cost hint hinv hcinv hch
      simp only [reconstructResult, hwalk]
      have hw : (cheapestLoop g (buildPortMapper g) (buildPortMapper g).getSize destIdx
          (buildPortMapper g).getSize (DijkstraState.init originIdx date)).2.1 =
          wrapInt (legsCost g (reconstructRoutes g (buildPortMapper g)
            (cheapestLoop g (buildPortMapper g) (buildPortMapper g).getSize destIdx
              (buildPortMapper g).getSize (DijkstraState.init originIdx date)).2.2.arrivalDates
            (cheapestLoop g (buildPortMapper g) (buildPortMapper g).getSize destIdx
              (buildPortMapper g).getSize (DijkstraState.init originIdx date)).2.2.arrivalTimes
            l.reverse)) := by
        rw [hcost hfound, k1]
      exact ⟨_, rfl, fun _ => ⟨hw, hrange _ _ hw, k3⟩⟩
    · exact ⟨_, rfl, by simp [PathResult.empty]⟩
  · exact ⟨_, rfl, by simp [PathResult.empty]⟩

/-- C37 as amended, on `chainTwoDays`, whose two legs differ in origin: the way
from `A` to `C` costs 330, the fares 100 and 150 plus the charge of 80 for the
layover at `B`, and the second leg leaves two days after the first. -/
theorem c37_unique_legs_cost_and_feasibility_witness :
    chainTwoDays.WF ∧ UniqueLegs chainTwoDays ∧ IntFares chainTwoDays ∧
    findCheapestPath chainTwoDays "A" "C" "01/05/2025" = some chainTwoDaysResult ∧
    ∃ res, findCheapestPath chainTwoDays "A" "C" "01/05/2025" = some res ∧
      (res.found = true →
        res.totalCost = wrapInt ((res.routes.map (fun r => r.cost)).sum +
            (res.layovers.map (fun l => l.portCharge)).sum) ∧
          (INT_MIN ≤ (res.routes.map (fun r => r.cost)).sum +
              (res.layovers.map (fun l => l.portCharge)).sum →
            (res.routes.map (fun r => r.cost)).sum +
              (res.layovers.map (fun l => l.portCharge)).sum ≤ INT_MAX →
            res.totalCost = (res.routes.map (fun r => r.cost)).sum +
              (res.layovers.map (fun l => l.portCharge)).sum) ∧
          List.Chain'
            (fun a d => compareDates d.date a.date > 0 ∨
              (d.date = a.date ∧
                (isTimeBefore a.arrivalTime d.departureTime = true ∨
                  a.arrivalTime = d.departureTime)))
            res.routes) :=
  ⟨wf_mkGraph _ _, by unfold UniqueLegs; decide, by unfold IntFares; decide, by decide,
    c37_unique_legs_cost_and_feasibility chainTwoDays (wf_mkGraph _ _)
      (by unfold UniqueLegs; decide) (by unfold IntFares; decide) "A" "C" "01/05/2025"⟩

end PortsNav
